import Mathlib

/-!
# Lexer and parser of the compiler front-end

A shallow embedding of `src/lexer/lexer.cpp`, `src/symbols/symbols.cpp` and
`src/parser/parser.cpp`, with theorems about the behaviour of the embedded
functions.

Conventions of the embedding.

* A `char` is a signed 8-bit value, modelled as an `Int` in `[-128, 127]`.
  The source relies on a signed `char`: it compares the `char` `peek` with
  `EOF` (`-1`), and with an unsigned `char` the loop of `Lexer::quotation`
  would not stop at the end of the input, where `TEST(lexer_test, literal)`
  expects a `LexerError`.
* The input stream is the list of bytes (`0 .. 255`) not yet read.
  `stream.get()` yields the next byte or `EOF`; once the end has been hit,
  `eofbit` is set and `Lexer::readNext()` assigns `EOF` through its first
  branch.  Both branches assign `EOF` exactly when no byte is left, so the
  list of remaining bytes is the whole state of the stream.  A stream that
  cannot be read at all (`!stream` without `eofbit`) is not modelled, so
  the error "Failure when reading stream." does not arise.
* `int64_t` arithmetic wraps modulo `2^64` (`wrap64`).
* `double` values are read as exact rationals.
* A thrown exception is an error result; since a lexer object can still be
  used after a `LexerError` (as `TEST(lexer_test, single_characters)` does),
  `getNextToken` returns the lexer state in both cases.
* The parsing functions are recursive descent over the lexer state, so they
  take a bound on the depth of the recursion and on the rounds of each loop
  (the fuel).  `Failure.outOfFuel` is not an outcome of the program;
  `expression_fuel_le` shows that a result, once reached, is the same with
  any larger bound.
-/

namespace Compiler

/-! ## `symbols.h` -/

/-- The enumeration `Tag` of `symbols.h`. -/
inductive Tag where
  | TYPE | INT | DOUBLE | I | STRING | ID | ASSIGN | EQ | NEQ | LT | LE | GE | GT
  | FUN | MAIN | OR | AND | NOT | IF | ELSE | WHILE | RETURN | RE | IM
  | SEMICOLON | COLON | COMMA | OPEN_CURLY | CLOSE_CURLY | OPEN_BRACKET
  | CLOSE_BRACKET | VERTICAL | PLUS | MINUS | TIMES | DIVIDE | END
  deriving DecidableEq, Repr

/-- The enumeration `TypeID` of `symbols.h`. -/
inductive TypeID where
  | INT | DOUBLE | COMPLEX | STRING | NONE
  deriving DecidableEq, Repr

/-- The payload `std::variant<int64_t, double, std::string, TypeID>` of a token. -/
inductive Value where
  | int (v : Int)
  | double (v : ℚ)
  | string (v : List Int)
  | type (v : TypeID)
  deriving DecidableEq, Repr

/-- The record `Token` of `symbols.h`. -/
structure Token where
  tag : Tag
  value : Value
  line : Int
  deriving DecidableEq, Repr

/-- The constant `EOF`. -/
def EOF : Int := -1

/-- Conversion of the `int` returned by `stream.get()` for a byte to `char`. -/
def toChar (b : Nat) : Int :=
  if b % 256 < 128 then ((b % 256 : Nat) : Int) else ((b % 256 : Nat) : Int) - 256

/-- Characters of a string literal of the source, as `char` values. -/
def str (s : String) : List Int := s.toList.map (fun c => (c.toNat : Int))

/-- Bytes of an ASCII string, used to write inputs. -/
def bytes (s : String) : List Nat := s.toList.map (fun c => c.toNat)

/-- Constructor `Token(Tag tag_, int line_)`: the variant is value-initialised,
so it holds the `int64_t` zero. -/
def Token.ofTag (tag : Tag) (line : Int) : Token := ⟨tag, Value.int 0, line⟩

/-- Constructor `Token(int64_t val, int line_)`. -/
def Token.ofInt (val : Int) (line : Int) : Token := ⟨Tag.INT, Value.int val, line⟩

/-- Constructor `Token(double val, int line_)`. -/
def Token.ofDouble (val : ℚ) (line : Int) : Token := ⟨Tag.DOUBLE, Value.double val, line⟩

/-- Constructor `Token(TypeID type, int line_)`. -/
def Token.ofType (type : TypeID) (line : Int) : Token := ⟨Tag.TYPE, Value.type type, line⟩

/-- Constructor `Token(Tag tag_, const std::string &val, int line_)`. -/
def Token.ofString (tag : Tag) (val : List Int) (line : Int) : Token :=
  ⟨tag, Value.string val, line⟩

/-- The table `operators` of single-character tokens, `EOF` included. -/
def operators (c : Int) : Option Tag :=
  if c = 43 then some Tag.PLUS            -- '+'
  else if c = 45 then some Tag.MINUS      -- '-'
  else if c = 42 then some Tag.TIMES      -- '*'
  else if c = 47 then some Tag.DIVIDE     -- '/'
  else if c = 61 then some Tag.ASSIGN     -- '='
  else if c = 60 then some Tag.LT         -- '<'
  else if c = 62 then some Tag.GT         -- '>'
  else if c = 58 then some Tag.COLON      -- ':'
  else if c = 59 then some Tag.SEMICOLON  -- ';'
  else if c = 123 then some Tag.OPEN_CURLY
  else if c = 125 then some Tag.CLOSE_CURLY
  else if c = 40 then some Tag.OPEN_BRACKET
  else if c = 41 then some Tag.CLOSE_BRACKET
  else if c = 124 then some Tag.VERTICAL
  else if c = 44 then some Tag.COMMA
  else if c = EOF then some Tag.END
  else none

/-! ## `lexer.cpp` -/

/-- What a `LexerError` says: the three messages built in `lexer.cpp`. -/
inductive LexerError where
  /-- Message "Failure when reading stream." -/
  | streamFailure
  /-- Message "Invalid token " + token + " at line " + line + "." -/
  | invalidToken (token : Int) (line : Int)
  /-- Message "String literal at " + lineBegin + " not closed." -/
  | notClosed (lineBegin : Int)
  deriving DecidableEq, Repr

deriving instance DecidableEq for Except

/-- The state of a `Lexer` object. -/
structure Lexer where
  previous : Tag
  peek : Int
  stream : List Nat
  line : Int
  deriving DecidableEq, Repr

/-- The C library predicate `isdigit`. -/
def isdigit (c : Int) : Bool := 48 ≤ c && c ≤ 57

/-- The C library predicate `isalpha` in the "C" locale. -/
def isalpha (c : Int) : Bool := (65 ≤ c && c ≤ 90) || (97 ≤ c && c ≤ 122)

/-- The C library predicate `isalnum` in the "C" locale. -/
def isalnum (c : Int) : Bool := isalpha c || isdigit c

/-- Two's-complement wrap-around of a value to `int64_t`. -/
def wrap64 (x : Int) : Int :=
  (x + 9223372036854775808) % 18446744073709551616 - 9223372036854775808

/-- The keywords and type names installed by the two `reserve` calls of the
constructor, each stored with line `-1`. -/
def reserved : List (List Int × Token) :=
  [ (str "if", Token.ofString Tag.IF (str "if") (-1)),
    (str "else", Token.ofString Tag.ELSE (str "else") (-1)),
    (str "while", Token.ofString Tag.WHILE (str "while") (-1)),
    (str "fun", Token.ofString Tag.FUN (str "fun") (-1)),
    (str "main", Token.ofString Tag.MAIN (str "main") (-1)),
    (str "return", Token.ofString Tag.RETURN (str "return") (-1)),
    (str "Re", Token.ofString Tag.RE (str "Re") (-1)),
    (str "Im", Token.ofString Tag.IM (str "Im") (-1)),
    (str "and", Token.ofString Tag.AND (str "and") (-1)),
    (str "or", Token.ofString Tag.OR (str "or") (-1)),
    (str "not", Token.ofString Tag.NOT (str "not") (-1)),
    (str "int", Token.ofType TypeID.INT (-1)),
    (str "double", Token.ofType TypeID.DOUBLE (-1)),
    (str "complex", Token.ofType TypeID.COMPLEX (-1)),
    (str "string", Token.ofType TypeID.STRING (-1)) ]

/-- `Lexer::readNext()`. -/
def Lexer.readNext (l : Lexer) : Lexer :=
  match l.stream with
  | [] => { l with peek := EOF }
  | b :: rest => { l with peek := toChar b, stream := rest }

/-- `Lexer::readNext(char next)`: the flag and the state after the call. -/
def Lexer.readNextIs (l : Lexer) (next : Int) : Bool × Lexer :=
  let l1 := l.readNext
  if l1.peek ≠ next then (false, l1) else (true, { l1 with peek := 0 })

/-- The constructor `Lexer::Lexer(stream)`.  The member `previous` has no
initialiser, so the object starts with whatever tag value the storage held;
that value is the parameter `previous`. -/
def Lexer.new (previous : Tag) (input : List Nat) : Lexer :=
  Lexer.readNext { previous := previous, peek := 0, stream := input, line := 1 }

/-- The loop of `Lexer::whitespace`, on the fields it touches: the remaining
bytes, `peek` and `line`. -/
def whitespaceLoop : List Nat → Int → Int → List Nat × Int × Int
  | stream, peek, line =>
    if peek ≤ 32 ∧ peek ≠ EOF then
      let line1 := if peek = 10 then line + 1 else line
      match stream with
      | [] => ([], EOF, line1)
      | b :: rest => whitespaceLoop rest (toChar b) line1
    else (stream, peek, line)

/-- `Lexer::whitespace`. -/
def Lexer.whitespace (l : Lexer) : Lexer :=
  let r := whitespaceLoop l.stream l.peek l.line
  { l with stream := r.1, peek := r.2.1, line := r.2.2 }

/-- `Lexer::equals`. -/
def Lexer.equals (l : Lexer) : Token × Lexer :=
  let r := l.readNextIs 61
  if r.1 then (Token.ofTag Tag.EQ r.2.line, r.2) else (Token.ofTag Tag.ASSIGN r.2.line, r.2)

/-- `Lexer::notEquals`. -/
def Lexer.notEquals (l : Lexer) : Except LexerError Token × Lexer :=
  let r := l.readNextIs 61
  if r.1 then (Except.ok (Token.ofTag Tag.NEQ r.2.line), r.2)
  else (Except.error (LexerError.invalidToken 33 r.2.line), r.2)

/-- `Lexer::lessThan`. -/
def Lexer.lessThan (l : Lexer) : Token × Lexer :=
  let r := l.readNextIs 61
  if r.1 then (Token.ofTag Tag.LE r.2.line, r.2) else (Token.ofTag Tag.LT r.2.line, r.2)

/-- `Lexer::greaterThan`. -/
def Lexer.greaterThan (l : Lexer) : Token × Lexer :=
  let r := l.readNextIs 61
  if r.1 then (Token.ofTag Tag.GE r.2.line, r.2) else (Token.ofTag Tag.GT r.2.line, r.2)

/-- The loop of `Lexer::quotation`, on the remaining bytes, `line` and
`literal`; it returns them together with the final `peek`.  Each round reads
one character, or two when the first is a backslash, appends `peek` to
`literal` and goes on while `peek` is neither the quote nor `EOF`. -/
def quotationLoop : List Nat → Int → List Int → List Nat × Int × Int × List Int
  | [], line, literal => ([], EOF, line, literal ++ [EOF])
  | b :: rest, line, literal =>
    if toChar b = 10 then
      -- a newline is neither the quote nor EOF, so the loop goes on
      quotationLoop rest (line + 1) (literal ++ [10])
    else if toChar b = 92 then
      match rest with
      | [] => ([], EOF, line, literal ++ [EOF])
      | b2 :: rest2 =>
        let peek := if toChar b2 = 110 then 10 else if toChar b2 = 116 then 9 else toChar b2
        if peek ≠ 34 ∧ peek ≠ EOF then quotationLoop rest2 line (literal ++ [peek])
        else (rest2, peek, line, literal ++ [peek])
    else if toChar b ≠ 34 ∧ toChar b ≠ EOF then quotationLoop rest line (literal ++ [toChar b])
    else (rest, toChar b, line, literal ++ [toChar b])

/-- `Lexer::quotation`. -/
def Lexer.quotation (l : Lexer) : Except LexerError Token × Lexer :=
  let lineBegin := l.line
  let r := quotationLoop l.stream l.line []
  let l1 := { l with stream := r.1, peek := r.2.1, line := r.2.2.1 }
  if r.2.1 = EOF then (Except.error (LexerError.notClosed lineBegin), l1)
  else (Except.ok (Token.ofString Tag.STRING r.2.2.2.dropLast l1.line), { l1 with peek := 0 })

/-- The do-while loop of `Lexer::digit`, on the remaining bytes, `peek`,
`value` and `dvalue`. -/
def digitLoop : List Nat → Int → Int → ℚ → List Nat × Int × Int × ℚ
  | stream, peek, value, dvalue =>
    let value1 := wrap64 (wrap64 (wrap64 (value * 10) + peek) - 48)
    let dvalue1 := dvalue * 10 + (peek : ℚ) - 48
    match stream with
    | [] => ([], EOF, value1, dvalue1)
    | b :: rest =>
      if isdigit (toChar b) then digitLoop rest (toChar b) value1 dvalue1
      else (rest, toChar b, value1, dvalue1)

/-- The while loop of `Lexer::digit` that reads the fractional part, on the
remaining bytes, `peek`, `dvalue` and `dividor`. -/
def fractionLoop : List Nat → Int → ℚ → ℚ → List Nat × Int × ℚ
  | stream, peek, dvalue, dividor =>
    if isdigit peek then
      let dvalue1 := dvalue + ((peek - 48 : Int) : ℚ) / dividor
      match stream with
      | [] => ([], EOF, dvalue1)
      | b :: rest => fractionLoop rest (toChar b) dvalue1 (dividor * 10)
    else (stream, peek, dvalue)

/-- `Lexer::digit`. -/
def Lexer.digit (l : Lexer) : Token × Lexer :=
  let r := digitLoop l.stream l.peek 0 0
  let l1 := { l with stream := r.1, peek := r.2.1 }
  if l1.peek ≠ 46 then (Token.ofInt r.2.2.1 l1.line, l1)
  else
    let l2 := l1.readNext
    let f := fractionLoop l2.stream l2.peek r.2.2.2 10
    let l3 := { l2 with stream := f.1, peek := f.2.1 }
    (Token.ofDouble f.2.2 l3.line, l3)

/-- The do-while loop of `Lexer::alpha`, on the remaining bytes, `peek` and
`word`. -/
def alphaLoop : List Nat → Int → List Int → List Nat × Int × List Int
  | stream, peek, word =>
    let word1 := word ++ [peek]
    match stream with
    | [] => ([], EOF, word1)
    | b :: rest =>
      if isalnum (toChar b) || toChar b = 95 then alphaLoop rest (toChar b) word1
      else (rest, toChar b, word1)

/-- `Lexer::alpha`. -/
def Lexer.alpha (l : Lexer) : Token × Lexer :=
  let r := alphaLoop l.stream l.peek []
  let word := r.2.2
  let l1 := { l with stream := r.1, peek := r.2.1 }
  if word = str "i" ∧ (l1.previous = Tag.INT ∨ l1.previous = Tag.DOUBLE ∨
      l1.previous = Tag.CLOSE_BRACKET ∨ l1.previous = Tag.ID ∨ l1.previous = Tag.VERTICAL) then
    (Token.ofString Tag.I word l1.line, l1)
  else
    match reserved.lookup word with
    | some res => ({ res with line := l1.line }, l1)
    | none => (Token.ofString Tag.ID word l1.line, l1)

/-- `Lexer::ret(Token)`: records the tag of the returned token. -/
def Lexer.ret (r : Token × Lexer) : Except LexerError Token × Lexer :=
  (Except.ok r.1, { r.2 with previous := r.1.tag })

/-- The same for a callee that may throw: `ret` is not reached on a throw. -/
def Lexer.retE (r : Except LexerError Token × Lexer) : Except LexerError Token × Lexer :=
  match r.1 with
  | Except.ok t => Lexer.ret (t, r.2)
  | Except.error e => (Except.error e, r.2)

/-- `Lexer::getNextToken`: the returned token or the thrown error, and the
state of the lexer afterwards. -/
def Lexer.getNextToken (l : Lexer) : Except LexerError Token × Lexer :=
  let l1 := l.whitespace
  if isdigit l1.peek then Lexer.ret l1.digit
  else if isalpha l1.peek || l1.peek = 95 then Lexer.ret l1.alpha
  else
    let curr := l1.peek
    let l2 := { l1 with peek := 0 }
    if curr = 61 then Lexer.ret l2.equals
    else if curr = 33 then Lexer.retE l2.notEquals
    else if curr = 60 then Lexer.ret l2.lessThan
    else if curr = 62 then Lexer.ret l2.greaterThan
    else if curr = 34 then Lexer.retE l2.quotation
    else
      match operators curr with
      | some tag => Lexer.ret (Token.ofTag tag l2.line, l2)
      | none => (Except.error (LexerError.invalidToken curr l2.line), l2)

/-- The tags of the first `n` results of `getNextToken` (`none` for a throw),
as the tests read them with `expectToken` and `EXPECT_THROW`. -/
def Lexer.tags : Nat → Lexer → List (Option Tag)
  | 0, _ => []
  | n + 1, l =>
    let r := l.getNextToken
    (match r.1 with
      | Except.ok t => some t.tag
      | Except.error _ => none) :: Lexer.tags n r.2

/-! ## `parse_tree.h`: the nodes the parser builds -/

/-- The node `Identifier`: its token and its type. -/
structure Identifier where
  token : Token
  type : TypeID
  deriving DecidableEq, Repr

/-- The expression nodes of `parse_tree.h`, with the fields their
constructors store. -/
inductive Expression where
  | Identifier (id : Identifier)
  | FunctionCall (name : Token) (arguments : List Expression)
  | AbsoluteValue (token : Token) (val : Expression)
  | Complex (imaginary : Expression) (token : Token)
  | BinaryOperation (lhs : Expression) (operator : Token) (rhs : Expression)
  | UnaryOperation (operator : Token) (expression : Expression)
  | Constant (token : Token) (type : TypeID)
  | Disjunction (lhs : Expression) (operator : Token) (rhs : Expression)
  | Conjunction (lhs : Expression) (operator : Token) (rhs : Expression)
  | Negation (operator : Token) (expression : Expression)
  | Relation (lhs : Expression) (operator : Token) (rhs : Expression)
  deriving Repr

/-- The statement nodes of `parse_tree.h`. -/
inductive Statement where
  | IfStatement (token : Token) (condition : Expression) (ifBlock : Statement)
      (elseBlock : Option Statement)
  | WhileStatement (token : Token) (condition : Expression) (block : Statement)
  | ReturnStatement (token : Token) (return_ : Expression)
  | Assignment (identifier : Identifier) (expression : Expression)
  | VariableDefinition (identifier : Identifier) (expression : Expression)
  | FunctionDeclaration (id : Token) (returnType : TypeID) (parameters : List Identifier)
  | FunctionDefinition (id : Token) (returnType : TypeID) (block : Statement)
      (parameters : List Identifier)
  | Sequence (token : Token) (statements : List Statement)
  deriving Repr

mutual

/-- Structural equality test on expression nodes. -/
def Expression.beq : Expression → Expression → Bool
  | Expression.Identifier a, Expression.Identifier b => decide (a = b)
  | Expression.FunctionCall n as, Expression.FunctionCall m bs =>
    decide (n = m) && Expression.beqList as bs
  | Expression.AbsoluteValue t a, Expression.AbsoluteValue u b =>
    decide (t = u) && Expression.beq a b
  | Expression.Complex a t, Expression.Complex b u => Expression.beq a b && decide (t = u)
  | Expression.BinaryOperation a t b, Expression.BinaryOperation c u d =>
    Expression.beq a c && decide (t = u) && Expression.beq b d
  | Expression.UnaryOperation t a, Expression.UnaryOperation u b =>
    decide (t = u) && Expression.beq a b
  | Expression.Constant t a, Expression.Constant u b => decide (t = u) && decide (a = b)
  | Expression.Disjunction a t b, Expression.Disjunction c u d =>
    Expression.beq a c && decide (t = u) && Expression.beq b d
  | Expression.Conjunction a t b, Expression.Conjunction c u d =>
    Expression.beq a c && decide (t = u) && Expression.beq b d
  | Expression.Negation t a, Expression.Negation u b => decide (t = u) && Expression.beq a b
  | Expression.Relation a t b, Expression.Relation c u d =>
    Expression.beq a c && decide (t = u) && Expression.beq b d
  | _, _ => false

/-- Structural equality test on lists of expression nodes. -/
def Expression.beqList : List Expression → List Expression → Bool
  | [], [] => true
  | a :: as, b :: bs => Expression.beq a b && Expression.beqList as bs
  | _, _ => false

end

mutual

/-- Structural equality test on statement nodes. -/
def Statement.beq : Statement → Statement → Bool
  | Statement.IfStatement t c a e, Statement.IfStatement u d b f =>
    decide (t = u) && Expression.beq c d && Statement.beq a b && Statement.beqOption e f
  | Statement.WhileStatement t c a, Statement.WhileStatement u d b =>
    decide (t = u) && Expression.beq c d && Statement.beq a b
  | Statement.ReturnStatement t a, Statement.ReturnStatement u b =>
    decide (t = u) && Expression.beq a b
  | Statement.Assignment i a, Statement.Assignment j b => decide (i = j) && Expression.beq a b
  | Statement.VariableDefinition i a, Statement.VariableDefinition j b =>
    decide (i = j) && Expression.beq a b
  | Statement.FunctionDeclaration t r ps, Statement.FunctionDeclaration u s qs =>
    decide (t = u) && decide (r = s) && decide (ps = qs)
  | Statement.FunctionDefinition t r a ps, Statement.FunctionDefinition u s b qs =>
    decide (t = u) && decide (r = s) && Statement.beq a b && decide (ps = qs)
  | Statement.Sequence t as, Statement.Sequence u bs => decide (t = u) && Statement.beqList as bs
  | _, _ => false

/-- Structural equality test on optional statement nodes. -/
def Statement.beqOption : Option Statement → Option Statement → Bool
  | none, none => true
  | some a, some b => Statement.beq a b
  | _, _ => false

/-- Structural equality test on lists of statement nodes. -/
def Statement.beqList : List Statement → List Statement → Bool
  | [], [] => true
  | a :: as, b :: bs => Statement.beq a b && Statement.beqList as bs
  | _, _ => false

end

/-- `Token::getString`: `std::get` throws `std::bad_variant_access` when the
payload is not a string. -/
def Token.getString (t : Token) : Option (List Int) :=
  match t.value with
  | Value.string s => some s
  | _ => none

/-- `Token::getType`: `std::get` throws `std::bad_variant_access` when the
payload is not a `TypeID`. -/
def Token.getType (t : Token) : Option TypeID :=
  match t.value with
  | Value.type ty => some ty
  | _ => none

/-! ## `parser.cpp` -/

/-- How a call into the parser can end without a result. -/
inductive Failure where
  /-- A `LexerError` thrown by `Lexer::getNextToken` inside `Parser::next`. -/
  | lexerError (e : LexerError)
  /-- A `ParserError` with message "[ERROR] " + msg + " at line " + line + ".". -/
  | parserError (msg : List Int) (line : Int)
  /-- A `std::bad_variant_access` thrown by `Token::getString` or `Token::getType`. -/
  | badVariantAccess
  /-- Not an outcome of the program: the recursion allowance of the embedding
  was used up. -/
  | outOfFuel
  deriving DecidableEq, Repr

/-- The state of a `Parser` object, together with the warnings it has
printed to standard output (message and line). -/
structure Parser where
  lexer : Lexer
  peek : Token
  lineNumber : Int
  warnings : List (List Int × Int)
  deriving DecidableEq, Repr

/-- The result of a parsing function: the node and the state afterwards, or
the exception. -/
abbrev Result (α : Type) := Except Failure (α × Parser)

/-- The message `Parser::NO_SEMICOLON`. -/
def NO_SEMICOLON : List Int := str "Missing semicolon ';'"

/-- The message `Parser::NO_COLON`. -/
def NO_COLON : List Int := str "Missing colon ':'"

/-- The message `Parser::NO_CLOSING_BRACKET`. -/
def NO_CLOSING_BRACKET : List Int := str "No match for opening bracket '('"

/-- `Parser::next`. -/
def Parser.next (p : Parser) : Except Failure Parser :=
  match p.lexer.getNextToken with
  | (Except.ok t, l) => Except.ok { p with lexer := l, peek := t, lineNumber := p.lexer.line }
  | (Except.error e, _) => Except.error (Failure.lexerError e)

/-- `Parser::error`. -/
def Parser.error {α : Type} (p : Parser) (msg : List Int) : Except Failure α :=
  Except.error (Failure.parserError msg p.lineNumber)

/-- `Parser::warning`. -/
def Parser.warning (p : Parser) (msg : List Int) : Parser :=
  { p with warnings := p.warnings ++ [(msg, p.lineNumber)] }

/-- `Parser::match`. -/
def Parser.matchTag (p : Parser) (tag : Tag) (errMsg : List Int) : Except Failure Parser :=
  if p.peek.tag = tag then p.next else p.error errMsg

/-- The constructor `Parser::Parser(lexer)`; `lineNumber` is first assigned
by the call of `next`. -/
def Parser.new (lexer : Lexer) : Except Failure Parser :=
  Parser.next { lexer := lexer, peek := Token.ofTag Tag.END (-1), lineNumber := 0, warnings := [] }

/-- The loop shared by `expression`, `term`, `conditional` and `conjunction`:
while `peek` is one of the operators, take it, call `next` and the operand
parser `sub`, and build the node `mk lhs op rhs`.  The first argument bounds
the number of rounds. -/
def binaryLoop (isOp : Tag → Bool) (mk : Expression → Token → Expression → Expression)
    (sub : Parser → Result Expression) : Nat → Expression → Parser → Result Expression
  | k, lhs, p =>
    if isOp p.peek.tag then
      match k with
      | 0 => Except.error Failure.outOfFuel
      | k + 1 =>
        let op := p.peek
        match p.next with
        | Except.error e => Except.error e
        | Except.ok p1 =>
          match sub p1 with
          | Except.error e => Except.error e
          | Except.ok (rhs, p2) => binaryLoop isOp mk sub k (mk lhs op rhs) p2
    else Except.ok (lhs, p)

/-- The loop of `Parser::functionCall` over the arguments: while `peek` is
not `)`, parse an expression and step over a comma, warning when the comma
is followed by `)`.  `name` is the outcome of `res->token.getString()`. -/
def argumentsLoop (sub : Parser → Result Expression) (name : Option (List Int)) :
    Nat → List Expression → Parser → Result (List Expression)
  | k, args, p =>
    if p.peek.tag ≠ Tag.CLOSE_BRACKET then
      match k with
      | 0 => Except.error Failure.outOfFuel
      | k + 1 =>
        match sub p with
        | Except.error e => Except.error e
        | Except.ok (arg, p1) =>
          if p1.peek.tag = Tag.COMMA then
            match p1.next with
            | Except.error e => Except.error e
            | Except.ok p2 =>
              if p2.peek.tag = Tag.CLOSE_BRACKET then
                match name with
                | none => Except.error Failure.badVariantAccess
                | some s =>
                  argumentsLoop sub name k (args ++ [arg])
                    (p2.warning (str "Comma with no argument after in call to " ++ s))
              else argumentsLoop sub name k (args ++ [arg]) p2
          else argumentsLoop sub name k (args ++ [arg]) p1
    else Except.ok (args, p)

mutual

/-- `Parser::expression`. -/
def Parser.expression : Nat → Parser → Result Expression
  | 0, _ => Except.error Failure.outOfFuel
  | n + 1, p =>
    match Parser.term n p with
    | Except.error e => Except.error e
    | Except.ok (lhs, p1) =>
      binaryLoop (fun t => t = Tag.PLUS || t = Tag.MINUS) Expression.BinaryOperation
        (fun q => Parser.term n q) n lhs p1

/-- `Parser::term`. -/
def Parser.term : Nat → Parser → Result Expression
  | 0, _ => Except.error Failure.outOfFuel
  | n + 1, p =>
    match Parser.factor n p with
    | Except.error e => Except.error e
    | Except.ok (lhs, p1) =>
      binaryLoop (fun t => t = Tag.TIMES || t = Tag.DIVIDE) Expression.BinaryOperation
        (fun q => Parser.factor n q) n lhs p1

/-- `Parser::factor`. -/
def Parser.factor : Nat → Parser → Result Expression
  | 0, _ => Except.error Failure.outOfFuel
  | n + 1, p =>
    if p.peek.tag = Tag.MINUS ∨ p.peek.tag = Tag.PLUS then
      let op := p.peek
      match p.next with
      | Except.error e => Except.error e
      | Except.ok p1 =>
        match Parser.unary n p1 with
        | Except.error e => Except.error e
        | Except.ok (e, p2) => Except.ok (Expression.UnaryOperation op e, p2)
    else Parser.unary n p

/-- `Parser::unary`: the `switch`, then the check for a trailing `i`. -/
def Parser.unary : Nat → Parser → Result Expression
  | 0, _ => Except.error Failure.outOfFuel
  | n + 1, p =>
    let token := p.peek
    let switched : Result Expression :=
      match p.peek.tag with
      | Tag.INT =>
        match p.next with
        | Except.error e => Except.error e
        | Except.ok p1 => Except.ok (Expression.Constant token TypeID.INT, p1)
      | Tag.DOUBLE =>
        match p.next with
        | Except.error e => Except.error e
        | Except.ok p1 => Except.ok (Expression.Constant token TypeID.DOUBLE, p1)
      | Tag.STRING =>
        match p.next with
        | Except.error e => Except.error e
        | Except.ok p1 => Except.ok (Expression.Constant token TypeID.STRING, p1)
      | Tag.ID | Tag.I | Tag.RE | Tag.IM => Parser.functionCall n p
      | Tag.OPEN_BRACKET =>
        match p.next with
        | Except.error e => Except.error e
        | Except.ok p1 =>
          match Parser.expression n p1 with
          | Except.error e => Except.error e
          | Except.ok (e, p2) =>
            match p2.matchTag Tag.CLOSE_BRACKET NO_CLOSING_BRACKET with
            | Except.error e => Except.error e
            | Except.ok p3 => Except.ok (e, p3)
      | Tag.VERTICAL =>
        match p.next with
        | Except.error e => Except.error e
        | Except.ok p1 =>
          match Parser.expression n p1 with
          | Except.error e => Except.error e
          | Except.ok (e, p2) =>
            match p2.matchTag Tag.VERTICAL (str "No match for opening of absolute value '|'") with
            | Except.error e => Except.error e
            | Except.ok p3 => Except.ok (Expression.AbsoluteValue token e, p3)
      | _ => p.error (str "Unexpected syntax")
    match switched with
    | Except.error e => Except.error e
    | Except.ok (e, p1) =>
      if p1.peek.tag = Tag.I then
        match p1.next with
        | Except.error e2 => Except.error e2
        | Except.ok p2 => Except.ok (Expression.Complex e p1.peek, p2)
      else Except.ok (e, p1)

/-- `Parser::functionCall`. -/
def Parser.functionCall : Nat → Parser → Result Expression
  | 0, _ => Except.error Failure.outOfFuel
  | n + 1, p =>
    let res : Identifier := ⟨p.peek, TypeID.NONE⟩
    match p.next with
    | Except.error e => Except.error e
    | Except.ok p1 =>
      if p1.peek.tag ≠ Tag.OPEN_BRACKET then Except.ok (Expression.Identifier res, p1)
      else
        match p1.next with
        | Except.error e => Except.error e
        | Except.ok p2 =>
          match argumentsLoop (fun q => Parser.expression n q) res.token.getString n [] p2 with
          | Except.error e => Except.error e
          | Except.ok (args, p3) =>
            match p3.next with
            | Except.error e => Except.error e
            | Except.ok p4 => Except.ok (Expression.FunctionCall res.token args, p4)

end

mutual

/-- `Parser::conditional`. -/
def Parser.conditional : Nat → Parser → Result Expression
  | 0, _ => Except.error Failure.outOfFuel
  | n + 1, p =>
    match Parser.conjunction n p with
    | Except.error e => Except.error e
    | Except.ok (lhs, p1) =>
      binaryLoop (fun t => t = Tag.OR) Expression.Disjunction
        (fun q => Parser.conjunction n q) n lhs p1

/-- `Parser::conjunction`. -/
def Parser.conjunction : Nat → Parser → Result Expression
  | 0, _ => Except.error Failure.outOfFuel
  | n + 1, p =>
    match Parser.negation n p with
    | Except.error e => Except.error e
    | Except.ok (lhs, p1) =>
      binaryLoop (fun t => t = Tag.AND) Expression.Conjunction
        (fun q => Parser.negation n q) n lhs p1

/-- `Parser::negation`. -/
def Parser.negation : Nat → Parser → Result Expression
  | 0, _ => Except.error Failure.outOfFuel
  | n + 1, p =>
    if p.peek.tag = Tag.NOT then
      let op := p.peek
      match p.next with
      | Except.error e => Except.error e
      | Except.ok p1 =>
        match Parser.relation n p1 with
        | Except.error e => Except.error e
        | Except.ok (e, p2) => Except.ok (Expression.Negation op e, p2)
    else Parser.relation n p

/-- `Parser::relation`. -/
def Parser.relation : Nat → Parser → Result Expression
  | 0, _ => Except.error Failure.outOfFuel
  | n + 1, p =>
    if p.peek.tag = Tag.OPEN_BRACKET then
      match p.next with
      | Except.error e => Except.error e
      | Except.ok p1 =>
        match Parser.conditional n p1 with
        | Except.error e => Except.error e
        | Except.ok (inside, p2) =>
          match p2.matchTag Tag.CLOSE_BRACKET NO_CLOSING_BRACKET with
          | Except.error e => Except.error e
          | Except.ok p3 => Except.ok (inside, p3)
    else
      match Parser.expression n p with
      | Except.error e => Except.error e
      | Except.ok (lhs, p1) =>
        let op := p1.peek
        match p1.next with
        | Except.error e => Except.error e
        | Except.ok p2 =>
          match Parser.expression n p2 with
          | Except.error e => Except.error e
          | Except.ok (rhs, p3) => Except.ok (Expression.Relation lhs op rhs, p3)

end

/-- `Parser::variableDefiniton`.  The message passed to `match` is built
before the call, so `name.getString()` is evaluated whatever `peek` is. -/
def Parser.variableDefiniton (n : Nat) (p : Parser) : Result Statement :=
  let type := p.peek
  match p.next with
  | Except.error e => Except.error e
  | Except.ok p1 =>
    if p1.peek.tag ≠ Tag.ID then p1.error (str "Expected an identifier")
    else
      let name := p1.peek
      match p1.next with
      | Except.error e => Except.error e
      | Except.ok p2 =>
        match name.getString with
        | none => Except.error Failure.badVariantAccess
        | some s =>
          match p2.matchTag Tag.ASSIGN (str "Variable " ++ s ++ str " was not initialized") with
          | Except.error e => Except.error e
          | Except.ok p3 =>
            match Parser.expression n p3 with
            | Except.error e => Except.error e
            | Except.ok (expr, p4) =>
              match type.getType with
              | none => Except.error Failure.badVariantAccess
              | some ty =>
                match p4.matchTag Tag.SEMICOLON NO_SEMICOLON with
                | Except.error e => Except.error e
                | Except.ok p5 => Except.ok (Statement.VariableDefinition ⟨name, ty⟩ expr, p5)

/-- `Parser::assignment`. -/
def Parser.assignment (n : Nat) (p : Parser) : Result Statement :=
  let name : Identifier := ⟨p.peek, TypeID.NONE⟩
  match p.next with
  | Except.error e => Except.error e
  | Except.ok p1 =>
    match p1.matchTag Tag.ASSIGN (str "Expected an assignment") with
    | Except.error e => Except.error e
    | Except.ok p2 =>
      match Parser.expression n p2 with
      | Except.error e => Except.error e
      | Except.ok (expr, p3) =>
        match p3.matchTag Tag.SEMICOLON NO_SEMICOLON with
        | Except.error e => Except.error e
        | Except.ok p4 => Except.ok (Statement.Assignment name expr, p4)

/-- The loop of `Parser::block` over the statements: while `peek` is not the
closing curly bracket, parse a statement with `sub`. -/
def statementsLoop (sub : Parser → Result Statement) :
    Nat → List Statement → Parser → Result (List Statement)
  | k, block, p =>
    if p.peek.tag ≠ Tag.CLOSE_CURLY then
      match k with
      | 0 => Except.error Failure.outOfFuel
      | k + 1 =>
        match sub p with
        | Except.error e => Except.error e
        | Except.ok (s, p1) => statementsLoop sub k (block ++ [s]) p1
    else Except.ok (block, p)

mutual

/-- `Parser::statement`. -/
def Parser.statement : Nat → Parser → Result Statement
  | 0, _ => Except.error Failure.outOfFuel
  | n + 1, p =>
    let token := p.peek
    match p.peek.tag with
    | Tag.RETURN =>
      match p.next with
      | Except.error e => Except.error e
      | Except.ok p1 =>
        match Parser.expression n p1 with
        | Except.error e => Except.error e
        | Except.ok (expr, p2) =>
          match p2.matchTag Tag.SEMICOLON NO_SEMICOLON with
          | Except.error e => Except.error e
          | Except.ok p3 => Except.ok (Statement.ReturnStatement token expr, p3)
    | Tag.IF | Tag.WHILE => Parser.conditionalStatement n p
    | Tag.TYPE => Parser.variableDefiniton n p
    | Tag.ID => Parser.assignment n p
    | _ => p.error (str "Expected a statement")

/-- `Parser::conditionalStatement`. -/
def Parser.conditionalStatement : Nat → Parser → Result Statement
  | 0, _ => Except.error Failure.outOfFuel
  | n + 1, p =>
    let if_ := p.peek.tag = Tag.IF
    let token := p.peek
    match p.next with
    | Except.error e => Except.error e
    | Except.ok p1 =>
      match p1.matchTag Tag.OPEN_BRACKET (str "Expected a conditional in brackets") with
      | Except.error e => Except.error e
      | Except.ok p2 =>
        match Parser.conditional n p2 with
        | Except.error e => Except.error e
        | Except.ok (condition, p3) =>
          match p3.matchTag Tag.CLOSE_BRACKET NO_CLOSING_BRACKET with
          | Except.error e => Except.error e
          | Except.ok p4 =>
            match Parser.block n p4 with
            | Except.error e => Except.error e
            | Except.ok (body, p5) =>
              if if_ then
                if p5.peek.tag = Tag.ELSE then
                  match p5.next with
                  | Except.error e => Except.error e
                  | Except.ok p6 =>
                    match Parser.block n p6 with
                    | Except.error e => Except.error e
                    | Except.ok (elseBlock, p7) =>
                      Except.ok (Statement.IfStatement token condition body (some elseBlock), p7)
                else Except.ok (Statement.IfStatement token condition body none, p5)
              else Except.ok (Statement.WhileStatement token condition body, p5)

/-- `Parser::block`. -/
def Parser.block : Nat → Parser → Result Statement
  | 0, _ => Except.error Failure.outOfFuel
  | n + 1, p =>
    if p.peek.tag ≠ Tag.OPEN_CURLY then Parser.statement n p
    else
      let token := p.peek
      match p.next with
      | Except.error e => Except.error e
      | Except.ok p1 =>
        match statementsLoop (fun q => Parser.statement n q) n [] p1 with
        | Except.error e => Except.error e
        | Except.ok (block, p2) =>
          match p2.next with
          | Except.error e => Except.error e
          | Except.ok p3 => Except.ok (Statement.Sequence token block, p3)

end

/-- The loop of `Parser::functionDefinition` over the parameters: while `peek`
is not `)`, take the name, match `:`, take the type with `getType`, and step
over a comma, warning when the comma is followed by `)`. -/
def parametersLoop : Nat → List Identifier → Parser → Result (List Identifier)
  | k, params, p =>
    if p.peek.tag ≠ Tag.CLOSE_BRACKET then
      match k with
      | 0 => Except.error Failure.outOfFuel
      | k + 1 =>
        let paramName := p.peek
        match p.next with
        | Except.error e => Except.error e
        | Except.ok p1 =>
          match p1.matchTag Tag.COLON NO_COLON with
          | Except.error e => Except.error e
          | Except.ok p2 =>
            match p2.peek.getType with
            | none => Except.error Failure.badVariantAccess
            | some ty =>
              match p2.next with
              | Except.error e => Except.error e
              | Except.ok p3 =>
                if p3.peek.tag = Tag.COMMA then
                  match p3.next with
                  | Except.error e => Except.error e
                  | Except.ok p4 =>
                    if p4.peek.tag = Tag.CLOSE_BRACKET then
                      parametersLoop k (params ++ [⟨paramName, ty⟩])
                        (p4.warning (str "Comma with no parameter after"))
                    else parametersLoop k (params ++ [⟨paramName, ty⟩]) p4
                else parametersLoop k (params ++ [⟨paramName, ty⟩]) p3
    else Except.ok (params, p)

/-- `Parser::functionDefinition`.  The message passed to the second `match`
is built before the call, so `name.getString()` is evaluated whatever `peek`
is.  The arguments of the final `make_unique` are taken in the order they
are written: `type.getType()` before `block()`. -/
def Parser.functionDefinition (n : Nat) (p : Parser) : Result Statement :=
  let name := p.peek
  match p.next with
  | Except.error e => Except.error e
  | Except.ok p1 =>
    match p1.matchTag Tag.COLON NO_COLON with
    | Except.error e => Except.error e
    | Except.ok p2 =>
      let type := p2.peek
      match p2.next with
      | Except.error e => Except.error e
      | Except.ok p3 =>
        match name.getString with
        | none => Except.error Failure.badVariantAccess
        | some s =>
          match p3.matchTag Tag.OPEN_BRACKET (str "Expected parameter list for function " ++ s) with
          | Except.error e => Except.error e
          | Except.ok p4 =>
            match parametersLoop n [] p4 with
            | Except.error e => Except.error e
            | Except.ok (params, p5) =>
              match p5.next with
              | Except.error e => Except.error e
              | Except.ok p6 =>
                if p6.peek.tag = Tag.SEMICOLON then
                  match p6.next with
                  | Except.error e => Except.error e
                  | Except.ok p7 =>
                    match type.getType with
                    | none => Except.error Failure.badVariantAccess
                    | some ty => Except.ok (Statement.FunctionDeclaration name ty params, p7)
                else
                  match type.getType with
                  | none => Except.error Failure.badVariantAccess
                  | some ty =>
                    match Parser.block n p6 with
                    | Except.error e => Except.error e
                    | Except.ok (block, p7) =>
                      Except.ok (Statement.FunctionDefinition name ty block params, p7)

/-- `Parser::parseNext`. -/
def Parser.parseNext (n : Nat) (p : Parser) : Result Statement :=
  match p.peek.tag with
  | Tag.TYPE => Parser.variableDefiniton n p
  | Tag.FUN =>
    match p.next with
    | Except.error e => Except.error e
    | Except.ok p1 => Parser.functionDefinition n p1
  | _ => p.error (str "Expected variable or function definition")

/-- The helper `parse` of `src/parser/test.cpp`: a lexer on the input, a
parser on the lexer, and one call of `parseNext`. -/
def parse (n : Nat) (input : String) : Except Failure Statement :=
  match Parser.new (Lexer.new Tag.END (bytes input)) with
  | Except.error e => Except.error e
  | Except.ok p =>
    match Parser.parseNext n p with
    | Except.error e => Except.error e
    | Except.ok (s, _) => Except.ok s

/-- The lookahead is `+` or `-`. -/
def Parser.atAdd (p : Parser) : Bool := p.peek.tag = Tag.PLUS || p.peek.tag = Tag.MINUS

/-- The lookahead is `*` or `/`. -/
def Parser.atMul (p : Parser) : Bool := p.peek.tag = Tag.TIMES || p.peek.tag = Tag.DIVIDE

/-- A parser standing on the first token of `input`, built as the helper
`parse` of `src/parser/test.cpp` builds it; when the first token does not
lex, the state before the first call of `next`. -/
def Parser.on (input : String) : Parser :=
  match Parser.new (Lexer.new Tag.END (bytes input)) with
  | Except.ok p => p
  | Except.error _ =>
    { lexer := Lexer.new Tag.END (bytes input), peek := Token.ofTag Tag.END (-1),
      lineNumber := 0, warnings := [] }

/-- The next lexeme is exactly the word `i`: after the blanks, `peek` is `i`
and the character after it, if any, does not continue a word. -/
def Lexer.atLoneI (l : Lexer) : Bool :=
  l.whitespace.peek == 105 &&
    match l.whitespace.stream with
    | [] => true
    | b :: _ => !(isalnum (toChar b) || toChar b == 95)

/-- The tag of the token most recently returned by `getNextToken` on the way
to a lexer state: the state follows a successful call directly, or follows
it through calls that threw. -/
inductive Lexer.LastEmitted : Tag → Lexer → Prop where
  | emit (l : Lexer) (t : Token) :
      l.getNextToken.1 = Except.ok t → Lexer.LastEmitted t.tag l.getNextToken.2
  | fail (l : Lexer) (tag : Tag) (e : LexerError) :
      Lexer.LastEmitted tag l → l.getNextToken.1 = Except.error e →
      Lexer.LastEmitted tag l.getNextToken.2

/-- The value of `peek` after `readNext` when `tail` is what is left to
read: its first byte as a `char`, or `EOF`. -/
def peekOf (tail : List Nat) : Int :=
  match tail with
  | [] => EOF
  | x :: _ => toChar x

/-- A character of a word: a letter, a digit or the underscore. -/
def isword (c : Int) : Bool := isalnum c || c == 95

/-- The value of a decimal digit given as a byte. -/
def digitValue (b : Nat) : Nat := (toChar b - 48).toNat

/-- The number that a string of decimal digits denotes, most significant
digit first. -/
def decimal (ds : List Nat) : Nat := Nat.ofDigits 10 (ds.reverse.map digitValue)

/-- The number of newline characters among the bytes `s`. -/
def newlines (s : List Nat) : Nat := s.countP (fun x => toChar x == 10)

/-- The characters that `TEST(lexer_test, single_characters)` runs through:
the printable ones from `!` to `~`, the quote left out. -/
def singleCharacters : List Nat := (List.range 127).filter (fun c => 33 ≤ c && c != 34)

/-- The stream that `TEST(lexer_test, single_characters)` builds: each
character followed by a space. -/
def singleCharactersInput : List Nat := singleCharacters.flatMap (fun c => [c, 32])

/-- What `TEST(lexer_test, single_characters)` expects for a character: a tag,
or `none` where it expects a `LexerError`. -/
def singleCharactersExpected (c : Nat) : Option Tag :=
  if c = 105 then some Tag.I
  else if isalpha c || c == 95 then some Tag.ID
  else if isdigit c then some Tag.INT
  else operators c

/-- The lookahead is `or`. -/
def Parser.atOr (p : Parser) : Bool := p.peek.tag = Tag.OR

/-- The lookahead is `and`. -/
def Parser.atAnd (p : Parser) : Bool := p.peek.tag = Tag.AND

/-- The node of a result, for naming the intermediate results of a run; a
failure gives an `END` constant. -/
def nodeOf (r : Result Expression) : Expression :=
  match r with
  | Except.ok (e, _) => e
  | Except.error _ => Expression.Constant (Token.ofTag Tag.END 0) TypeID.NONE

/-- The parser state of a result, for naming the intermediate states of a
run; a failure gives the state `d`. -/
def stateOf {α : Type} (r : Result α) (d : Parser) : Parser :=
  match r with
  | Except.ok (_, p) => p
  | Except.error _ => d

/-- The state after `next`; the state itself when the lexer fails. -/
def Parser.advance (p : Parser) : Parser :=
  match p.next with
  | Except.ok q => q
  | Except.error _ => p

/-- The text `what()` of the `ParserError` thrown by `Parser::error` with the
message `msg` when `lineNumber` is `line`. -/
def ParserError.what (msg : List Int) (line : Int) : List Int :=
  str "[ERROR] " ++ msg ++ str " at line " ++ str (toString line) ++ str "."

/-! ## `parse_tree.cpp`, `operations.cpp`, `statements.cpp`: code generation

The generator builds LLVM IR through `llvm::IRBuilder`.  The IR is modelled
as far as the generator can observe it: the type of a value, the operands of
an instruction, the instructions of a basic block in their order, the blocks
of a function, and the insertion point of the builder.  An instruction is
the tree of its opcode and operands, with the serial number of its creation
for its identity.  The builder is an `IRBuilder<>`, which folds constants:
`CreateSIToFP` on a `ConstantInt`, the conversion that `expand` makes of an
integer literal, yields a `ConstantFP` and no instruction (`createSIToFP`).
Every other `Create...` call is modelled as one instruction: the folding of
an arithmetic operation or of a comparison whose operands are all constants
is not modelled.  Pointer types carry their pointee, as in the LLVM versions
that have `Type::getInt8PtrTy` and `Function::getBasicBlockList`.  Where C++
leaves the order of evaluation of the arguments of a call open, they are
taken from left to right. -/

/-- The LLVM types that the generator builds or meets: `boolType` (`i1`),
`i32` for the indices of `getelementptr`, `intType` (`i64`), `doubleType`,
`stringType` (`i8*`), `complexStruct`, pointers, and the type of a function
value. -/
inductive IRType where
  | void | bool | i32 | int | double | string | complex
  | pointer (pointee : IRType)
  | function
  deriving DecidableEq, Repr

/-- Predicates of the comparison instructions. -/
inductive Pred where
  | EQ | NE | SLT | SLE | SGT | SGE | OEQ | ONE | OLT | OLE | OGT | OGE
  deriving DecidableEq, Repr

/-- Opcodes of the instructions the generator creates.  An `alloca`, a
`load` and a `call` carry the name asked for, the callee, or the target
blocks; the other operands are values. -/
inductive Opcode where
  | alloca (name : List Int)
  | load (name : List Int)
  | store | gep | sitofp
  | add | sub | mul | sdiv | fadd | fsub | fmul | fdiv
  | icmp (p : Pred) | fcmp (p : Pred)
  | or | and | xor
  | call (callee : List Int)
  | ret
  | br (dest : Nat)
  | condbr (ifTrue : Nat) (ifFalse : Nat)
  deriving DecidableEq, Repr

/-- An `llvm::Value` as the generator sees it. -/
inductive IRValue where
  /-- `ConstantInt` of an integer type. -/
  | constInt (type : IRType) (v : Int)
  /-- `ConstantFP` of type `double`. -/
  | constFP (v : ℚ)
  /-- `COMPLEX_ZERO`. -/
  | complexZero
  /-- `STRING_ZERO`. -/
  | stringZero
  /-- The pointer to a string constant made by `CreateGlobalStringPtr`. -/
  | globalString (id : Nat) (s : List Int)
  /-- The argument `index` of the function `func`. -/
  | argument (func : List Int) (index : Nat) (type : IRType)
  /-- A `GlobalVariable` holding a value of type `type`. -/
  | global (name : List Int) (type : IRType)
  /-- A `Function`. -/
  | function (name : List Int)
  /-- An instruction. -/
  | inst (id : Nat) (op : Opcode) (operands : List IRValue) (type : IRType)
  deriving Repr

mutual

/-- Equality test on values. -/
def IRValue.beq : IRValue → IRValue → Bool
  | IRValue.constInt t v, IRValue.constInt u w => decide (t = u) && decide (v = w)
  | IRValue.constFP v, IRValue.constFP w => decide (v = w)
  | IRValue.complexZero, IRValue.complexZero => true
  | IRValue.stringZero, IRValue.stringZero => true
  | IRValue.globalString i s, IRValue.globalString j t => decide (i = j) && decide (s = t)
  | IRValue.argument f i t, IRValue.argument g j u =>
    decide (f = g) && decide (i = j) && decide (t = u)
  | IRValue.global n t, IRValue.global m u => decide (n = m) && decide (t = u)
  | IRValue.function n, IRValue.function m => decide (n = m)
  | IRValue.inst i o as t, IRValue.inst j p bs u =>
    decide (i = j) && decide (o = p) && IRValue.beqList as bs && decide (t = u)
  | _, _ => false

/-- Equality test on lists of values. -/
def IRValue.beqList : List IRValue → List IRValue → Bool
  | [], [] => true
  | a :: as, b :: bs => IRValue.beq a b && IRValue.beqList as bs
  | _, _ => false

end

/-- The type of a value, `Value::getType`. -/
def IRValue.type : IRValue → IRType
  | IRValue.constInt t _ => t
  | IRValue.constFP _ => IRType.double
  | IRValue.complexZero => IRType.complex
  | IRValue.stringZero => IRType.string
  | IRValue.globalString _ _ => IRType.string
  | IRValue.argument _ _ t => t
  | IRValue.global _ t => IRType.pointer t
  | IRValue.function _ => IRType.function
  | IRValue.inst _ _ _ t => t

/-- The test `dyn_cast<ReturnInst>(v) != nullptr` on a value that is not null. -/
def IRValue.isReturnInst : IRValue → Bool
  | IRValue.inst _ Opcode.ret _ _ => true
  | _ => false

/-- The constant `Node::TRUE`. -/
def TRUE : IRValue := IRValue.constInt IRType.bool 1

/-- The constant `Node::FALSE`. -/
def FALSE : IRValue := IRValue.constInt IRType.bool 0

/-- The constant `Node::MINUS_ONE_INT`. -/
def MINUS_ONE_INT : IRValue := IRValue.constInt IRType.int (-1)

/-- The constant `Node::MINUS_ONE_DOUBLE`. -/
def MINUS_ONE_DOUBLE : IRValue := IRValue.constFP (-1)

/-- The constant `Node::INT_ZERO`. -/
def INT_ZERO : IRValue := IRValue.constInt IRType.int 0

/-- The constant `Node::DOUBLE_ZERO`. -/
def DOUBLE_ZERO : IRValue := IRValue.constFP 0

/-- An entry of the symbol table: the `Identifier` that was added, with its
`type` and `alloc`. -/
structure Symbol where
  token : Token
  type : TypeID
  alloc : IRValue
  deriving Repr

/-- A basic block: its serial number, the function it is in (none while it
is detached) and its instructions. -/
structure BasicBlock where
  id : Nat
  parent : Option (List Int)
  insts : List IRValue
  deriving Repr

/-- A function of the module: name, return type, the types and names of the
arguments, and the serial numbers of its blocks in order. -/
structure Function where
  name : List Int
  returnType : IRType
  args : List (IRType × List Int)
  blocks : List Nat
  deriving DecidableEq, Repr

/-- The insertion point of an `IRBuilder`: none, the end of a block, or
before the instruction `inst` of a block. -/
inductive InsertPoint where
  | unset
  | atEnd (block : Nat)
  | before (block : Nat) (inst : Nat)
  deriving DecidableEq, Repr

/-- What the generator cannot see of LLVM and this development does not
model.  `setName taken name` is the name a value gets when `name` is asked
for and the names `taken` are in use in the same symbol table (LLVM appends
a number when the name is taken).  `verifyFunction` is the result of
`llvm::verifyFunction` (true when the function is broken) on a function with
the given blocks. -/
structure LLVM where
  setName : List (List Int) → List Int → List Int
  verifyFunction : Function → List BasicBlock → Bool
  /-- A name that is not in use is given as asked for. -/
  setName_free : ∀ taken name, name ∉ taken → setName taken name = name

/-- The static members of `Node` and `SymbolTable`: the module (functions,
global variables with their initializers, string constants, and the basic
blocks by serial number), the insertion point of `Node::builder`, the scopes
of `Node::symbols` (the innermost last), the registry
`SymbolTable::globals_`, and the number of values created so far. -/
structure CodeGen where
  functions : List Function
  globals : List (List Int × IRType × IRValue)
  strings : List (List Int)
  blocks : List BasicBlock
  insertPoint : InsertPoint
  symbols : List (List (List Int × Symbol))
  registry : List (IRValue × Expression × TypeID)
  nextId : Nat

/-- How `generate` can end without a result. -/
inductive CodeGenFailure where
  /-- A `CodeGenError` thrown by `Node::error`: its text is
  "[ERROR] " + msg + " at line " + line. -/
  | codeGenError (msg : List Int) (line : Int)
  /-- A `CodeGenError` thrown with the text `msg` as it is. -/
  | codeGenErrorText (msg : List Int)
  /-- A `std::bad_variant_access` thrown by an accessor of `Token`. -/
  | badVariantAccess
  /-- Undefined behaviour: a member access through a null pointer, or
  `dyn_cast` on a null pointer. -/
  | nullDereference
  /-- Undefined behaviour: `operator[]` of a vector past its end. -/
  | outOfBounds
  deriving DecidableEq, Repr

/-- The result of a generating function: the value and the state
afterwards, or the failure. -/
abbrev Gen (α : Type) := Except CodeGenFailure (α × CodeGen)

/-- The state after the static initialisation and the constructor
`Parser::Parser`: an empty module, a symbol table with one scope, a builder
without insertion point and an empty registry. -/
def CodeGen.new : CodeGen :=
  { functions := [], globals := [], strings := [], blocks := [],
    insertPoint := InsertPoint.unset, symbols := [[]], registry := [], nextId := 0 }

/-- `Token::getInt`. -/
def Token.getInt (t : Token) : Option Int :=
  match t.value with
  | Value.int v => some v
  | _ => none

/-- `Token::getDouble`. -/
def Token.getDouble (t : Token) : Option ℚ :=
  match t.value with
  | Value.double v => some v
  | _ => none

/-- `std::to_string` of an `int`. -/
def to_string (n : Int) : List Int := str (toString n)

/-- The text `what()` of the `CodeGenError` thrown by `Node::error`. -/
def CodeGenError.what (msg : List Int) (line : Int) : List Int :=
  str "[ERROR] " ++ msg ++ str " at line " ++ to_string line

/-- `Node::error`. -/
def Node.error {α : Type} (msg : List Int) (line : Int) : Except CodeGenFailure α :=
  Except.error (CodeGenFailure.codeGenError msg line)

/-- `Module::getFunction`. -/
def CodeGen.getFunction (s : CodeGen) (name : List Int) : Option Function :=
  s.functions.find? (fun f => f.name = name)

/-- The block with the serial number `id`. -/
def CodeGen.getBlock (s : CodeGen) (id : Nat) : Option BasicBlock :=
  s.blocks.find? (fun b => b.id = id)

/-- `IRBuilder::GetInsertBlock`: the serial number of the block, none for a
null pointer. -/
def CodeGen.GetInsertBlock (s : CodeGen) : Option Nat :=
  match s.insertPoint with
  | InsertPoint.unset => none
  | InsertPoint.atEnd b => some b
  | InsertPoint.before b _ => some b

/-- `BasicBlock::getParent` of the block `id`. -/
def CodeGen.getParent (s : CodeGen) (id : Nat) : Option (List Int) :=
  match s.getBlock id with
  | some b => b.parent
  | none => none

/-- The names in use in the symbol table of the module. -/
def CodeGen.names (s : CodeGen) : List (List Int) :=
  s.functions.map (fun f => f.name) ++ s.globals.map (fun g => g.1)

/-- The serial number of an instruction. -/
def IRValue.id? : IRValue → Option Nat
  | IRValue.inst i _ _ _ => some i
  | _ => none

/-- Insertion of `v` before the instruction with the serial number `target`. -/
def insertBefore (target : Nat) (v : IRValue) : List IRValue → List IRValue
  | [] => [v]
  | x :: xs => if x.id? = some target then v :: x :: xs else x :: insertBefore target v xs

/-- Replacement of the instructions of the block `id`. -/
def CodeGen.updateBlock (s : CodeGen) (id : Nat) (f : List IRValue → List IRValue) : CodeGen :=
  { s with blocks := s.blocks.map (fun b => if b.id = id then { b with insts := f b.insts } else b) }

/-- `IRBuilder::Insert`: the instruction goes to the insertion point; with no
insertion point it is left outside every block. -/
def CodeGen.insert (s : CodeGen) (v : IRValue) : CodeGen :=
  match s.insertPoint with
  | InsertPoint.unset => s
  | InsertPoint.atEnd b => s.updateBlock b (fun insts => insts ++ [v])
  | InsertPoint.before b i => s.updateBlock b (insertBefore i v)

/-- A `Create...` call of `Node::builder`: a new instruction with the given
opcode, operands and type, inserted at the insertion point. -/
def CodeGen.create (s : CodeGen) (op : Opcode) (operands : List IRValue) (type : IRType) :
    IRValue × CodeGen :=
  let v := IRValue.inst s.nextId op operands type
  (v, { s.insert v with nextId := s.nextId + 1 })

/-- `BasicBlock::Create(context, "", func)`: a new block, appended to the
blocks of `func` when `func` is given. -/
def CodeGen.createBlock (s : CodeGen) (func : Option (List Int)) : Nat × CodeGen :=
  (s.nextId,
    { s with
      blocks := s.blocks ++ [{ id := s.nextId, parent := func, insts := [] }]
      functions := s.functions.map (fun f =>
        if some f.name = func then { f with blocks := f.blocks ++ [s.nextId] } else f)
      nextId := s.nextId + 1 })

/-- `func->getBasicBlockList().push_back(block)`. -/
def CodeGen.pushBlock (s : CodeGen) (func : List Int) (block : Nat) : CodeGen :=
  { s with
    blocks := s.blocks.map (fun b => if b.id = block then { b with parent := some func } else b)
    functions := s.functions.map (fun f =>
      if f.name = func then { f with blocks := f.blocks ++ [block] } else f) }

/-- `IRBuilder::SetInsertPoint(block)`. -/
def CodeGen.SetInsertPoint (s : CodeGen) (block : Nat) : CodeGen :=
  { s with insertPoint := InsertPoint.atEnd block }

/-- `entryBlockAlloca`: an `alloca` put at the beginning of the entry block
of `func` by a builder of its own; none when the function has no block or
does not exist. -/
def entryBlockAlloca (s : CodeGen) (func : List Int) (name : List Int) (type : IRType) :
    Option (IRValue × CodeGen) :=
  match s.getFunction func with
  | none => none
  | some f =>
    match f.blocks with
    | [] => none
    | entry :: _ =>
      let v := IRValue.inst s.nextId (Opcode.alloca name) [] (IRType.pointer type)
      some (v, { s.updateBlock entry (fun insts => v :: insts) with nextId := s.nextId + 1 })

/-- `SymbolTable::get`: the scopes are searched from the innermost. -/
def SymbolTable.get (tables : List (List (List Int × Symbol))) (token : List Int) :
    Option Symbol :=
  (tables.reverse.findSome? (fun table => table.lookup token))

/-- `SymbolTable::add`: the binding goes to the innermost scope and replaces
a binding of the same name there. -/
def SymbolTable.add (tables : List (List (List Int × Symbol))) (token : List Int)
    (id : Symbol) : List (List (List Int × Symbol)) :=
  match tables.reverse with
  | [] => []
  | top :: rest => (((token, id) :: top.filter (fun e => e.1 ≠ token)) :: rest).reverse

/-- `SymbolTable::push`. -/
def SymbolTable.push (tables : List (List (List Int × Symbol))) :
    List (List (List Int × Symbol)) :=
  tables ++ [[]]

/-- `SymbolTable::pop`. -/
def SymbolTable.pop (tables : List (List (List Int × Symbol))) :
    List (List (List Int × Symbol)) :=
  tables.dropLast

/-- `Node::getSymbol` of a node with the token line `line`. -/
def Node.getSymbol (s : CodeGen) (name : List Int) (line : Int) : Except CodeGenFailure Symbol :=
  match SymbolTable.get s.symbols name with
  | none => Node.error (str "Undefined identifier " ++ name) line
  | some symbol => Except.ok symbol

/-- `Node::getType(TypeID)`. -/
def Node.getType (type : TypeID) (line : Int) : Except CodeGenFailure IRType :=
  match type with
  | TypeID.INT => Except.ok IRType.int
  | TypeID.DOUBLE => Except.ok IRType.double
  | TypeID.COMPLEX => Except.ok IRType.complex
  | TypeID.STRING => Except.ok IRType.string
  | TypeID.NONE => Node.error (str "Unsupported type") line

/-- `Node::getMaxType`. -/
def Node.getMaxType (a b : IRType) (line : Int) : Except CodeGenFailure IRType :=
  if a = IRType.string ∨ b = IRType.string then
    Node.error (str "Error - strings cannot be converted to other types") line
  else if a = IRType.complex ∨ b = IRType.complex then Except.ok IRType.complex
  else if a = IRType.double ∨ b = IRType.double then Except.ok IRType.double
  else Except.ok IRType.int

/-- `Complex::re`: the `getelementptr` to the first field. -/
def Complex.re (s : CodeGen) (complex : IRValue) : IRValue × CodeGen :=
  s.create Opcode.gep [complex, IRValue.constInt IRType.i32 0, IRValue.constInt IRType.i32 0]
    (IRType.pointer IRType.double)

/-- `Complex::im`: the `getelementptr` to the second field. -/
def Complex.im (s : CodeGen) (complex : IRValue) : IRValue × CodeGen :=
  s.create Opcode.gep [complex, IRValue.constInt IRType.i32 0, IRValue.constInt IRType.i32 1]
    (IRType.pointer IRType.double)

/-- `Complex::get`. -/
def Complex.get (s : CodeGen) (real_ im_ : IRValue) : IRValue × CodeGen :=
  let (alloc, s1) := s.create (Opcode.alloca []) [] (IRType.pointer IRType.complex)
  let (reP, s2) := Complex.re s1 alloc
  let (_, s3) := s2.create Opcode.store [real_, reP] IRType.void
  let (imP, s4) := Complex.im s3 alloc
  let (_, s5) := s4.create Opcode.store [im_, imP] IRType.void
  s5.create (Opcode.load []) [alloc] IRType.complex

/-- `Complex::mul`: the two products, the two cross products, their
difference and their sum. -/
def Complex.mul (s : CodeGen) (re1 im1 re2 im2 : IRValue) : (IRValue × IRValue) × CodeGen :=
  let (reMul, s1) := s.create Opcode.fmul [re1, re2] re1.type
  let (imMul, s2) := s1.create Opcode.fmul [im1, im2] im1.type
  let (cross1, s3) := s2.create Opcode.fmul [re1, im2] re1.type
  let (cross2, s4) := s3.create Opcode.fmul [im1, re2] im1.type
  let (first, s5) := s4.create Opcode.fsub [reMul, imMul] reMul.type
  let (second, s6) := s5.create Opcode.fadd [cross1, cross2] cross1.type
  ((first, second), s6)

/-- `Complex::getComponents`. -/
def Complex.getComponents (s : CodeGen) (complex : IRValue) : (IRValue × IRValue) × CodeGen :=
  let (alloc, s1) := s.create (Opcode.alloca []) [] (IRType.pointer IRType.complex)
  let (_, s2) := s1.create Opcode.store [complex, alloc] IRType.void
  let (reP, s3) := Complex.re s2 alloc
  let (first, s4) := s3.create (Opcode.load []) [reP] IRType.double
  let (imP, s5) := Complex.im s4 alloc
  let (second, s6) := s5.create (Opcode.load []) [imP] IRType.double
  ((first, second), s6)

/-- `IRBuilder::CreateSIToFP(val, doubleType)` on a value of `intType`.  The
builder is an `IRBuilder<>`, whose constant folder converts a `ConstantInt`
itself: the call then returns the `ConstantFP` of the same value and inserts
nothing.  For every other value the conversion is an instruction. -/
def CodeGen.createSIToFP (s : CodeGen) (val : IRValue) : IRValue × CodeGen :=
  match val with
  | IRValue.constInt _ v => (IRValue.constFP v, s)
  | _ => s.create Opcode.sitofp [val] IRType.double

/-- `Node::expand` of a node with the token line `line`. -/
def Node.expand (s : CodeGen) (val : IRValue) (to_ : IRType) (line : Int) : Gen IRValue :=
  if val.type = to_ then Except.ok (val, s)
  else
    let (val1, s1) :=
      if val.type = IRType.int then s.createSIToFP val else (val, s)
    if to_ = IRType.double then Except.ok (val1, s1)
    else if to_ = IRType.complex then
      let (alloc, s2) := s1.create (Opcode.alloca []) [] (IRType.pointer IRType.complex)
      let (reP, s3) := Complex.re s2 alloc
      let (_, s4) := s3.create Opcode.store [val1, reP] IRType.void
      let (imP, s5) := Complex.im s4 alloc
      let (_, s6) := s5.create Opcode.store [DOUBLE_ZERO, imP] IRType.void
      Except.ok (s6.create (Opcode.load []) [alloc] IRType.complex)
    else Node.error (str "Unsupported type conversion") line

/-- The member `token` of an expression node. -/
def Expression.token : Expression → Token
  | Expression.Identifier id => id.token
  | Expression.FunctionCall name _ => name
  | Expression.AbsoluteValue token _ => token
  | Expression.Complex _ token => token
  | Expression.BinaryOperation _ operator _ => operator
  | Expression.UnaryOperation operator _ => operator
  | Expression.Constant token _ => token
  | Expression.Disjunction _ operator _ => operator
  | Expression.Conjunction _ operator _ => operator
  | Expression.Negation operator _ => operator
  | Expression.Relation _ operator _ => operator

/-- `Intrinsic::getDeclaration`: the declaration of the intrinsic is added to
the module unless it is there. -/
def CodeGen.getDeclaration (s : CodeGen) (name : List Int) (returnType : IRType)
    (args : List IRType) : CodeGen :=
  match s.getFunction name with
  | some _ => s
  | none =>
    { s with functions := s.functions ++
        [{ name := name, returnType := returnType, args := args.map (fun t => (t, [])),
           blocks := [] }] }

/-- `FunctionCall::Re`. -/
def FunctionCall.Re (s : CodeGen) (val : IRValue) (line : Int) : Gen IRValue :=
  if val.type = IRType.int ∨ val.type = IRType.double then Except.ok (val, s)
  else if val.type = IRType.complex then
    let (comp, s1) := Complex.getComponents s val
    Except.ok (comp.1, s1)
  else Node.error (str "Unsupported type in call to Re()") line

/-- `FunctionCall::Im`. -/
def FunctionCall.Im (s : CodeGen) (val : IRValue) (line : Int) : Gen IRValue :=
  if val.type = IRType.int then Except.ok (INT_ZERO, s)
  else if val.type = IRType.double then Except.ok (DOUBLE_ZERO, s)
  else if val.type = IRType.complex then
    let (comp, s1) := Complex.getComponents s val
    Except.ok (comp.2, s1)
  else Node.error (str "Unsupported type in call to Im()") line

/-- `BinaryOperation::multiplyComplex`. -/
def BinaryOperation.multiplyComplex (s : CodeGen) (re1 im1 re2 im2 : IRValue) :
    IRValue × CodeGen :=
  let (mul, s1) := Complex.mul s re1 im1 re2 im2
  Complex.get s1 mul.1 mul.2

/-- `BinaryOperation::divideComplex`. -/
def BinaryOperation.divideComplex (s : CodeGen) (re1 im1 re2 im2 : IRValue) :
    IRValue × CodeGen :=
  let (conjugateIm, s1) := s.create Opcode.fmul [im2, MINUS_ONE_DOUBLE] im2.type
  let (mulTop, s2) := Complex.mul s1 re1 im1 re2 conjugateIm
  let (mulBottom, s3) := Complex.mul s2 re2 im2 re2 conjugateIm
  let (re, s4) := s3.create Opcode.fdiv [mulTop.1, mulBottom.1] mulTop.1.type
  let (im, s5) := s4.create Opcode.fdiv [mulTop.2, mulBottom.1] mulTop.2.type
  Complex.get s5 re im

/-- The arithmetic of `BinaryOperation::generate` once both operands have the
type `common`. -/
def BinaryOperation.arithmetic (s : CodeGen) (token : Token) (common : IRType) (L R : IRValue) :
    Gen IRValue :=
  if common = IRType.int then
    match token.tag with
    | Tag.PLUS => Except.ok (s.create Opcode.add [L, R] L.type)
    | Tag.MINUS => Except.ok (s.create Opcode.sub [L, R] L.type)
    | Tag.TIMES => Except.ok (s.create Opcode.mul [L, R] L.type)
    | Tag.DIVIDE => Except.ok (s.create Opcode.sdiv [L, R] L.type)
    | _ => Node.error (str "Unsupported binary operator") token.line
  else if common = IRType.double then
    match token.tag with
    | Tag.PLUS => Except.ok (s.create Opcode.fadd [L, R] L.type)
    | Tag.MINUS => Except.ok (s.create Opcode.fsub [L, R] L.type)
    | Tag.TIMES => Except.ok (s.create Opcode.fmul [L, R] L.type)
    | Tag.DIVIDE => Except.ok (s.create Opcode.fdiv [L, R] L.type)
    | _ => Node.error (str "Unsupported binary operator") token.line
  else if common = IRType.complex then
    let (left, s1) := Complex.getComponents s L
    let (right, s2) := Complex.getComponents s1 R
    match token.tag with
    | Tag.PLUS =>
      let (re, s3) := s2.create Opcode.fadd [left.1, right.1] left.1.type
      let (im, s4) := s3.create Opcode.fadd [left.2, right.2] left.2.type
      Except.ok (Complex.get s4 re im)
    | Tag.MINUS =>
      let (re, s3) := s2.create Opcode.fsub [left.1, right.1] left.1.type
      let (im, s4) := s3.create Opcode.fsub [left.2, right.2] left.2.type
      Except.ok (Complex.get s4 re im)
    | Tag.TIMES =>
      Except.ok (BinaryOperation.multiplyComplex s2 left.1 left.2 right.1 right.2)
    | Tag.DIVIDE =>
      Except.ok (BinaryOperation.divideComplex s2 left.1 left.2 right.1 right.2)
    | _ => Node.error (str "Unsupported binary operator") token.line
  else Node.error (str "Unsupported types for binary operator") token.line

/-- The comparison of `Relation::generate` on the values `L` and `R` for
the type `common`. -/
def Relation.compare (s : CodeGen) (token : Token) (common : IRType) (L R : IRValue) :
    Gen IRValue :=
  if common = IRType.int then
    match token.tag with
    | Tag.LT => Except.ok (s.create (Opcode.icmp Pred.SLT) [L, R] IRType.bool)
    | Tag.LE => Except.ok (s.create (Opcode.icmp Pred.SLE) [L, R] IRType.bool)
    | Tag.EQ => Except.ok (s.create (Opcode.icmp Pred.EQ) [L, R] IRType.bool)
    | Tag.NEQ => Except.ok (s.create (Opcode.icmp Pred.NE) [L, R] IRType.bool)
    | Tag.GE => Except.ok (s.create (Opcode.icmp Pred.SGE) [L, R] IRType.bool)
    | Tag.GT => Except.ok (s.create (Opcode.icmp Pred.SGT) [L, R] IRType.bool)
    | _ => Node.error (str "Unsupported relational operator") token.line
  else if common = IRType.double then
    match token.tag with
    | Tag.LT => Except.ok (s.create (Opcode.fcmp Pred.OLT) [L, R] IRType.bool)
    | Tag.LE => Except.ok (s.create (Opcode.fcmp Pred.OLE) [L, R] IRType.bool)
    | Tag.EQ => Except.ok (s.create (Opcode.fcmp Pred.OEQ) [L, R] IRType.bool)
    | Tag.NEQ => Except.ok (s.create (Opcode.fcmp Pred.ONE) [L, R] IRType.bool)
    | Tag.GE => Except.ok (s.create (Opcode.fcmp Pred.OGE) [L, R] IRType.bool)
    | Tag.GT => Except.ok (s.create (Opcode.fcmp Pred.OGT) [L, R] IRType.bool)
    | _ => Node.error (str "Unsupported relational operator") token.line
  else if common = IRType.complex then
    let (left, s1) := Complex.getComponents s L
    let (right, s2) := Complex.getComponents s1 R
    match token.tag with
    | Tag.LT => Except.ok (s2.create (Opcode.fcmp Pred.OLT) [left.1, right.1] IRType.bool)
    | Tag.LE =>
      let (lt, s3) := s2.create (Opcode.fcmp Pred.OLT) [left.1, right.1] IRType.bool
      let (eq, s4) := s3.create (Opcode.fcmp Pred.OEQ) [left.1, right.1] IRType.bool
      let (le, s5) := s4.create (Opcode.fcmp Pred.OLE) [left.2, right.2] IRType.bool
      let (both, s6) := s5.create Opcode.and [eq, le] eq.type
      Except.ok (s6.create Opcode.or [lt, both] lt.type)
    | Tag.EQ =>
      let (re, s3) := s2.create (Opcode.fcmp Pred.OEQ) [left.1, right.1] IRType.bool
      let (im, s4) := s3.create (Opcode.fcmp Pred.OEQ) [left.2, right.2] IRType.bool
      Except.ok (s4.create Opcode.and [re, im] re.type)
    | Tag.NEQ =>
      let (re, s3) := s2.create (Opcode.fcmp Pred.ONE) [left.1, right.1] IRType.bool
      let (im, s4) := s3.create (Opcode.fcmp Pred.ONE) [left.2, right.2] IRType.bool
      Except.ok (s4.create Opcode.or [re, im] re.type)
    | Tag.GE =>
      let (gt, s3) := s2.create (Opcode.fcmp Pred.OGT) [left.1, right.1] IRType.bool
      let (eq, s4) := s3.create (Opcode.fcmp Pred.OEQ) [left.1, right.1] IRType.bool
      let (ge, s5) := s4.create (Opcode.fcmp Pred.OGE) [left.2, right.2] IRType.bool
      let (both, s6) := s5.create Opcode.and [eq, ge] eq.type
      Except.ok (s6.create Opcode.or [gt, both] gt.type)
    | Tag.GT => Except.ok (s2.create (Opcode.fcmp Pred.OGT) [left.1, right.1] IRType.bool)
    | _ => Node.error (str "Unsupported relational operator") token.line
  else Node.error (str "Unsupported types for comparison operator") token.line

/-- The part of `AbsoluteValue::generate` after the operand: `line` is the
line of the token of the operand. -/
def AbsoluteValue.ofValue (s : CodeGen) (val : IRValue) (line : Int) : Gen IRValue :=
  if val.type = IRType.int then
    let s1 := s.getDeclaration (str "llvm.abs.i64") IRType.int [IRType.int, IRType.bool]
    Except.ok (s1.create (Opcode.call (str "llvm.abs.i64")) [val, FALSE] IRType.int)
  else if val.type = IRType.double then
    let s1 := s.getDeclaration (str "llvm.fabs.f64") IRType.double [IRType.double]
    Except.ok (s1.create (Opcode.call (str "llvm.fabs.f64")) [val] IRType.double)
  else if val.type = IRType.complex then
    let (alloc, s1) := s.create (Opcode.alloca []) [] (IRType.pointer IRType.complex)
    let (_, s2) := s1.create Opcode.store [val, alloc] IRType.void
    let (reP, s3) := Complex.re s2 alloc
    let (re, s4) := s3.create (Opcode.load []) [reP] IRType.double
    let (imP, s5) := Complex.im s4 alloc
    let (im, s6) := s5.create (Opcode.load []) [imP] IRType.double
    let (re2, s7) := s6.create Opcode.fmul [re, re] re.type
    let (im2, s8) := s7.create Opcode.fmul [im, im] im.type
    let (sum, s9) := s8.create Opcode.fadd [re2, im2] re2.type
    let s10 := s9.getDeclaration (str "llvm.sqrt.f64") IRType.double [IRType.double]
    Except.ok (s10.create (Opcode.call (str "llvm.sqrt.f64")) [sum] IRType.double)
  else Node.error (str "Unsupported type inside absolute value") line

/-- The part of `UnaryOperation::generate` after the operand. -/
def UnaryOperation.ofValue (s : CodeGen) (token : Token) (val : IRValue) : Gen IRValue :=
  if token.tag = Tag.MINUS then
    if val.type = IRType.int then Except.ok (s.create Opcode.mul [val, MINUS_ONE_INT] val.type)
    else if val.type = IRType.double then
      Except.ok (s.create Opcode.fmul [val, MINUS_ONE_DOUBLE] val.type)
    else if val.type = IRType.complex then
      let (comp, s1) := Complex.getComponents s val
      let (re, s2) := s1.create Opcode.fmul [comp.1, MINUS_ONE_DOUBLE] comp.1.type
      let (im, s3) := s2.create Opcode.fmul [comp.2, MINUS_ONE_DOUBLE] comp.2.type
      Except.ok (Complex.get s3 re im)
    else Node.error (str "Unsupported type for unary operator") token.line
  else Except.ok (val, s)

/-- `Constant::generate`. -/
def Constant.generate (s : CodeGen) (token : Token) (type : TypeID) : Gen IRValue :=
  if type = TypeID.DOUBLE then
    match token.getDouble with
    | none => Except.error CodeGenFailure.badVariantAccess
    | some v => Except.ok (IRValue.constFP v, s)
  else if type = TypeID.INT then
    match token.getInt with
    | none => Except.error CodeGenFailure.badVariantAccess
    | some v => Except.ok (IRValue.constInt IRType.int v, s)
  else if type = TypeID.STRING then
    match token.getString with
    | none => Except.error CodeGenFailure.badVariantAccess
    | some v =>
      Except.ok (IRValue.globalString s.nextId v,
        { s with strings := s.strings ++ [v], nextId := s.nextId + 1 })
  else Node.error (str "Unsupported constant") token.line

mutual

/-- The member functions `generate` of the expression nodes. -/
def Expression.generate : Expression → CodeGen → Except CodeGenFailure (IRValue × CodeGen)
  | Expression.Identifier id, s =>
    match id.token.getString with
    | none => Except.error CodeGenFailure.badVariantAccess
    | some name => do
      let symbol ← Node.getSymbol s name id.token.line
      let type ← Node.getType symbol.type id.token.line
      Except.ok (s.create (Opcode.load name) [symbol.alloc] type)
  | Expression.FunctionCall token arguments, s =>
    match token.getString with
    | none => Except.error CodeGenFailure.badVariantAccess
    | some name =>
      if token.tag = Tag.RE then
        match arguments with
        | [a] => do
          let (val, s1) ← Expression.generate a s
          FunctionCall.Re s1 val token.line
        | _ => Node.error (str "Incorrect number of parameters in call to Re()") token.line
      else if token.tag = Tag.IM then
        match arguments with
        | [a] => do
          let (val, s1) ← Expression.generate a s
          FunctionCall.Im s1 val token.line
        | _ => Node.error (str "Incorrect number of parameters in call to Im()") token.line
      else
        match s.getFunction name with
        | none => Node.error (str "Function " ++ name ++ str " not defined") token.line
        | some func => do
          let (args, s1) ←
            Expression.generateArguments arguments (func.args.map (fun a => a.1)) func.name
              token.line s
          Except.ok (s1.create (Opcode.call func.name) args func.returnType)
  | Expression.AbsoluteValue _ val_, s => do
    let (val, s1) ← Expression.generate val_ s
    AbsoluteValue.ofValue s1 val val_.token.line
  | Expression.Complex imaginary token, s => do
    let (v, s1) ← Expression.generate imaginary s
    let (im, s2) ← Node.expand s1 v IRType.double token.line
    Except.ok (Complex.get s2 DOUBLE_ZERO im)
  | Expression.BinaryOperation lhs token rhs, s => do
    let (L, s1) ← Expression.generate lhs s
    let (R, s2) ← Expression.generate rhs s1
    let common ← Node.getMaxType L.type R.type token.line
    let (L1, s3) ← Node.expand s2 L common token.line
    let (R1, s4) ← Node.expand s3 R common token.line
    BinaryOperation.arithmetic s4 token common L1 R1
  | Expression.UnaryOperation token expression, s => do
    let (val, s1) ← Expression.generate expression s
    UnaryOperation.ofValue s1 token val
  | Expression.Constant token type, s => Constant.generate s token type
  | Expression.Disjunction lhs _ rhs, s => do
    let (L, s1) ← Expression.generate lhs s
    let (R, s2) ← Expression.generate rhs s1
    Except.ok (s2.create Opcode.or [L, R] L.type)
  | Expression.Conjunction lhs _ rhs, s => do
    let (L, s1) ← Expression.generate lhs s
    let (R, s2) ← Expression.generate rhs s1
    Except.ok (s2.create Opcode.and [L, R] L.type)
  | Expression.Negation _ expression, s => do
    let (v, s1) ← Expression.generate expression s
    Except.ok (s1.create Opcode.xor [v, IRValue.constInt v.type (-1)] v.type)
  | Expression.Relation lhs token rhs, s => do
    let (L, s1) ← Expression.generate lhs s
    let (R, s2) ← Expression.generate rhs s1
    let common ← Node.getMaxType L.type R.type token.line
    -- the results of the two calls of `expand` are not used
    let (_, s3) ← Node.expand s2 L common token.line
    let (_, s4) ← Node.expand s3 R common token.line
    Relation.compare s4 token common L R

/-- The loop of `FunctionCall::generate` over the arguments of the callee:
`types` are the types of the arguments of the function `func` that are
left, `arguments` the arguments of the call that are left. -/
def Expression.generateArguments :
    List Expression → List IRType → List Int → Int → CodeGen →
      Except CodeGenFailure (List IRValue × CodeGen)
  | _, [], _, _, s => Except.ok ([], s)
  | [], _ :: _, func, line, _ =>
    Node.error (str "Incorrect number of parameters in call to " ++ func) line
  | a :: arguments, t :: types, func, line, s => do
    let (v, s1) ← Expression.generate a s
    let (arg, s2) ← Node.expand s1 v t line
    let (args, s3) ← Expression.generateArguments arguments types func line s2
    Except.ok (arg :: args, s3)

end

/-- `symbols.push()`. -/
def CodeGen.push (s : CodeGen) : CodeGen :=
  { s with symbols := SymbolTable.push s.symbols }

/-- `symbols.pop()`. -/
def CodeGen.pop (s : CodeGen) : CodeGen :=
  { s with symbols := SymbolTable.pop s.symbols }

/-- `symbols.add(token, id)`. -/
def CodeGen.add (s : CodeGen) (token : List Int) (id : Symbol) : CodeGen :=
  { s with symbols := SymbolTable.add s.symbols token id }

/-- The constructor `GlobalVariable(*module, type, false, CommonLinkage,
constInit, name)`, with the name the variable gets. -/
def CodeGen.addGlobalVariable (s : CodeGen) (name : List Int) (type : IRType)
    (constInit : IRValue) : CodeGen :=
  { s with globals := s.globals ++ [(name, type, constInit)] }

/-- `SymbolTable::addGlobal`. -/
def CodeGen.addGlobal (s : CodeGen) (global : IRValue) (init : Expression) (type : TypeID) :
    CodeGen :=
  { s with registry := s.registry ++ [(global, init, type)] }

/-- `arg.setName`: the argument `i` of `func` gets the name `name`. -/
def CodeGen.setArgName (s : CodeGen) (func : List Int) (i : Nat) (name : List Int) : CodeGen :=
  { s with
    functions := s.functions.map (fun f =>
      if f.name = func then
        { f with args := f.args.modify (fun a => (a.1, name)) i }
      else f) }

/-- The test `dyn_cast<ReturnInst>(v) == nullptr` followed by
`builder.CreateBr(dest)` of the `if` and `while` statements: `dyn_cast` on a
null pointer is undefined. -/
def branchUnlessReturn (s : CodeGen) (v : Option IRValue) (dest : Nat) :
    Except CodeGenFailure CodeGen :=
  match v with
  | none => Except.error CodeGenFailure.nullDereference
  | some x => if x.isReturnInst then Except.ok s
    else Except.ok (s.create (Opcode.br dest) [] IRType.void).2

/-- `func->getBasicBlockList().push_back(block)` with `func` as
`GetInsertBlock()->getParent()` gave it. -/
def pushBack (s : CodeGen) (func : Option (List Int)) (block : Nat) :
    Except CodeGenFailure CodeGen :=
  match func with
  | none => Except.error CodeGenFailure.nullDereference
  | some f => Except.ok (s.pushBlock f block)

/-- `FunctionDeclaration::generate`, with the function it creates. -/
def FunctionDeclaration.generate (L : LLVM) (token : Token) (returnType : TypeID)
    (parameters : List Identifier) (s : CodeGen) : Except CodeGenFailure (Function × CodeGen) :=
  if token.tag ≠ Tag.ID ∧ token.tag ≠ Tag.MAIN then
    match token.getString with
    | none => Except.error CodeGenFailure.badVariantAccess
    | some name => Node.error (str "Cannot redefine reserved keyword " ++ name) token.line
  else if token.tag = Tag.MAIN ∧ (parameters ≠ [] ∨ returnType ≠ TypeID.INT) then
    Node.error (str "Invalid main function signature") token.line
  else do
    let types ← parameters.mapM (fun param => Node.getType param.type token.line)
    let funcReturnType ← Node.getType returnType token.line
    match token.getString with
    | none => Except.error CodeGenFailure.badVariantAccess
    | some name =>
      let func : Function :=
        { name := L.setName s.names name, returnType := funcReturnType,
          args := types.map (fun t => (t, [])), blocks := [] }
      Except.ok (func, { s with functions := s.functions ++ [func] })

/-- The loop of `FunctionDefinition::generate` over the arguments of the
function `func`: `args` are the types of the arguments that are left, `i`
the index, `taken` the names in use in the function.  The argument gets the
name of the parameter `i`, an `alloca` of that name is put into the entry
block, the argument is stored there, and the parameter is added to the
symbol table under the name of the argument.  Reading `parameters[i]` past
the end is undefined. -/
def parametersPrologue (L : LLVM) (func : List Int) (token : Token)
    (parameters : List Identifier) :
    List IRType → Nat → List (List Int) → CodeGen → Except CodeGenFailure CodeGen
  | [], _, _, s => Except.ok s
  | type :: args, i, taken, s =>
    match parameters.get? i with
    | none => Except.error CodeGenFailure.outOfBounds
    | some param => do
      let paramType ← Node.getType param.type token.line
      if type ≠ paramType then
        Node.error (str "Mismatch between signatures in definition and declaration of " ++ func)
          param.token.line
      else
        match param.token.getString with
        | none => Except.error CodeGenFailure.badVariantAccess
        | some paramName =>
          let argName := L.setName taken paramName
          let s1 := s.setArgName func i argName
          match entryBlockAlloca s1 func argName type with
          | none => Except.error CodeGenFailure.nullDereference
          | some (alloc, s2) =>
            let (_, s3) := s2.create Opcode.store [IRValue.argument func i type, alloc] IRType.void
            let s4 := s3.add argName { token := param.token, type := param.type, alloc := alloc }
            parametersPrologue L func token parameters args (i + 1)
              (taken ++ [argName, L.setName (taken ++ [argName]) argName]) s4

/-- The part of `FunctionDefinition::generate` before the body is generated:
the function is looked up or declared, its first block becomes the insertion
point, a scope is pushed, and the parameters are bound. -/
def FunctionDefinition.prologue (L : LLVM) (token : Token) (returnType : TypeID)
    (parameters : List Identifier) (s : CodeGen) : Except CodeGenFailure (Function × CodeGen) :=
  match token.getString with
  | none => Except.error CodeGenFailure.badVariantAccess
  | some name => do
    let (func, s1) ←
      match s.getFunction name with
      | none => FunctionDeclaration.generate L token returnType parameters s
      | some func =>
        if func.blocks ≠ [] then
          Node.error (str "Two functions with the same name: " ++ name) token.line
        else Except.ok (func, s)
    let (bb, s2) := s1.createBlock (some func.name)
    let s3 := s2.SetInsertPoint bb
    let s4 ← parametersPrologue L func.name token parameters (func.args.map (fun a => a.1)) 0 []
      s3.push
    if func.args.length ≠ parameters.length then
      match parameters.get? func.args.length with
      | none => Except.error CodeGenFailure.outOfBounds
      | some param =>
        Node.error
          (str "Mismatch between signatures in definition and declaration of " ++ func.name)
          param.token.line
    else Except.ok (func, s4)

/-- The part of `FunctionDefinition::generate` after the body has been
generated with the value `ret`: the test for the return instruction, the
`pop` and the verifier. -/
def FunctionDefinition.epilogue (L : LLVM) (token : Token) (func : Function)
    (ret : Option IRValue) (s : CodeGen) : Except CodeGenFailure (Option IRValue × CodeGen) :=
  match ret with
  | none => Except.error CodeGenFailure.nullDereference
  | some v =>
    if ¬ v.isReturnInst then
      match token.getString with
      | none => Except.error CodeGenFailure.badVariantAccess
      | some name =>
        Node.error (str "Function " ++ name ++ str " does not end with a return statement")
          token.line
    else
      let s1 := s.pop
      match s1.getFunction func.name with
      | none => Except.error CodeGenFailure.nullDereference
      | some f =>
        if L.verifyFunction f (s1.blocks.filter (fun b => b.parent = some func.name)) then
          match token.getString with
          | none => Except.error CodeGenFailure.badVariantAccess
          | some name =>
            Node.error (str "Function " ++ name ++ str " could not be verified") token.line
        else Except.ok (some (IRValue.function func.name), s1)

mutual

/-- The member functions `generate` of the statement nodes; the result is
none for a null pointer. -/
def Statement.generate (L : LLVM) :
    Statement → CodeGen → Except CodeGenFailure (Option IRValue × CodeGen)
  | Statement.IfStatement _ condition ifBlock elseBlock, s => do
    let (cond, s1) ← Expression.generate condition s
    let (cond1, s2) := s1.create (Opcode.icmp Pred.NE) [cond, IRValue.constInt IRType.bool 0]
      IRType.bool
    match s2.GetInsertBlock with
    | none => Except.error CodeGenFailure.nullDereference
    | some block =>
      let func := s2.getParent block
      let (if_, s3) := s2.createBlock func
      let (cont, s4) := s3.createBlock none
      let (else_, s5) := if elseBlock.isSome then s4.createBlock none else (cont, s4)
      let (_, s6) := s5.create (Opcode.condbr if_ else_) [cond1] IRType.void
      let s7 := s6.SetInsertPoint if_
      let (then_, s8) ← Statement.generate L ifBlock s7.push
      let s9 ← branchUnlessReturn s8.pop then_ cont
      let s10 ←
        match elseBlock with
        | none => Except.ok s9
        | some elseBlock => do
          let s11 ← pushBack s9 func else_
          let s12 := s11.SetInsertPoint else_
          let (elseStmt, s13) ← Statement.generate L elseBlock s12.push
          branchUnlessReturn s13.pop elseStmt cont
      let s14 ← pushBack s10 func cont
      Except.ok (some TRUE, s14.SetInsertPoint cont)
  | Statement.WhileStatement _ condition block, s =>
    match s.GetInsertBlock with
    | none => Except.error CodeGenFailure.nullDereference
    | some insertBlock => do
      let func := s.getParent insertBlock
      let (preCond, s1) := s.createBlock func
      let (_, s2) := s1.create (Opcode.br preCond) [] IRType.void
      let s3 := s2.SetInsertPoint preCond
      let (cond, s4) ← Expression.generate condition s3
      let (cond1, s5) := s4.create (Opcode.icmp Pred.NE) [cond, IRValue.constInt IRType.bool 0]
        IRType.bool
      let (loop, s6) := s5.createBlock func
      let (cont, s7) := s6.createBlock none
      let (_, s8) := s7.create (Opcode.condbr loop cont) [cond1] IRType.void
      let s9 := s8.SetInsertPoint loop
      let (body, s10) ← Statement.generate L block s9.push
      let s11 ← branchUnlessReturn s10.pop body preCond
      let s12 ← pushBack s11 func cont
      Except.ok (some TRUE, s12.SetInsertPoint cont)
  | Statement.ReturnStatement token return_, s =>
    match s.GetInsertBlock with
    | none => Except.error CodeGenFailure.nullDereference
    | some block => do
      let func := s.getParent block
      let (v, s1) ← Expression.generate return_ s
      match func.bind s1.getFunction with
      | none => Except.error CodeGenFailure.nullDereference
      | some f =>
        let (val, s2) ← Node.expand s1 v f.returnType token.line
        let (ret, s3) := s2.create Opcode.ret [val] IRType.void
        Except.ok (some ret, s3)
  | Statement.Assignment identifier expression, s =>
    match identifier.token.getString with
    | none => Except.error CodeGenFailure.badVariantAccess
    | some name => do
      let lhs ← Node.getSymbol s name identifier.token.line
      let (v, s1) ← Expression.generate expression s
      let type ← Node.getType lhs.type identifier.token.line
      let (rhs, s2) ← Node.expand s1 v type identifier.token.line
      let (_, s3) := s2.create Opcode.store [rhs, lhs.alloc] IRType.void
      Except.ok (some rhs, s3)
  | Statement.VariableDefinition identifier expression, s => do
    let func := s.GetInsertBlock.bind s.getParent
    let type ← Node.getType identifier.type identifier.token.line
    match identifier.token.getString with
    | none => Except.error CodeGenFailure.badVariantAccess
    | some name =>
      match func with
      | some f =>
        let (v, s1) ← Expression.generate expression s
        let (init, s2) ← Node.expand s1 v type identifier.token.line
        match entryBlockAlloca s2 f name type with
        | none => Except.error CodeGenFailure.nullDereference
        | some (alloc, s3) =>
          let (_, s4) := s3.create Opcode.store [init, alloc] IRType.void
          Except.ok (some alloc,
            s4.add name { token := identifier.token, type := identifier.type, alloc := alloc })
      | none =>
        let constInit ←
          match identifier.type with
          | TypeID.INT => Except.ok INT_ZERO
          | TypeID.DOUBLE => Except.ok DOUBLE_ZERO
          | TypeID.COMPLEX => Except.ok IRValue.complexZero
          | TypeID.STRING => Except.ok IRValue.stringZero
          | TypeID.NONE =>
            Node.error (str "Unsupported type of global variable " ++ name) identifier.token.line
        let globalName := L.setName s.names name
        let global := IRValue.global globalName type
        let s1 := s.addGlobalVariable globalName type constInit
        let s2 := s1.addGlobal global expression identifier.type
        Except.ok (some global,
          s2.add name { token := identifier.token, type := identifier.type, alloc := global })
  | Statement.FunctionDeclaration token returnType parameters, s => do
    let (func, s1) ← FunctionDeclaration.generate L token returnType parameters s
    Except.ok (some (IRValue.function func.name), s1)
  | Statement.FunctionDefinition token returnType block parameters, s => do
    let (func, s1) ← FunctionDefinition.prologue L token returnType parameters s
    let (ret, s2) ← Statement.generate L block s1
    FunctionDefinition.epilogue L token func ret s2
  | Statement.Sequence _ statements, s => Statement.generateSequence L statements none s

/-- The loop of `Sequence::generate`: `ret` is the value of the statement
generated last, and the loop stops after a `ReturnStatement`. -/
def Statement.generateSequence (L : LLVM) :
    List Statement → Option IRValue → CodeGen → Except CodeGenFailure (Option IRValue × CodeGen)
  | [], ret, s => Except.ok (ret, s)
  | statement :: statements, _, s => do
    let (ret, s1) ← Statement.generate L statement s
    match statement with
    | Statement.ReturnStatement _ _ => Except.ok (ret, s1)
    | _ => Statement.generateSequence L statements ret s1

end

/-- An instance of what is not modelled of LLVM, for running the generator:
a name in use gets a dot and a number, as LLVM names global values, and
every function passes the verifier. -/
def LLVM.accepting : LLVM :=
  { setName := fun taken name =>
      if name ∈ taken then name ++ str "." ++ to_string taken.length else name
    verifyFunction := fun _ _ => false
    setName_free := fun taken name h => by simp [h] }

/-- The failure a result stands for, if any. -/
def failureOf {α : Type} (r : Except CodeGenFailure α) : Option CodeGenFailure :=
  match r with
  | Except.error e => some e
  | Except.ok _ => none

/-- The code generation tests of `src/parser/test.cpp`: the helper `parse`
on the input and `generate` of the statement it returns, in the state the
constructor of the parser leaves. -/
def generateFirst (L : LLVM) (n : Nat) (input : String) :
    Except Failure (Except CodeGenFailure (Option IRValue × CodeGen)) :=
  match parse n input with
  | Except.error e => Except.error e
  | Except.ok stmt => Except.ok (Statement.generate L stmt CodeGen.new)

mutual

/-- The statements for which `generate`, when it returns a value, returns a
return instruction: a return statement, a sequence with a return statement
among its statements, and a sequence without one whose last statement is of
this kind. -/
def Statement.endsWithReturn : Statement → Bool
  | Statement.ReturnStatement _ _ => true
  | Statement.Sequence _ statements => Statement.endsWithReturnList statements
  | _ => false

/-- The same for the statements of a sequence. -/
def Statement.endsWithReturnList : List Statement → Bool
  | [] => false
  | [statement] => Statement.endsWithReturn statement
  | Statement.ReturnStatement _ _ :: _ => true
  | _ :: statements => Statement.endsWithReturnList statements

end

/-- The value of an instruction tree of floating operations, read as exact
arithmetic: a constant has its value, a product, sum, difference or
quotient is computed from its operands, and every other value is read
off `env`. -/
def IRValue.eval (env : IRValue → ℚ) : IRValue → ℚ
  | IRValue.constFP v => v
  | IRValue.inst _ Opcode.fmul [a, b] _ => IRValue.eval env a * IRValue.eval env b
  | IRValue.inst _ Opcode.fadd [a, b] _ => IRValue.eval env a + IRValue.eval env b
  | IRValue.inst _ Opcode.fsub [a, b] _ => IRValue.eval env a - IRValue.eval env b
  | IRValue.inst _ Opcode.fdiv [a, b] _ => IRValue.eval env a / IRValue.eval env b
  | v => env v

/-- The instructions of the block `id`. -/
def CodeGen.instructions (s : CodeGen) (id : Nat) : List IRValue :=
  match s.getBlock id with
  | some b => b.insts
  | none => []

/-- The types of the operands of an instruction. -/
def IRValue.operandTypes : IRValue → List IRType
  | IRValue.inst _ _ operands _ => operands.map IRValue.type
  | _ => []

/-- The instruction is a comparison. -/
def IRValue.isCompare : IRValue → Bool
  | IRValue.inst _ (Opcode.icmp _) _ _ => true
  | IRValue.inst _ (Opcode.fcmp _) _ _ => true
  | _ => false

/-- The numeric types: `intType`, `doubleType` and `complexStruct`. -/
def numericTypes : List IRType := [IRType.int, IRType.double, IRType.complex]

/-- The place of a numeric type in the order INT < DOUBLE < COMPLEX. -/
def numericRank : IRType → Nat
  | IRType.double => 1
  | IRType.complex => 2
  | _ => 0

/-- The tags of the four arithmetic operators. -/
def arithmeticTags : List Tag := [Tag.PLUS, Tag.MINUS, Tag.TIMES, Tag.DIVIDE]

/-- The state in which the body of `fun main : int ()` is generated at the
start of a program: the state after the part of
`FunctionDefinition::generate` that comes before the body. -/
def CodeGen.inMain (L : LLVM) : CodeGen :=
  match FunctionDefinition.prologue L (Token.ofString Tag.MAIN (str "main") 1) TypeID.INT []
      CodeGen.new with
  | Except.ok (_, s) => s
  | Except.error _ => CodeGen.new

/-- The statement that `Parser::block` returns on `input`. -/
def blockOf (input : String) : Option Statement :=
  match Parser.block 100 (Parser.on input) with
  | Except.ok (statement, _) => some statement
  | Except.error _ => none

/-- The instructions of all blocks, block after block. -/
def CodeGen.allInstructions (s : CodeGen) : List IRValue :=
  s.blocks.flatMap (fun b => b.insts)

/-- The opcode of an instruction. -/
def IRValue.opcode? : IRValue → Option Opcode
  | IRValue.inst _ op _ _ => some op
  | _ => none

/-- The operands of an instruction. -/
def IRValue.operands : IRValue → List IRValue
  | IRValue.inst _ _ operands _ => operands
  | _ => []

/-- The instructions that generating the block `input` in `main` puts into
the blocks of `main`; none when the input does not parse or the generation
fails. -/
def instructionsOf (L : LLVM) (input : String) : Option (List IRValue) :=
  match blockOf input with
  | none => none
  | some statement =>
    match Statement.generate L statement (CodeGen.inMain L) with
    | Except.ok (_, s) => some s.allInstructions
    | Except.error _ => none

/-- The loop of `Node::initGlobals` over `SymbolTable::globals()`: the
initializer is generated, widened to the type of the global by `expand` of
the expression node, and stored into the global. -/
def Node.initGlobalsLoop :
    List (IRValue × Expression × TypeID) → CodeGen → Except CodeGenFailure CodeGen
  | [], s => Except.ok s
  | (global, expr, type) :: rest, s => do
    let (v, s1) ← Expression.generate expr s
    let to_ ← Node.getType type expr.token.line
    let (expanded, s2) ← Node.expand s1 v to_ expr.token.line
    let (_, s3) := s2.create Opcode.store [expanded, global] IRType.void
    Node.initGlobalsLoop rest s3

/-- The text of the `CodeGenError` that `Node::initGlobals` throws. -/
def MISSING_MAIN : List Int := str "Missing main() function definiton"

/-- `Node::initGlobals`.  The insertion point becomes the place before the
first instruction of the entry block of `main`; taking
`getEntryBlock().begin()` of a block without instructions is undefined. -/
def Node.initGlobals (s : CodeGen) : Except CodeGenFailure CodeGen :=
  match s.getFunction (str "main") with
  | none => Except.error (CodeGenFailure.codeGenErrorText MISSING_MAIN)
  | some mainFunc =>
    match mainFunc.blocks with
    | [] => Except.error (CodeGenFailure.codeGenErrorText MISSING_MAIN)
    | entry :: _ =>
      match (s.instructions entry).head?.bind IRValue.id? with
      | none => Except.error CodeGenFailure.nullDereference
      | some first =>
        Node.initGlobalsLoop s.registry { s with insertPoint := InsertPoint.before entry first }

/-- How `Parser::parse` can end without a result: with an exception of the
parser or with one of the generator. -/
inductive ParseFailure where
  | parser (e : Failure)
  | generator (e : CodeGenFailure)
  deriving DecidableEq, Repr

/-- The loop of `Parser::parse`: while `peek` is not `END`, `parseNext` and
`generate` of the statement it returns.  The first argument is the allowance
of each call of `parseNext`, the second bounds the number of rounds. -/
def parseLoop (L : LLVM) (n : Nat) : Nat → Parser → CodeGen → Except ParseFailure (Parser × CodeGen)
  | k, p, s =>
    if p.peek.tag ≠ Tag.END then
      match k with
      | 0 => Except.error (ParseFailure.parser Failure.outOfFuel)
      | k + 1 =>
        match Parser.parseNext n p with
        | Except.error e => Except.error (ParseFailure.parser e)
        | Except.ok (stmt, p1) =>
          match Statement.generate L stmt s with
          | Except.error e => Except.error (ParseFailure.generator e)
          | Except.ok (_, s1) => parseLoop L n k p1 s1
    else Except.ok (p, s)

/-- `Parser::parse`. -/
def Parser.parse (L : LLVM) (n : Nat) (p : Parser) (s : CodeGen) :
    Except ParseFailure (Parser × CodeGen) :=
  match parseLoop L n n p s with
  | Except.error e => Except.error e
  | Except.ok (p1, s1) =>
    match Node.initGlobals s1 with
    | Except.error e => Except.error (ParseFailure.generator e)
    | Except.ok s2 => Except.ok (p1, s2)

/-- The body of the `try` block of `main` in `compiler.cpp` on the input: a
lexer on the input, a parser on the lexer, and `parse`; the result is the
state of the generator afterwards. -/
def compile (L : LLVM) (n : Nat) (input : String) : Except ParseFailure CodeGen :=
  match Parser.new (Lexer.new Tag.END (bytes input)) with
  | Except.error e => Except.error (ParseFailure.parser e)
  | Except.ok p =>
    match Parser.parse L n p CodeGen.new with
    | Except.error e => Except.error e
    | Except.ok (_, s) => Except.ok s

/-- The statements of the input generated one after the other, as the loop of
`Parser::parse` does, without the call of `Node::initGlobals` after it. -/
def generateAll (L : LLVM) (n : Nat) (input : String) : Except ParseFailure CodeGen :=
  match Parser.new (Lexer.new Tag.END (bytes input)) with
  | Except.error e => Except.error (ParseFailure.parser e)
  | Except.ok p =>
    match parseLoop L n n p CodeGen.new with
    | Except.error e => Except.error e
    | Except.ok (_, s) => Except.ok s

/-- The state of a result; the state after the static initialisation for a
failure. -/
def CodeGen.of (r : Except ParseFailure CodeGen) : CodeGen :=
  match r with
  | Except.ok s => s
  | Except.error _ => CodeGen.new

/-- The failure of a run of `Parser::parse`, if any. -/
def parseFailureOf {α : Type} (r : Except ParseFailure α) : Option ParseFailure :=
  match r with
  | Except.error e => some e
  | Except.ok _ => none

/-- The value and the pointer operand of a store to a global variable; none
for every other value. -/
def IRValue.globalStore? : IRValue → Option (IRValue × IRValue)
  | IRValue.inst _ Opcode.store [v, IRValue.global name type] _ =>
    some (v, IRValue.global name type)
  | _ => none

/-- The states that the generator can reach from a state by the steps that
generating an expression is made of: a `Create...` call for an instruction
that is not a store to a global variable, the declaration of an intrinsic,
and the creation of a string constant. -/
inductive Emits : CodeGen → CodeGen → Prop where
  | refl (s : CodeGen) : Emits s s
  | create (s s1 : CodeGen) (op : Opcode) (operands : List IRValue) (type : IRType) :
      Emits s s1 → (IRValue.inst s1.nextId op operands type).globalStore? = none →
      Emits s (s1.create op operands type).2
  | declare (s s1 : CodeGen) (name : List Int) (returnType : IRType) (args : List IRType) :
      Emits s s1 → Emits s (s1.getDeclaration name returnType args)
  | string (s s1 : CodeGen) (v : List Int) :
      Emits s s1 → Emits s { s1 with strings := s1.strings ++ [v], nextId := s1.nextId + 1 }

/-- The builder stands before the instruction `i` of the block `b`: the
block holds the instructions `pre` followed by the instructions `old`, the
first of `old` is the instruction `i`, no instruction of `pre` is, and `i`
was created before. -/
def CodeGen.StandsBefore (s : CodeGen) (b i : Nat) (pre old : List IRValue) : Prop :=
  s.insertPoint = InsertPoint.before b i ∧ s.instructions b = pre ++ old ∧
    old.head?.bind IRValue.id? = some i ∧ (∀ x ∈ pre, x.id? ≠ some i) ∧ i < s.nextId

/-- The store `st`, as the value stored and the pointer, is the store of
`Node::initGlobals` for the entry `g` of the registry: the pointer is the
global of the entry, and the value is what `expand` of the initializer
returns for the value of the initializer and the type of the entry, in some
state of the generator. -/
def StoresInitializer (st : IRValue × IRValue) (g : IRValue × Expression × TypeID) : Prop :=
  st.2 = g.1 ∧
    ∃ (s : CodeGen) (v : IRValue) (s1 : CodeGen) (to_ : IRType) (s2 : CodeGen),
      Expression.generate g.2.1 s = Except.ok (v, s1) ∧
      Node.getType g.2.2 g.2.1.token.line = Except.ok to_ ∧
      Node.expand s1 v to_ g.2.1.token.line = Except.ok (st.1, s2)

/-- The test `dynamic_cast<ReturnStatement *>(statement.get())` of
`Sequence::generate`. -/
def Statement.isReturnStatement : Statement → Bool
  | Statement.ReturnStatement _ _ => true
  | _ => false

/-- The statements generated one after the other, each in the state the one
before has left, with no test for a return statement: what "the statements
in order" stands for.  The value is the value of the last statement, or `ret`
when there is none. -/
def Statement.generateEach (L : LLVM) :
    List Statement → Option IRValue → CodeGen → Except CodeGenFailure (Option IRValue × CodeGen)
  | [], ret, s => Except.ok (ret, s)
  | statement :: statements, _, s =>
    match Statement.generate L statement s with
    | Except.error e => Except.error e
    | Except.ok (ret, s1) => Statement.generateEach L statements ret s1

/-- The truth value of a tree of floating comparisons joined by `and` and
`or`, read over exact ordered values: the operands of a comparison have the
values of `eval`, and every other value counts as false. -/
def IRValue.holds (env : IRValue → ℚ) : IRValue → Bool
  | IRValue.inst _ (Opcode.fcmp Pred.OLT) [a, b] _ => decide (a.eval env < b.eval env)
  | IRValue.inst _ (Opcode.fcmp Pred.OLE) [a, b] _ => decide (a.eval env ≤ b.eval env)
  | IRValue.inst _ (Opcode.fcmp Pred.OEQ) [a, b] _ => decide (a.eval env = b.eval env)
  | IRValue.inst _ (Opcode.fcmp Pred.ONE) [a, b] _ => decide (a.eval env ≠ b.eval env)
  | IRValue.inst _ (Opcode.fcmp Pred.OGT) [a, b] _ => decide (a.eval env > b.eval env)
  | IRValue.inst _ (Opcode.fcmp Pred.OGE) [a, b] _ => decide (a.eval env ≥ b.eval env)
  | IRValue.inst _ Opcode.and [a, b] _ => IRValue.holds env a && IRValue.holds env b
  | IRValue.inst _ Opcode.or [a, b] _ => IRValue.holds env a || IRValue.holds env b
  | _ => false

/-- Values for the instructions with the given serial numbers, and 0 for
every other value. -/
def envOf (values : List (Nat × ℚ)) (v : IRValue) : ℚ :=
  match v.id? with
  | some i => (values.lookup i).getD 0
  | none => 0

/-- The statements whose `generate` pushes a scope and pops it: the `if`
statement, the `while` statement and the function definition. -/
def Statement.opensScope : Statement → Bool
  | Statement.IfStatement _ _ _ _ => true
  | Statement.WhileStatement _ _ _ => true
  | Statement.FunctionDefinition _ _ _ _ => true
  | _ => false

/-- The statement that `parseNext` returns on the input; an empty sequence
when it fails. -/
def statementOf (input : String) : Statement :=
  match parse 50 input with
  | Except.ok statement => statement
  | Except.error _ => Statement.Sequence (Token.ofTag Tag.END 0) []

/-- The module has no function named `main` with a body: every function of
that name has no block, and no block has a function of that name as its
parent. -/
def CodeGen.NoMainBody (s : CodeGen) : Prop :=
  (∀ f ∈ s.functions, f.name = str "main" → f.blocks = []) ∧
    ∀ b ∈ s.blocks, b.parent ≠ some (str "main")

mutual

/-- The statement is, or holds, the definition of a function named `main`:
what "the program defines `main`" stands for. -/
def Statement.definesMain : Statement → Bool
  | Statement.IfStatement _ _ ifBlock elseBlock =>
    ifBlock.definesMain ||
      (match elseBlock with
        | none => false
        | some block => block.definesMain)
  | Statement.WhileStatement _ _ block => block.definesMain
  | Statement.FunctionDefinition token _ block _ =>
    decide (token.getString = some (str "main")) || block.definesMain
  | Statement.Sequence _ statements => Statement.anyDefinesMain statements
  | Statement.ReturnStatement _ _ => false
  | Statement.Assignment _ _ => false
  | Statement.VariableDefinition _ _ => false
  | Statement.FunctionDeclaration _ _ _ => false

/-- One of the statements is, or holds, the definition of a function named
`main`. -/
def Statement.anyDefinesMain : List Statement → Bool
  | [] => false
  | statement :: statements => statement.definesMain || Statement.anyDefinesMain statements

end

/-- The statements of the program: what the calls of `parseNext` in the loop
of `Parser::parse` return one after the other, up to the end of the input or
the first failure of the parser. -/
def parsedStatements (n : Nat) : Nat → Parser → List Statement
  | 0, _ => []
  | k + 1, p =>
    if p.peek.tag ≠ Tag.END then
      match Parser.parseNext n p with
      | Except.error _ => []
      | Except.ok (stmt, p1) => stmt :: parsedStatements n k p1
    else []

/-- The weight of `peek` in what the lexer has left to read: one for a
character that starts a token, nothing for a blank, for `EOF` and for the
zero that marks a character as used. -/
def wt (c : Int) : Nat := if 32 < c then 1 else 0

/-- What the lexer has left to read: the bytes of the stream, and `peek` when
it holds a character that starts a token. -/
def Lexer.left (l : Lexer) : Nat := l.stream.length + wt l.peek

/-- What the parser has left to read: what the lexer has left, and the
lookahead token unless it is `END`. -/
def Parser.left (p : Parser) : Nat := p.lexer.left + (if p.peek.tag = Tag.END then 0 else 1)

/-- The result of a parsing function is a result of the program, and not the
bound of the model running out, and on success the parser has less than `b`
left to read. -/
def Halts {α : Type} (r : Result α) (b : Nat) : Prop :=
  match r with
  | Except.error e => e ≠ Failure.outOfFuel
  | Except.ok (_, p) => p.left < b

theorem whitespace_previous (l : Lexer) : l.whitespace.previous = l.previous := rfl

theorem retE_previous_error (r : Except LexerError Token × Lexer) (e : LexerError)
    (h : (Lexer.retE r).1 = Except.error e) : (Lexer.retE r).2.previous = r.2.previous := by
  unfold Lexer.retE at *
  cases h1 : r.1 with
  | ok t => simp [h1, Lexer.ret] at h
  | error e1 => simp [h1]

theorem retE_previous_ok (r : Except LexerError Token × Lexer) (t : Token)
    (h : (Lexer.retE r).1 = Except.ok t) : (Lexer.retE r).2.previous = t.tag := by
  unfold Lexer.retE at *
  cases h1 : r.1 with
  | ok t1 =>
    simp [h1, Lexer.ret] at h ⊢
    rw [h]
  | error e1 => simp [h1] at h

theorem notEquals_previous (l : Lexer) : l.notEquals.2.previous = l.previous := by
  unfold Lexer.notEquals Lexer.readNextIs Lexer.readNext
  cases l.stream <;> simp <;> split <;> simp

theorem quotation_previous (l : Lexer) : l.quotation.2.previous = l.previous := by
  unfold Lexer.quotation
  simp only
  split <;> rfl

/-- A successful call of `getNextToken` stores the tag of the returned token
in `previous`. -/
theorem getNextToken_previous_ok (l : Lexer) (t : Token)
    (h : l.getNextToken.1 = Except.ok t) : l.getNextToken.2.previous = t.tag := by
  unfold Lexer.getNextToken at *
  simp only at *
  split
  · rename_i h1; simp [h1, Lexer.ret] at h ⊢; rw [h]
  · rename_i h1
    simp only [h1] at h
    split
    · rename_i h2; simp [h2, Lexer.ret] at h ⊢; rw [h]
    · rename_i h2
      simp only [h2] at h
      split
      · rename_i h3; simp [h3, Lexer.ret] at h ⊢; rw [h]
      · rename_i h3
        simp only [h3] at h
        split
        · rename_i h4; simp only [h4, if_true] at h; exact retE_previous_ok _ _ h
        · rename_i h4
          simp only [h4] at h
          split
          · rename_i h5; simp [h5, Lexer.ret] at h ⊢; rw [h]
          · rename_i h5
            simp only [h5] at h
            split
            · rename_i h6; simp [h6, Lexer.ret] at h ⊢; rw [h]
            · rename_i h6
              simp only [h6] at h
              split
              · rename_i h7; simp only [h7, if_true] at h; exact retE_previous_ok _ _ h
              · rename_i h7
                simp only [h7] at h
                cases h8 : operators l.whitespace.peek with
                | some tag => simp [h8, Lexer.ret] at h ⊢; rw [← h]
                | none => simp [h8] at h

/-- A call of `getNextToken` that throws leaves `previous` as it was. -/
theorem getNextToken_previous_error (l : Lexer) (e : LexerError)
    (h : l.getNextToken.1 = Except.error e) : l.getNextToken.2.previous = l.previous := by
  unfold Lexer.getNextToken at *
  simp only at *
  split
  · rename_i h1; simp [h1, Lexer.ret] at h
  · rename_i h1
    simp only [h1] at h
    split
    · rename_i h2; simp [h2, Lexer.ret] at h
    · rename_i h2
      simp only [h2] at h
      split
      · rename_i h3; simp [h3, Lexer.ret] at h
      · rename_i h3
        simp only [h3] at h
        split
        · rename_i h4
          simp only [h4, if_true] at h
          rw [retE_previous_error _ _ h, notEquals_previous]; rfl
        · rename_i h4
          simp only [h4] at h
          split
          · rename_i h5; simp [h5, Lexer.ret] at h
          · rename_i h5
            simp only [h5] at h
            split
            · rename_i h6; simp [h6, Lexer.ret] at h
            · rename_i h6
              simp only [h6] at h
              split
              · rename_i h7
                simp only [h7, if_true] at h
                rw [retE_previous_error _ _ h, quotation_previous]; rfl
              · rename_i h7
                simp only [h7] at h
                cases h8 : operators l.whitespace.peek with
                | some tag => simp [h8, Lexer.ret] at h
                | none => rfl

/-- In every state, `previous` is the tag of the token returned last. -/
theorem LastEmitted_previous (tag : Tag) (l : Lexer) (h : Lexer.LastEmitted tag l) :
    l.previous = tag := by
  induction h with
  | emit l t h => exact getNextToken_previous_ok l t h
  | fail l tag e _ h2 ih => rw [getNextToken_previous_error l e h2, ih]

/-! ### The word `i` -/

theorem str_i : str "i" = [105] := by decide

theorem alphaLoop_lone (stream : List Nat) (peek : Int)
    (h : (match stream with
      | [] => true
      | b :: _ => !(isalnum (toChar b) || toChar b == 95)) = true) :
    (alphaLoop stream peek []).2.2 = [peek] := by
  unfold alphaLoop
  cases stream with
  | nil => rfl
  | cons b rest =>
    simp only [Bool.not_eq_true', Bool.or_eq_false_iff, beq_eq_false_iff_ne] at h
    simp [h.1, h.2]

/-- What `getNextToken` returns on the word `i`, in terms of `previous`. -/
theorem getNextToken_atLoneI (l : Lexer) (hi : l.atLoneI = true) :
    l.getNextToken.1 = Except.ok (Token.ofString
      (if l.previous = Tag.INT ∨ l.previous = Tag.DOUBLE ∨ l.previous = Tag.CLOSE_BRACKET ∨
          l.previous = Tag.ID ∨ l.previous = Tag.VERTICAL then Tag.I else Tag.ID)
      (str "i") l.whitespace.line) := by
  unfold Lexer.atLoneI at hi
  simp only [Bool.and_eq_true, beq_iff_eq] at hi
  obtain ⟨hp, hs⟩ := hi
  have hw := alphaLoop_lone l.whitespace.stream l.whitespace.peek hs
  unfold Lexer.getNextToken
  simp only [hp]
  have h1 : isdigit 105 = false := by decide
  have h2 : (isalpha 105 || decide ((105 : Int) = 95)) = true := by decide
  simp only [h1, h2, Bool.false_eq_true, if_false, if_true]
  have h3 : List.lookup ([105] : List Int) reserved = none := by decide
  unfold Lexer.alpha
  simp only [hp] at hw ⊢
  simp only [hw, whitespace_previous, str_i, true_and, h3]
  split
  · rename_i h4; simp [Lexer.ret, h4]
  · rename_i h4; simp [Lexer.ret, h4]

/-- Claim C1.  Whenever the next lexeme is exactly the word `i`, the token
that `getNextToken` returns carries the payload "i"; its tag is `I` if and
only if the tag of the token returned last before it is one of `INT`,
`DOUBLE`, `CLOSE_BRACKET`, `ID`, `VERTICAL`, and it is `ID` otherwise. -/
theorem getNextToken_i_after (tag : Tag) (l : Lexer)
    (hprev : Lexer.LastEmitted tag l) (hi : l.atLoneI = true) :
    ∃ t : Token, l.getNextToken.1 = Except.ok t ∧ t.value = Value.string (str "i") ∧
      (t.tag = Tag.I ↔ (tag = Tag.INT ∨ tag = Tag.DOUBLE ∨ tag = Tag.CLOSE_BRACKET ∨
        tag = Tag.ID ∨ tag = Tag.VERTICAL)) ∧
      (t.tag ≠ Tag.I → t.tag = Tag.ID) := by
  have hp := LastEmitted_previous tag l hprev
  refine ⟨_, getNextToken_atLoneI l hi, rfl, ?_, ?_⟩
  · rw [hp]
    simp only [Token.ofString]
    split
    · simp_all
    · simp_all
  · rw [hp]
    simp only [Token.ofString]
    split
    · simp
    · simp

/-- The test `TEST(lexer_test, complex)`: in "420 + 4.2i" the word `i`
follows a `DOUBLE` and is returned as `I`. -/
theorem getNextToken_i_after_witness :
    Lexer.tags 4 (Lexer.new Tag.END (bytes "420 + 4.2i")) =
      [some Tag.INT, some Tag.PLUS, some Tag.DOUBLE, some Tag.I] ∧
    ∃ t : Token,
      (Lexer.new Tag.END (bytes "420 + 4.2i")).getNextToken.2.getNextToken.2.getNextToken.2.getNextToken.1
        = Except.ok t ∧ t.value = Value.string (str "i") ∧
      (t.tag = Tag.I ↔ (Tag.DOUBLE = Tag.INT ∨ Tag.DOUBLE = Tag.DOUBLE ∨
        Tag.DOUBLE = Tag.CLOSE_BRACKET ∨ Tag.DOUBLE = Tag.ID ∨ Tag.DOUBLE = Tag.VERTICAL)) ∧
      (t.tag ≠ Tag.I → t.tag = Tag.ID) :=
  ⟨by decide,
   getNextToken_i_after Tag.DOUBLE
    (Lexer.new Tag.END (bytes "420 + 4.2i")).getNextToken.2.getNextToken.2.getNextToken.2
    (Lexer.LastEmitted.emit
      (Lexer.new Tag.END (bytes "420 + 4.2i")).getNextToken.2.getNextToken.2 _ rfl)
    (by decide)⟩

/-- Claim C2 (the code departs from it).  The constructor leaves `previous`
uninitialised.  On the input "i", if the storage of `previous` holds the
value of `Tag::INT`, the first token is the imaginary-unit marker `I`, where
the comment on `Lexer::previous` promises an identifier; with a value such
as `Tag::END` it is `ID`. -/
theorem lone_i_first_token :
    (Lexer.new Tag.INT (bytes "i")).getNextToken.1
        = Except.ok (Token.ofString Tag.I (str "i") 1) ∧
      (Lexer.new Tag.END (bytes "i")).getNextToken.1
        = Except.ok (Token.ofString Tag.ID (str "i") 1) := by
  decide

/-! ### Words: keywords, type names and identifiers -/

theorem alphaLoop_word (bs tail : List Nat) (peek : Int) (word : List Int)
    (hbs : ∀ x ∈ bs, isword (toChar x) = true) (htail : isword (peekOf tail) = false) :
    alphaLoop (bs ++ tail) peek word = (tail.tail, peekOf tail, word ++ peek :: bs.map toChar) := by
  induction bs generalizing peek word with
  | nil =>
    unfold alphaLoop
    cases tail with
    | nil => simp [peekOf]
    | cons x rest =>
      simp only [peekOf, isword, Bool.or_eq_false_iff, beq_eq_false_iff_ne] at htail
      simp [peekOf, htail.1, htail.2]
  | cons b bs ih =>
    have hb : isword (toChar b) = true := hbs b (List.mem_cons_self _ _)
    simp only [isword, Bool.or_eq_true, beq_iff_eq] at hb
    unfold alphaLoop
    have hb2 : (isalnum (toChar b) || decide (toChar b = 95)) = true := by
      simpa using hb
    simp only [List.cons_append, hb2, if_true]
    rw [ih _ _ (fun x hx => hbs x (List.mem_cons_of_mem _ hx))]
    simp

theorem isword_of_start (c : Int) (h : (isalpha c || c == 95) = true) :
    isdigit c = false ∧ (isalpha c || decide (c = 95)) = true := by
  simp only [isalpha, isdigit, Bool.or_eq_true, Bool.and_eq_true, decide_eq_true_eq,
    beq_iff_eq, Bool.and_eq_false_iff, decide_eq_false_iff_not] at *
  omega

/-- What `getNextToken` does on a word other than `i`: it reads the whole
word and looks it up in `reserved`. -/
theorem getNextToken_alpha (l : Lexer) (b : Nat) (bs tail : List Nat)
    (hb : (isalpha (toChar b) || toChar b == 95) = true)
    (hbs : ∀ x ∈ bs, isword (toChar x) = true)
    (htail : isword (peekOf tail) = false)
    (hpeek : l.whitespace.peek = toChar b) (hstream : l.whitespace.stream = bs ++ tail)
    (hne : (b :: bs).map toChar ≠ str "i") :
    l.getNextToken =
      Lexer.ret ((match reserved.lookup ((b :: bs).map toChar) with
        | some res => { res with line := l.whitespace.line }
        | none => Token.ofString Tag.ID ((b :: bs).map toChar) l.whitespace.line),
        { previous := l.previous, peek := peekOf tail, stream := tail.tail,
          line := l.whitespace.line }) := by
  obtain ⟨h1, h2⟩ := isword_of_start _ hb
  unfold Lexer.getNextToken
  simp only [hpeek, h1, h2, Bool.false_eq_true, if_false, if_true]
  unfold Lexer.alpha
  simp only [hpeek, hstream, alphaLoop_word bs tail _ _ hbs htail, List.nil_append]
  have hne2 : ¬ (toChar b :: bs.map toChar = str "i" ∧ (l.previous = Tag.INT ∨
      l.previous = Tag.DOUBLE ∨ l.previous = Tag.CLOSE_BRACKET ∨
      l.previous = Tag.ID ∨ l.previous = Tag.VERTICAL)) := by
    intro h
    exact hne (by simpa using h.1)
  simp only [whitespace_previous, List.map_cons]
  simp only [hne2, if_false]
  cases List.lookup (toChar b :: bs.map toChar) reserved <;> rfl

theorem lookup_reserved_none (w : List Int)
    (h : w ∉ [str "int", str "double", str "complex", str "string", str "fun", str "main",
      str "or", str "and", str "not", str "if", str "else", str "while", str "return",
      str "Re", str "Im"]) :
    reserved.lookup w = none := by
  simp only [List.mem_cons, List.mem_singleton, List.not_mem_nil, or_false, not_or] at h
  obtain ⟨h1, h2, h3, h4, h5, h6, h7, h8, h9, h10, h11, h12, h13, h14, h15⟩ := h
  simp only [reserved, List.lookup]
  have e : ∀ k : List Int, w ≠ k → (w == k) = false := fun k hk => by simpa using hk
  rw [e _ h10, e _ h11, e _ h12, e _ h5, e _ h6, e _ h13, e _ h14, e _ h15, e _ h8, e _ h7,
    e _ h9, e _ h1, e _ h2, e _ h3, e _ h4]

/-- Claim C3.  A word over `[A-Za-z0-9_]` that starts with a letter or an
underscore and is not `i` is read whole and returned as one token: `TYPE`
carrying `INT`, `DOUBLE`, `COMPLEX`, `STRING` for `int`, `double`, `complex`,
`string`; the keyword tag for exactly the spellings `fun main or and not if
else while return Re Im`; and otherwise `ID` whose payload is the word.  The
character after the word is left in `peek`. -/
theorem getNextToken_word (l : Lexer) (b : Nat) (bs tail : List Nat)
    (hb : (isalpha (toChar b) || toChar b == 95) = true)
    (hbs : ∀ x ∈ bs, isword (toChar x) = true)
    (htail : isword (peekOf tail) = false)
    (hpeek : l.whitespace.peek = toChar b) (hstream : l.whitespace.stream = bs ++ tail)
    (hne : (b :: bs).map toChar ≠ str "i") :
    ∃ t : Token,
      l.getNextToken = (Except.ok t,
        { previous := t.tag, peek := peekOf tail, stream := tail.tail,
          line := l.whitespace.line }) ∧
      t.line = l.whitespace.line ∧
      ((b :: bs).map toChar = str "int" → t.tag = Tag.TYPE ∧ t.value = Value.type TypeID.INT) ∧
      ((b :: bs).map toChar = str "double" →
        t.tag = Tag.TYPE ∧ t.value = Value.type TypeID.DOUBLE) ∧
      ((b :: bs).map toChar = str "complex" →
        t.tag = Tag.TYPE ∧ t.value = Value.type TypeID.COMPLEX) ∧
      ((b :: bs).map toChar = str "string" →
        t.tag = Tag.TYPE ∧ t.value = Value.type TypeID.STRING) ∧
      ((b :: bs).map toChar = str "fun" → t.tag = Tag.FUN) ∧
      ((b :: bs).map toChar = str "main" → t.tag = Tag.MAIN) ∧
      ((b :: bs).map toChar = str "or" → t.tag = Tag.OR) ∧
      ((b :: bs).map toChar = str "and" → t.tag = Tag.AND) ∧
      ((b :: bs).map toChar = str "not" → t.tag = Tag.NOT) ∧
      ((b :: bs).map toChar = str "if" → t.tag = Tag.IF) ∧
      ((b :: bs).map toChar = str "else" → t.tag = Tag.ELSE) ∧
      ((b :: bs).map toChar = str "while" → t.tag = Tag.WHILE) ∧
      ((b :: bs).map toChar = str "return" → t.tag = Tag.RETURN) ∧
      ((b :: bs).map toChar = str "Re" → t.tag = Tag.RE) ∧
      ((b :: bs).map toChar = str "Im" → t.tag = Tag.IM) ∧
      ((b :: bs).map toChar ∉ [str "int", str "double", str "complex", str "string", str "fun",
          str "main", str "or", str "and", str "not", str "if", str "else", str "while",
          str "return", str "Re", str "Im"] →
        t.tag = Tag.ID ∧ t.value = Value.string ((b :: bs).map toChar)) := by
  have key := getNextToken_alpha l b bs tail hb hbs htail hpeek hstream hne
  generalize (b :: bs).map toChar = w at key ⊢
  refine ⟨_, key, ?_, ?_, ?_, ?_, ?_, ?_, ?_, ?_, ?_, ?_, ?_, ?_, ?_, ?_, ?_, ?_, ?_⟩
  · cases List.lookup w reserved <;> rfl
  all_goals first
    | (intro h; rw [lookup_reserved_none w h]; exact ⟨rfl, rfl⟩)
    | (intro h; subst h; exact ⟨rfl, rfl⟩)
    | (intro h; subst h; rfl)

/-- The tests `TEST(lexer_test, keywords)` and `TEST(lexer_test,
case_sensitivity)`, and the theorem applied to the first word of the latter:
`Int` is an identifier with payload "Int", and a blank is left in `peek`. -/
theorem getNextToken_word_witness :
    Lexer.tags 14 (Lexer.new Tag.END (bytes
      "\n\n\t   int double complex string fun         main or and not if while return Re Im"))
      = [some Tag.TYPE, some Tag.TYPE, some Tag.TYPE, some Tag.TYPE, some Tag.FUN,
        some Tag.MAIN, some Tag.OR, some Tag.AND, some Tag.NOT, some Tag.IF, some Tag.WHILE,
        some Tag.RETURN, some Tag.RE, some Tag.IM] ∧
    Lexer.tags 5 (Lexer.new Tag.END (bytes "Int dOuble re iM RETURN"))
      = [some Tag.ID, some Tag.ID, some Tag.ID, some Tag.ID, some Tag.ID] ∧
    ∃ t : Token,
      (Lexer.new Tag.END (bytes "Int dOuble re iM RETURN")).getNextToken = (Except.ok t,
        { previous := Tag.ID, peek := 32, stream := bytes "dOuble re iM RETURN", line := 1 }) ∧
      t.tag = Tag.ID ∧ t.value = Value.string (str "Int") :=
  ⟨by decide, by decide,
    match getNextToken_word (Lexer.new Tag.END (bytes "Int dOuble re iM RETURN")) 73
      (bytes "nt") (bytes " dOuble re iM RETURN")
      (by decide) (by decide) (by decide) (by decide) (by decide) (by decide) with
    | ⟨t, h, _, _, _, _, _, _, _, _, _, _, _, _, _, _, _, _, hid⟩ =>
      ⟨t, by rw [h, (hid (by decide)).1]; rfl, (hid (by decide)).1, (hid (by decide)).2⟩⟩

/-! ### Relational operators -/

theorem readNextIs_eq (p : Tag) (pk : Int) (st : List Nat) (ln : Int) (h : peekOf st = 61) :
    Lexer.readNextIs { previous := p, peek := pk, stream := st, line := ln } 61 =
      (true, { previous := p, peek := 0, stream := st.tail, line := ln }) := by
  unfold Lexer.readNextIs Lexer.readNext
  cases st with
  | nil => simp [peekOf, EOF] at h
  | cons b rest =>
    simp only [peekOf] at h
    simp [h]

theorem readNextIs_ne (p : Tag) (pk : Int) (st : List Nat) (ln : Int) (h : peekOf st ≠ 61) :
    Lexer.readNextIs { previous := p, peek := pk, stream := st, line := ln } 61 =
      (false, { previous := p, peek := peekOf st, stream := st.tail, line := ln }) := by
  unfold Lexer.readNextIs Lexer.readNext
  cases st with
  | nil => simp [peekOf, EOF]
  | cons b rest =>
    simp only [peekOf] at h
    simp [h, peekOf]

/-- Claim C4.  With `c` the character after the first one of the lexeme
(`EOF` at the end of input): `=`, `!`, `<`, `>` followed by `=` give `EQ`,
`NEQ`, `LE`, `GE` and both characters are consumed; `=`, `<`, `>` followed by
anything else give `ASSIGN`, `LT`, `GT` and `c` stays in `peek`, so that it
starts the next token; `!` followed by anything else throws the error for
`!`, and `c` stays in `peek` as well. -/
theorem getNextToken_relational (l : Lexer) :
    (l.whitespace.peek = 61 →
      (peekOf l.whitespace.stream = 61 → l.getNextToken =
        (Except.ok (Token.ofTag Tag.EQ l.whitespace.line),
          { previous := Tag.EQ, peek := 0, stream := l.whitespace.stream.tail,
            line := l.whitespace.line })) ∧
      (peekOf l.whitespace.stream ≠ 61 → l.getNextToken =
        (Except.ok (Token.ofTag Tag.ASSIGN l.whitespace.line),
          { previous := Tag.ASSIGN, peek := peekOf l.whitespace.stream,
            stream := l.whitespace.stream.tail, line := l.whitespace.line }))) ∧
    (l.whitespace.peek = 33 →
      (peekOf l.whitespace.stream = 61 → l.getNextToken =
        (Except.ok (Token.ofTag Tag.NEQ l.whitespace.line),
          { previous := Tag.NEQ, peek := 0, stream := l.whitespace.stream.tail,
            line := l.whitespace.line })) ∧
      (peekOf l.whitespace.stream ≠ 61 → l.getNextToken =
        (Except.error (LexerError.invalidToken 33 l.whitespace.line),
          { previous := l.previous, peek := peekOf l.whitespace.stream,
            stream := l.whitespace.stream.tail, line := l.whitespace.line }))) ∧
    (l.whitespace.peek = 60 →
      (peekOf l.whitespace.stream = 61 → l.getNextToken =
        (Except.ok (Token.ofTag Tag.LE l.whitespace.line),
          { previous := Tag.LE, peek := 0, stream := l.whitespace.stream.tail,
            line := l.whitespace.line })) ∧
      (peekOf l.whitespace.stream ≠ 61 → l.getNextToken =
        (Except.ok (Token.ofTag Tag.LT l.whitespace.line),
          { previous := Tag.LT, peek := peekOf l.whitespace.stream,
            stream := l.whitespace.stream.tail, line := l.whitespace.line }))) ∧
    (l.whitespace.peek = 62 →
      (peekOf l.whitespace.stream = 61 → l.getNextToken =
        (Except.ok (Token.ofTag Tag.GE l.whitespace.line),
          { previous := Tag.GE, peek := 0, stream := l.whitespace.stream.tail,
            line := l.whitespace.line })) ∧
      (peekOf l.whitespace.stream ≠ 61 → l.getNextToken =
        (Except.ok (Token.ofTag Tag.GT l.whitespace.line),
          { previous := Tag.GT, peek := peekOf l.whitespace.stream,
            stream := l.whitespace.stream.tail, line := l.whitespace.line }))) := by
  have d : isdigit 61 = false ∧ isdigit 33 = false ∧ isdigit 60 = false ∧
      isdigit 62 = false := by decide
  have a : (isalpha 61 || decide ((61 : Int) = 95)) = false ∧
      (isalpha 33 || decide ((33 : Int) = 95)) = false ∧
      (isalpha 60 || decide ((60 : Int) = 95)) = false ∧
      (isalpha 62 || decide ((62 : Int) = 95)) = false := by decide
  refine ⟨fun hp => ⟨fun h => ?_, fun h => ?_⟩, fun hp => ⟨fun h => ?_, fun h => ?_⟩,
    fun hp => ⟨fun h => ?_, fun h => ?_⟩, fun hp => ⟨fun h => ?_, fun h => ?_⟩⟩
  all_goals
    unfold Lexer.getNextToken
    simp only [hp, d, a, Bool.false_eq_true, if_false, if_true]
  · simp [Lexer.equals, readNextIs_eq _ _ _ _ h, Lexer.ret, Token.ofTag, whitespace_previous]
  · simp [Lexer.equals, readNextIs_ne _ _ _ _ h, Lexer.ret, Token.ofTag, whitespace_previous]
  · simp [Lexer.notEquals, readNextIs_eq _ _ _ _ h, Lexer.ret, Lexer.retE, Token.ofTag,
      whitespace_previous]
  · simp [Lexer.notEquals, readNextIs_ne _ _ _ _ h, Lexer.ret, Lexer.retE, Token.ofTag,
      whitespace_previous]
  · simp [Lexer.lessThan, readNextIs_eq _ _ _ _ h, Lexer.ret, Token.ofTag, whitespace_previous]
  · simp [Lexer.lessThan, readNextIs_ne _ _ _ _ h, Lexer.ret, Token.ofTag, whitespace_previous]
  · simp [Lexer.greaterThan, readNextIs_eq _ _ _ _ h, Lexer.ret, Token.ofTag, whitespace_previous]
  · simp [Lexer.greaterThan, readNextIs_ne _ _ _ _ h, Lexer.ret, Token.ofTag, whitespace_previous]

/-- The test `TEST(lexer_test, relational_operators)`, and the theorem applied
to "<1" and to "<=1": after `<` the digit is still in `peek`, after `<=` it
is still in the stream. -/
theorem getNextToken_relational_witness :
    Lexer.tags 6 (Lexer.new Tag.END (bytes "\t==\t !=\t <\t <= > >="))
      = [some Tag.EQ, some Tag.NEQ, some Tag.LT, some Tag.LE, some Tag.GT, some Tag.GE] ∧
    (Lexer.new Tag.END (bytes "<1")).getNextToken =
      (Except.ok (Token.ofTag Tag.LT 1),
        { previous := Tag.LT, peek := 49, stream := [], line := 1 }) ∧
    (Lexer.new Tag.END (bytes "<=1")).getNextToken =
      (Except.ok (Token.ofTag Tag.LE 1),
        { previous := Tag.LE, peek := 0, stream := [49], line := 1 }) :=
  ⟨by decide,
    ((getNextToken_relational (Lexer.new Tag.END (bytes "<1"))).2.2.1 (by decide)).2 (by decide),
    ((getNextToken_relational (Lexer.new Tag.END (bytes "<=1"))).2.2.1 (by decide)).1 (by decide)⟩

/-! ### Numeric literals -/

theorem wrap64_step (v c : Int) :
    wrap64 (wrap64 (wrap64 (v * 10) + c) - 48) = wrap64 (v * 10 + c - 48) := by
  unfold wrap64; omega

theorem wrap64_mul_add (a x : Int) : wrap64 (wrap64 a * 10 + x) = wrap64 (a * 10 + x) := by
  unfold wrap64; omega

theorem wrap64_id (x : Int) (h0 : 0 ≤ x) (h1 : x < 9223372036854775808) : wrap64 x = x := by
  unfold wrap64; omega

theorem digitValue_cast (x : Nat) (h : isdigit (toChar x) = true) :
    ((digitValue x : Nat) : Int) = toChar x - 48 := by
  simp only [isdigit, Bool.and_eq_true, decide_eq_true_eq] at h
  unfold digitValue
  omega

theorem decimal_cons (x : Nat) (xs : List Nat) :
    decimal (x :: xs) = digitValue x * 10 ^ xs.length + decimal xs := by
  unfold decimal
  simp [Nat.ofDigits_append, Nat.ofDigits_singleton]
  ring

theorem wrap64_congr (x y : Int) (h : (x - y) % 18446744073709551616 = 0) :
    wrap64 x = wrap64 y := by
  unfold wrap64; omega

theorem wrap64_mul_add_gen (a k y : Int) : wrap64 (wrap64 a * k + y) = wrap64 (a * k + y) := by
  apply wrap64_congr
  have h : (wrap64 a - a) % 18446744073709551616 = 0 := by unfold wrap64; omega
  have e : wrap64 a * k + y - (a * k + y) = (wrap64 a - a) * k := by ring
  rw [e]
  exact Int.emod_eq_zero_of_dvd (Dvd.dvd.mul_right (Int.dvd_of_emod_eq_zero h) k)

theorem decimal_single (x : Nat) : decimal [x] = digitValue x := by
  simp [decimal]

theorem digitLoop_digits (ds tail : List Nat) (d : Nat) (v : Int) (q : ℚ)
    (hd : isdigit (toChar d) = true) (hds : ∀ x ∈ ds, isdigit (toChar x) = true)
    (htail : isdigit (peekOf tail) = false) :
    digitLoop (ds ++ tail) (toChar d) v q =
      (tail.tail, peekOf tail, wrap64 (v * 10 ^ (ds.length + 1) + decimal (d :: ds)),
        q * 10 ^ (ds.length + 1) + decimal (d :: ds)) := by
  have hc := digitValue_cast d hd
  have hq : ((toChar d : Int) : ℚ) - 48 = (digitValue d : ℚ) := by
    have := congrArg (fun z : Int => (z : ℚ)) hc
    simp only [Int.cast_natCast, Int.cast_sub, Int.cast_ofNat] at this
    rw [this]
  induction ds generalizing d v q with
  | nil =>
    unfold digitLoop
    have e1 : wrap64 (wrap64 (wrap64 (v * 10) + toChar d) - 48)
        = wrap64 (v * 10 ^ ([] : List Nat).length.succ + decimal [d]) := by
      rw [wrap64_step, decimal_single, hc]
      congr 1
      simp only [List.length_nil, Nat.succ_eq_add_one, zero_add, pow_one]
      ring
    have e2 : q * 10 + ((toChar d : Int) : ℚ) - 48
        = q * 10 ^ (([] : List Nat).length + 1) + (decimal [d] : ℚ) := by
      rw [decimal_single, ← hq]
      simp only [List.length_nil, zero_add, pow_one]
      ring
    cases tail with
    | nil => simp only [List.append_nil, peekOf, List.tail_nil, e1, e2]
    | cons x rest =>
      simp only [peekOf] at htail
      simp only [List.nil_append, htail, Bool.false_eq_true, if_false, peekOf, List.tail_cons,
        e1, e2]
  | cons x xs ih =>
    have hx : isdigit (toChar x) = true := hds x (List.mem_cons_self _ _)
    have hxc := digitValue_cast x hx
    have hxq : ((toChar x : Int) : ℚ) - 48 = (digitValue x : ℚ) := by
      have := congrArg (fun z : Int => (z : ℚ)) hxc
      simp only [Int.cast_natCast, Int.cast_sub, Int.cast_ofNat] at this
      rw [this]
    unfold digitLoop
    simp only [List.cons_append, hx, if_true]
    rw [ih x _ _ hx (fun y hy => hds y (List.mem_cons_of_mem _ hy)) hxc hxq]
    rw [wrap64_step, wrap64_mul_add_gen]
    have e1 : (v * 10 + toChar d - 48) * 10 ^ (xs.length + 1) + ((decimal (x :: xs) : Nat) : Int)
        = v * 10 ^ ((x :: xs).length + 1) + ((decimal (d :: x :: xs) : Nat) : Int) := by
      rw [decimal_cons d (x :: xs)]
      push_cast
      rw [hc]
      simp only [List.length_cons]
      ring
    have e2 : (q * 10 + ((toChar d : Int) : ℚ) - 48) * 10 ^ (xs.length + 1)
          + ((decimal (x :: xs) : Nat) : ℚ)
        = q * 10 ^ ((x :: xs).length + 1) + ((decimal (d :: x :: xs) : Nat) : ℚ) := by
      rw [decimal_cons d (x :: xs)]
      push_cast
      rw [← hq]
      simp only [List.length_cons]
      ring
    rw [e1, e2]

theorem readNext_eq (l : Lexer) :
    l.readNext = { l with peek := peekOf l.stream, stream := l.stream.tail } := by
  unfold Lexer.readNext
  cases h : l.stream <;> simp [peekOf]

theorem fractionLoop_stop (stream : List Nat) (peek : Int) (q dv : ℚ)
    (h : isdigit peek = false) : fractionLoop stream peek q dv = (stream, peek, q) := by
  unfold fractionLoop
  simp [h]

theorem fractionLoop_next (st : List Nat) (q dv : ℚ) :
    (match st with
      | [] => ([], EOF, q)
      | b :: rest => fractionLoop rest (toChar b) q dv) = fractionLoop st.tail (peekOf st) q dv := by
  cases st with
  | nil => rw [fractionLoop_stop _ _ _ _ (by decide)]; rfl
  | cons b rest => rfl

theorem fractionLoop_digits (fs tail : List Nat) (q dv : ℚ) (hdv : dv ≠ 0)
    (hfs : ∀ x ∈ fs, isdigit (toChar x) = true) (htail : isdigit (peekOf tail) = false) :
    fractionLoop (fs ++ tail).tail (peekOf (fs ++ tail)) q dv =
      (tail.tail, peekOf tail, q + (decimal fs : ℚ) * 10 / (dv * 10 ^ fs.length)) := by
  induction fs generalizing q dv with
  | nil =>
    rw [List.nil_append, fractionLoop_stop _ _ _ _ htail]
    simp [decimal]
  | cons f fs ih =>
    have hf : isdigit (toChar f) = true := hfs f (List.mem_cons_self _ _)
    have hfc := digitValue_cast f hf
    have hfq : ((toChar f - 48 : Int) : ℚ) = (digitValue f : ℚ) := by
      rw [← hfc]; simp
    unfold fractionLoop
    simp only [List.cons_append, List.tail_cons, peekOf, hf, if_true]
    rw [fractionLoop_next, ih _ _ (mul_ne_zero hdv (by norm_num))
      (fun y hy => hfs y (List.mem_cons_of_mem _ hy)), hfq, decimal_cons]
    congr 2
    push_cast
    simp only [List.length_cons]
    field_simp
    ring

/-- An integer literal: digits followed by a character that is neither a
digit nor `.`. -/
theorem getNextToken_int (l : Lexer) (d : Nat) (ds tail : List Nat)
    (hd : ∀ x ∈ d :: ds, isdigit (toChar x) = true)
    (hpeek : l.whitespace.peek = toChar d) (hstream : l.whitespace.stream = ds ++ tail)
    (htail : isdigit (peekOf tail) = false) (hdot : peekOf tail ≠ 46)
    (hlt : decimal (d :: ds) < 2 ^ 63) :
    l.getNextToken = (Except.ok (Token.ofInt (decimal (d :: ds)) l.whitespace.line),
      { previous := Tag.INT, peek := peekOf tail, stream := tail.tail,
        line := l.whitespace.line }) := by
  have hd0 : isdigit (toChar d) = true := hd d (List.mem_cons_self _ _)
  have hds : ∀ x ∈ ds, isdigit (toChar x) = true := fun x hx => hd x (List.mem_cons_of_mem _ hx)
  unfold Lexer.getNextToken
  simp only [hpeek, hd0, if_true]
  unfold Lexer.digit
  simp only [hpeek, hstream, digitLoop_digits ds tail d 0 0 hd0 hds htail]
  simp only [ne_eq, hdot, not_false_eq_true, if_true, zero_mul, zero_add]
  rw [wrap64_id _ (by positivity) (by exact_mod_cast hlt)]
  rfl

/-- A literal with a fractional part: digits, `.`, and digits (none allowed)
followed by a character that is not a digit. -/
theorem getNextToken_double (l : Lexer) (d : Nat) (ds fs tail : List Nat)
    (hd : ∀ x ∈ d :: ds, isdigit (toChar x) = true)
    (hpeek : l.whitespace.peek = toChar d)
    (hstream : l.whitespace.stream = ds ++ 46 :: (fs ++ tail))
    (hfs : ∀ x ∈ fs, isdigit (toChar x) = true) (htail : isdigit (peekOf tail) = false) :
    l.getNextToken = (Except.ok (Token.ofDouble
        ((decimal (d :: ds) : ℚ) + (decimal fs : ℚ) / 10 ^ fs.length) l.whitespace.line),
      { previous := Tag.DOUBLE, peek := peekOf tail, stream := tail.tail,
        line := l.whitespace.line }) := by
  have hd0 : isdigit (toChar d) = true := hd d (List.mem_cons_self _ _)
  have hds : ∀ x ∈ ds, isdigit (toChar x) = true := fun x hx => hd x (List.mem_cons_of_mem _ hx)
  have h46 : isdigit (peekOf (46 :: (fs ++ tail))) = false := rfl
  unfold Lexer.getNextToken
  simp only [hpeek, hd0, if_true]
  unfold Lexer.digit
  simp only [hpeek, hstream, digitLoop_digits ds (46 :: (fs ++ tail)) d 0 0 hd0 hds h46]
  have e : peekOf (46 :: (fs ++ tail)) = 46 := rfl
  simp only [e, ne_eq, not_true_eq_false, if_false, readNext_eq, List.tail_cons]
  rw [fractionLoop_digits fs tail _ 10 (by norm_num) hfs htail]
  simp only [Lexer.ret, Token.ofDouble, zero_mul, zero_add]
  congr 3
  rw [mul_comm (10 : ℚ) (10 ^ fs.length), mul_div_mul_right _ _ (by norm_num)]

/-- Claim C5.  A lexeme that starts with the digits `d :: ds`.  If it ends
there (the next character is neither a digit nor `.`) and the digits denote
a number below `2^63`, the token is `INT` with that number as value.  If the
digits are followed by `.` and the digits `fs` (none allowed), the token is
`DOUBLE` whose value, in exact arithmetic, is the decimal number
`d ds . fs`.  In both cases the whole lexeme is consumed and the character
after it is left in `peek`. -/
theorem getNextToken_numeric (l : Lexer) (d : Nat) (ds : List Nat)
    (hd : ∀ x ∈ d :: ds, isdigit (toChar x) = true)
    (hpeek : l.whitespace.peek = toChar d) :
    (∀ tail : List Nat, l.whitespace.stream = ds ++ tail →
      isdigit (peekOf tail) = false → peekOf tail ≠ 46 → decimal (d :: ds) < 2 ^ 63 →
      l.getNextToken = (Except.ok (Token.ofInt (decimal (d :: ds)) l.whitespace.line),
        { previous := Tag.INT, peek := peekOf tail, stream := tail.tail,
          line := l.whitespace.line })) ∧
    (∀ fs tail : List Nat, l.whitespace.stream = ds ++ 46 :: (fs ++ tail) →
      (∀ x ∈ fs, isdigit (toChar x) = true) → isdigit (peekOf tail) = false →
      l.getNextToken = (Except.ok (Token.ofDouble
          ((decimal (d :: ds) : ℚ) + (decimal fs : ℚ) / 10 ^ fs.length) l.whitespace.line),
        { previous := Tag.DOUBLE, peek := peekOf tail, stream := tail.tail,
          line := l.whitespace.line })) :=
  ⟨fun tail hstream htail hdot hlt => getNextToken_int l d ds tail hd hpeek hstream htail hdot hlt,
    fun fs tail hstream hfs htail => getNextToken_double l d ds fs tail hd hpeek hstream hfs htail⟩

theorem decimal_420 : decimal (bytes "420") = 420 := by decide

theorem decimal_42 : decimal (bytes "42") = 42 := by decide

/-- The tests `TEST(lexer_test, integer)` and `TEST(lexer_test, double_)`:
"420" gives `INT` 420 and "420.42" gives `DOUBLE` 420.42. -/
theorem getNextToken_numeric_witness :
    (Lexer.new Tag.END (bytes "420")).getNextToken =
      (Except.ok (Token.ofInt 420 1),
        { previous := Tag.INT, peek := EOF, stream := [], line := 1 }) ∧
    ∃ q : ℚ, (Lexer.new Tag.END (bytes "420.42")).getNextToken =
      (Except.ok (Token.ofDouble q 1),
        { previous := Tag.DOUBLE, peek := EOF, stream := [], line := 1 }) ∧ q = 42042 / 100 :=
  ⟨by
    have h := (getNextToken_numeric (Lexer.new Tag.END (bytes "420")) 52 (bytes "20")
      (by decide) (by decide)).1 [] (by decide) (by decide) (by decide)
      (by rw [show (52 :: bytes "20") = bytes "420" from rfl, decimal_420]; norm_num)
    rw [show (52 :: bytes "20") = bytes "420" from rfl, decimal_420] at h
    exact h,
   ⟨_, (getNextToken_numeric (Lexer.new Tag.END (bytes "420.42")) 52 (bytes "20")
      (by decide) (by decide)).2 (bytes "42") [] (by decide) (by decide) (by decide), by
    rw [show (52 :: bytes "20") = bytes "420" from rfl, decimal_420, decimal_42]
    norm_num [bytes]⟩⟩

/-! ### String literals -/

theorem quotationLoop_cons (b : Nat) (rest : List Nat) (line : Int) (literal : List Int) :
    quotationLoop (b :: rest) line literal =
    if toChar b = 10 then quotationLoop rest (line + 1) (literal ++ [10])
    else if toChar b = 92 then
      match rest with
      | [] => ([], EOF, line, literal ++ [EOF])
      | b2 :: rest2 =>
        let peek := if toChar b2 = 110 then 10 else if toChar b2 = 116 then 9 else toChar b2
        if peek ≠ 34 ∧ peek ≠ EOF then quotationLoop rest2 line (literal ++ [peek])
        else (rest2, peek, line, literal ++ [peek])
    else if toChar b ≠ 34 ∧ toChar b ≠ EOF then quotationLoop rest line (literal ++ [toChar b])
    else (rest, toChar b, line, literal ++ [toChar b]) := by
  rw [quotationLoop.eq_def]

theorem quotationLoop_closed (s rest : List Nat) (line : Int) (literal : List Int)
    (hs : ∀ x ∈ s, toChar x ≠ 34 ∧ toChar x ≠ 92 ∧ toChar x ≠ EOF) :
    quotationLoop (s ++ 34 :: rest) line literal =
      (rest, 34, line + newlines s, literal ++ s.map toChar ++ [34]) := by
  induction s generalizing line literal with
  | nil =>
    have h : toChar 34 = 34 := by decide
    simp [quotationLoop_cons, h, newlines]
  | cons x xs ih =>
    obtain ⟨h1, h2, h3⟩ := hs x (List.mem_cons_self _ _)
    have ih2 := fun line literal => ih line literal (fun y hy => hs y (List.mem_cons_of_mem _ hy))
    rw [List.cons_append, quotationLoop_cons]
    by_cases h10 : toChar x = 10
    · simp only [h10, if_true, ih2, newlines, List.countP_cons, beq_self_eq_true, List.map_cons,
        Nat.cast_add, Nat.cast_one]
      simp only [List.append_assoc, List.singleton_append, Prod.mk.injEq, true_and, and_true]
      omega
    · have hb : (toChar x == 10) = false := by simpa using h10
      simp only [h10, h2, h1, h3, if_false, ne_eq, not_false_eq_true, and_self, if_true, ih2,
        newlines, List.countP_cons, hb, List.map_cons]
      simp

theorem quotationLoop_open (s : List Nat) (line : Int) (literal : List Int)
    (hs : ∀ x ∈ s, toChar x ≠ 34 ∧ toChar x ≠ 92) :
    (quotationLoop s line literal).2.1 = EOF := by
  induction s generalizing line literal with
  | nil => simp [quotationLoop]
  | cons x xs ih =>
    obtain ⟨h1, h2⟩ := hs x (List.mem_cons_self _ _)
    have ih2 := fun line literal => ih line literal (fun y hy => hs y (List.mem_cons_of_mem _ hy))
    rw [quotationLoop_cons]
    by_cases h10 : toChar x = 10
    · simp only [h10, if_true, ih2]
    · by_cases h3 : toChar x = EOF
      · rw [if_neg h10, if_neg h2, if_neg (fun h => h.2 h3)]
        exact h3
      · simp only [h10, h2, h1, h3, if_false, ne_eq, not_false_eq_true, and_self, if_true, ih2]

theorem getNextToken_quote (l : Lexer) (hpeek : l.whitespace.peek = 34) :
    l.getNextToken = Lexer.retE (Lexer.quotation { l.whitespace with peek := 0 }) := by
  unfold Lexer.getNextToken
  have h1 : isdigit 34 = false := by decide
  have h2 : (isalpha 34 || decide ((34 : Int) = 95)) = false := by decide
  simp only [hpeek, h1, h2, Bool.false_eq_true, if_false]
  simp

/-- A closed string literal whose text holds no quote, no backslash and no
byte `0xFF`: the token is `STRING` with the text as payload, and `line` has
advanced by the number of newlines in the text. -/
theorem getNextToken_string (l : Lexer) (s rest : List Nat)
    (hpeek : l.whitespace.peek = 34) (hstream : l.whitespace.stream = s ++ 34 :: rest)
    (hs : ∀ x ∈ s, toChar x ≠ 34 ∧ toChar x ≠ 92 ∧ toChar x ≠ EOF) :
    l.getNextToken =
      (Except.ok (Token.ofString Tag.STRING (s.map toChar) (l.whitespace.line + newlines s)),
        { previous := Tag.STRING, peek := 0, stream := rest,
          line := l.whitespace.line + newlines s }) := by
  rw [getNextToken_quote l hpeek]
  unfold Lexer.quotation
  simp only [hstream, quotationLoop_closed s rest _ _ hs]
  have h : ¬ ((34 : Int) = EOF) := by decide
  simp [h, Lexer.retE, Lexer.ret, Token.ofString]

/-- A string literal that is still open at the end of the input throws the
"not closed" error, which names the line of the opening quote. -/
theorem getNextToken_string_open (l : Lexer) (s : List Nat)
    (hpeek : l.whitespace.peek = 34) (hstream : l.whitespace.stream = s)
    (hs : ∀ x ∈ s, toChar x ≠ 34 ∧ toChar x ≠ 92) :
    l.getNextToken.1 = Except.error (LexerError.notClosed l.whitespace.line) := by
  rw [getNextToken_quote l hpeek]
  unfold Lexer.quotation
  simp only [hstream, quotationLoop_open s _ _ hs]
  simp [Lexer.retE]

/-- Claim C6 (the code departs from it).  The byte `0xFF` becomes the `char`
`-1`, which `Lexer::quotation` takes for `EOF`: the closed literal made of
that one byte is reported as not closed, and no `STRING` token is returned.
The test's literal "Hello world!\n" is returned with its text as payload. -/
theorem string_literal_byte_255 :
    (Lexer.new Tag.END [34, 255, 34]).getNextToken =
      (Except.error (LexerError.notClosed 1),
        { previous := Tag.END, peek := EOF, stream := [34], line := 1 }) ∧
    (Lexer.new Tag.END (bytes "\"Hello world!\n\"")).getNextToken.1 =
      Except.ok (Token.ofString Tag.STRING (str "Hello world!\n") 2) := by
  decide

/-! ### Single characters -/

theorem whitespaceLoop_exit (stream : List Nat) (peek line : Int) :
    ¬ ((whitespaceLoop stream peek line).2.1 ≤ 32 ∧ (whitespaceLoop stream peek line).2.1 ≠ EOF) := by
  induction stream generalizing peek line with
  | nil =>
    unfold whitespaceLoop
    split
    · simp
    · assumption
  | cons b rest ih =>
    unfold whitespaceLoop
    split
    · exact ih _ _
    · assumption

theorem whitespaceLoop_stop (stream : List Nat) (peek line : Int)
    (h : ¬ (peek ≤ 32 ∧ peek ≠ EOF)) : whitespaceLoop stream peek line = (stream, peek, line) := by
  unfold whitespaceLoop
  rw [if_neg h]

theorem whitespace_idem (l : Lexer) : l.whitespace.whitespace = l.whitespace := by
  unfold Lexer.whitespace
  simp only
  rw [whitespaceLoop_stop _ _ _ (whitespaceLoop_exit _ _ _)]

/-- Only the state after the blanks matters to `getNextToken`. -/
theorem getNextToken_whitespace (l : Lexer) : l.whitespace.getNextToken = l.getNextToken := by
  unfold Lexer.getNextToken
  rw [whitespace_idem]

theorem getNextToken_congr (l l2 : Lexer) (h : l.whitespace = l2.whitespace) :
    l.getNextToken = l2.getNextToken := by
  rw [← getNextToken_whitespace l, ← getNextToken_whitespace l2, h]

theorem whitespace_nul (p : Tag) (rest : List Nat) (ln : Int) :
    Lexer.whitespace ⟨p, 0, 32 :: rest, ln⟩ = Lexer.whitespace ⟨p, 32, rest, ln⟩ := by
  unfold Lexer.whitespace
  simp only
  rw [whitespaceLoop]
  have h : toChar 32 = 32 := by decide
  simp [EOF, h]

theorem getNextToken_nul (p : Tag) (rest : List Nat) (ln : Int) :
    Lexer.getNextToken ⟨p, 0, 32 :: rest, ln⟩ = Lexer.getNextToken ⟨p, 32, rest, ln⟩ :=
  getNextToken_congr _ _ (whitespace_nul p rest ln)

theorem whitespace_eta (l : Lexer) (c : Int) (st : List Nat)
    (hpeek : l.whitespace.peek = c) (hstream : l.whitespace.stream = st) :
    l.whitespace = ⟨l.previous, c, st, l.whitespace.line⟩ := by
  rw [← hpeek, ← hstream]
  rfl

theorem toChar_ascii (c : Nat) (h : c < 128) : toChar c = (c : Int) := by
  unfold toChar
  have h1 : c % 256 = c := Nat.mod_eq_of_lt (by omega)
  rw [h1, if_pos h]

theorem reserved_keys_length :
    ∀ k ∈ [str "int", str "double", str "complex", str "string", str "fun", str "main",
      str "or", str "and", str "not", str "if", str "else", str "while", str "return",
      str "Re", str "Im"], 2 ≤ k.length := by
  decide

theorem lookup_reserved_single (x : Int) : reserved.lookup [x] = none :=
  lookup_reserved_none _ (fun h => by
    have h2 := reserved_keys_length _ h
    simp at h2)

theorem operators_none (c : Nat)
    (h : c ∉ [43, 45, 42, 47, 61, 60, 62, 58, 59, 123, 125, 40, 41, 124, 44]) :
    operators (c : Int) = none := by
  simp only [List.mem_cons, List.mem_singleton, List.not_mem_nil, or_false, not_or] at h
  have h0 : ¬ ((c : Int) = -1) := by omega
  have e43 : ¬ ((c : Int) = 43) := by omega
  have e45 : ¬ ((c : Int) = 45) := by omega
  have e42 : ¬ ((c : Int) = 42) := by omega
  have e47 : ¬ ((c : Int) = 47) := by omega
  have e61 : ¬ ((c : Int) = 61) := by omega
  have e60 : ¬ ((c : Int) = 60) := by omega
  have e62 : ¬ ((c : Int) = 62) := by omega
  have e58 : ¬ ((c : Int) = 58) := by omega
  have e59 : ¬ ((c : Int) = 59) := by omega
  have e123 : ¬ ((c : Int) = 123) := by omega
  have e125 : ¬ ((c : Int) = 125) := by omega
  have e40 : ¬ ((c : Int) = 40) := by omega
  have e41 : ¬ ((c : Int) = 41) := by omega
  have e124 : ¬ ((c : Int) = 124) := by omega
  have e44 : ¬ ((c : Int) = 44) := by omega
  unfold operators EOF
  rw [if_neg e43, if_neg e45, if_neg e42, if_neg e47, if_neg e61, if_neg e60, if_neg e62, if_neg e58, if_neg e59, if_neg e123, if_neg e125, if_neg e40, if_neg e41, if_neg e124, if_neg e44, if_neg h0]

/-- Claim C7.  A lexeme made of one printable character `c` other than the
blank, the quote and `i`, followed by a space: the result is `ID` with
payload `c` for a letter or the underscore, `INT` with the digit's value for
a digit, the tag `operators[c]` for the characters `+ - * / = < > : ; { } ( )
| ,`, and the error naming `c` and the line for every other character, in
which case `previous` keeps its value.  In every case the next call behaves
like that of a lexer standing on the space after `c`. -/
theorem getNextToken_single (l : Lexer) (c : Nat) (rest : List Nat)
    (hlo : 33 ≤ c) (hhi : c ≤ 126) (hq : c ≠ 34) (hi : c ≠ 105)
    (hpeek : l.whitespace.peek = c) (hstream : l.whitespace.stream = 32 :: rest) :
    ((isalpha (c : Int) || (c : Int) == 95) = true →
      l.getNextToken.1 = Except.ok (Token.ofString Tag.ID [(c : Int)] l.whitespace.line)) ∧
    (isdigit c = true →
      l.getNextToken.1 = Except.ok (Token.ofInt ((c : Int) - 48) l.whitespace.line)) ∧
    (c ∈ [43, 45, 42, 47, 61, 60, 62, 58, 59, 123, 125, 40, 41, 124, 44] →
      ∃ tag, operators c = some tag ∧
        l.getNextToken.1 = Except.ok (Token.ofTag tag l.whitespace.line)) ∧
    ((isalpha (c : Int) || (c : Int) == 95) = false → isdigit c = false →
      c ∉ [43, 45, 42, 47, 61, 60, 62, 58, 59, 123, 125, 40, 41, 124, 44] →
      l.getNextToken.1 = Except.error (LexerError.invalidToken c l.whitespace.line) ∧
      l.getNextToken.2.previous = l.previous) ∧
    l.getNextToken.2.getNextToken =
      Lexer.getNextToken ⟨l.getNextToken.2.previous, 32, rest, l.whitespace.line⟩ := by
  have hl := whitespace_eta l c (32 :: rest) hpeek hstream
  have hc : toChar c = (c : Int) := toChar_ascii c (by omega)
  have hci : (c : Int) ≠ 105 := by omega
  by_cases ha : (isalpha c || (c : Int) == 95) = true
  · have key := getNextToken_alpha l c [] (32 :: rest) (by rw [hc]; exact ha) (by simp) rfl
      (by rw [hc]; exact hpeek) hstream (by rw [str_i, List.map_cons, hc]; simpa using hci)
    rw [List.map_cons, List.map_nil, hc, lookup_reserved_single] at key
    have hd := (isword_of_start _ ha).1
    refine ⟨fun _ => by rw [key]; rfl, fun h => absurd h (by simp [hd]), fun h => ?_,
      fun h => absurd ha (by simp [h]), by rw [key]; rfl⟩
    simp only [List.mem_cons, List.mem_singleton, List.not_mem_nil, or_false] at h
    rcases h with h | h | h | h | h | h | h | h | h | h | h | h | h | h | h <;>
      (subst h; exact absurd ha (by decide))
  · by_cases hd : isdigit c = true
    · have key := getNextToken_int l c [] (32 :: rest) (by simpa [hc] using hd)
        (by rw [hc]; exact hpeek) hstream rfl
        (by show toChar 32 ≠ 46; decide)
        (by
          rw [decimal_single]
          have h1 := digitValue_cast c (by rw [hc]; exact hd)
          simp only [isdigit, Bool.and_eq_true, decide_eq_true_eq] at hd
          have h2 : ((digitValue c : Nat) : Int) < 10 := by rw [h1, hc]; omega
          have h3 : digitValue c < 10 := by exact_mod_cast h2
          calc digitValue c < 10 := h3
            _ < 2 ^ 63 := by norm_num)
      rw [decimal_single, digitValue_cast c (by rw [hc]; exact hd), hc] at key
      refine ⟨fun h => absurd h ha, fun _ => by rw [key], fun h => ?_,
        fun _ h => absurd hd (by simp [h]), by rw [key]; rfl⟩
      simp only [List.mem_cons, List.mem_singleton, List.not_mem_nil, or_false] at h
      rcases h with h | h | h | h | h | h | h | h | h | h | h | h | h | h | h <;>
        (subst h; exact absurd hd (by decide))
    · rw [← getNextToken_whitespace l, hl]
      generalize l.whitespace.line = ln
      generalize l.previous = p
      by_cases ho : c ∈ [43, 45, 42, 47, 61, 60, 62, 58, 59, 123, 125, 40, 41, 124, 44]
      · refine ⟨fun h => absurd h ha, fun h => absurd h hd, fun _ => ?_,
          fun _ _ h => absurd ho h, ?_⟩
        · simp only [List.mem_cons, List.mem_singleton, List.not_mem_nil, or_false] at ho
          rcases ho with h | h | h | h | h | h | h | h | h | h | h | h | h | h | h <;>
            (subst h; exact ⟨_, rfl, rfl⟩)
        · simp only [List.mem_cons, List.mem_singleton, List.not_mem_nil, or_false] at ho
          rcases ho with h | h | h | h | h | h | h | h | h | h | h | h | h | h | h <;>
            (subst h; rfl)
      · by_cases h33 : c = 33
        · subst h33
          exact ⟨fun h => absurd h ha, fun h => absurd h hd, fun h => absurd h ho,
            fun _ _ _ => ⟨rfl, rfl⟩, rfl⟩
        · have hop := operators_none c ho
          simp only [List.mem_cons, List.mem_singleton, List.not_mem_nil, or_false,
            not_or] at ho
          have hw : Lexer.whitespace ⟨p, (c : Int), 32 :: rest, ln⟩
              = ⟨p, (c : Int), 32 :: rest, ln⟩ := by
            unfold Lexer.whitespace
            simp only
            rw [whitespaceLoop_stop _ _ _ (by omega)]
          have hval : Lexer.getNextToken ⟨p, (c : Int), 32 :: rest, ln⟩
              = (Except.error (LexerError.invalidToken c ln), ⟨p, 0, 32 :: rest, ln⟩) := by
            unfold Lexer.getNextToken
            simp only [hw]
            have hd2 : isdigit (c : Int) = false := by simpa using hd
            have ha2 : (isalpha (c : Int) || decide ((c : Int) = 95)) = false := by
              simpa using ha
            have e1 : ¬ ((c : Int) = 61) := by omega
            have e2 : ¬ ((c : Int) = 33) := by omega
            have e3 : ¬ ((c : Int) = 60) := by omega
            have e4 : ¬ ((c : Int) = 62) := by omega
            have e5 : ¬ ((c : Int) = 34) := by omega
            simp only [hd2, ha2, Bool.false_eq_true, if_false, e1, e2, e3, e4, e5, hop]
          rw [hval]
          exact ⟨fun h => absurd h ha, fun h => absurd h hd,
            fun h => absurd h (by
              simp only [List.mem_cons, List.mem_singleton, List.not_mem_nil, or_false, not_or]
              exact ho),
            fun _ _ _ => ⟨rfl, rfl⟩, getNextToken_nul _ rest ln⟩

/-- The test `TEST(lexer_test, single_characters)`: the characters from `!`
to `~` in ascending order, each followed by a space, give what the test
expects (`i` comes after `h` and is `I`); and the theorem applied to "# a":
`#` throws, and the lexer goes on with the space behind it. -/
theorem getNextToken_single_witness :
    Lexer.tags 93 (Lexer.new Tag.END singleCharactersInput)
      = singleCharacters.map singleCharactersExpected ∧
    (Lexer.new Tag.END (bytes "# a")).getNextToken.1
      = Except.error (LexerError.invalidToken 35 1) ∧
    (Lexer.new Tag.END (bytes "# a")).getNextToken.2.getNextToken
      = Lexer.getNextToken ⟨Tag.END, 32, bytes "a", 1⟩ :=
  ⟨by decide,
    ((getNextToken_single (Lexer.new Tag.END (bytes "# a")) 35 (bytes "a") (by decide)
      (by decide) (by decide) (by decide) (by decide) (by decide)).2.2.2.1
        (by decide) (by decide) (by decide)).1,
    (getNextToken_single (Lexer.new Tag.END (bytes "# a")) 35 (bytes "a") (by decide)
      (by decide) (by decide) (by decide) (by decide) (by decide)).2.2.2.2⟩

/-! ### Characters that start no token -/

theorem whitespace_step (l : Lexer) (h : l.peek ≤ 32 ∧ l.peek ≠ EOF) :
    l.whitespace =
      (Lexer.readNext { l with line := if l.peek = 10 then l.line + 1 else l.line }).whitespace := by
  unfold Lexer.whitespace Lexer.readNext
  simp only
  rw [whitespaceLoop]
  rw [if_pos h]
  cases l.stream with
  | nil =>
    simp only
    rw [whitespaceLoop_stop _ _ _ (by decide)]
  | cons b rest => rfl

/-- Claim C8 as the code has it.  A byte from `0x21` to `0x7F` that is not a
digit, a letter, the underscore, the quote, `!` or one of the operator and
punctuation characters makes `getNextToken` throw the error that names the
character and the current line, and only that character is consumed.  A
byte from `0x00` to `0x20` is skipped as a blank: the call gives what it
gives once the byte has been read over, `line` having been incremented
if the byte is a newline. -/
theorem getNextToken_other (l : Lexer) (c : Nat) :
    (33 ≤ c → c ≤ 127 → isdigit (c : Int) = false →
      (isalpha (c : Int) || (c : Int) == 95) = false → c ≠ 34 → c ≠ 33 →
      c ∉ [43, 45, 42, 47, 61, 60, 62, 58, 59, 123, 125, 40, 41, 124, 44] →
      l.whitespace.peek = c →
      l.getNextToken = (Except.error (LexerError.invalidToken c l.whitespace.line),
        { l.whitespace with peek := 0 })) ∧
    (c ≤ 32 → l.peek = c →
      l.getNextToken = (Lexer.readNext
        { l with line := if l.peek = 10 then l.line + 1 else l.line }).getNextToken) := by
  constructor
  · intro hlo hhi hd ha hq h33 ho hpeek
    have hop := operators_none c ho
    simp only [List.mem_cons, List.mem_singleton, List.not_mem_nil, or_false, not_or] at ho
    unfold Lexer.getNextToken
    have ha2 : (isalpha (c : Int) || decide ((c : Int) = 95)) = false := by simpa using ha
    have e1 : ¬ ((c : Int) = 61) := by omega
    have e2 : ¬ ((c : Int) = 33) := by omega
    have e3 : ¬ ((c : Int) = 60) := by omega
    have e4 : ¬ ((c : Int) = 62) := by omega
    have e5 : ¬ ((c : Int) = 34) := by omega
    simp only [hpeek, hd, ha2, Bool.false_eq_true, if_false, e1, e2, e3, e4, e5, hop]
  · intro hle hpeek
    exact getNextToken_congr _ _ (whitespace_step l (by rw [hpeek]; unfold EOF; omega))

/-- The theorem applied to "#" and to the byte `0x01` followed by "a": `#`
throws the error naming `#` (35) and line 1; the control byte is read over,
so the call gives what it gives on "a". -/
theorem getNextToken_other_witness :
    (Lexer.new Tag.END (bytes "#")).getNextToken =
      (Except.error (LexerError.invalidToken 35 1),
        { previous := Tag.END, peek := 0, stream := [], line := 1 }) ∧
    (Lexer.new Tag.END [1, 97]).getNextToken = (Lexer.new Tag.END [97]).getNextToken :=
  ⟨(getNextToken_other (Lexer.new Tag.END (bytes "#")) 35).1 (by decide) (by decide)
      (by decide) (by decide) (by decide) (by decide) (by decide) (by decide),
    (getNextToken_other (Lexer.new Tag.END [1, 97]) 1).2 (by decide) (by decide)⟩

/-- Claim C8 fails as stated: the control character `0x01` and the byte
`0x80` are none of the listed characters, yet `getNextToken` throws no error
on them; it reads over them and returns the identifier that follows. -/
theorem control_byte_skipped :
    (Lexer.new Tag.END [1, 97]).getNextToken.1
        = Except.ok (Token.ofString Tag.ID (str "a") 1) ∧
      (Lexer.new Tag.END [128, 97]).getNextToken.1
        = Except.ok (Token.ofString Tag.ID (str "a") 1) := by
  decide

/-! ### End of input -/

theorem getNextToken_END (p : Tag) (pk ln : Int) (h : pk ≤ 32) :
    Lexer.getNextToken ⟨p, pk, [], ln⟩ =
      (Except.ok (Token.ofTag Tag.END (if pk = 10 then ln + 1 else ln)),
        ⟨Tag.END, 0, [], if pk = 10 then ln + 1 else ln⟩) := by
  by_cases he : pk = EOF
  · subst he; rfl
  · have hw : Lexer.whitespace ⟨p, pk, [], ln⟩ = ⟨p, EOF, [], if pk = 10 then ln + 1 else ln⟩ := by
      unfold Lexer.whitespace
      simp only
      rw [whitespaceLoop, if_pos ⟨h, he⟩]
    unfold Lexer.getNextToken
    rw [hw]
    rfl

/-- Once the stream is used up and `peek` holds `EOF` or the zero that
`getNextToken` leaves behind, every call returns `END`. -/
theorem tags_END (n : Nat) (p : Tag) (pk ln : Int) (h : pk = EOF ∨ pk = 0) :
    Lexer.tags n ⟨p, pk, [], ln⟩ = List.replicate n (some Tag.END) := by
  induction n generalizing p pk ln with
  | zero => rfl
  | succ n ih =>
    have hle : pk ≤ 32 := by rcases h with h | h <;> (subst h; decide)
    unfold Lexer.tags
    simp only [getNextToken_END p pk ln hle, Token.ofTag, List.replicate_succ]
    rw [ih _ _ _ (Or.inr rfl)]

/-- Claim C9 (the code departs from it).  On the empty input the first token
is `END`, and so is every later one.  But the byte `0xFF` becomes the `char`
`-1`, which is the key `EOF` of `operators`: on the two bytes `0xFF` and `a`
the first call returns `END` and the second returns the identifier `a`. -/
theorem END_not_absorbing :
    Lexer.tags 3 (Lexer.new Tag.END []) = [some Tag.END, some Tag.END, some Tag.END] ∧
    Lexer.tags 3 (Lexer.new Tag.END [255, 97]) = [some Tag.END, some Tag.ID, some Tag.END] ∧
    (Lexer.new Tag.END [255, 97]).getNextToken.2.getNextToken.1
      = Except.ok (Token.ofString Tag.ID (str "a") 1) := by
  decide

/-! ### Equality of parse trees is decidable -/

mutual

theorem expression_eq_of_beq : ∀ (a b : Expression), Expression.beq a b = true → a = b
  | Expression.Identifier a, b, h => by
    cases b with
    | Identifier b => simp only [Expression.beq, decide_eq_true_eq] at h; rw [h]
    | _ => simp [Expression.beq] at h
  | Expression.FunctionCall n as, b, h => by
    cases b with
    | FunctionCall m bs =>
      simp only [Expression.beq, Bool.and_eq_true, decide_eq_true_eq] at h
      rw [h.1, expression_eq_of_beqList as bs h.2]
    | _ => simp [Expression.beq] at h
  | Expression.AbsoluteValue t a, b, h => by
    cases b with
    | AbsoluteValue u b =>
      simp only [Expression.beq, Bool.and_eq_true, decide_eq_true_eq] at h
      rw [h.1, expression_eq_of_beq a b h.2]
    | _ => simp [Expression.beq] at h
  | Expression.Complex a t, b, h => by
    cases b with
    | Complex b u =>
      simp only [Expression.beq, Bool.and_eq_true, decide_eq_true_eq] at h
      rw [h.2, expression_eq_of_beq a b h.1]
    | _ => simp [Expression.beq] at h
  | Expression.BinaryOperation a t b, c, h => by
    cases c with
    | BinaryOperation c u d =>
      simp only [Expression.beq, Bool.and_eq_true, decide_eq_true_eq] at h
      rw [h.1.2, expression_eq_of_beq a c h.1.1, expression_eq_of_beq b d h.2]
    | _ => simp [Expression.beq] at h
  | Expression.UnaryOperation t a, b, h => by
    cases b with
    | UnaryOperation u b =>
      simp only [Expression.beq, Bool.and_eq_true, decide_eq_true_eq] at h
      rw [h.1, expression_eq_of_beq a b h.2]
    | _ => simp [Expression.beq] at h
  | Expression.Constant t a, b, h => by
    cases b with
    | Constant u b =>
      simp only [Expression.beq, Bool.and_eq_true, decide_eq_true_eq] at h
      rw [h.1, h.2]
    | _ => simp [Expression.beq] at h
  | Expression.Disjunction a t b, c, h => by
    cases c with
    | Disjunction c u d =>
      simp only [Expression.beq, Bool.and_eq_true, decide_eq_true_eq] at h
      rw [h.1.2, expression_eq_of_beq a c h.1.1, expression_eq_of_beq b d h.2]
    | _ => simp [Expression.beq] at h
  | Expression.Conjunction a t b, c, h => by
    cases c with
    | Conjunction c u d =>
      simp only [Expression.beq, Bool.and_eq_true, decide_eq_true_eq] at h
      rw [h.1.2, expression_eq_of_beq a c h.1.1, expression_eq_of_beq b d h.2]
    | _ => simp [Expression.beq] at h
  | Expression.Negation t a, b, h => by
    cases b with
    | Negation u b =>
      simp only [Expression.beq, Bool.and_eq_true, decide_eq_true_eq] at h
      rw [h.1, expression_eq_of_beq a b h.2]
    | _ => simp [Expression.beq] at h
  | Expression.Relation a t b, c, h => by
    cases c with
    | Relation c u d =>
      simp only [Expression.beq, Bool.and_eq_true, decide_eq_true_eq] at h
      rw [h.1.2, expression_eq_of_beq a c h.1.1, expression_eq_of_beq b d h.2]
    | _ => simp [Expression.beq] at h

theorem expression_eq_of_beqList :
    ∀ (as bs : List Expression), Expression.beqList as bs = true → as = bs
  | [], bs, h => by
    cases bs with
    | nil => rfl
    | cons b bs => simp [Expression.beqList] at h
  | a :: as, bs, h => by
    cases bs with
    | nil => simp [Expression.beqList] at h
    | cons b bs =>
      simp only [Expression.beqList, Bool.and_eq_true] at h
      rw [expression_eq_of_beq a b h.1, expression_eq_of_beqList as bs h.2]

end

mutual

theorem statement_eq_of_beq : ∀ (a b : Statement), Statement.beq a b = true → a = b
  | Statement.IfStatement t c a e, b, h => by
    cases b with
    | IfStatement u d b f =>
      simp only [Statement.beq, Bool.and_eq_true, decide_eq_true_eq] at h
      rw [h.1.1.1, expression_eq_of_beq c d h.1.1.2, statement_eq_of_beq a b h.1.2,
        statement_eq_of_beqOption e f h.2]
    | _ => simp [Statement.beq] at h
  | Statement.WhileStatement t c a, b, h => by
    cases b with
    | WhileStatement u d b =>
      simp only [Statement.beq, Bool.and_eq_true, decide_eq_true_eq] at h
      rw [h.1.1, expression_eq_of_beq c d h.1.2, statement_eq_of_beq a b h.2]
    | _ => simp [Statement.beq] at h
  | Statement.ReturnStatement t a, b, h => by
    cases b with
    | ReturnStatement u b =>
      simp only [Statement.beq, Bool.and_eq_true, decide_eq_true_eq] at h
      rw [h.1, expression_eq_of_beq a b h.2]
    | _ => simp [Statement.beq] at h
  | Statement.Assignment i a, b, h => by
    cases b with
    | Assignment j b =>
      simp only [Statement.beq, Bool.and_eq_true, decide_eq_true_eq] at h
      rw [h.1, expression_eq_of_beq a b h.2]
    | _ => simp [Statement.beq] at h
  | Statement.VariableDefinition i a, b, h => by
    cases b with
    | VariableDefinition j b =>
      simp only [Statement.beq, Bool.and_eq_true, decide_eq_true_eq] at h
      rw [h.1, expression_eq_of_beq a b h.2]
    | _ => simp [Statement.beq] at h
  | Statement.FunctionDeclaration t r ps, b, h => by
    cases b with
    | FunctionDeclaration u s qs =>
      simp only [Statement.beq, Bool.and_eq_true, decide_eq_true_eq] at h
      rw [h.1.1, h.1.2, h.2]
    | _ => simp [Statement.beq] at h
  | Statement.FunctionDefinition t r a ps, b, h => by
    cases b with
    | FunctionDefinition u s b qs =>
      simp only [Statement.beq, Bool.and_eq_true, decide_eq_true_eq] at h
      rw [h.1.1.1, h.1.1.2, statement_eq_of_beq a b h.1.2, h.2]
    | _ => simp [Statement.beq] at h
  | Statement.Sequence t as, b, h => by
    cases b with
    | Sequence u bs =>
      simp only [Statement.beq, Bool.and_eq_true, decide_eq_true_eq] at h
      rw [h.1, statement_eq_of_beqList as bs h.2]
    | _ => simp [Statement.beq] at h

theorem statement_eq_of_beqOption :
    ∀ (a b : Option Statement), Statement.beqOption a b = true → a = b
  | none, b, h => by
    cases b with
    | none => rfl
    | some b => simp [Statement.beqOption] at h
  | some a, b, h => by
    cases b with
    | none => simp [Statement.beqOption] at h
    | some b =>
      simp only [Statement.beqOption] at h
      rw [statement_eq_of_beq a b h]

theorem statement_eq_of_beqList :
    ∀ (as bs : List Statement), Statement.beqList as bs = true → as = bs
  | [], bs, h => by
    cases bs with
    | nil => rfl
    | cons b bs => simp [Statement.beqList] at h
  | a :: as, bs, h => by
    cases bs with
    | nil => simp [Statement.beqList] at h
    | cons b bs =>
      simp only [Statement.beqList, Bool.and_eq_true] at h
      rw [statement_eq_of_beq a b h.1, statement_eq_of_beqList as bs h.2]

end

mutual

theorem expression_beq_refl : ∀ (a : Expression), Expression.beq a a = true
  | Expression.Identifier a => by simp [Expression.beq]
  | Expression.FunctionCall n as => by simp [Expression.beq, expression_beqList_refl as]
  | Expression.AbsoluteValue t a => by simp [Expression.beq, expression_beq_refl a]
  | Expression.Complex a t => by simp [Expression.beq, expression_beq_refl a]
  | Expression.BinaryOperation a t b => by
    simp [Expression.beq, expression_beq_refl a, expression_beq_refl b]
  | Expression.UnaryOperation t a => by simp [Expression.beq, expression_beq_refl a]
  | Expression.Constant t a => by simp [Expression.beq]
  | Expression.Disjunction a t b => by
    simp [Expression.beq, expression_beq_refl a, expression_beq_refl b]
  | Expression.Conjunction a t b => by
    simp [Expression.beq, expression_beq_refl a, expression_beq_refl b]
  | Expression.Negation t a => by simp [Expression.beq, expression_beq_refl a]
  | Expression.Relation a t b => by
    simp [Expression.beq, expression_beq_refl a, expression_beq_refl b]

theorem expression_beqList_refl : ∀ (as : List Expression), Expression.beqList as as = true
  | [] => rfl
  | a :: as => by simp [Expression.beqList, expression_beq_refl a, expression_beqList_refl as]

end

mutual

theorem statement_beq_refl : ∀ (a : Statement), Statement.beq a a = true
  | Statement.IfStatement t c a e => by
    simp [Statement.beq, expression_beq_refl c, statement_beq_refl a,
      statement_beqOption_refl e]
  | Statement.WhileStatement t c a => by
    simp [Statement.beq, expression_beq_refl c, statement_beq_refl a]
  | Statement.ReturnStatement t a => by simp [Statement.beq, expression_beq_refl a]
  | Statement.Assignment i a => by simp [Statement.beq, expression_beq_refl a]
  | Statement.VariableDefinition i a => by simp [Statement.beq, expression_beq_refl a]
  | Statement.FunctionDeclaration t r ps => by simp [Statement.beq]
  | Statement.FunctionDefinition t r a ps => by simp [Statement.beq, statement_beq_refl a]
  | Statement.Sequence t as => by simp [Statement.beq, statement_beqList_refl as]

theorem statement_beqOption_refl : ∀ (a : Option Statement), Statement.beqOption a a = true
  | none => rfl
  | some a => by simp [Statement.beqOption, statement_beq_refl a]

theorem statement_beqList_refl : ∀ (as : List Statement), Statement.beqList as as = true
  | [] => rfl
  | a :: as => by simp [Statement.beqList, statement_beq_refl a, statement_beqList_refl as]

end

instance : DecidableEq Expression := fun a b =>
  if h : Expression.beq a b = true then isTrue (expression_eq_of_beq a b h)
  else isFalse (fun e => h (e ▸ expression_beq_refl a))

instance : DecidableEq Statement := fun a b =>
  if h : Statement.beq a b = true then isTrue (statement_eq_of_beq a b h)
  else isFalse (fun e => h (e ▸ statement_beq_refl a))

/-! ### Arithmetic precedence in the parser -/

theorem binaryLoop_stop (isOp : Tag → Bool) (mk : Expression → Token → Expression → Expression)
    (sub : Parser → Result Expression) (k : Nat) (lhs : Expression) (p : Parser)
    (h : isOp p.peek.tag = false) : binaryLoop isOp mk sub k lhs p = Except.ok (lhs, p) := by
  unfold binaryLoop
  simp [h]

theorem binaryLoop_step (isOp : Tag → Bool) (mk : Expression → Token → Expression → Expression)
    (sub : Parser → Result Expression) (k : Nat) (lhs rhs : Expression) (p p1 p2 : Parser)
    (h : isOp p.peek.tag = true) (hn : p.next = Except.ok p1) (hs : sub p1 = Except.ok (rhs, p2)) :
    binaryLoop isOp mk sub (k + 1) lhs p = binaryLoop isOp mk sub k (mk lhs p.peek rhs) p2 := by
  rw [binaryLoop]
  simp [h, hn, hs]

theorem binaryLoop_mono (isOp : Tag → Bool) (mk : Expression → Token → Expression → Expression)
    (sub sub2 : Parser → Result Expression)
    (hsub : ∀ q r, sub q = Except.ok r → sub2 q = Except.ok r) :
    ∀ (k k2 : Nat) (lhs : Expression) (p : Parser) (r : Expression × Parser), k ≤ k2 →
      binaryLoop isOp mk sub k lhs p = Except.ok r →
      binaryLoop isOp mk sub2 k2 lhs p = Except.ok r := by
  intro k
  induction k with
  | zero =>
    intro k2 lhs p r _ h
    rw [binaryLoop] at h
    by_cases hop : isOp p.peek.tag = true
    · simp [hop] at h
    · have hop2 : isOp p.peek.tag = false := by simpa using hop
      rw [binaryLoop_stop _ _ _ _ _ _ hop2]
      simpa [hop2] using h
  | succ k ih =>
    intro k2 lhs p r hle h
    by_cases hop : isOp p.peek.tag = true
    · obtain ⟨k3, rfl⟩ : ∃ k3, k2 = k3 + 1 := ⟨k2 - 1, by omega⟩
      rw [binaryLoop] at h
      simp only [hop, if_true] at h
      cases hn : p.next with
      | error e => simp [hn] at h
      | ok p1 =>
        simp only [hn] at h
        cases hs : sub p1 with
        | error e => simp [hs] at h
        | ok x =>
          obtain ⟨rhs, p2⟩ := x
          simp only [hs] at h
          rw [binaryLoop_step _ _ _ k3 lhs rhs p p1 p2 hop hn (hsub _ _ hs)]
          exact ih k3 _ _ r (by omega) h
    · have hop2 : isOp p.peek.tag = false := by simpa using hop
      rw [binaryLoop_stop _ _ _ _ _ _ hop2] at h ⊢
      exact h

theorem argumentsLoop_stop (sub : Parser → Result Expression) (name : Option (List Int))
    (k : Nat) (args : List Expression) (p : Parser) (h : p.peek.tag = Tag.CLOSE_BRACKET) :
    argumentsLoop sub name k args p = Except.ok (args, p) := by
  unfold argumentsLoop
  simp [h]

theorem argumentsLoop_mono (sub sub2 : Parser → Result Expression) (name : Option (List Int))
    (hsub : ∀ q r, sub q = Except.ok r → sub2 q = Except.ok r) :
    ∀ (k k2 : Nat) (args : List Expression) (p : Parser) (r : List Expression × Parser), k ≤ k2 →
      argumentsLoop sub name k args p = Except.ok r →
      argumentsLoop sub2 name k2 args p = Except.ok r := by
  intro k
  induction k with
  | zero =>
    intro k2 args p r _ h
    by_cases hc : p.peek.tag = Tag.CLOSE_BRACKET
    · rw [argumentsLoop_stop _ _ _ _ _ hc] at h ⊢
      exact h
    · rw [argumentsLoop] at h
      simp [hc] at h
  | succ k ih =>
    intro k2 args p r hle h
    by_cases hc : p.peek.tag ≠ Tag.CLOSE_BRACKET
    · obtain ⟨k3, rfl⟩ : ∃ k3, k2 = k3 + 1 := ⟨k2 - 1, by omega⟩
      rw [argumentsLoop, if_pos hc] at h ⊢
      cases hs : sub p with
      | error e => simp [hs] at h
      | ok x =>
        obtain ⟨arg, p1⟩ := x
        simp only [hs] at h
        simp only [hsub _ _ hs]
        by_cases hcomma : p1.peek.tag = Tag.COMMA
        · simp only [hcomma, if_true] at h ⊢
          cases hn : p1.next with
          | error e => simp [hn] at h
          | ok p2 =>
            simp only [hn] at h ⊢
            by_cases hcb : p2.peek.tag = Tag.CLOSE_BRACKET
            · simp only [hcb, if_true] at h ⊢
              cases name with
              | none => simp at h
              | some s =>
                simp only at h ⊢
                exact ih k3 _ _ r (by omega) h
            · simp only [hcb, if_false] at h ⊢
              exact ih k3 _ _ r (by omega) h
        · simp only [hcomma, if_false] at h ⊢
          exact ih k3 _ _ r (by omega) h
    · have hc2 : p.peek.tag = Tag.CLOSE_BRACKET := by simpa using hc
      rw [argumentsLoop_stop _ _ _ _ _ hc2] at h ⊢
      exact h

/-- More fuel does not change a successful result of the expression parsers. -/
theorem expression_fuel_succ (n : Nat) :
    (∀ p r, Parser.expression n p = Except.ok r → Parser.expression (n + 1) p = Except.ok r) ∧
    (∀ p r, Parser.term n p = Except.ok r → Parser.term (n + 1) p = Except.ok r) ∧
    (∀ p r, Parser.factor n p = Except.ok r → Parser.factor (n + 1) p = Except.ok r) ∧
    (∀ p r, Parser.unary n p = Except.ok r → Parser.unary (n + 1) p = Except.ok r) ∧
    (∀ p r, Parser.functionCall n p = Except.ok r →
      Parser.functionCall (n + 1) p = Except.ok r) := by
  induction n with
  | zero =>
    refine ⟨?_, ?_, ?_, ?_, ?_⟩ <;> intro p r h
    · simp [Parser.expression] at h
    · simp [Parser.term] at h
    · simp [Parser.factor] at h
    · simp [Parser.unary] at h
    · simp [Parser.functionCall] at h
  | succ n ih =>
    obtain ⟨ihE, ihT, ihF, ihU, ihC⟩ := ih
    refine ⟨?_, ?_, ?_, ?_, ?_⟩ <;> intro p r h
    · rw [Parser.expression] at h ⊢
      cases ht : Parser.term n p with
      | error e => simp [ht] at h
      | ok x =>
        obtain ⟨lhs, p1⟩ := x
        simp only [ht] at h
        simp only [ihT _ _ ht]
        exact binaryLoop_mono _ _ _ _ (fun q r hq => ihT q r hq) n (n + 1) lhs p1 r (by omega) h
    · rw [Parser.term] at h ⊢
      cases ht : Parser.factor n p with
      | error e => simp [ht] at h
      | ok x =>
        obtain ⟨lhs, p1⟩ := x
        simp only [ht] at h
        simp only [ihF _ _ ht]
        exact binaryLoop_mono _ _ _ _ (fun q r hq => ihF q r hq) n (n + 1) lhs p1 r (by omega) h
    · rw [Parser.factor] at h ⊢
      by_cases hs : p.peek.tag = Tag.MINUS ∨ p.peek.tag = Tag.PLUS
      · rw [if_pos hs] at h ⊢
        cases hn : p.next with
        | error e => simp [hn] at h
        | ok p1 =>
          simp only [hn] at h ⊢
          cases hu : Parser.unary n p1 with
          | error e => simp [hu] at h
          | ok x =>
            simp only [hu] at h
            simp only [ihU _ _ hu]
            exact h
      · rw [if_neg hs] at h ⊢
        exact ihU _ _ h
    · rw [Parser.unary] at h ⊢
      have key : ∀ (s1 s2 : Result Expression),
          (∀ x, s1 = Except.ok x → s2 = Except.ok x) →
          (match s1 with
            | Except.error e => Except.error e
            | Except.ok (e, p1) =>
              if p1.peek.tag = Tag.I then
                match p1.next with
                | Except.error e2 => Except.error e2
                | Except.ok p2 => Except.ok (Expression.Complex e p1.peek, p2)
              else Except.ok (e, p1)) = Except.ok r →
          (match s2 with
            | Except.error e => Except.error e
            | Except.ok (e, p1) =>
              if p1.peek.tag = Tag.I then
                match p1.next with
                | Except.error e2 => Except.error e2
                | Except.ok p2 => Except.ok (Expression.Complex e p1.peek, p2)
              else Except.ok (e, p1)) = Except.ok r := by
        intro s1 s2 hs hm
        cases h1 : s1 with
        | error e => simp [h1] at hm
        | ok x => rw [hs x h1]; rw [h1] at hm; exact hm
      refine key _ _ ?_ h
      intro x hx
      cases htag : p.peek.tag <;> simp only [htag] at hx ⊢ <;> try exact hx
      all_goals first
        | exact ihC _ _ hx
        | (cases hn : p.next with
            | error e => simp [hn] at hx
            | ok p1 =>
              simp only [hn] at hx ⊢
              cases he : Parser.expression n p1 with
              | error e => simp [he] at hx
              | ok y =>
                simp only [he] at hx
                simp only [ihE _ _ he]
                exact hx)
    · rw [Parser.functionCall] at h ⊢
      cases hn : p.next with
      | error e => simp [hn] at h
      | ok p1 =>
        simp only [hn] at h ⊢
        by_cases hb : p1.peek.tag ≠ Tag.OPEN_BRACKET
        · rw [if_pos hb] at h ⊢
          exact h
        · rw [if_neg hb] at h ⊢
          cases hn2 : p1.next with
          | error e => simp [hn2] at h
          | ok p2 =>
            simp only [hn2] at h ⊢
            cases ha : argumentsLoop (fun q => Parser.expression n q)
                (Identifier.mk p.peek TypeID.NONE).token.getString n [] p2 with
            | error e => simp [ha] at h
            | ok y =>
              simp only [ha] at h
              simp only [argumentsLoop_mono _ _ _ (fun q r hq => ihE q r hq) n (n + 1) [] p2 y
                (by omega) ha]
              exact h

theorem expression_fuel_le (n m : Nat) (h : n ≤ m) :
    (∀ p r, Parser.expression n p = Except.ok r → Parser.expression m p = Except.ok r) ∧
    (∀ p r, Parser.term n p = Except.ok r → Parser.term m p = Except.ok r) ∧
    (∀ p r, Parser.factor n p = Except.ok r → Parser.factor m p = Except.ok r) ∧
    (∀ p r, Parser.unary n p = Except.ok r → Parser.unary m p = Except.ok r) ∧
    (∀ p r, Parser.functionCall n p = Except.ok r → Parser.functionCall m p = Except.ok r) := by
  induction m with
  | zero =>
    have h0 : n = 0 := by omega
    subst h0
    exact ⟨fun _ _ h => h, fun _ _ h => h, fun _ _ h => h, fun _ _ h => h, fun _ _ h => h⟩
  | succ m ih =>
    by_cases hn : n = m + 1
    · subst hn
      exact ⟨fun _ _ h => h, fun _ _ h => h, fun _ _ h => h, fun _ _ h => h, fun _ _ h => h⟩
    · obtain ⟨h1, h2, h3, h4, h5⟩ := ih (by omega)
      obtain ⟨s1, s2, s3, s4, s5⟩ := expression_fuel_succ m
      exact ⟨fun p r h => s1 p r (h1 p r h), fun p r h => s2 p r (h2 p r h),
        fun p r h => s3 p r (h3 p r h), fun p r h => s4 p r (h4 p r h),
        fun p r h => s5 p r (h5 p r h)⟩

theorem expression_eq (n : Nat) (p p1 : Parser) (lhs : Expression)
    (h : Parser.term n p = Except.ok (lhs, p1)) :
    Parser.expression (n + 1) p =
      binaryLoop (fun t => t = Tag.PLUS || t = Tag.MINUS) Expression.BinaryOperation
        (fun q => Parser.term n q) n lhs p1 := by
  rw [Parser.expression]
  simp [h]

theorem term_eq (n : Nat) (p p1 : Parser) (lhs : Expression)
    (h : Parser.factor n p = Except.ok (lhs, p1)) :
    Parser.term (n + 1) p =
      binaryLoop (fun t => t = Tag.TIMES || t = Tag.DIVIDE) Expression.BinaryOperation
        (fun q => Parser.factor n q) n lhs p1 := by
  rw [Parser.term]
  simp [h]

/-- A factor that is not followed by `*` or `/` is a whole term. -/
theorem term_single (n : Nat) (p p1 : Parser) (a : Expression)
    (h : Parser.factor n p = Except.ok (a, p1)) (hm : p1.atMul = false) :
    Parser.term (n + 1) p = Except.ok (a, p1) := by
  rw [term_eq n p p1 a h, binaryLoop_stop _ _ _ _ _ _ hm]

/-- The term `b op c` of two factors. -/
theorem term_pair (n : Nat) (p p1 q1 p2 : Parser) (b c : Expression)
    (hb : Parser.factor (n + 1) p = Except.ok (b, p1)) (hm : p1.atMul = true)
    (hn : p1.next = Except.ok q1) (hc : Parser.factor (n + 1) q1 = Except.ok (c, p2))
    (hm2 : p2.atMul = false) :
    Parser.term (n + 2) p = Except.ok (Expression.BinaryOperation b p1.peek c, p2) := by
  rw [term_eq (n + 1) p p1 b hb, binaryLoop_step _ _ _ n b c p1 q1 p2 hm hn hc,
    binaryLoop_stop _ _ _ _ _ _ hm2]

theorem atMul_of_atAdd (p : Parser) (h : p.atAdd = true) : p.atMul = false := by
  unfold Parser.atAdd at h
  unfold Parser.atMul
  simp only [Bool.or_eq_true, decide_eq_true_eq] at h
  rcases h with h | h <;> simp [h]

/-- The precedence facts with the fuel each parser needs spelled out. -/
theorem precedence_exact_fuel (n : Nat) :
    (∀ (p p1 q1 p2 q2 p3 : Parser) (a b c : Expression),
      Parser.factor (n + 2) p = Except.ok (a, p1) → p1.atAdd = true →
      p1.next = Except.ok q1 → Parser.factor (n + 2) q1 = Except.ok (b, p2) →
      p2.atMul = true → p2.next = Except.ok q2 →
      Parser.factor (n + 2) q2 = Except.ok (c, p3) → p3.atMul = false → p3.atAdd = false →
      Parser.expression (n + 4) p = Except.ok
        (Expression.BinaryOperation a p1.peek (Expression.BinaryOperation b p2.peek c), p3)) ∧
    (∀ (p p1 q1 p2 q2 p3 : Parser) (a b c : Expression),
      Parser.factor (n + 2) p = Except.ok (a, p1) → p1.atMul = true →
      p1.next = Except.ok q1 → Parser.factor (n + 2) q1 = Except.ok (b, p2) →
      p2.atAdd = true → p2.next = Except.ok q2 →
      Parser.factor (n + 2) q2 = Except.ok (c, p3) → p3.atMul = false → p3.atAdd = false →
      Parser.expression (n + 4) p = Except.ok
        (Expression.BinaryOperation (Expression.BinaryOperation a p1.peek b) p2.peek c, p3)) ∧
    (∀ (p p1 q1 p2 q2 p3 : Parser) (a b c : Expression),
      Parser.factor (n + 2) p = Except.ok (a, p1) → p1.atAdd = true →
      p1.next = Except.ok q1 → Parser.factor (n + 2) q1 = Except.ok (b, p2) →
      p2.atAdd = true → p2.next = Except.ok q2 →
      Parser.factor (n + 2) q2 = Except.ok (c, p3) → p3.atMul = false → p3.atAdd = false →
      Parser.expression (n + 4) p = Except.ok
        (Expression.BinaryOperation (Expression.BinaryOperation a p1.peek b) p2.peek c, p3)) ∧
    (∀ (p p1 q1 p2 q2 p3 : Parser) (a b c : Expression),
      Parser.factor (n + 2) p = Except.ok (a, p1) → p1.atMul = true →
      p1.next = Except.ok q1 → Parser.factor (n + 2) q1 = Except.ok (b, p2) →
      p2.atMul = true → p2.next = Except.ok q2 →
      Parser.factor (n + 2) q2 = Except.ok (c, p3) → p3.atMul = false →
      Parser.term (n + 3) p = Except.ok
        (Expression.BinaryOperation (Expression.BinaryOperation a p1.peek b) p2.peek c, p3)) ∧
    (∀ (p q p1 : Parser) (a : Expression),
      p.atAdd = true → p.next = Except.ok q → Parser.unary n q = Except.ok (a, p1) →
      Parser.factor (n + 1) p = Except.ok (Expression.UnaryOperation p.peek a, p1)) ∧
    (∀ (p q p1 p2 : Parser) (e : Expression),
      p.peek.tag = Tag.OPEN_BRACKET → p.next = Except.ok q →
      Parser.expression n q = Except.ok (e, p1) → p1.peek.tag = Tag.CLOSE_BRACKET →
      p1.next = Except.ok p2 → p2.peek.tag ≠ Tag.I →
      Parser.unary (n + 1) p = Except.ok (e, p2)) ∧
    (∀ (p q p1 p2 : Parser) (e : Expression),
      p.peek.tag = Tag.VERTICAL → p.next = Except.ok q →
      Parser.expression n q = Except.ok (e, p1) → p1.peek.tag = Tag.VERTICAL →
      p1.next = Except.ok p2 → p2.peek.tag ≠ Tag.I →
      Parser.unary (n + 1) p = Except.ok (Expression.AbsoluteValue p.peek e, p2)) := by
  refine ⟨?_, ?_, ?_, ?_, ?_, ?_, ?_⟩
  · intro p p1 q1 p2 q2 p3 a b c ha h1 hn1 hb h2 hn2 hc hm3 ha3
    have t1 := term_single (n + 2) p p1 a ha (atMul_of_atAdd p1 h1)
    have t2 := term_pair (n + 1) q1 p2 q2 p3 b c hb h2 hn2 hc hm3
    rw [expression_eq (n + 3) p p1 a t1, binaryLoop_step _ _ _ (n + 2) a _ p1 q1 p3 h1 hn1 t2,
      binaryLoop_stop _ _ _ _ _ _ ha3]
  · intro p p1 q1 p2 q2 p3 a b c ha h1 hn1 hb h2 hn2 hc hm3 ha3
    have t1 := term_pair (n + 1) p p1 q1 p2 a b ha h1 hn1 hb (atMul_of_atAdd p2 h2)
    have t2 := term_single (n + 2) q2 p3 c hc hm3
    rw [expression_eq (n + 3) p p2 _ t1, binaryLoop_step _ _ _ (n + 2) _ c p2 q2 p3 h2 hn2 t2,
      binaryLoop_stop _ _ _ _ _ _ ha3]
  · intro p p1 q1 p2 q2 p3 a b c ha h1 hn1 hb h2 hn2 hc hm3 ha3
    have t1 := term_single (n + 2) p p1 a ha (atMul_of_atAdd p1 h1)
    have t2 := term_single (n + 2) q1 p2 b hb (atMul_of_atAdd p2 h2)
    have t3 := term_single (n + 2) q2 p3 c hc hm3
    rw [expression_eq (n + 3) p p1 a t1, binaryLoop_step _ _ _ (n + 2) a b p1 q1 p2 h1 hn1 t2,
      binaryLoop_step _ _ _ (n + 1) _ c p2 q2 p3 h2 hn2 t3, binaryLoop_stop _ _ _ _ _ _ ha3]
  · intro p p1 q1 p2 q2 p3 a b c ha h1 hn1 hb h2 hn2 hc hm3
    rw [term_eq (n + 2) p p1 a ha, binaryLoop_step _ _ _ (n + 1) a b p1 q1 p2 h1 hn1 hb,
      binaryLoop_step _ _ _ n _ c p2 q2 p3 h2 hn2 hc, binaryLoop_stop _ _ _ _ _ _ hm3]
  · intro p q p1 a h hn hu
    unfold Parser.atAdd at h
    simp only [Bool.or_eq_true, decide_eq_true_eq] at h
    rw [Parser.factor]
    simp [h.symm, hn, hu]
  · intro p q p1 p2 e hp hn he hc hn2 hi
    rw [Parser.unary]
    simp [hp, hn, he, Parser.matchTag, hc, hn2, hi]
  · intro p q p1 p2 e hp hn he hc hn2 hi
    rw [Parser.unary]
    simp [hp, hn, he, Parser.matchTag, hc, hn2, hi]

/-- Claim C10.  Precedence and associativity of the arithmetic operators, in
terms of what the operand parsers return when given the fuel `n`; the
results hold for every fuel `m` from `n + 4` (or `n + 1`) on.  With `a`,
`b`, `c` the factors that `factor` parses at the three operand positions:
(1) `a + b * c` is `a + (b * c)` and (2) `a * b + c` is
`(a * b) + c`, so `*` and `/` bind tighter than `+` and `-`; (3) `a - b - c`
is `(a - b) - c` and (4) `a / b / c` is `(a / b) / c`, so operators of equal
precedence associate to the left; (5) a prefix `+` or `-` applies to the
following `unary` only, and the result is a factor; (6) `(` `e` `)` is the
full expression `e` between the brackets; (7) `|` `e` `|` is
`AbsoluteValue` of the full expression between the bars. -/
theorem parser_precedence (n : Nat) :
    (∀ (p p1 q1 p2 q2 p3 : Parser) (a b c : Expression),
      Parser.factor n p = Except.ok (a, p1) → p1.atAdd = true →
      p1.next = Except.ok q1 → Parser.factor n q1 = Except.ok (b, p2) →
      p2.atMul = true → p2.next = Except.ok q2 →
      Parser.factor n q2 = Except.ok (c, p3) → p3.atMul = false → p3.atAdd = false →
      ∀ m, n + 4 ≤ m → Parser.expression m p = Except.ok
        (Expression.BinaryOperation a p1.peek (Expression.BinaryOperation b p2.peek c), p3)) ∧
    (∀ (p p1 q1 p2 q2 p3 : Parser) (a b c : Expression),
      Parser.factor n p = Except.ok (a, p1) → p1.atMul = true →
      p1.next = Except.ok q1 → Parser.factor n q1 = Except.ok (b, p2) →
      p2.atAdd = true → p2.next = Except.ok q2 →
      Parser.factor n q2 = Except.ok (c, p3) → p3.atMul = false → p3.atAdd = false →
      ∀ m, n + 4 ≤ m → Parser.expression m p = Except.ok
        (Expression.BinaryOperation (Expression.BinaryOperation a p1.peek b) p2.peek c, p3)) ∧
    (∀ (p p1 q1 p2 q2 p3 : Parser) (a b c : Expression),
      Parser.factor n p = Except.ok (a, p1) → p1.atAdd = true →
      p1.next = Except.ok q1 → Parser.factor n q1 = Except.ok (b, p2) →
      p2.atAdd = true → p2.next = Except.ok q2 →
      Parser.factor n q2 = Except.ok (c, p3) → p3.atMul = false → p3.atAdd = false →
      ∀ m, n + 4 ≤ m → Parser.expression m p = Except.ok
        (Expression.BinaryOperation (Expression.BinaryOperation a p1.peek b) p2.peek c, p3)) ∧
    (∀ (p p1 q1 p2 q2 p3 : Parser) (a b c : Expression),
      Parser.factor n p = Except.ok (a, p1) → p1.atMul = true →
      p1.next = Except.ok q1 → Parser.factor n q1 = Except.ok (b, p2) →
      p2.atMul = true → p2.next = Except.ok q2 →
      Parser.factor n q2 = Except.ok (c, p3) → p3.atMul = false →
      ∀ m, n + 4 ≤ m → Parser.term m p = Except.ok
        (Expression.BinaryOperation (Expression.BinaryOperation a p1.peek b) p2.peek c, p3)) ∧
    (∀ (p q p1 : Parser) (a : Expression),
      p.atAdd = true → p.next = Except.ok q → Parser.unary n q = Except.ok (a, p1) →
      ∀ m, n + 1 ≤ m →
        Parser.factor m p = Except.ok (Expression.UnaryOperation p.peek a, p1)) ∧
    (∀ (p q p1 p2 : Parser) (e : Expression),
      p.peek.tag = Tag.OPEN_BRACKET → p.next = Except.ok q →
      Parser.expression n q = Except.ok (e, p1) → p1.peek.tag = Tag.CLOSE_BRACKET →
      p1.next = Except.ok p2 → p2.peek.tag ≠ Tag.I →
      ∀ m, n + 1 ≤ m → Parser.unary m p = Except.ok (e, p2)) ∧
    (∀ (p q p1 p2 : Parser) (e : Expression),
      p.peek.tag = Tag.VERTICAL → p.next = Except.ok q →
      Parser.expression n q = Except.ok (e, p1) → p1.peek.tag = Tag.VERTICAL →
      p1.next = Except.ok p2 → p2.peek.tag ≠ Tag.I →
      ∀ m, n + 1 ≤ m →
        Parser.unary m p = Except.ok (Expression.AbsoluteValue p.peek e, p2)) := by
  obtain ⟨f1, f2, f3, f4, f5, f6, f7⟩ := precedence_exact_fuel n
  have up := (expression_fuel_le n (n + 2) (by omega)).2.2.1
  refine ⟨?_, ?_, ?_, ?_, ?_, ?_, ?_⟩
  · intro p p1 q1 p2 q2 p3 a b c ha h1 hn1 hb h2 hn2 hc hm3 ha3 m hm
    exact (expression_fuel_le (n + 4) m hm).1 _ _
      (f1 p p1 q1 p2 q2 p3 a b c (up _ _ ha) h1 hn1 (up _ _ hb) h2 hn2 (up _ _ hc) hm3 ha3)
  · intro p p1 q1 p2 q2 p3 a b c ha h1 hn1 hb h2 hn2 hc hm3 ha3 m hm
    exact (expression_fuel_le (n + 4) m hm).1 _ _
      (f2 p p1 q1 p2 q2 p3 a b c (up _ _ ha) h1 hn1 (up _ _ hb) h2 hn2 (up _ _ hc) hm3 ha3)
  · intro p p1 q1 p2 q2 p3 a b c ha h1 hn1 hb h2 hn2 hc hm3 ha3 m hm
    exact (expression_fuel_le (n + 4) m hm).1 _ _
      (f3 p p1 q1 p2 q2 p3 a b c (up _ _ ha) h1 hn1 (up _ _ hb) h2 hn2 (up _ _ hc) hm3 ha3)
  · intro p p1 q1 p2 q2 p3 a b c ha h1 hn1 hb h2 hn2 hc hm3 m hm
    exact (expression_fuel_le (n + 3) m (by omega)).2.1 _ _
      (f4 p p1 q1 p2 q2 p3 a b c (up _ _ ha) h1 hn1 (up _ _ hb) h2 hn2 (up _ _ hc) hm3)
  · intro p q p1 a h hn hu m hm
    exact (expression_fuel_le (n + 1) m hm).2.2.1 _ _ (f5 p q p1 a h hn hu)
  · intro p q p1 p2 e hp hn he hc hn2 hi m hm
    exact (expression_fuel_le (n + 1) m hm).2.2.2.1 _ _ (f6 p q p1 p2 e hp hn he hc hn2 hi)
  · intro p q p1 p2 e hp hn he hc hn2 hi m hm
    exact (expression_fuel_le (n + 1) m hm).2.2.2.1 _ _ (f7 p q p1 p2 e hp hn he hc hn2 hi)

/-- The test `TEST(parser_test, arithmetic)` and the theorem applied to its
two expressions: `-1 + 2 * 3` is `+(unary-(1), *(2, 3))`, the bracket of
`(1 - 2) / |3|` is the expression `-(1, 2)`, and `|3|` is `AbsoluteValue(3)`. -/
theorem parser_precedence_witness :
    parse 100 "fun main : int() { int a = -1 + 2 * 3; a = (1 - 2) / |3|; return 0; }"
      = Except.ok (Statement.FunctionDefinition (Token.ofString Tag.MAIN (str "main") 1)
          TypeID.INT (Statement.Sequence (Token.ofTag Tag.OPEN_CURLY 1) [
        Statement.VariableDefinition ⟨Token.ofString Tag.ID (str "a") 1, TypeID.INT⟩
          (Expression.BinaryOperation
            (Expression.UnaryOperation (Token.ofTag Tag.MINUS 1)
              (Expression.Constant (Token.ofInt 1 1) TypeID.INT))
            (Token.ofTag Tag.PLUS 1)
            (Expression.BinaryOperation (Expression.Constant (Token.ofInt 2 1) TypeID.INT)
              (Token.ofTag Tag.TIMES 1) (Expression.Constant (Token.ofInt 3 1) TypeID.INT))),
        Statement.Assignment ⟨Token.ofString Tag.ID (str "a") 1, TypeID.NONE⟩
          (Expression.BinaryOperation
            (Expression.BinaryOperation (Expression.Constant (Token.ofInt 1 1) TypeID.INT)
              (Token.ofTag Tag.MINUS 1) (Expression.Constant (Token.ofInt 2 1) TypeID.INT))
            (Token.ofTag Tag.DIVIDE 1)
            (Expression.AbsoluteValue (Token.ofTag Tag.VERTICAL 1)
              (Expression.Constant (Token.ofInt 3 1) TypeID.INT))),
        Statement.ReturnStatement (Token.ofString Tag.RETURN (str "return") 1)
          (Expression.Constant (Token.ofInt 0 1) TypeID.INT)]) []) ∧
    (∃ p3 : Parser, Parser.expression 6 (Parser.on "-1 + 2 * 3;") = Except.ok
      (Expression.BinaryOperation
        (Expression.UnaryOperation (Token.ofTag Tag.MINUS 1)
          (Expression.Constant (Token.ofInt 1 1) TypeID.INT))
        (Token.ofTag Tag.PLUS 1)
        (Expression.BinaryOperation (Expression.Constant (Token.ofInt 2 1) TypeID.INT)
          (Token.ofTag Tag.TIMES 1) (Expression.Constant (Token.ofInt 3 1) TypeID.INT)), p3) ∧
      p3.peek.tag = Tag.SEMICOLON) ∧
    (∃ p2 : Parser, Parser.unary 5 (Parser.on "(1 - 2) / |3|;") = Except.ok
      (Expression.BinaryOperation (Expression.Constant (Token.ofInt 1 1) TypeID.INT)
        (Token.ofTag Tag.MINUS 1) (Expression.Constant (Token.ofInt 2 1) TypeID.INT), p2) ∧
      p2.peek.tag = Tag.DIVIDE) ∧
    (∃ p2 : Parser, Parser.unary 5 (Parser.on "|3|;") = Except.ok
      (Expression.AbsoluteValue (Token.ofTag Tag.VERTICAL 1)
        (Expression.Constant (Token.ofInt 3 1) TypeID.INT), p2) ∧
      p2.peek.tag = Tag.SEMICOLON) :=
  ⟨by decide!,
    ⟨_, (parser_precedence 2).1 (Parser.on "-1 + 2 * 3;") _ _ _ _ _ _ _ _
      rfl rfl rfl rfl rfl rfl rfl rfl rfl 6 (by decide), rfl⟩,
    ⟨_, (parser_precedence 4).2.2.2.2.2.1 (Parser.on "(1 - 2) / |3|;") _ _ _ _
      rfl rfl rfl rfl rfl (by decide) 5 (by decide), rfl⟩,
    ⟨_, (parser_precedence 4).2.2.2.2.2.2 (Parser.on "|3|;") _ _ _ _
      rfl rfl rfl rfl rfl (by decide) 5 (by decide), rfl⟩⟩


/-- More fuel does not change a successful result of the condition parsers. -/
theorem conditional_fuel_succ (n : Nat) :
    (∀ p r, Parser.conditional n p = Except.ok r → Parser.conditional (n + 1) p = Except.ok r) ∧
    (∀ p r, Parser.conjunction n p = Except.ok r → Parser.conjunction (n + 1) p = Except.ok r) ∧
    (∀ p r, Parser.negation n p = Except.ok r → Parser.negation (n + 1) p = Except.ok r) ∧
    (∀ p r, Parser.relation n p = Except.ok r → Parser.relation (n + 1) p = Except.ok r) := by
  induction n with
  | zero =>
    refine ⟨?_, ?_, ?_, ?_⟩ <;> intro p r h
    · simp [Parser.conditional] at h
    · simp [Parser.conjunction] at h
    · simp [Parser.negation] at h
    · simp [Parser.relation] at h
  | succ n ih =>
    obtain ⟨ihC, ihJ, ihN, ihR⟩ := ih
    have ihE := (expression_fuel_succ n).1
    refine ⟨?_, ?_, ?_, ?_⟩ <;> intro p r h
    · rw [Parser.conditional] at h ⊢
      cases ht : Parser.conjunction n p with
      | error e => simp [ht] at h
      | ok x =>
        obtain ⟨lhs, p1⟩ := x
        simp only [ht] at h
        simp only [ihJ _ _ ht]
        exact binaryLoop_mono _ _ _ _ (fun q r hq => ihJ q r hq) n (n + 1) lhs p1 r (by omega) h
    · rw [Parser.conjunction] at h ⊢
      cases ht : Parser.negation n p with
      | error e => simp [ht] at h
      | ok x =>
        obtain ⟨lhs, p1⟩ := x
        simp only [ht] at h
        simp only [ihN _ _ ht]
        exact binaryLoop_mono _ _ _ _ (fun q r hq => ihN q r hq) n (n + 1) lhs p1 r (by omega) h
    · rw [Parser.negation] at h ⊢
      by_cases hs : p.peek.tag = Tag.NOT
      · rw [if_pos hs] at h ⊢
        cases hn : p.next with
        | error e => simp [hn] at h
        | ok p1 =>
          simp only [hn] at h ⊢
          cases hu : Parser.relation n p1 with
          | error e => simp [hu] at h
          | ok x =>
            simp only [hu] at h
            simp only [ihR _ _ hu]
            exact h
      · rw [if_neg hs] at h ⊢
        exact ihR _ _ h
    · rw [Parser.relation] at h ⊢
      by_cases hs : p.peek.tag = Tag.OPEN_BRACKET
      · rw [if_pos hs] at h ⊢
        cases hn : p.next with
        | error e => simp [hn] at h
        | ok p1 =>
          simp only [hn] at h ⊢
          cases hu : Parser.conditional n p1 with
          | error e => simp [hu] at h
          | ok x =>
            simp only [hu] at h
            simp only [ihC _ _ hu]
            exact h
      · rw [if_neg hs] at h ⊢
        cases he : Parser.expression n p with
        | error e => simp [he] at h
        | ok x =>
          obtain ⟨lhs, p1⟩ := x
          simp only [he] at h
          simp only [ihE _ _ he]
          cases hn : p1.next with
          | error e => simp [hn] at h
          | ok p2 =>
            simp only [hn] at h ⊢
            cases he2 : Parser.expression n p2 with
            | error e => simp [he2] at h
            | ok y =>
              simp only [he2] at h
              simp only [ihE _ _ he2]
              exact h

theorem conditional_fuel_le (n m : Nat) (h : n ≤ m) :
    (∀ p r, Parser.conditional n p = Except.ok r → Parser.conditional m p = Except.ok r) ∧
    (∀ p r, Parser.conjunction n p = Except.ok r → Parser.conjunction m p = Except.ok r) ∧
    (∀ p r, Parser.negation n p = Except.ok r → Parser.negation m p = Except.ok r) ∧
    (∀ p r, Parser.relation n p = Except.ok r → Parser.relation m p = Except.ok r) := by
  induction m with
  | zero =>
    have h0 : n = 0 := by omega
    subst h0
    exact ⟨fun _ _ h => h, fun _ _ h => h, fun _ _ h => h, fun _ _ h => h⟩
  | succ m ih =>
    by_cases hn : n = m + 1
    · subst hn
      exact ⟨fun _ _ h => h, fun _ _ h => h, fun _ _ h => h, fun _ _ h => h⟩
    · obtain ⟨h1, h2, h3, h4⟩ := ih (by omega)
      obtain ⟨s1, s2, s3, s4⟩ := conditional_fuel_succ m
      exact ⟨fun p r h => s1 p r (h1 p r h), fun p r h => s2 p r (h2 p r h),
        fun p r h => s3 p r (h3 p r h), fun p r h => s4 p r (h4 p r h)⟩

/-! ### Logical precedence in the parser -/

theorem conditional_eq (n : Nat) (p p1 : Parser) (lhs : Expression)
    (h : Parser.conjunction n p = Except.ok (lhs, p1)) :
    Parser.conditional (n + 1) p =
      binaryLoop (fun t => t = Tag.OR) Expression.Disjunction
        (fun q => Parser.conjunction n q) n lhs p1 := by
  rw [Parser.conditional]
  simp [h]

theorem conjunction_eq (n : Nat) (p p1 : Parser) (lhs : Expression)
    (h : Parser.negation n p = Except.ok (lhs, p1)) :
    Parser.conjunction (n + 1) p =
      binaryLoop (fun t => t = Tag.AND) Expression.Conjunction
        (fun q => Parser.negation n q) n lhs p1 := by
  rw [Parser.conjunction]
  simp [h]

theorem conjunction_single (n : Nat) (p p1 : Parser) (a : Expression)
    (h : Parser.negation n p = Except.ok (a, p1)) (hm : p1.atAnd = false) :
    Parser.conjunction (n + 1) p = Except.ok (a, p1) := by
  rw [conjunction_eq n p p1 a h, binaryLoop_stop _ _ _ _ _ _ hm]

theorem conjunction_pair (n : Nat) (p p1 q1 p2 : Parser) (b c : Expression)
    (hb : Parser.negation (n + 1) p = Except.ok (b, p1)) (hm : p1.atAnd = true)
    (hn : p1.next = Except.ok q1) (hc : Parser.negation (n + 1) q1 = Except.ok (c, p2))
    (hm2 : p2.atAnd = false) :
    Parser.conjunction (n + 2) p = Except.ok (Expression.Conjunction b p1.peek c, p2) := by
  rw [conjunction_eq (n + 1) p p1 b hb, binaryLoop_step _ _ _ n b c p1 q1 p2 hm hn hc,
    binaryLoop_stop _ _ _ _ _ _ hm2]

theorem atAnd_of_atOr (p : Parser) (h : p.atOr = true) : p.atAnd = false := by
  unfold Parser.atOr at h
  unfold Parser.atAnd
  simp only [decide_eq_true_eq] at h
  simp [h]

/-- The logical precedence facts with the fuel each parser needs spelled out. -/
theorem logic_exact_fuel (n : Nat) :
    (∀ (p p1 q1 p2 q2 p3 : Parser) (a b c : Expression),
      Parser.negation (n + 2) p = Except.ok (a, p1) → p1.atAnd = true →
      p1.next = Except.ok q1 → Parser.negation (n + 2) q1 = Except.ok (b, p2) →
      p2.atOr = true → p2.next = Except.ok q2 →
      Parser.negation (n + 2) q2 = Except.ok (c, p3) → p3.atAnd = false → p3.atOr = false →
      Parser.conditional (n + 4) p = Except.ok
        (Expression.Disjunction (Expression.Conjunction a p1.peek b) p2.peek c, p3)) ∧
    (∀ (p p1 q1 p2 q2 p3 : Parser) (a b c : Expression),
      Parser.negation (n + 2) p = Except.ok (a, p1) → p1.atOr = true →
      p1.next = Except.ok q1 → Parser.negation (n + 2) q1 = Except.ok (b, p2) →
      p2.atAnd = true → p2.next = Except.ok q2 →
      Parser.negation (n + 2) q2 = Except.ok (c, p3) → p3.atAnd = false → p3.atOr = false →
      Parser.conditional (n + 4) p = Except.ok
        (Expression.Disjunction a p1.peek (Expression.Conjunction b p2.peek c), p3)) ∧
    (∀ (p p1 q1 p2 q2 p3 : Parser) (a b c : Expression),
      Parser.negation (n + 2) p = Except.ok (a, p1) → p1.atOr = true →
      p1.next = Except.ok q1 → Parser.negation (n + 2) q1 = Except.ok (b, p2) →
      p2.atOr = true → p2.next = Except.ok q2 →
      Parser.negation (n + 2) q2 = Except.ok (c, p3) → p3.atAnd = false → p3.atOr = false →
      Parser.conditional (n + 4) p = Except.ok
        (Expression.Disjunction (Expression.Disjunction a p1.peek b) p2.peek c, p3)) ∧
    (∀ (p p1 q1 p2 q2 p3 : Parser) (a b c : Expression),
      Parser.negation (n + 2) p = Except.ok (a, p1) → p1.atAnd = true →
      p1.next = Except.ok q1 → Parser.negation (n + 2) q1 = Except.ok (b, p2) →
      p2.atAnd = true → p2.next = Except.ok q2 →
      Parser.negation (n + 2) q2 = Except.ok (c, p3) → p3.atAnd = false →
      Parser.conjunction (n + 3) p = Except.ok
        (Expression.Conjunction (Expression.Conjunction a p1.peek b) p2.peek c, p3)) ∧
    (∀ (p q p1 : Parser) (a : Expression),
      p.peek.tag = Tag.NOT → p.next = Except.ok q → Parser.relation n q = Except.ok (a, p1) →
      Parser.negation (n + 1) p = Except.ok (Expression.Negation p.peek a, p1)) ∧
    (∀ (p q p1 p2 : Parser) (e : Expression),
      p.peek.tag = Tag.OPEN_BRACKET → p.next = Except.ok q →
      Parser.conditional n q = Except.ok (e, p1) → p1.peek.tag = Tag.CLOSE_BRACKET →
      p1.next = Except.ok p2 →
      Parser.relation (n + 1) p = Except.ok (e, p2)) := by
  refine ⟨?_, ?_, ?_, ?_, ?_, ?_⟩
  · intro p p1 q1 p2 q2 p3 a b c ha h1 hn1 hb h2 hn2 hc hm3 ha3
    have t1 := conjunction_pair (n + 1) p p1 q1 p2 a b ha h1 hn1 hb (atAnd_of_atOr p2 h2)
    have t2 := conjunction_single (n + 2) q2 p3 c hc hm3
    rw [conditional_eq (n + 3) p p2 _ t1, binaryLoop_step _ _ _ (n + 2) _ c p2 q2 p3 h2 hn2 t2,
      binaryLoop_stop _ _ _ _ _ _ ha3]
  · intro p p1 q1 p2 q2 p3 a b c ha h1 hn1 hb h2 hn2 hc hm3 ha3
    have t1 := conjunction_single (n + 2) p p1 a ha (atAnd_of_atOr p1 h1)
    have t2 := conjunction_pair (n + 1) q1 p2 q2 p3 b c hb h2 hn2 hc hm3
    rw [conditional_eq (n + 3) p p1 a t1, binaryLoop_step _ _ _ (n + 2) a _ p1 q1 p3 h1 hn1 t2,
      binaryLoop_stop _ _ _ _ _ _ ha3]
  · intro p p1 q1 p2 q2 p3 a b c ha h1 hn1 hb h2 hn2 hc hm3 ha3
    have t1 := conjunction_single (n + 2) p p1 a ha (atAnd_of_atOr p1 h1)
    have t2 := conjunction_single (n + 2) q1 p2 b hb (atAnd_of_atOr p2 h2)
    have t3 := conjunction_single (n + 2) q2 p3 c hc hm3
    rw [conditional_eq (n + 3) p p1 a t1, binaryLoop_step _ _ _ (n + 2) a b p1 q1 p2 h1 hn1 t2,
      binaryLoop_step _ _ _ (n + 1) _ c p2 q2 p3 h2 hn2 t3, binaryLoop_stop _ _ _ _ _ _ ha3]
  · intro p p1 q1 p2 q2 p3 a b c ha h1 hn1 hb h2 hn2 hc hm3
    rw [conjunction_eq (n + 2) p p1 a ha, binaryLoop_step _ _ _ (n + 1) a b p1 q1 p2 h1 hn1 hb,
      binaryLoop_step _ _ _ n _ c p2 q2 p3 h2 hn2 hc, binaryLoop_stop _ _ _ _ _ _ hm3]
  · intro p q p1 a h hn hu
    rw [Parser.negation]
    simp [h, hn, hu]
  · intro p q p1 p2 e hp hn he hc hn2
    rw [Parser.relation]
    simp [hp, hn, he, Parser.matchTag, hc, hn2]

/-- Claim C11.  Precedence and associativity of the logical connectives, in
terms of what the operand parsers return when given the fuel `n`; the
results hold for every fuel `m` from `n + 4` (or `n + 1`) on.  With `a`,
`b`, `c` what `negation` parses at the three operand positions (a relation,
a bracketed condition, or one of these under `not`): (1) `a and b or c` is
`(a and b) or c` and (2) `a or b and c` is `a or (b and c)`, so `and` binds
tighter than `or`; (3) `a or b or c` is `(a or b) or c` and (4)
`a and b and c` is `(a and b) and c`, so both connectives associate to the
left; (5) `not` applies to the following `relation` only, and the result is
an operand of `and`; (6) `(` `e` `)` in the place of a relation is the full
condition `e` between the brackets. -/
theorem parser_logic (n : Nat) :
    (∀ (p p1 q1 p2 q2 p3 : Parser) (a b c : Expression),
      Parser.negation n p = Except.ok (a, p1) → p1.atAnd = true →
      p1.next = Except.ok q1 → Parser.negation n q1 = Except.ok (b, p2) →
      p2.atOr = true → p2.next = Except.ok q2 →
      Parser.negation n q2 = Except.ok (c, p3) → p3.atAnd = false → p3.atOr = false →
      ∀ m, n + 4 ≤ m → Parser.conditional m p = Except.ok
        (Expression.Disjunction (Expression.Conjunction a p1.peek b) p2.peek c, p3)) ∧
    (∀ (p p1 q1 p2 q2 p3 : Parser) (a b c : Expression),
      Parser.negation n p = Except.ok (a, p1) → p1.atOr = true →
      p1.next = Except.ok q1 → Parser.negation n q1 = Except.ok (b, p2) →
      p2.atAnd = true → p2.next = Except.ok q2 →
      Parser.negation n q2 = Except.ok (c, p3) → p3.atAnd = false → p3.atOr = false →
      ∀ m, n + 4 ≤ m → Parser.conditional m p = Except.ok
        (Expression.Disjunction a p1.peek (Expression.Conjunction b p2.peek c), p3)) ∧
    (∀ (p p1 q1 p2 q2 p3 : Parser) (a b c : Expression),
      Parser.negation n p = Except.ok (a, p1) → p1.atOr = true →
      p1.next = Except.ok q1 → Parser.negation n q1 = Except.ok (b, p2) →
      p2.atOr = true → p2.next = Except.ok q2 →
      Parser.negation n q2 = Except.ok (c, p3) → p3.atAnd = false → p3.atOr = false →
      ∀ m, n + 4 ≤ m → Parser.conditional m p = Except.ok
        (Expression.Disjunction (Expression.Disjunction a p1.peek b) p2.peek c, p3)) ∧
    (∀ (p p1 q1 p2 q2 p3 : Parser) (a b c : Expression),
      Parser.negation n p = Except.ok (a, p1) → p1.atAnd = true →
      p1.next = Except.ok q1 → Parser.negation n q1 = Except.ok (b, p2) →
      p2.atAnd = true → p2.next = Except.ok q2 →
      Parser.negation n q2 = Except.ok (c, p3) → p3.atAnd = false →
      ∀ m, n + 4 ≤ m → Parser.conjunction m p = Except.ok
        (Expression.Conjunction (Expression.Conjunction a p1.peek b) p2.peek c, p3)) ∧
    (∀ (p q p1 : Parser) (a : Expression),
      p.peek.tag = Tag.NOT → p.next = Except.ok q → Parser.relation n q = Except.ok (a, p1) →
      ∀ m, n + 1 ≤ m →
        Parser.negation m p = Except.ok (Expression.Negation p.peek a, p1)) ∧
    (∀ (p q p1 p2 : Parser) (e : Expression),
      p.peek.tag = Tag.OPEN_BRACKET → p.next = Except.ok q →
      Parser.conditional n q = Except.ok (e, p1) → p1.peek.tag = Tag.CLOSE_BRACKET →
      p1.next = Except.ok p2 →
      ∀ m, n + 1 ≤ m → Parser.relation m p = Except.ok (e, p2)) := by
  obtain ⟨f1, f2, f3, f4, f5, f6⟩ := logic_exact_fuel n
  have up := (conditional_fuel_le n (n + 2) (by omega)).2.2.1
  refine ⟨?_, ?_, ?_, ?_, ?_, ?_⟩
  · intro p p1 q1 p2 q2 p3 a b c ha h1 hn1 hb h2 hn2 hc hm3 ha3 m hm
    exact (conditional_fuel_le (n + 4) m hm).1 _ _
      (f1 p p1 q1 p2 q2 p3 a b c (up _ _ ha) h1 hn1 (up _ _ hb) h2 hn2 (up _ _ hc) hm3 ha3)
  · intro p p1 q1 p2 q2 p3 a b c ha h1 hn1 hb h2 hn2 hc hm3 ha3 m hm
    exact (conditional_fuel_le (n + 4) m hm).1 _ _
      (f2 p p1 q1 p2 q2 p3 a b c (up _ _ ha) h1 hn1 (up _ _ hb) h2 hn2 (up _ _ hc) hm3 ha3)
  · intro p p1 q1 p2 q2 p3 a b c ha h1 hn1 hb h2 hn2 hc hm3 ha3 m hm
    exact (conditional_fuel_le (n + 4) m hm).1 _ _
      (f3 p p1 q1 p2 q2 p3 a b c (up _ _ ha) h1 hn1 (up _ _ hb) h2 hn2 (up _ _ hc) hm3 ha3)
  · intro p p1 q1 p2 q2 p3 a b c ha h1 hn1 hb h2 hn2 hc hm3 m hm
    exact (conditional_fuel_le (n + 3) m (by omega)).2.1 _ _
      (f4 p p1 q1 p2 q2 p3 a b c (up _ _ ha) h1 hn1 (up _ _ hb) h2 hn2 (up _ _ hc) hm3)
  · intro p q p1 a h hn hu m hm
    exact (conditional_fuel_le (n + 1) m hm).2.2.1 _ _ (f5 p q p1 a h hn hu)
  · intro p q p1 p2 e hp hn he hc hn2 m hm
    exact (conditional_fuel_le (n + 1) m hm).2.2.2 _ _ (f6 p q p1 p2 e hp hn he hc hn2)

theorem parser_logic_witness :
    parse 100 ("fun main :int () \x7b     if (1 == 1 and 1 != 0 or not 1 < 0) \x7b       return 0;     \x7d "
        ++ "    while (1 <= 1 and not (1 > 0 or 1 >= 0)) \x7b       return -1;     \x7d     return 2;  \x7d")
      = Except.ok (Statement.FunctionDefinition (Token.ofString Tag.MAIN (str "main") 1)
          TypeID.INT (Statement.Sequence (Token.ofTag Tag.OPEN_CURLY 1) [
        Statement.IfStatement (Token.ofString Tag.IF (str "if") 1)
          (Expression.Disjunction
            (Expression.Conjunction
              (Expression.Relation (Expression.Constant (Token.ofInt 1 1) TypeID.INT)
                (Token.ofTag Tag.EQ 1) (Expression.Constant (Token.ofInt 1 1) TypeID.INT))
              (Token.ofString Tag.AND (str "and") 1)
              (Expression.Relation (Expression.Constant (Token.ofInt 1 1) TypeID.INT)
                (Token.ofTag Tag.NEQ 1) (Expression.Constant (Token.ofInt 0 1) TypeID.INT)))
            (Token.ofString Tag.OR (str "or") 1)
            (Expression.Negation (Token.ofString Tag.NOT (str "not") 1)
              (Expression.Relation (Expression.Constant (Token.ofInt 1 1) TypeID.INT)
                (Token.ofTag Tag.LT 1) (Expression.Constant (Token.ofInt 0 1) TypeID.INT))))
          (Statement.Sequence (Token.ofTag Tag.OPEN_CURLY 1) [
            Statement.ReturnStatement (Token.ofString Tag.RETURN (str "return") 1)
              (Expression.Constant (Token.ofInt 0 1) TypeID.INT)])
          none,
        Statement.WhileStatement (Token.ofString Tag.WHILE (str "while") 1)
          (Expression.Conjunction
            (Expression.Relation (Expression.Constant (Token.ofInt 1 1) TypeID.INT)
              (Token.ofTag Tag.LE 1) (Expression.Constant (Token.ofInt 1 1) TypeID.INT))
            (Token.ofString Tag.AND (str "and") 1)
            (Expression.Negation (Token.ofString Tag.NOT (str "not") 1)
              (Expression.Disjunction
                (Expression.Relation (Expression.Constant (Token.ofInt 1 1) TypeID.INT)
                  (Token.ofTag Tag.GT 1) (Expression.Constant (Token.ofInt 0 1) TypeID.INT))
                (Token.ofString Tag.OR (str "or") 1)
                (Expression.Relation (Expression.Constant (Token.ofInt 1 1) TypeID.INT)
                  (Token.ofTag Tag.GE 1) (Expression.Constant (Token.ofInt 0 1) TypeID.INT)))))
          (Statement.Sequence (Token.ofTag Tag.OPEN_CURLY 1) [
            Statement.ReturnStatement (Token.ofString Tag.RETURN (str "return") 1)
              (Expression.UnaryOperation (Token.ofTag Tag.MINUS 1)
                (Expression.Constant (Token.ofInt 1 1) TypeID.INT))]),
        Statement.ReturnStatement (Token.ofString Tag.RETURN (str "return") 1)
          (Expression.Constant (Token.ofInt 2 1) TypeID.INT)]) []) ∧
    (∃ (e : Expression) (p3 : Parser),
      Parser.conditional 10 (Parser.on "1 == 1 and 1 != 0 or not 1 < 0)") = Except.ok (e, p3) ∧
      e = Expression.Disjunction
            (Expression.Conjunction
              (Expression.Relation (Expression.Constant (Token.ofInt 1 1) TypeID.INT)
                (Token.ofTag Tag.EQ 1) (Expression.Constant (Token.ofInt 1 1) TypeID.INT))
              (Token.ofString Tag.AND (str "and") 1)
              (Expression.Relation (Expression.Constant (Token.ofInt 1 1) TypeID.INT)
                (Token.ofTag Tag.NEQ 1) (Expression.Constant (Token.ofInt 0 1) TypeID.INT)))
            (Token.ofString Tag.OR (str "or") 1)
            (Expression.Negation (Token.ofString Tag.NOT (str "not") 1)
              (Expression.Relation (Expression.Constant (Token.ofInt 1 1) TypeID.INT)
                (Token.ofTag Tag.LT 1) (Expression.Constant (Token.ofInt 0 1) TypeID.INT))) ∧
      p3.peek.tag = Tag.CLOSE_BRACKET) ∧
    (∃ (e : Expression) (p2 : Parser),
      Parser.relation 9 (Parser.on "(1 > 0 or 1 >= 0))") = Except.ok (e, p2) ∧
      e = Expression.Disjunction
                (Expression.Relation (Expression.Constant (Token.ofInt 1 1) TypeID.INT)
                  (Token.ofTag Tag.GT 1) (Expression.Constant (Token.ofInt 0 1) TypeID.INT))
                (Token.ofString Tag.OR (str "or") 1)
                (Expression.Relation (Expression.Constant (Token.ofInt 1 1) TypeID.INT)
                  (Token.ofTag Tag.GE 1) (Expression.Constant (Token.ofInt 0 1) TypeID.INT)) ∧
      p2.peek.tag = Tag.CLOSE_BRACKET) :=
  ⟨by decide!,
    ⟨_, _, (parser_logic 6).1 (Parser.on "1 == 1 and 1 != 0 or not 1 < 0)")
      (stateOf (Parser.negation 6 (Parser.on "1 == 1 and 1 != 0 or not 1 < 0)"))
        (Parser.on ""))
      (Parser.on "1 != 0 or not 1 < 0)")
      (stateOf (Parser.negation 6 (Parser.on "1 != 0 or not 1 < 0)")) (Parser.on ""))
      (Parser.on "not 1 < 0)")
      (stateOf (Parser.negation 6 (Parser.on "not 1 < 0)")) (Parser.on ""))
      (nodeOf (Parser.negation 6 (Parser.on "1 == 1 and 1 != 0 or not 1 < 0)")))
      (nodeOf (Parser.negation 6 (Parser.on "1 != 0 or not 1 < 0)")))
      (nodeOf (Parser.negation 6 (Parser.on "not 1 < 0)")))
      (by decide!) (by decide!) (by decide!) (by decide!) (by decide!) (by decide!)
      (by decide!) (by decide!) (by decide!) 10 (by decide), by decide!, by decide!⟩,
    ⟨_, _, (parser_logic 8).2.2.2.2.2 (Parser.on "(1 > 0 or 1 >= 0))")
      (Parser.on "1 > 0 or 1 >= 0))")
      (stateOf (Parser.conditional 8 (Parser.on "1 > 0 or 1 >= 0))")) (Parser.on ""))
      (Parser.on ")")
      (nodeOf (Parser.conditional 8 (Parser.on "1 > 0 or 1 >= 0))")))
      (by decide!) (by decide!) (by decide!) (by decide!) (by decide!) 9 (by decide),
      by decide!, by decide!⟩⟩

/-! ### The canonical messages of the parser -/

theorem ite_ne {α : Type} (c : Prop) [Decidable c] (a b x : α) (ha : a ≠ x) (hb : b ≠ x) :
    (if c then a else b) ≠ x := by
  by_cases h : c
  · rw [if_pos h]; exact ha
  · rw [if_neg h]; exact hb

theorem operators_ne_type (c : Int) : operators c ≠ some Tag.TYPE := by
  unfold operators
  iterate 16 refine ite_ne _ _ _ _ (fun h => Tag.noConfusion (Option.some.inj h)) ?_
  exact fun h => Option.noConfusion h

theorem reserved_type (w : List Int) (res : Token) (h : reserved.lookup w = some res)
    (ht : res.tag = Tag.TYPE) : ∃ ty, res.value = Value.type ty := by
  have hall : ∀ x ∈ reserved, x.2.tag = Tag.TYPE → ∃ ty, x.2.value = Value.type ty := by
    intro x hx
    simp only [reserved, List.mem_cons, List.mem_singleton, List.not_mem_nil, or_false] at hx
    rcases hx with h | h | h | h | h | h | h | h | h | h | h | h | h | h | h <;>
      subst h <;> simp [Token.ofString, Token.ofType]
  obtain ⟨l1, l2, hl, _⟩ := List.lookup_eq_some_iff.mp h
  exact hall (w, res) (by rw [hl]; simp) ht

/-- A token with the tag `TYPE` that the lexer returns carries a `TypeID`, so
`getType` does not throw on it. -/
theorem getNextToken_type (l l2 : Lexer) (t : Token)
    (h : l.getNextToken = (Except.ok t, l2)) (ht : t.tag = Tag.TYPE) :
    ∃ ty, t.getType = some ty := by
  have key : ∀ (tag : Tag) (line : Int), tag ≠ Tag.TYPE → Token.ofTag tag line = t → False := by
    intro tag line hne he
    rw [← he] at ht
    exact hne ht
  unfold Lexer.getNextToken at h
  simp only [] at h
  split_ifs at h with h1 h2 h3 h4 h5 h6 h7
  · simp only [Lexer.ret, Prod.mk.injEq, Except.ok.injEq] at h
    obtain ⟨he, _⟩ := h
    unfold Lexer.digit at he
    simp only [] at he
    split_ifs at he <;> (rw [← he] at ht; simp [Token.ofInt, Token.ofDouble] at ht)
  · simp only [Lexer.ret, Prod.mk.injEq, Except.ok.injEq] at h
    obtain ⟨he, _⟩ := h
    unfold Lexer.alpha at he
    simp only [] at he
    split_ifs at he
    · rw [← he] at ht; simp [Token.ofString] at ht
    · split at he
      · next res hres =>
        simp only at he
        have hv := reserved_type _ res hres (by rw [← he] at ht; exact ht)
        obtain ⟨ty, hty⟩ := hv
        exact ⟨ty, by rw [← he]; simp [Token.getType, hty]⟩
      · rw [← he] at ht; simp [Token.ofString] at ht
  · simp only [Lexer.ret, Prod.mk.injEq, Except.ok.injEq] at h
    obtain ⟨he, _⟩ := h
    unfold Lexer.equals at he
    simp only [] at he
    split_ifs at he <;> exact (key _ _ (by decide) he).elim
  · unfold Lexer.retE Lexer.notEquals at h
    simp only [] at h
    split_ifs at h
    · simp only [Lexer.ret, Prod.mk.injEq, Except.ok.injEq] at h
      exact (key _ _ (by decide) h.1).elim
    · simp at h
  · simp only [Lexer.ret, Prod.mk.injEq, Except.ok.injEq] at h
    obtain ⟨he, _⟩ := h
    unfold Lexer.lessThan at he
    simp only [] at he
    split_ifs at he <;> exact (key _ _ (by decide) he).elim
  · simp only [Lexer.ret, Prod.mk.injEq, Except.ok.injEq] at h
    obtain ⟨he, _⟩ := h
    unfold Lexer.greaterThan at he
    simp only [] at he
    split_ifs at he <;> exact (key _ _ (by decide) he).elim
  · unfold Lexer.retE Lexer.quotation at h
    simp only [] at h
    split_ifs at h
    · simp at h
    · simp only [Lexer.ret, Prod.mk.injEq, Except.ok.injEq] at h
      obtain ⟨he, _⟩ := h
      rw [← he] at ht; simp [Token.ofString] at ht
  · split at h
    · next tag htag =>
      simp only [Lexer.ret, Prod.mk.injEq, Except.ok.injEq] at h
      refine (key tag _ ?_ h.1).elim
      intro hT
      rw [hT] at htag
      exact operators_ne_type _ htag
    · simp at h

/-- The lookahead that `Parser::next` installs carries a `TypeID` when its
tag is `TYPE`. -/
theorem next_type (p q : Parser) (h : p.next = Except.ok q) (ht : q.peek.tag = Tag.TYPE) :
    ∃ ty, q.peek.getType = some ty := by
  unfold Parser.next at h
  split at h
  · next t l hl =>
    simp only [Except.ok.injEq] at h
    rw [← h] at ht ⊢
    exact getNextToken_type _ l t hl ht
  · simp at h


theorem what_contains (msg : List Int) (line : Int) : msg <:+: ParserError.what msg line :=
  ⟨str "[ERROR] ", str " at line " ++ str (toString line) ++ str ".", by
    simp [ParserError.what, List.append_assoc]⟩

theorem matchTag_ne (p : Parser) (tag : Tag) (msg : List Int) (h : p.peek.tag ≠ tag) :
    p.matchTag tag msg = Except.error (Failure.parserError msg p.lineNumber) := by
  simp [Parser.matchTag, h, Parser.error]

theorem matchTag_eq (p : Parser) (tag : Tag) (msg : List Int) (h : p.peek.tag = tag) :
    p.matchTag tag msg = p.next := by
  simp [Parser.matchTag, h]

/-- Claim C12.  The canonical messages.  (1) In a variable definition, entered
as its callers enter it with a lookahead of tag `TYPE` that `next` has
installed, (2) in an assignment and (3) in a return statement: when the expression has been
parsed (with fuel `n`) and the lookahead `q.peek` after it is not `;`, the
parser raises, for every fuel from `n` on, the `ParserError` with the
message `NO_SEMICOLON` at the current line.  (4) When the token after the
name of a function and (5) when the token after the name of a parameter, in
any round of the parameter loop, is not `:`, it raises the `ParserError`
with the message `NO_COLON`.  (6) The text of a `ParserError` contains the
message it was raised with. -/
theorem parser_messages :
    (∀ (n : Nat) (p0 p p1 p2 p3 q : Parser) (s : List Int) (expr : Expression),
      p0.next = Except.ok p → p.peek.tag = Tag.TYPE → p.next = Except.ok p1 → p1.peek.tag = Tag.ID → p1.next = Except.ok p2 →
      p1.peek.getString = some s → p2.peek.tag = Tag.ASSIGN → p2.next = Except.ok p3 →
      Parser.expression n p3 = Except.ok (expr, q) → q.peek.tag ≠ Tag.SEMICOLON →
      ∀ m, n ≤ m → Parser.variableDefiniton m p =
        Except.error (Failure.parserError NO_SEMICOLON q.lineNumber)) ∧
    (∀ (n : Nat) (p p1 p2 q : Parser) (expr : Expression),
      p.next = Except.ok p1 → p1.peek.tag = Tag.ASSIGN → p1.next = Except.ok p2 →
      Parser.expression n p2 = Except.ok (expr, q) → q.peek.tag ≠ Tag.SEMICOLON →
      ∀ m, n ≤ m → Parser.assignment m p =
        Except.error (Failure.parserError NO_SEMICOLON q.lineNumber)) ∧
    (∀ (n : Nat) (p p1 q : Parser) (expr : Expression),
      p.peek.tag = Tag.RETURN → p.next = Except.ok p1 →
      Parser.expression n p1 = Except.ok (expr, q) → q.peek.tag ≠ Tag.SEMICOLON →
      ∀ m, n + 1 ≤ m → Parser.statement m p =
        Except.error (Failure.parserError NO_SEMICOLON q.lineNumber)) ∧
    (∀ (n : Nat) (p q : Parser),
      p.next = Except.ok q → q.peek.tag ≠ Tag.COLON →
      Parser.functionDefinition n p =
        Except.error (Failure.parserError NO_COLON q.lineNumber)) ∧
    (∀ (k : Nat) (params : List Identifier) (p q : Parser),
      p.peek.tag ≠ Tag.CLOSE_BRACKET → p.next = Except.ok q → q.peek.tag ≠ Tag.COLON →
      parametersLoop (k + 1) params p =
        Except.error (Failure.parserError NO_COLON q.lineNumber)) ∧
    (∀ line : Int, NO_SEMICOLON <:+: ParserError.what NO_SEMICOLON line ∧
      NO_COLON <:+: ParserError.what NO_COLON line) := by
  refine ⟨?_, ?_, ?_, ?_, ?_, ?_⟩
  · intro n p0 p p1 p2 p3 q s expr h0 hT h1 hid h2 hs ha h3 he hq m hm
    obtain ⟨ty, hty⟩ := next_type p0 p h0 hT
    have he2 := (expression_fuel_le n m hm).1 _ _ he
    unfold Parser.variableDefiniton
    simp only [h1, hid, h2, hs, matchTag_eq _ _ _ ha, h3, he2, hty, matchTag_ne _ _ _ hq]
    simp
  · intro n p p1 p2 q expr h1 ha h2 he hq m hm
    have he2 := (expression_fuel_le n m hm).1 _ _ he
    unfold Parser.assignment
    simp only [h1, matchTag_eq _ _ _ ha, h2, he2, matchTag_ne _ _ _ hq]
  · intro n p p1 q expr hr h1 he hq m hm
    obtain ⟨j, rfl⟩ : ∃ j, m = j + 1 := ⟨m - 1, by omega⟩
    have he2 := (expression_fuel_le n j (by omega)).1 _ _ he
    rw [Parser.statement]
    simp only [hr, h1, he2, matchTag_ne _ _ _ hq]
  · intro n p q h1 hq
    unfold Parser.functionDefinition
    simp only [h1, matchTag_ne _ _ _ hq]
  · intro k params p q hp h1 hq
    rw [parametersLoop, if_pos hp]
    simp only [h1, matchTag_ne _ _ _ hq]
  · intro line
    exact ⟨what_contains _ _, what_contains _ _⟩


theorem parser_messages_witness :
    parse 100 "fun main :int () {    int a = 0     return a;   }" =
      Except.error (Failure.parserError NO_SEMICOLON 1) ∧
    parse 100 "fun main int () {}" = Except.error (Failure.parserError NO_COLON 1) ∧
    parse 100 "fun f : int (a : int, b int) ;" =
      Except.error (Failure.parserError NO_COLON 1) ∧
    ParserError.what NO_SEMICOLON 1 = str "[ERROR] Missing semicolon ';' at line 1." ∧
    ParserError.what NO_COLON 1 = str "[ERROR] Missing colon ':' at line 1." ∧
    Parser.variableDefiniton 4 (Parser.on "int a = 0 return a; \x7d") =
      Except.error (Failure.parserError NO_SEMICOLON 1) ∧
    Parser.assignment 4 (Parser.on "a = 0 return a; \x7d") =
      Except.error (Failure.parserError NO_SEMICOLON 1) ∧
    Parser.statement 6 (Parser.on "return a \x7d") =
      Except.error (Failure.parserError NO_SEMICOLON 1) ∧
    Parser.functionDefinition 10 (Parser.on "main int () {}") =
      Except.error (Failure.parserError NO_COLON 1) ∧
    parametersLoop 3 [⟨Token.ofString Tag.ID (str "a") 1, TypeID.INT⟩] (Parser.on "b int) ;") =
      Except.error (Failure.parserError NO_COLON 1) :=
  ⟨by decide!, by decide!, by decide!, by decide!, by decide!,
    parser_messages.1 4 (Parser.on "{ int a = 0 return a; }")
      (Parser.on "int a = 0 return a; \x7d") (Parser.on "a = 0 return a; \x7d")
      (Parser.on "= 0 return a; \x7d") (Parser.on "0 return a; \x7d") (Parser.on "return a; \x7d")
      (str "a") (Expression.Constant (Token.ofInt 0 1) TypeID.INT)
      (by decide!) (by decide!) (by decide!) (by decide!) (by decide!) (by decide!)
      (by decide!) (by decide!) (by decide!) (by decide!) 4 (by decide),
    parser_messages.2.1 4 (Parser.on "a = 0 return a; \x7d") (Parser.on "= 0 return a; \x7d")
      (Parser.on "0 return a; \x7d") (Parser.on "return a; \x7d")
      (Expression.Constant (Token.ofInt 0 1) TypeID.INT)
      (by decide!) (by decide!) (by decide!) (by decide!) (by decide!) 4 (by decide),
    parser_messages.2.2.1 5 (Parser.on "return a \x7d") (Parser.on "a \x7d") (Parser.on "\x7d")
      (Expression.Identifier ⟨Token.ofString Tag.ID (str "a") 1, TypeID.NONE⟩)
      (by decide!) (by decide!) (by decide!) (by decide!) 6 (by decide),
    parser_messages.2.2.2.1 10 (Parser.on "main int () {}") (Parser.on "int () {}")
      (by decide!) (by decide!),
    parser_messages.2.2.2.2.1 2 [⟨Token.ofString Tag.ID (str "a") 1, TypeID.INT⟩]
      (Parser.on "b int) ;") (Parser.on "int) ;") (by decide!) (by decide!) (by decide!)⟩

/-! ### Failures of the parser that are not parser errors -/

theorem parametersLoop_stop (k : Nat) (params : List Identifier) (p : Parser)
    (h : p.peek.tag = Tag.CLOSE_BRACKET) :
    parametersLoop k params p = Except.ok (params, p) := by
  rw [parametersLoop.eq_def]
  simp [h]

/-- Claim C13.  The input `fun f : x ();` lexes without a lexer error, and
`parseNext` on it fails, whatever the fuel, with the `std::bad_variant_access`
of `type.getType()`, which is not a `ParserError`: the token `x` in the
position of the return type is an identifier and carries a string.  The
same happens with `name.getString()` for `fun 1 : int ();`, where the token
in the position of the function name is a number. -/
theorem parseNext_bad_variant_access :
    Lexer.tags 8 (Lexer.new Tag.END (bytes "fun f : x ();")) =
      [some Tag.FUN, some Tag.ID, some Tag.COLON, some Tag.ID, some Tag.OPEN_BRACKET,
        some Tag.CLOSE_BRACKET, some Tag.SEMICOLON, some Tag.END] ∧
    (∀ n, parse n "fun f : x ();" = Except.error Failure.badVariantAccess) ∧
    Lexer.tags 8 (Lexer.new Tag.END (bytes "fun 1 : int ();")) =
      [some Tag.FUN, some Tag.INT, some Tag.COLON, some Tag.TYPE, some Tag.OPEN_BRACKET,
        some Tag.CLOSE_BRACKET, some Tag.SEMICOLON, some Tag.END] ∧
    (∀ n, parse n "fun 1 : int ();" = Except.error Failure.badVariantAccess) := by
  refine ⟨by decide!, ?_, by decide!, ?_⟩
  · intro n
    have h0 : Parser.new (Lexer.new Tag.END (bytes "fun f : x ();")) =
        Except.ok (Parser.on "fun f : x ();") := by decide!
    have hf : (Parser.on "fun f : x ();").peek.tag = Tag.FUN := by decide!
    have h1 : (Parser.on "fun f : x ();").next = Except.ok (Parser.on "f : x ();") := by decide!
    have h2 : (Parser.on "f : x ();").next = Except.ok (Parser.on ": x ();") := by decide!
    have h3 : (Parser.on ": x ();").matchTag Tag.COLON NO_COLON =
        Except.ok (Parser.on "x ();") := by decide!
    have h4 : (Parser.on "x ();").next = Except.ok (Parser.on "();") := by decide!
    have h5 : (Parser.on "f : x ();").peek.getString = some (str "f") := by decide!
    have h6 : (Parser.on "();").matchTag Tag.OPEN_BRACKET
        (str "Expected parameter list for function " ++ str "f") =
        Except.ok (Parser.on ");") := by decide!
    have h7 : parametersLoop n [] (Parser.on ");") = Except.ok ([], Parser.on ");") := by
      exact parametersLoop_stop n [] _ (by decide!)
    have h8 : (Parser.on ");").next = Except.ok (Parser.on ";") := by decide!
    have h9 : (Parser.on ";").peek.tag = Tag.SEMICOLON := by decide!
    have h10 : (Parser.on ";").next = Except.ok (Parser.on "") := by decide!
    have h11 : (Parser.on "x ();").peek.getType = none := by decide!
    unfold parse
    simp only [h0]
    unfold Parser.parseNext
    simp only [hf, h1]
    unfold Parser.functionDefinition
    simp only [h2, h3, h4, h5, h6, h7, h8, h9, h10, h11, if_true]
  · intro n
    have h0 : Parser.new (Lexer.new Tag.END (bytes "fun 1 : int ();")) =
        Except.ok (Parser.on "fun 1 : int ();") := by decide!
    have hf : (Parser.on "fun 1 : int ();").peek.tag = Tag.FUN := by decide!
    have h1 : (Parser.on "fun 1 : int ();").next = Except.ok (Parser.on "1 : int ();") := by
      decide!
    have h2 : (Parser.on "1 : int ();").next = Except.ok (Parser.on ": int ();") := by decide!
    have h3 : (Parser.on ": int ();").matchTag Tag.COLON NO_COLON =
        Except.ok (Parser.on "int ();") := by decide!
    have h4 : (Parser.on "int ();").next = Except.ok (Parser.on "();") := by decide!
    have h5 : (Parser.on "1 : int ();").peek.getString = none := by decide!
    unfold parse
    simp only [h0]
    unfold Parser.parseNext
    simp only [hf, h1]
    unfold Parser.functionDefinition
    simp only [h2, h3, h4, h5]

/-! ### Equality of IR values is decidable -/

mutual

theorem irvalue_eq_of_beq : ∀ (a b : IRValue), IRValue.beq a b = true → a = b
  | IRValue.constInt t v, b, h => by
    cases b with
    | constInt u w =>
      simp only [IRValue.beq, Bool.and_eq_true, decide_eq_true_eq] at h
      rw [h.1, h.2]
    | _ => simp [IRValue.beq] at h
  | IRValue.constFP v, b, h => by
    cases b with
    | constFP w => simp only [IRValue.beq, decide_eq_true_eq] at h; rw [h]
    | _ => simp [IRValue.beq] at h
  | IRValue.complexZero, b, h => by
    cases b with
    | complexZero => rfl
    | _ => simp [IRValue.beq] at h
  | IRValue.stringZero, b, h => by
    cases b with
    | stringZero => rfl
    | _ => simp [IRValue.beq] at h
  | IRValue.globalString i s, b, h => by
    cases b with
    | globalString j t =>
      simp only [IRValue.beq, Bool.and_eq_true, decide_eq_true_eq] at h
      rw [h.1, h.2]
    | _ => simp [IRValue.beq] at h
  | IRValue.argument f i t, b, h => by
    cases b with
    | argument g j u =>
      simp only [IRValue.beq, Bool.and_eq_true, decide_eq_true_eq] at h
      rw [h.1.1, h.1.2, h.2]
    | _ => simp [IRValue.beq] at h
  | IRValue.global n t, b, h => by
    cases b with
    | global m u =>
      simp only [IRValue.beq, Bool.and_eq_true, decide_eq_true_eq] at h
      rw [h.1, h.2]
    | _ => simp [IRValue.beq] at h
  | IRValue.function n, b, h => by
    cases b with
    | function m => simp only [IRValue.beq, decide_eq_true_eq] at h; rw [h]
    | _ => simp [IRValue.beq] at h
  | IRValue.inst i o as t, b, h => by
    cases b with
    | inst j p bs u =>
      simp only [IRValue.beq, Bool.and_eq_true, decide_eq_true_eq] at h
      rw [h.1.1.1, h.1.1.2, irvalue_eq_of_beqList as bs h.1.2, h.2]
    | _ => simp [IRValue.beq] at h

theorem irvalue_eq_of_beqList :
    ∀ (as bs : List IRValue), IRValue.beqList as bs = true → as = bs
  | [], bs, h => by
    cases bs with
    | nil => rfl
    | cons b bs => simp [IRValue.beqList] at h
  | a :: as, bs, h => by
    cases bs with
    | nil => simp [IRValue.beqList] at h
    | cons b bs =>
      simp only [IRValue.beqList, Bool.and_eq_true] at h
      rw [irvalue_eq_of_beq a b h.1, irvalue_eq_of_beqList as bs h.2]

end

mutual

theorem irvalue_beq_refl : ∀ (a : IRValue), IRValue.beq a a = true
  | IRValue.constInt t v => by simp [IRValue.beq]
  | IRValue.constFP v => by simp [IRValue.beq]
  | IRValue.complexZero => by simp [IRValue.beq]
  | IRValue.stringZero => by simp [IRValue.beq]
  | IRValue.globalString i s => by simp [IRValue.beq]
  | IRValue.argument f i t => by simp [IRValue.beq]
  | IRValue.global n t => by simp [IRValue.beq]
  | IRValue.function n => by simp [IRValue.beq]
  | IRValue.inst i o as t => by simp [IRValue.beq, irvalue_beqList_refl as]

theorem irvalue_beqList_refl : ∀ (as : List IRValue), IRValue.beqList as as = true
  | [] => rfl
  | a :: as => by simp [IRValue.beqList, irvalue_beq_refl a, irvalue_beqList_refl as]

end

instance : DecidableEq IRValue := fun a b =>
  if h : IRValue.beq a b = true then isTrue (irvalue_eq_of_beq a b h)
  else isFalse (fun e => h (e ▸ irvalue_beq_refl a))

deriving instance DecidableEq for Symbol

deriving instance DecidableEq for BasicBlock

/-! ### What generating an expression leaves alone -/

theorem bind_eq_ok {ε α β : Type} (x : Except ε α) (f : α → Except ε β) (b : β) :
    (x >>= f) = Except.ok b ↔ ∃ a, x = Except.ok a ∧ f a = Except.ok b := by
  cases x with
  | error e => simp [bind, Except.bind]
  | ok a => simp [bind, Except.bind]

theorem bind_eq_error {ε α β : Type} (x : Except ε α) (f : α → Except ε β) (e : ε) :
    (x >>= f) = Except.error e ↔
      x = Except.error e ∨ ∃ a, x = Except.ok a ∧ f a = Except.error e := by
  cases x with
  | error e => simp [bind, Except.bind]
  | ok a => simp [bind, Except.bind]

@[simp] theorem updateBlock_symbols (s : CodeGen) (b : Nat) (f : List IRValue → List IRValue) :
    (s.updateBlock b f).symbols = s.symbols := rfl

@[simp] theorem insert_symbols (s : CodeGen) (v : IRValue) : (s.insert v).symbols = s.symbols := by
  unfold CodeGen.insert
  split <;> rfl

@[simp] theorem create_symbols (s : CodeGen) (op : Opcode) (operands : List IRValue)
    (type : IRType) : (s.create op operands type).2.symbols = s.symbols := by
  simp [CodeGen.create]

@[simp] theorem create_value (s : CodeGen) (op : Opcode) (operands : List IRValue)
    (type : IRType) : (s.create op operands type).1 = IRValue.inst s.nextId op operands type := rfl

@[simp] theorem getDeclaration_symbols (s : CodeGen) (name : List Int) (returnType : IRType)
    (args : List IRType) : (s.getDeclaration name returnType args).symbols = s.symbols := by
  unfold CodeGen.getDeclaration
  split <;> rfl

@[simp] theorem get_symbols (s : CodeGen) (a b : IRValue) :
    (Complex.get s a b).2.symbols = s.symbols := by
  simp [Complex.get, Complex.re, Complex.im]

@[simp] theorem get_value_isReturnInst (s : CodeGen) (a b : IRValue) :
    (Complex.get s a b).1.isReturnInst = false := by
  simp [Complex.get, Complex.re, Complex.im, IRValue.isReturnInst]

@[simp] theorem getComponents_symbols (s : CodeGen) (v : IRValue) :
    (Complex.getComponents s v).2.symbols = s.symbols := by
  simp [Complex.getComponents, Complex.re, Complex.im]

@[simp] theorem getComponents_first (s : CodeGen) (v : IRValue) :
    (Complex.getComponents s v).1.1.isReturnInst = false := by
  simp [Complex.getComponents, Complex.re, Complex.im, IRValue.isReturnInst]

@[simp] theorem getComponents_second (s : CodeGen) (v : IRValue) :
    (Complex.getComponents s v).1.2.isReturnInst = false := by
  simp [Complex.getComponents, Complex.re, Complex.im, IRValue.isReturnInst]

@[simp] theorem mul_symbols (s : CodeGen) (a b c d : IRValue) :
    (Complex.mul s a b c d).2.symbols = s.symbols := by
  simp [Complex.mul]

/-- The two outcomes of `createSIToFP`: the folded constant and the state as
it is, or the instruction. -/
theorem createSIToFP_cases (s : CodeGen) (val : IRValue) :
    (∃ t c, val = IRValue.constInt t c ∧ s.createSIToFP val = (IRValue.constFP c, s)) ∨
      ((∀ t c, val ≠ IRValue.constInt t c) ∧
        s.createSIToFP val = s.create Opcode.sitofp [val] IRType.double) := by
  cases val <;> simp [CodeGen.createSIToFP]

@[simp] theorem createSIToFP_symbols (s : CodeGen) (val : IRValue) :
    (s.createSIToFP val).2.symbols = s.symbols := by
  rcases createSIToFP_cases s val with ⟨t, c, -, h⟩ | ⟨-, h⟩ <;> rw [h] <;> simp

@[simp] theorem createSIToFP_type (s : CodeGen) (val : IRValue) :
    (s.createSIToFP val).1.type = IRType.double := by
  rcases createSIToFP_cases s val with ⟨t, c, -, h⟩ | ⟨-, h⟩ <;> rw [h] <;> rfl

@[simp] theorem createSIToFP_isReturnInst (s : CodeGen) (val : IRValue) :
    (s.createSIToFP val).1.isReturnInst = false := by
  rcases createSIToFP_cases s val with ⟨t, c, -, h⟩ | ⟨-, h⟩ <;> rw [h] <;> rfl

theorem expand_frame (s : CodeGen) (val : IRValue) (to_ : IRType) (line : Int) (v : IRValue)
    (s2 : CodeGen) (h : Node.expand s val to_ line = Except.ok (v, s2)) :
    s2.symbols = s.symbols ∧ (val.isReturnInst = false → v.isReturnInst = false) := by
  unfold Node.expand at h
  split_ifs at h with h1 h2 h3 h4 h5 h6
  all_goals first
    | (simp only [Except.ok.injEq, Prod.mk.injEq] at h
       obtain ⟨rfl, rfl⟩ := h
       first
         | exact ⟨createSIToFP_symbols _ _, fun _ => createSIToFP_isReturnInst _ _⟩
         | simp [Complex.re, Complex.im, IRValue.isReturnInst])
    | simp [Node.error] at h

@[simp] theorem isReturnInst_inst (i : Nat) (op : Opcode) (ops : List IRValue) (t : IRType) :
    (IRValue.inst i op ops t).isReturnInst = decide (op = Opcode.ret) := by
  cases op <;> simp [IRValue.isReturnInst]

@[simp] theorem isReturnInst_constInt (t : IRType) (v : Int) :
    (IRValue.constInt t v).isReturnInst = false := rfl

@[simp] theorem isReturnInst_constFP (v : ℚ) : (IRValue.constFP v).isReturnInst = false := rfl

@[simp] theorem isReturnInst_globalString (i : Nat) (s : List Int) :
    (IRValue.globalString i s).isReturnInst = false := rfl

theorem Re_frame (s : CodeGen) (val : IRValue) (line : Int) (v : IRValue) (s2 : CodeGen)
    (h : FunctionCall.Re s val line = Except.ok (v, s2)) :
    s2.symbols = s.symbols ∧ (val.isReturnInst = false → v.isReturnInst = false) := by
  unfold FunctionCall.Re at h
  split_ifs at h
  all_goals try simp only [Node.error, reduceCtorEq] at h
  all_goals first
    | (simp [Node.error] at h; done)
    | (simp only [Except.ok.injEq, Prod.mk.injEq] at h
       obtain ⟨rfl, rfl⟩ := h
       simp [INT_ZERO, DOUBLE_ZERO, Complex.re, Complex.im, BinaryOperation.multiplyComplex,
         BinaryOperation.divideComplex])

theorem Im_frame (s : CodeGen) (val : IRValue) (line : Int) (v : IRValue) (s2 : CodeGen)
    (h : FunctionCall.Im s val line = Except.ok (v, s2)) :
    s2.symbols = s.symbols ∧ v.isReturnInst = false := by
  unfold FunctionCall.Im at h
  split_ifs at h
  all_goals try simp only [Node.error, reduceCtorEq] at h
  all_goals first
    | (simp [Node.error] at h; done)
    | (simp only [Except.ok.injEq, Prod.mk.injEq] at h
       obtain ⟨rfl, rfl⟩ := h
       simp [INT_ZERO, DOUBLE_ZERO, Complex.re, Complex.im, BinaryOperation.multiplyComplex,
         BinaryOperation.divideComplex])

theorem arithmetic_frame (s : CodeGen) (token : Token) (common : IRType) (L R v : IRValue)
    (s2 : CodeGen) (h : BinaryOperation.arithmetic s token common L R = Except.ok (v, s2)) :
    s2.symbols = s.symbols ∧ v.isReturnInst = false := by
  unfold BinaryOperation.arithmetic at h
  split_ifs at h
  all_goals try simp only [Node.error, reduceCtorEq] at h
  all_goals try split at h
  all_goals first
    | (simp [Node.error] at h; done)
    | (simp only [Except.ok.injEq, Prod.mk.injEq] at h
       obtain ⟨rfl, rfl⟩ := h
       simp [INT_ZERO, DOUBLE_ZERO, Complex.re, Complex.im, BinaryOperation.multiplyComplex,
         BinaryOperation.divideComplex])

theorem compare_frame (s : CodeGen) (token : Token) (common : IRType) (L R v : IRValue)
    (s2 : CodeGen) (h : Relation.compare s token common L R = Except.ok (v, s2)) :
    s2.symbols = s.symbols ∧ v.isReturnInst = false := by
  unfold Relation.compare at h
  split_ifs at h
  all_goals try simp only [Node.error, reduceCtorEq] at h
  all_goals try split at h
  all_goals first
    | (simp [Node.error] at h; done)
    | (simp only [Except.ok.injEq, Prod.mk.injEq] at h
       obtain ⟨rfl, rfl⟩ := h
       simp [INT_ZERO, DOUBLE_ZERO, Complex.re, Complex.im, BinaryOperation.multiplyComplex,
         BinaryOperation.divideComplex])

theorem absoluteValue_frame (s : CodeGen) (val : IRValue) (line : Int) (v : IRValue)
    (s2 : CodeGen) (h : AbsoluteValue.ofValue s val line = Except.ok (v, s2)) :
    s2.symbols = s.symbols ∧ v.isReturnInst = false := by
  unfold AbsoluteValue.ofValue at h
  split_ifs at h
  all_goals try simp only [Node.error, reduceCtorEq] at h
  all_goals first
    | (simp [Node.error] at h; done)
    | (simp only [Except.ok.injEq, Prod.mk.injEq] at h
       obtain ⟨rfl, rfl⟩ := h
       simp [INT_ZERO, DOUBLE_ZERO, Complex.re, Complex.im, BinaryOperation.multiplyComplex,
         BinaryOperation.divideComplex])

theorem unaryOperation_frame (s : CodeGen) (token : Token) (val v : IRValue)
    (s2 : CodeGen) (h : UnaryOperation.ofValue s token val = Except.ok (v, s2)) :
    s2.symbols = s.symbols ∧ (val.isReturnInst = false → v.isReturnInst = false) := by
  unfold UnaryOperation.ofValue at h
  split_ifs at h
  all_goals try simp only [Node.error, reduceCtorEq] at h
  all_goals first
    | (simp [Node.error] at h; done)
    | (simp only [Except.ok.injEq, Prod.mk.injEq] at h
       obtain ⟨rfl, rfl⟩ := h
       simp [INT_ZERO, DOUBLE_ZERO, Complex.re, Complex.im, BinaryOperation.multiplyComplex,
         BinaryOperation.divideComplex])

theorem constant_frame (s : CodeGen) (token : Token) (type : TypeID) (v : IRValue)
    (s2 : CodeGen) (h : Constant.generate s token type = Except.ok (v, s2)) :
    s2.symbols = s.symbols ∧ v.isReturnInst = false := by
  unfold Constant.generate at h
  split_ifs at h
  all_goals try simp only [Node.error, reduceCtorEq] at h
  all_goals try split at h
  all_goals first
    | (simp [Node.error] at h; done)
    | (simp only [Except.ok.injEq, Prod.mk.injEq] at h
       obtain ⟨rfl, rfl⟩ := h
       simp [INT_ZERO, DOUBLE_ZERO, Complex.re, Complex.im, BinaryOperation.multiplyComplex,
         BinaryOperation.divideComplex])
theorem generate_FunctionCall (token : Token) (arguments : List Expression) (s : CodeGen) :
    Expression.generate (Expression.FunctionCall token arguments) s =
    (match token.getString with
    | none => Except.error CodeGenFailure.badVariantAccess
    | some name =>
      if token.tag = Tag.RE then
        match arguments with
        | [a] => do
          let (val, s1) ← Expression.generate a s
          FunctionCall.Re s1 val token.line
        | _ => Node.error (str "Incorrect number of parameters in call to Re()") token.line
      else if token.tag = Tag.IM then
        match arguments with
        | [a] => do
          let (val, s1) ← Expression.generate a s
          FunctionCall.Im s1 val token.line
        | _ => Node.error (str "Incorrect number of parameters in call to Im()") token.line
      else
        match s.getFunction name with
        | none => Node.error (str "Function " ++ name ++ str " not defined") token.line
        | some func => do
          let (args, s1) ←
            Expression.generateArguments arguments (func.args.map (fun a => a.1)) func.name
              token.line s
          Except.ok (s1.create (Opcode.call func.name) args func.returnType)) := by
  cases arguments with
  | nil =>
    rw [Expression.generate]
    intro a h
    cases h
  | cons a as =>
    cases as with
    | nil => rw [Expression.generate]
    | cons b bs =>
      rw [Expression.generate]
      intro a h
      cases h

/-- The step of `generate_frame` for a call, from the same fact for the
arguments. -/
theorem functionCall_frame (token : Token) (arguments : List Expression) (s : CodeGen)
    (v : IRValue) (s2 : CodeGen)
    (ih : ∀ a, arguments = [a] → ∀ (s : CodeGen) (v : IRValue) (s2 : CodeGen),
      Expression.generate a s = Except.ok (v, s2) →
        s2.symbols = s.symbols ∧ v.isReturnInst = false)
    (ihArgs : ∀ (types : List IRType) (func : List Int) (line : Int) (s : CodeGen)
      (vs : List IRValue) (s2 : CodeGen),
      Expression.generateArguments arguments types func line s = Except.ok (vs, s2) →
        s2.symbols = s.symbols)
    (h : Expression.generate (Expression.FunctionCall token arguments) s = Except.ok (v, s2)) :
    s2.symbols = s.symbols ∧ v.isReturnInst = false := by
  rw [generate_FunctionCall] at h
  split at h
  · simp at h
  · split_ifs at h
    · split at h
      · next a =>
        simp only [bind_eq_ok] at h
        obtain ⟨⟨val, s1⟩, h1, h⟩ := h
        have f1 := ih a rfl s val s1 h1
        have f2 := Re_frame s1 val _ v s2 h
        exact ⟨f2.1.trans f1.1, f2.2 f1.2⟩
      · simp [Node.error] at h
    · split at h
      · next a =>
        simp only [bind_eq_ok] at h
        obtain ⟨⟨val, s1⟩, h1, h⟩ := h
        have f1 := ih a rfl s val s1 h1
        have f2 := Im_frame s1 val _ v s2 h
        exact ⟨f2.1.trans f1.1, f2.2⟩
      · simp [Node.error] at h
    · split at h
      · simp [Node.error] at h
      · simp only [bind_eq_ok] at h
        obtain ⟨⟨args, s1⟩, h1, h⟩ := h
        have f1 := ihArgs _ _ _ s args s1 h1
        simp only [Except.ok.injEq, Prod.mk.injEq] at h
        obtain ⟨rfl, rfl⟩ := h
        simp [f1]

mutual

/-- Generating an expression leaves the symbol table as it is, and its value
is never a return instruction. -/
theorem generate_frame : ∀ (e : Expression) (s : CodeGen) (v : IRValue) (s2 : CodeGen),
    Expression.generate e s = Except.ok (v, s2) →
      s2.symbols = s.symbols ∧ v.isReturnInst = false
  | Expression.Identifier id, s, v, s2, h => by
    rw [Expression.generate] at h
    split at h
    · simp at h
    · simp only [bind_eq_ok] at h
      obtain ⟨symbol, -, type, -, h⟩ := h
      simp only [Except.ok.injEq, Prod.mk.injEq] at h
      obtain ⟨rfl, rfl⟩ := h
      simp
  | Expression.FunctionCall token [], s, v, s2, h =>
    functionCall_frame token [] s v s2 (fun a ha => by cases ha)
      (generateArguments_frame []) h
  | Expression.FunctionCall token [a], s, v, s2, h =>
    functionCall_frame token [a] s v s2
      (fun x hx => by
        simp only [List.cons.injEq, and_true] at hx
        subst hx
        exact generate_frame a)
      (generateArguments_frame [a]) h
  | Expression.FunctionCall token (a :: b :: rest), s, v, s2, h =>
    functionCall_frame token (a :: b :: rest) s v s2 (fun x hx => by simp at hx)
      (generateArguments_frame (a :: b :: rest)) h
  | Expression.AbsoluteValue token val_, s, v, s2, h => by
    rw [Expression.generate] at h
    simp only [bind_eq_ok] at h
    obtain ⟨⟨val, s1⟩, h1, h⟩ := h
    have f1 := generate_frame val_ s val s1 h1
    have f2 := absoluteValue_frame s1 val _ v s2 h
    exact ⟨f2.1.trans f1.1, f2.2⟩
  | Expression.Complex imaginary token, s, v, s2, h => by
    rw [Expression.generate] at h
    simp only [bind_eq_ok] at h
    obtain ⟨⟨val, s1⟩, h1, ⟨im, s3⟩, h2, h⟩ := h
    have f1 := generate_frame imaginary s val s1 h1
    have f2 := expand_frame s1 val _ _ im s3 h2
    simp only [Except.ok.injEq, Prod.mk.injEq] at h
    obtain ⟨rfl, rfl⟩ := h
    simp [f1.1, f2.1]
  | Expression.BinaryOperation lhs token rhs, s, v, s2, h => by
    rw [Expression.generate] at h
    simp only [bind_eq_ok] at h
    obtain ⟨⟨L, s1⟩, h1, ⟨R, s3⟩, h2, common, -, ⟨L1, s4⟩, h3, ⟨R1, s5⟩, h4, h⟩ := h
    have f1 := generate_frame lhs s L s1 h1
    have f2 := generate_frame rhs s1 R s3 h2
    have f3 := expand_frame s3 L _ _ L1 s4 h3
    have f4 := expand_frame s4 R _ _ R1 s5 h4
    have f5 := arithmetic_frame s5 token common L1 R1 v s2 h
    exact ⟨f5.1.trans (f4.1.trans (f3.1.trans (f2.1.trans f1.1))), f5.2⟩
  | Expression.UnaryOperation token expression, s, v, s2, h => by
    rw [Expression.generate] at h
    simp only [bind_eq_ok] at h
    obtain ⟨⟨val, s1⟩, h1, h⟩ := h
    have f1 := generate_frame expression s val s1 h1
    have f2 := unaryOperation_frame s1 token val v s2 h
    exact ⟨f2.1.trans f1.1, f2.2 f1.2⟩
  | Expression.Constant token type, s, v, s2, h => by
    rw [Expression.generate] at h
    exact constant_frame s token type v s2 h
  | Expression.Disjunction lhs token rhs, s, v, s2, h => by
    rw [Expression.generate] at h
    simp only [bind_eq_ok] at h
    obtain ⟨⟨L, s1⟩, h1, ⟨R, s3⟩, h2, h⟩ := h
    have f1 := generate_frame lhs s L s1 h1
    have f2 := generate_frame rhs s1 R s3 h2
    simp only [Except.ok.injEq, Prod.mk.injEq] at h
    obtain ⟨rfl, rfl⟩ := h
    simp [f1.1, f2.1]
  | Expression.Conjunction lhs token rhs, s, v, s2, h => by
    rw [Expression.generate] at h
    simp only [bind_eq_ok] at h
    obtain ⟨⟨L, s1⟩, h1, ⟨R, s3⟩, h2, h⟩ := h
    have f1 := generate_frame lhs s L s1 h1
    have f2 := generate_frame rhs s1 R s3 h2
    simp only [Except.ok.injEq, Prod.mk.injEq] at h
    obtain ⟨rfl, rfl⟩ := h
    simp [f1.1, f2.1]
  | Expression.Negation token expression, s, v, s2, h => by
    rw [Expression.generate] at h
    simp only [bind_eq_ok] at h
    obtain ⟨⟨val, s1⟩, h1, h⟩ := h
    have f1 := generate_frame expression s val s1 h1
    simp only [Except.ok.injEq, Prod.mk.injEq] at h
    obtain ⟨rfl, rfl⟩ := h
    simp [f1.1]
  | Expression.Relation lhs token rhs, s, v, s2, h => by
    rw [Expression.generate] at h
    simp only [bind_eq_ok] at h
    obtain ⟨⟨L, s1⟩, h1, ⟨R, s3⟩, h2, common, -, ⟨L1, s4⟩, h3, ⟨R1, s5⟩, h4, h⟩ := h
    have f1 := generate_frame lhs s L s1 h1
    have f2 := generate_frame rhs s1 R s3 h2
    have f3 := expand_frame s3 L _ _ L1 s4 h3
    have f4 := expand_frame s4 R _ _ R1 s5 h4
    have f5 := compare_frame s5 token common L R v s2 h
    exact ⟨f5.1.trans (f4.1.trans (f3.1.trans (f2.1.trans f1.1))), f5.2⟩

/-- Generating the arguments of a call leaves the symbol table as it is. -/
theorem generateArguments_frame : ∀ (arguments : List Expression) (types : List IRType)
    (func : List Int) (line : Int) (s : CodeGen) (vs : List IRValue) (s2 : CodeGen),
    Expression.generateArguments arguments types func line s = Except.ok (vs, s2) →
      s2.symbols = s.symbols
  | _, [], _, _, s, vs, s2, h => by
    rw [Expression.generateArguments] at h
    simp only [Except.ok.injEq, Prod.mk.injEq] at h
    rw [← h.2]
  | [], _ :: _, _, _, s, vs, s2, h => by
    rw [Expression.generateArguments] at h
    simp [Node.error] at h
  | a :: arguments, t :: types, func, line, s, vs, s2, h => by
    rw [Expression.generateArguments] at h
    simp only [bind_eq_ok] at h
    obtain ⟨⟨v, s1⟩, h1, ⟨arg, s3⟩, h2, ⟨args, s4⟩, h3, h⟩ := h
    have f1 := generate_frame a s v s1 h1
    have f2 := expand_frame s1 v _ _ arg s3 h2
    have f3 := generateArguments_frame arguments types func line s3 args s4 h3
    simp only [Except.ok.injEq, Prod.mk.injEq] at h
    rw [← h.2, f3, f2.1, f1.1]

end

/-! ### Calls of functions that are not defined -/

/-- Claim C16.  A call whose token carries the name `name`, with a tag other
than `RE` and `IM`, in a module that has no function `name`: `generate`
fails with the `CodeGenError` "Function NAME not defined" at the line of the
token, whatever the arguments are and before any of them is generated. -/
theorem functionCall_undefined (token : Token) (arguments : List Expression) (s : CodeGen)
    (name : List Int) (hname : token.getString = some name) (hre : token.tag ≠ Tag.RE)
    (him : token.tag ≠ Tag.IM) (hf : s.getFunction name = none) :
    Expression.generate (Expression.FunctionCall token arguments) s =
      Except.error
        (CodeGenFailure.codeGenError (str "Function " ++ name ++ str " not defined") token.line) := by
  rw [generate_FunctionCall]
  simp only [hname, if_neg hre, if_neg him, hf, Node.error]

theorem functionCall_undefined_witness :
    (match generateFirst LLVM.accepting 100
        "fun main :int () {    int i = f(0);     return i;   }" with
      | Except.ok r => failureOf r
      | Except.error _ => none) =
      some (CodeGenFailure.codeGenError (str "Function f not defined") 1) ∧
    Expression.generate
        (Expression.FunctionCall (Token.ofString Tag.ID (str "f") 1)
          [Expression.Constant (Token.ofInt 0 1) TypeID.INT]) CodeGen.new =
      Except.error (CodeGenFailure.codeGenError (str "Function " ++ str "f" ++ str " not defined")
        (Token.ofString Tag.ID (str "f") 1).line) :=
  ⟨by decide!,
    functionCall_undefined (Token.ofString Tag.ID (str "f") 1)
      [Expression.Constant (Token.ofInt 0 1) TypeID.INT] CodeGen.new (str "f")
      (by decide) (by decide) (by decide) (by decide)⟩

/-! ### Resolution of identifiers -/

theorem bind_ne_error {ε α β : Type} (x : Except ε α) (f : α → Except ε β) (e : ε)
    (hx : x ≠ Except.error e) (hf : ∀ a, x = Except.ok a → f a ≠ Except.error e) :
    (x >>= f) ≠ Except.error e := by
  cases x with
  | error e2 => simpa [bind, Except.bind] using hx
  | ok a => simpa [bind, Except.bind] using hf a rfl

/-- A message whose third character is not `d` is not "Undefined identifier ...". -/
theorem message_ne (m name : List Int) (hm : m.get? 2 ≠ some 100) :
    m ≠ str "Undefined identifier " ++ name := by
  intro h
  apply hm
  rw [h]
  rfl

theorem error_ne_undefined (m name : List Int) (l line : Int) (hm : m.get? 2 ≠ some 100) :
    (Node.error m l : Except CodeGenFailure (IRValue × CodeGen)) ≠
      Except.error (CodeGenFailure.codeGenError (str "Undefined identifier " ++ name) line) := by
  intro h
  simp only [Node.error, Except.error.injEq, CodeGenFailure.codeGenError.injEq] at h
  exact message_ne m name hm h.1

theorem getType_ne_undefined (type : TypeID) (l : Int) (name : List Int) (line : Int) :
    Node.getType type l ≠
      Except.error (CodeGenFailure.codeGenError (str "Undefined identifier " ++ name) line) := by
  intro h
  cases type <;> simp only [Node.getType, Node.error, Except.error.injEq,
    CodeGenFailure.codeGenError.injEq, reduceCtorEq] at h
  exact message_ne _ name (by decide) h.1

theorem getMaxType_ne_undefined (a b : IRType) (l : Int) (name : List Int) (line : Int) :
    Node.getMaxType a b l ≠
      Except.error (CodeGenFailure.codeGenError (str "Undefined identifier " ++ name) line) := by
  intro h
  unfold Node.getMaxType at h
  split_ifs at h
  simp only [Node.error, Except.error.injEq, CodeGenFailure.codeGenError.injEq] at h
  exact message_ne _ name (by decide) h.1

theorem expand_ne_undefined (s : CodeGen) (val : IRValue) (to_ : IRType) (l : Int)
    (name : List Int) (line : Int) :
    Node.expand s val to_ l ≠
      Except.error (CodeGenFailure.codeGenError (str "Undefined identifier " ++ name) line) := by
  intro h
  unfold Node.expand at h
  split_ifs at h
  all_goals exact error_ne_undefined _ name _ line (by decide) h

theorem Re_ne_undefined (s : CodeGen) (val : IRValue) (l : Int) (name : List Int) (line : Int) :
    FunctionCall.Re s val l ≠
      Except.error (CodeGenFailure.codeGenError (str "Undefined identifier " ++ name) line) := by
  intro h
  unfold FunctionCall.Re at h
  split_ifs at h
  all_goals exact error_ne_undefined _ name _ line (by decide) h

theorem Im_ne_undefined (s : CodeGen) (val : IRValue) (l : Int) (name : List Int) (line : Int) :
    FunctionCall.Im s val l ≠
      Except.error (CodeGenFailure.codeGenError (str "Undefined identifier " ++ name) line) := by
  intro h
  unfold FunctionCall.Im at h
  split_ifs at h
  all_goals exact error_ne_undefined _ name _ line (by decide) h

theorem arithmetic_ne_undefined (s : CodeGen) (token : Token) (common : IRType) (L R : IRValue)
    (name : List Int) (line : Int) :
    BinaryOperation.arithmetic s token common L R ≠
      Except.error (CodeGenFailure.codeGenError (str "Undefined identifier " ++ name) line) := by
  intro h
  unfold BinaryOperation.arithmetic at h
  split_ifs at h
  all_goals try simp only [Node.error, reduceCtorEq] at h
  all_goals try split at h
  all_goals first
    | (simp at h; done)
    | exact error_ne_undefined _ name _ line (by decide) h

theorem compare_ne_undefined (s : CodeGen) (token : Token) (common : IRType) (L R : IRValue)
    (name : List Int) (line : Int) :
    Relation.compare s token common L R ≠
      Except.error (CodeGenFailure.codeGenError (str "Undefined identifier " ++ name) line) := by
  intro h
  unfold Relation.compare at h
  split_ifs at h
  all_goals try simp only [Node.error, reduceCtorEq] at h
  all_goals try split at h
  all_goals first
    | (simp at h; done)
    | exact error_ne_undefined _ name _ line (by decide) h

theorem absoluteValue_ne_undefined (s : CodeGen) (val : IRValue) (l : Int) (name : List Int)
    (line : Int) :
    AbsoluteValue.ofValue s val l ≠
      Except.error (CodeGenFailure.codeGenError (str "Undefined identifier " ++ name) line) := by
  intro h
  unfold AbsoluteValue.ofValue at h
  split_ifs at h
  all_goals exact error_ne_undefined _ name _ line (by decide) h

theorem unaryOperation_ne_undefined (s : CodeGen) (token : Token) (val : IRValue)
    (name : List Int) (line : Int) :
    UnaryOperation.ofValue s token val ≠
      Except.error (CodeGenFailure.codeGenError (str "Undefined identifier " ++ name) line) := by
  intro h
  unfold UnaryOperation.ofValue at h
  split_ifs at h
  all_goals exact error_ne_undefined _ name _ line (by decide) h

theorem constant_ne_undefined (s : CodeGen) (token : Token) (type : TypeID)
    (name : List Int) (line : Int) :
    Constant.generate s token type ≠
      Except.error (CodeGenFailure.codeGenError (str "Undefined identifier " ++ name) line) := by
  intro h
  unfold Constant.generate at h
  split_ifs at h
  all_goals try split at h
  all_goals first
    | (simp at h)
    | exact error_ne_undefined _ name _ line (by decide) h

theorem get_eq_none_iff (tables : List (List (List Int × Symbol))) (name : List Int) :
    SymbolTable.get tables name = none ↔ ∀ table ∈ tables, table.lookup name = none := by
  unfold SymbolTable.get
  rw [List.findSome?_eq_none_iff]
  simp only [List.mem_reverse]

/-- The step of `generate_defined` for a call, from the same fact for the
arguments. -/
theorem functionCall_defined (token : Token) (arguments : List Expression) (s : CodeGen)
    (name : List Int) (line : Int)
    (ih : ∀ a, arguments = [a] → ∀ (s : CodeGen), SymbolTable.get s.symbols name ≠ none →
      Expression.generate a s ≠
        Except.error (CodeGenFailure.codeGenError (str "Undefined identifier " ++ name) line))
    (ihArgs : ∀ (types : List IRType) (func : List Int) (l : Int) (s : CodeGen),
      SymbolTable.get s.symbols name ≠ none →
      Expression.generateArguments arguments types func l s ≠
        Except.error (CodeGenFailure.codeGenError (str "Undefined identifier " ++ name) line))
    (hb : SymbolTable.get s.symbols name ≠ none) :
    Expression.generate (Expression.FunctionCall token arguments) s ≠
      Except.error (CodeGenFailure.codeGenError (str "Undefined identifier " ++ name) line) := by
  rw [generate_FunctionCall]
  split
  · simp
  · split_ifs
    · split
      · next a =>
        exact bind_ne_error _ _ _ (ih a rfl s hb) (fun ⟨val, s1⟩ _ => Re_ne_undefined _ _ _ _ _)
      · exact error_ne_undefined _ name _ line (by decide)
    · split
      · next a =>
        exact bind_ne_error _ _ _ (ih a rfl s hb) (fun ⟨val, s1⟩ _ => Im_ne_undefined _ _ _ _ _)
      · exact error_ne_undefined _ name _ line (by decide)
    · split
      · exact error_ne_undefined _ name _ line (by rw [show (str "Function " ++ _ ++
          str " not defined").get? 2 = some 110 from rfl]; decide)
      · exact bind_ne_error _ _ _ (ihArgs _ _ _ s hb) (fun ⟨args, s1⟩ _ => by simp)

mutual

/-- Generating an expression does not fail with "Undefined identifier NAME"
for a name that the symbol table binds. -/
theorem generate_defined : ∀ (e : Expression) (s : CodeGen) (name : List Int) (line : Int),
    SymbolTable.get s.symbols name ≠ none →
      Expression.generate e s ≠
        Except.error (CodeGenFailure.codeGenError (str "Undefined identifier " ++ name) line)
  | Expression.Identifier id, s, name, line, hb => by
    rw [Expression.generate]
    split
    · simp
    · next n hn =>
      refine bind_ne_error _ _ _ ?_ (fun symbol _ => bind_ne_error _ _ _
        (getType_ne_undefined _ _ _ _) (fun type _ => by simp))
      unfold Node.getSymbol
      split
      · next hnone =>
        intro h
        simp only [Node.error, Except.error.injEq, CodeGenFailure.codeGenError.injEq] at h
        have hname : n = name := List.append_cancel_left h.1
        rw [hname] at hnone
        exact hb hnone
      · simp
  | Expression.FunctionCall token [], s, name, line, hb =>
    functionCall_defined token [] s name line (fun a ha => by cases ha)
      (fun types func l s hs => generateArguments_defined [] types func l s name line hs) hb
  | Expression.FunctionCall token [a], s, name, line, hb =>
    functionCall_defined token [a] s name line
      (fun x hx => by
        simp only [List.cons.injEq, and_true] at hx
        subst hx
        exact fun s hs => generate_defined a s name line hs)
      (fun types func l s hs => generateArguments_defined [a] types func l s name line hs) hb
  | Expression.FunctionCall token (a :: b :: rest), s, name, line, hb =>
    functionCall_defined token (a :: b :: rest) s name line (fun x hx => by simp at hx)
      (fun types func l s hs =>
        generateArguments_defined (a :: b :: rest) types func l s name line hs) hb
  | Expression.AbsoluteValue token val_, s, name, line, hb => by
    rw [Expression.generate]
    exact bind_ne_error _ _ _ (generate_defined val_ s name line hb)
      (fun ⟨val, s1⟩ _ => absoluteValue_ne_undefined _ _ _ _ _)
  | Expression.Complex imaginary token, s, name, line, hb => by
    rw [Expression.generate]
    exact bind_ne_error _ _ _ (generate_defined imaginary s name line hb)
      (fun ⟨v, s1⟩ _ => bind_ne_error _ _ _ (expand_ne_undefined _ _ _ _ _ _)
        (fun ⟨im, s2⟩ _ => by simp))
  | Expression.BinaryOperation lhs token rhs, s, name, line, hb => by
    rw [Expression.generate]
    refine bind_ne_error _ _ _ (generate_defined lhs s name line hb) (fun ⟨L, s1⟩ h1 => ?_)
    have hb1 : SymbolTable.get s1.symbols name ≠ none := by
      rw [(generate_frame lhs s L s1 h1).1]; exact hb
    refine bind_ne_error _ _ _ (generate_defined rhs s1 name line hb1) (fun ⟨R, s2⟩ _ => ?_)
    refine bind_ne_error _ _ _ (getMaxType_ne_undefined _ _ _ _ _) (fun common _ => ?_)
    refine bind_ne_error _ _ _ (expand_ne_undefined _ _ _ _ _ _) (fun ⟨L1, s3⟩ _ => ?_)
    refine bind_ne_error _ _ _ (expand_ne_undefined _ _ _ _ _ _) (fun ⟨R1, s4⟩ _ => ?_)
    exact arithmetic_ne_undefined _ _ _ _ _ _ _
  | Expression.UnaryOperation token expression, s, name, line, hb => by
    rw [Expression.generate]
    exact bind_ne_error _ _ _ (generate_defined expression s name line hb)
      (fun ⟨val, s1⟩ _ => unaryOperation_ne_undefined _ _ _ _ _)
  | Expression.Constant token type, s, name, line, hb => by
    rw [Expression.generate]
    exact constant_ne_undefined _ _ _ _ _
  | Expression.Disjunction lhs token rhs, s, name, line, hb => by
    rw [Expression.generate]
    refine bind_ne_error _ _ _ (generate_defined lhs s name line hb) (fun ⟨L, s1⟩ h1 => ?_)
    have hb1 : SymbolTable.get s1.symbols name ≠ none := by
      rw [(generate_frame lhs s L s1 h1).1]; exact hb
    exact bind_ne_error _ _ _ (generate_defined rhs s1 name line hb1) (fun ⟨R, s2⟩ _ => by simp)
  | Expression.Conjunction lhs token rhs, s, name, line, hb => by
    rw [Expression.generate]
    refine bind_ne_error _ _ _ (generate_defined lhs s name line hb) (fun ⟨L, s1⟩ h1 => ?_)
    have hb1 : SymbolTable.get s1.symbols name ≠ none := by
      rw [(generate_frame lhs s L s1 h1).1]; exact hb
    exact bind_ne_error _ _ _ (generate_defined rhs s1 name line hb1) (fun ⟨R, s2⟩ _ => by simp)
  | Expression.Negation token expression, s, name, line, hb => by
    rw [Expression.generate]
    exact bind_ne_error _ _ _ (generate_defined expression s name line hb)
      (fun ⟨v, s1⟩ _ => by simp)
  | Expression.Relation lhs token rhs, s, name, line, hb => by
    rw [Expression.generate]
    refine bind_ne_error _ _ _ (generate_defined lhs s name line hb) (fun ⟨L, s1⟩ h1 => ?_)
    have hb1 : SymbolTable.get s1.symbols name ≠ none := by
      rw [(generate_frame lhs s L s1 h1).1]; exact hb
    refine bind_ne_error _ _ _ (generate_defined rhs s1 name line hb1) (fun ⟨R, s2⟩ _ => ?_)
    refine bind_ne_error _ _ _ (getMaxType_ne_undefined _ _ _ _ _) (fun common _ => ?_)
    refine bind_ne_error _ _ _ (expand_ne_undefined _ _ _ _ _ _) (fun ⟨L1, s3⟩ _ => ?_)
    refine bind_ne_error _ _ _ (expand_ne_undefined _ _ _ _ _ _) (fun ⟨R1, s4⟩ _ => ?_)
    exact compare_ne_undefined _ _ _ _ _ _ _

/-- The same for the arguments of a call. -/
theorem generateArguments_defined : ∀ (arguments : List Expression) (types : List IRType)
    (func : List Int) (l : Int) (s : CodeGen) (name : List Int) (line : Int),
    SymbolTable.get s.symbols name ≠ none →
      Expression.generateArguments arguments types func l s ≠
        Except.error (CodeGenFailure.codeGenError (str "Undefined identifier " ++ name) line)
  | _, [], _, _, s, name, line, hb => by
    rw [Expression.generateArguments]
    simp
  | [], _ :: _, func, _, s, name, line, hb => by
    rw [Expression.generateArguments]
    intro h
    simp only [Node.error, Except.error.injEq, CodeGenFailure.codeGenError.injEq] at h
    exact message_ne _ name (by
      rw [show (str "Incorrect number of parameters in call to " ++ func).get? 2 = some 99 from rfl]
      decide) h.1
  | a :: arguments, t :: types, func, l, s, name, line, hb => by
    rw [Expression.generateArguments]
    refine bind_ne_error _ _ _ (generate_defined a s name line hb) (fun ⟨v, s1⟩ h1 => ?_)
    have hb1 : SymbolTable.get s1.symbols name ≠ none := by
      rw [(generate_frame a s v s1 h1).1]; exact hb
    refine bind_ne_error _ _ _ (expand_ne_undefined _ _ _ _ _ _) (fun ⟨arg, s2⟩ h2 => ?_)
    have hb2 : SymbolTable.get s2.symbols name ≠ none := by
      rw [(expand_frame s1 v _ _ arg s2 h2).1]; exact hb1
    exact bind_ne_error _ _ _ (generateArguments_defined arguments types func l s2 name line hb2)
      (fun ⟨args, s3⟩ _ => by simp)

end

theorem identifier_unbound (id : Identifier) (s : CodeGen) (name : List Int)
    (hname : id.token.getString = some name)
    (hget : SymbolTable.get s.symbols name = none) :
    Expression.generate (Expression.Identifier id) s = Except.error
      (CodeGenFailure.codeGenError (str "Undefined identifier " ++ name) id.token.line) := by
  rw [Expression.generate]
  simp [hname, Node.getSymbol, hget, Node.error, bind, Except.bind]

theorem assignment_unbound (L : LLVM) (id : Identifier) (expression : Expression) (s : CodeGen)
    (name : List Int) (hname : id.token.getString = some name)
    (hget : SymbolTable.get s.symbols name = none) :
    Statement.generate L (Statement.Assignment id expression) s = Except.error
      (CodeGenFailure.codeGenError (str "Undefined identifier " ++ name) id.token.line) := by
  rw [Statement.generate]
  simp [hname, Node.getSymbol, hget, Node.error, bind, Except.bind]

theorem assignment_bound (L : LLVM) (id : Identifier) (expression : Expression) (s : CodeGen)
    (name : List Int) (line : Int) (hname : id.token.getString = some name)
    (hget : SymbolTable.get s.symbols name ≠ none) :
    Statement.generate L (Statement.Assignment id expression) s ≠ Except.error
      (CodeGenFailure.codeGenError (str "Undefined identifier " ++ name) line) := by
  rw [Statement.generate]
  simp only [hname]
  cases hs : SymbolTable.get s.symbols name with
  | none => exact absurd hs hget
  | some lhs =>
    have h0 : Node.getSymbol s name id.token.line = Except.ok lhs := by
      simp [Node.getSymbol, hs]
    rw [h0]
    refine bind_ne_error _ _ _ (by simp) (fun symbol _ => ?_)
    refine bind_ne_error _ _ _ (generate_defined expression s name line hget)
      (fun ⟨v, s1⟩ _ => ?_)
    refine bind_ne_error _ _ _ (getType_ne_undefined _ _ _ _) (fun type _ => ?_)
    refine bind_ne_error _ _ _ (expand_ne_undefined _ _ _ _ _ _) (fun ⟨rhs, s2⟩ _ => ?_)
    simp

/-- Claim C15.  For an identifier whose token carries the name `name`, in
every state of the symbol table: reading it with an `Identifier` expression
and assigning to it with an `Assignment`, whatever the right-hand side, fail
with the `CodeGenError` "Undefined identifier NAME" if and only if no scope
of the stack binds the name; the error is then raised at the line of the
token of the identifier. -/
theorem identifier_resolution (L : LLVM) (id : Identifier) (expression : Expression)
    (s : CodeGen) (name : List Int) (hname : id.token.getString = some name) :
    ((∃ line, Expression.generate (Expression.Identifier id) s = Except.error
        (CodeGenFailure.codeGenError (str "Undefined identifier " ++ name) line)) ↔
      ∀ table ∈ s.symbols, table.lookup name = none) ∧
    ((∃ line, Statement.generate L (Statement.Assignment id expression) s = Except.error
        (CodeGenFailure.codeGenError (str "Undefined identifier " ++ name) line)) ↔
      ∀ table ∈ s.symbols, table.lookup name = none) ∧
    ((∀ table ∈ s.symbols, table.lookup name = none) →
      Expression.generate (Expression.Identifier id) s = Except.error
        (CodeGenFailure.codeGenError (str "Undefined identifier " ++ name) id.token.line) ∧
      Statement.generate L (Statement.Assignment id expression) s = Except.error
        (CodeGenFailure.codeGenError (str "Undefined identifier " ++ name) id.token.line)) := by
  rw [← get_eq_none_iff]
  refine ⟨⟨?_, fun h => ⟨_, identifier_unbound id s name hname h⟩⟩,
    ⟨?_, fun h => ⟨_, assignment_unbound L id expression s name hname h⟩⟩,
    fun h => ⟨identifier_unbound id s name hname h,
      assignment_unbound L id expression s name hname h⟩⟩
  · rintro ⟨line, h⟩
    by_contra hb
    exact generate_defined _ s name line hb h
  · rintro ⟨line, h⟩
    by_contra hb
    exact assignment_bound L id expression s name line hname hb h

theorem identifier_resolution_witness :
    (match generateFirst LLVM.accepting 100 "fun main :int () {    a = 1;    return a;  }" with
      | Except.ok r => failureOf r
      | Except.error _ => none) =
      some (CodeGenFailure.codeGenError (str "Undefined identifier a") 1) ∧
    Expression.generate (Expression.Identifier ⟨Token.ofString Tag.ID (str "a") 1, TypeID.NONE⟩)
        CodeGen.new.push = Except.error
      (CodeGenFailure.codeGenError (str "Undefined identifier " ++ str "a") 1) ∧
    Statement.generate LLVM.accepting
        (Statement.Assignment ⟨Token.ofString Tag.ID (str "a") 1, TypeID.NONE⟩
          (Expression.Constant (Token.ofInt 1 1) TypeID.INT)) CodeGen.new.push = Except.error
      (CodeGenFailure.codeGenError (str "Undefined identifier " ++ str "a") 1) :=
  ⟨by decide!,
    (identifier_resolution LLVM.accepting ⟨Token.ofString Tag.ID (str "a") 1, TypeID.NONE⟩
      (Expression.Constant (Token.ofInt 1 1) TypeID.INT) CodeGen.new.push (str "a")
      (by decide)).2.2 (by decide)⟩

/-! ### The promotion of numeric types -/

@[simp] theorem type_inst (i : Nat) (op : Opcode) (ops : List IRValue) (t : IRType) :
    (IRValue.inst i op ops t).type = t := rfl

theorem getMaxType_numeric (a b : IRType) (line : Int) (ha : a ∈ numericTypes)
    (hb : b ∈ numericTypes) :
    ∃ c, Node.getMaxType a b line = Except.ok c ∧ c ∈ numericTypes ∧
      numericRank c = max (numericRank a) (numericRank b) := by
  simp only [numericTypes, List.mem_cons, List.mem_singleton, List.not_mem_nil, or_false] at ha hb
  rcases ha with rfl | rfl | rfl <;> rcases hb with rfl | rfl | rfl <;>
    simp [Node.getMaxType, numericTypes, numericRank]

theorem numericRank_injective (a b : IRType) (ha : a ∈ numericTypes) (hb : b ∈ numericTypes)
    (h : numericRank a = numericRank b) : a = b := by
  simp only [numericTypes, List.mem_cons, List.mem_singleton, List.not_mem_nil, or_false] at ha hb
  rcases ha with rfl | rfl | rfl <;> rcases hb with rfl | rfl | rfl <;>
    simp [numericRank] at h ⊢

theorem expand_numeric (s : CodeGen) (val : IRValue) (c : IRType) (line : Int)
    (ha : val.type ∈ numericTypes) (hc : c ∈ numericTypes)
    (hle : numericRank val.type ≤ numericRank c) :
    ∃ r, Node.expand s val c line = Except.ok r ∧ r.1.type = c := by
  simp only [numericTypes, List.mem_cons, List.mem_singleton, List.not_mem_nil, or_false] at ha hc
  rcases ha with ha | ha | ha <;> rcases hc with rfl | rfl | rfl <;>
    simp [ha, numericRank] at hle <;>
    simp [Node.expand, ha, Complex.re, Complex.im]

theorem arithmetic_numeric (s : CodeGen) (token : Token) (common : IRType) (L R : IRValue)
    (hc : common ∈ numericTypes) (hL : L.type = common) (ht : token.tag ∈ arithmeticTags) :
    ∃ r, BinaryOperation.arithmetic s token common L R = Except.ok r ∧ r.1.type = common := by
  simp only [numericTypes, List.mem_cons, List.mem_singleton, List.not_mem_nil, or_false] at hc
  simp only [arithmeticTags, List.mem_cons, List.mem_singleton, List.not_mem_nil, or_false] at ht
  rcases hc with rfl | rfl | rfl <;> rcases ht with ht | ht | ht | ht <;>
    simp [BinaryOperation.arithmetic, ht, hL, Complex.get, Complex.re, Complex.im,
      BinaryOperation.multiplyComplex, BinaryOperation.divideComplex]

/-- Claim C17.  (1) For numeric types `a` and `b`, `getMaxType` returns their
supremum in the order INT < DOUBLE < COMPLEX: a numeric type `c` above both
and below every numeric type above both.  (2) It is commutative and, on
numeric types, idempotent and associative.  (3) It fails exactly when one of
the types is `stringType`, and then with a `CodeGenError`.  (4) When the
operands of a `BinaryOperation` with the operator `+`, `-`, `*` or `/`
generate values `L` and `R` of numeric types, `generate` returns a value
whose type is `getMaxType` of the types of `L` and `R`. -/
theorem promotion_lattice :
    (∀ (a b : IRType) (line : Int), a ∈ numericTypes → b ∈ numericTypes →
      ∃ c, Node.getMaxType a b line = Except.ok c ∧ c ∈ numericTypes ∧
        numericRank a ≤ numericRank c ∧ numericRank b ≤ numericRank c ∧
        ∀ d ∈ numericTypes, numericRank a ≤ numericRank d → numericRank b ≤ numericRank d →
          numericRank c ≤ numericRank d) ∧
    (∀ (a b : IRType) (line : Int), Node.getMaxType a b line = Node.getMaxType b a line) ∧
    (∀ (a : IRType) (line : Int), a ∈ numericTypes → Node.getMaxType a a line = Except.ok a) ∧
    (∀ (a b c : IRType) (line : Int), a ∈ numericTypes → b ∈ numericTypes → c ∈ numericTypes →
      (Node.getMaxType a b line >>= fun ab => Node.getMaxType ab c line) =
        (Node.getMaxType b c line >>= fun bc => Node.getMaxType a bc line)) ∧
    (∀ (a b : IRType) (line : Int),
      (∃ e, Node.getMaxType a b line = Except.error e) ↔ (a = IRType.string ∨ b = IRType.string)) ∧
    (∀ (a b : IRType) (line : Int) (e : CodeGenFailure),
      Node.getMaxType a b line = Except.error e → ∃ msg, e = CodeGenFailure.codeGenError msg line) ∧
    (∀ (lhs rhs : Expression) (token : Token) (s s1 s2 : CodeGen) (L R : IRValue),
      Expression.generate lhs s = Except.ok (L, s1) →
      Expression.generate rhs s1 = Except.ok (R, s2) →
      L.type ∈ numericTypes → R.type ∈ numericTypes → token.tag ∈ arithmeticTags →
      ∃ v s3, Expression.generate (Expression.BinaryOperation lhs token rhs) s =
          Except.ok (v, s3) ∧
        Node.getMaxType L.type R.type token.line = Except.ok v.type) := by
  refine ⟨?_, ?_, ?_, ?_, ?_, ?_, ?_⟩
  · intro a b line ha hb
    obtain ⟨c, h, hc, hr⟩ := getMaxType_numeric a b line ha hb
    exact ⟨c, h, hc, by omega, by omega, fun d _ h1 h2 => by omega⟩
  · intro a b line
    simp only [Node.getMaxType, or_comm]
  · intro a line ha
    obtain ⟨c, h, hc, hr⟩ := getMaxType_numeric a a line ha ha
    rw [h, numericRank_injective c a hc ha (by omega)]
  · intro a b c line ha hb hc
    simp only [numericTypes, List.mem_cons, List.mem_singleton, List.not_mem_nil,
      or_false] at ha hb hc
    rcases ha with rfl | rfl | rfl <;> rcases hb with rfl | rfl | rfl <;>
      rcases hc with rfl | rfl | rfl <;> rfl
  · intro a b line
    unfold Node.getMaxType
    split_ifs with h1 h2 h3 <;> simp [Node.error, h1]
  · intro a b line e h
    unfold Node.getMaxType at h
    split_ifs at h
    simp only [Node.error, Except.error.injEq] at h
    exact ⟨_, h.symm⟩
  · intro lhs rhs token s s1 s2 L R h1 h2 hL hR ht
    obtain ⟨c, hc, hcn, hr⟩ := getMaxType_numeric L.type R.type token.line hL hR
    obtain ⟨⟨L1, s3⟩, h3, hL1⟩ := expand_numeric s2 L c token.line hL hcn (by omega)
    obtain ⟨⟨R1, s4⟩, h4, -⟩ := expand_numeric s3 R c token.line hR hcn (by omega)
    obtain ⟨⟨v, s5⟩, h5, hv⟩ := arithmetic_numeric s4 token c L1 R1 hcn hL1 ht
    refine ⟨v, s5, ?_, by rw [hc, hv]⟩
    rw [Expression.generate]
    simp [h1, h2, hc, h3, h4, h5, bind, Except.bind]

theorem promotion_lattice_witness :
    Node.getMaxType IRType.int IRType.double 1 = Except.ok IRType.double ∧
    Node.getMaxType IRType.int IRType.complex 1 = Except.ok IRType.complex ∧
    (∃ c, Node.getMaxType IRType.int IRType.double 1 = Except.ok c ∧ c ∈ numericTypes ∧
      numericRank IRType.int ≤ numericRank c ∧ numericRank IRType.double ≤ numericRank c ∧
      ∀ d ∈ numericTypes, numericRank IRType.int ≤ numericRank d →
        numericRank IRType.double ≤ numericRank d → numericRank c ≤ numericRank d) ∧
    (∃ v s3, Expression.generate
        (Expression.BinaryOperation (Expression.Constant (Token.ofInt 1 1) TypeID.INT)
          (Token.ofTag Tag.PLUS 1) (Expression.Constant (Token.ofDouble 2 1) TypeID.DOUBLE))
        CodeGen.new = Except.ok (v, s3) ∧
      Node.getMaxType (IRValue.constInt IRType.int 1).type (IRValue.constFP 2).type
        (Token.ofTag Tag.PLUS 1).line = Except.ok v.type) ∧
    (∃ v s3, Expression.generate
        (Expression.BinaryOperation (Expression.Constant (Token.ofInt 1 1) TypeID.INT)
          (Token.ofTag Tag.PLUS 1)
          (Expression.Complex (Expression.Constant (Token.ofInt 2 1) TypeID.INT)
            (Token.ofString Tag.I (str "i") 1)))
        CodeGen.new = Except.ok (v, s3) ∧ v.type = IRType.complex) :=
  ⟨by decide, by decide,
    promotion_lattice.1 IRType.int IRType.double 1 (by decide) (by decide),
    promotion_lattice.2.2.2.2.2.2 (Expression.Constant (Token.ofInt 1 1) TypeID.INT)
      (Expression.Constant (Token.ofDouble 2 1) TypeID.DOUBLE) (Token.ofTag Tag.PLUS 1)
      CodeGen.new CodeGen.new CodeGen.new (IRValue.constInt IRType.int 1) (IRValue.constFP 2)
      rfl rfl (by decide) (by decide) (by decide),
    ⟨_, _, rfl, rfl⟩⟩

/-! ### Conversions that involve strings -/

/-- Claim C18.  `expand` of a string value to `doubleType` returns the string
value as it is, with its type `stringType`, and `expand` of a string value
to `complexStruct` returns a record of type `complexStruct`; neither fails,
although the type of the value is `stringType` and differs from the target.
In `main`, the definition `double x = "a";` so stores the pointer to the
string constant in the variable of type `double`.  The conversions of a
string value to `intType` and of a numeric value to `stringType` do fail
with the `CodeGenError` "Unsupported type conversion". -/
theorem expand_string_accepted (s : CodeGen) (id : Nat) (text : List Int) (line : Int) :
    (IRValue.globalString id text).type = IRType.string ∧
    Node.expand s (IRValue.globalString id text) IRType.double line =
      Except.ok (IRValue.globalString id text, s) ∧
    (∃ r, Node.expand s (IRValue.globalString id text) IRType.complex line = Except.ok r ∧
      r.1.type = IRType.complex) ∧
    instructionsOf LLVM.accepting "\x7b double x = \"a\"; \x7d" = some
      [IRValue.inst 2 (Opcode.alloca (str "x")) [] (IRType.pointer IRType.double),
        IRValue.inst 3 Opcode.store
          [IRValue.globalString 1 (str "a"),
            IRValue.inst 2 (Opcode.alloca (str "x")) [] (IRType.pointer IRType.double)]
          IRType.void] ∧
    Node.expand s (IRValue.globalString id text) IRType.int line =
      Except.error (CodeGenFailure.codeGenError (str "Unsupported type conversion") line) ∧
    (∀ v : IRValue, v.type ∈ numericTypes →
      Node.expand s v IRType.string line =
        Except.error (CodeGenFailure.codeGenError (str "Unsupported type conversion") line)) := by
  refine ⟨rfl, ?_, ?_, by decide!, ?_, ?_⟩
  · simp [Node.expand, IRValue.type]
  · simp [Node.expand, IRValue.type, Complex.re, Complex.im]
  · simp [Node.expand, IRValue.type, Node.error]
  · intro v hv
    simp only [numericTypes, List.mem_cons, List.mem_singleton, List.not_mem_nil, or_false] at hv
    rcases hv with hv | hv | hv <;> simp [Node.expand, hv, Node.error]

/-! ### The operands of a comparison -/

/-- Claim C19.  In `main`, after `int a = 1; double b = 2.0;`, the condition
`a < b` is generated as a floating comparison whose operands are the loaded
value of `a`, of type `intType`, and the loaded value of `b`, of type
`doubleType`: the value that `expand` converts `a` to is not used.  (The
second comparison is the test of the condition against zero that the `if`
statement adds.) -/
theorem relation_operands_not_promoted :
    (instructionsOf LLVM.accepting
        "\x7b int a = 1; double b = 2.0; if (a < b) return 0; return 1; \x7d").map
      (fun insts => (insts.filter IRValue.isCompare).map
        (fun v => (v.opcode?, v.operands))) = some
      [(some (Opcode.fcmp Pred.OLT),
        [IRValue.inst 5 (Opcode.load (str "a"))
            [IRValue.inst 1 (Opcode.alloca (str "a")) [] (IRType.pointer IRType.int)] IRType.int,
          IRValue.inst 6 (Opcode.load (str "b"))
            [IRValue.inst 3 (Opcode.alloca (str "b")) [] (IRType.pointer IRType.double)]
            IRType.double]),
       (some (Opcode.icmp Pred.NE),
        [IRValue.inst 8 (Opcode.fcmp Pred.OLT)
          [IRValue.inst 5 (Opcode.load (str "a"))
              [IRValue.inst 1 (Opcode.alloca (str "a")) [] (IRType.pointer IRType.int)]
              IRType.int,
            IRValue.inst 6 (Opcode.load (str "b"))
              [IRValue.inst 3 (Opcode.alloca (str "b")) [] (IRType.pointer IRType.double)]
              IRType.double] IRType.bool,
          IRValue.constInt IRType.bool 0])] ∧
    (instructionsOf LLVM.accepting
        "\x7b int a = 1; double b = 2.0; if (a < b) return 0; return 1; \x7d").map
      (fun insts => (insts.filter IRValue.isCompare).map IRValue.operandTypes) = some
      [[IRType.int, IRType.double], [IRType.bool, IRType.bool]] ∧
    Node.getMaxType IRType.int IRType.double 1 = Except.ok IRType.double := by
  refine ⟨by decide!, by decide!, by decide⟩

/-! ### The lowering of the complex product -/

theorem updateBlock_getBlock (s : CodeGen) (b : Nat) (f : List IRValue → List IRValue) :
    (s.updateBlock b f).getBlock b =
      (s.getBlock b).map (fun B => { B with insts := f B.insts }) := by
  unfold CodeGen.updateBlock CodeGen.getBlock
  simp only
  induction s.blocks with
  | nil => rfl
  | cons B Bs ih =>
    by_cases hB : B.id = b
    · simp [List.find?, hB]
    · simp [List.find?, hB, ih]

theorem updateBlock_isSome (s : CodeGen) (b2 b : Nat) (f : List IRValue → List IRValue) :
    ((s.updateBlock b2 f).getBlock b).isSome = (s.getBlock b).isSome := by
  unfold CodeGen.updateBlock CodeGen.getBlock
  simp only
  have hg : ((fun B : BasicBlock => decide (B.id = b)) ∘
      fun B : BasicBlock => if B.id = b2 then { B with insts := f B.insts } else B) =
      fun B : BasicBlock => decide (B.id = b) := by
    funext B
    simp only [Function.comp]
    split_ifs <;> rfl
  rw [List.find?_map, hg, Option.isSome_map']

theorem insert_insertPoint (s : CodeGen) (v : IRValue) :
    (s.insert v).insertPoint = s.insertPoint := by
  unfold CodeGen.insert
  split <;> simp_all [CodeGen.updateBlock]

theorem insert_nextId (s : CodeGen) (v : IRValue) : (s.insert v).nextId = s.nextId := by
  unfold CodeGen.insert
  split <;> rfl

theorem insert_isSome (s : CodeGen) (v : IRValue) (b : Nat) :
    ((s.insert v).getBlock b).isSome = (s.getBlock b).isSome := by
  unfold CodeGen.insert
  split
  · rfl
  · exact updateBlock_isSome _ _ _ _
  · exact updateBlock_isSome _ _ _ _

theorem create_insertPoint (s : CodeGen) (op : Opcode) (operands : List IRValue) (type : IRType) :
    (s.create op operands type).2.insertPoint = s.insertPoint := by
  simp [CodeGen.create, insert_insertPoint]

theorem create_nextId (s : CodeGen) (op : Opcode) (operands : List IRValue) (type : IRType) :
    (s.create op operands type).2.nextId = s.nextId + 1 := by
  simp [CodeGen.create]

theorem create_isSome (s : CodeGen) (op : Opcode) (operands : List IRValue) (type : IRType)
    (b : Nat) : ((s.create op operands type).2.getBlock b).isSome = (s.getBlock b).isSome := by
  have h : (s.create op operands type).2.getBlock b = (s.insert
      (IRValue.inst s.nextId op operands type)).getBlock b := rfl
  rw [h, insert_isSome]

/-- With the insertion point at the end of the block `b`, a `Create...` call
appends its instruction to the block. -/
theorem create_instructions (s : CodeGen) (b : Nat) (op : Opcode) (operands : List IRValue)
    (type : IRType) (hip : s.insertPoint = InsertPoint.atEnd b)
    (hb : (s.getBlock b).isSome = true) :
    (s.create op operands type).2.instructions b =
      s.instructions b ++ [IRValue.inst s.nextId op operands type] := by
  obtain ⟨B, hB⟩ := Option.isSome_iff_exists.mp hb
  have h1 : (s.create op operands type).2.getBlock b =
      some { B with insts := B.insts ++ [IRValue.inst s.nextId op operands type] } := by
    have := updateBlock_getBlock s b (fun insts => insts ++ [IRValue.inst s.nextId op operands type])
    rw [hB] at this
    simpa [CodeGen.create, CodeGen.insert, hip, CodeGen.getBlock, CodeGen.updateBlock] using this
  simp only [CodeGen.instructions, h1, hB]

/-- Claim C20.  For all values `re1`, `im1`, `re2`, `im2` of the components,
read with any values `env` of what the floating operations do not compute:
(1) the two results of `Complex::mul` are instruction trees that compute
`re1 * re2 - im1 * im2` and `re1 * im2 + im1 * re2`; (2) with the insertion
point at the end of a block, `multiplyComplex` appends to the block the four
products, the difference and the sum, an `alloca` of the record, the address
of its first field, the store of the difference there, the address of its
second field, the store of the sum there, and the load of the record, which
is the value it returns. -/
theorem multiplyComplex_lowering (env : IRValue → ℚ) (s : CodeGen) (re1 im1 re2 im2 : IRValue) :
    (Complex.mul s re1 im1 re2 im2).1.1.eval env =
      re1.eval env * re2.eval env - im1.eval env * im2.eval env ∧
    (Complex.mul s re1 im1 re2 im2).1.2.eval env =
      re1.eval env * im2.eval env + im1.eval env * re2.eval env ∧
    (∀ b, s.insertPoint = InsertPoint.atEnd b → (s.getBlock b).isSome = true →
      ∃ alloc reP imP,
        alloc = IRValue.inst (s.nextId + 6) (Opcode.alloca []) [] (IRType.pointer IRType.complex) ∧
        reP = IRValue.inst (s.nextId + 7) Opcode.gep
          [alloc, IRValue.constInt IRType.i32 0, IRValue.constInt IRType.i32 0]
          (IRType.pointer IRType.double) ∧
        imP = IRValue.inst (s.nextId + 9) Opcode.gep
          [alloc, IRValue.constInt IRType.i32 0, IRValue.constInt IRType.i32 1]
          (IRType.pointer IRType.double) ∧
        (BinaryOperation.multiplyComplex s re1 im1 re2 im2).1 =
          IRValue.inst (s.nextId + 11) (Opcode.load []) [alloc] IRType.complex ∧
        (BinaryOperation.multiplyComplex s re1 im1 re2 im2).2.instructions b =
          s.instructions b ++
            [IRValue.inst s.nextId Opcode.fmul [re1, re2] re1.type,
              IRValue.inst (s.nextId + 1) Opcode.fmul [im1, im2] im1.type,
              IRValue.inst (s.nextId + 2) Opcode.fmul [re1, im2] re1.type,
              IRValue.inst (s.nextId + 3) Opcode.fmul [im1, re2] im1.type,
              (Complex.mul s re1 im1 re2 im2).1.1,
              (Complex.mul s re1 im1 re2 im2).1.2,
              alloc, reP,
              IRValue.inst (s.nextId + 8) Opcode.store [(Complex.mul s re1 im1 re2 im2).1.1, reP]
                IRType.void,
              imP,
              IRValue.inst (s.nextId + 10) Opcode.store [(Complex.mul s re1 im1 re2 im2).1.2, imP]
                IRType.void,
              (BinaryOperation.multiplyComplex s re1 im1 re2 im2).1]) := by
  refine ⟨by simp [Complex.mul, IRValue.eval], by simp [Complex.mul, IRValue.eval], ?_⟩
  intro b hip hb
  refine ⟨_, _, _, rfl, rfl, rfl, ?_, ?_⟩
  · simp [BinaryOperation.multiplyComplex, Complex.mul, Complex.get, Complex.re, Complex.im,
      create_nextId]
  · simp [BinaryOperation.multiplyComplex, Complex.mul, Complex.get, Complex.re, Complex.im,
      create_nextId, create_insertPoint, create_isSome, create_instructions, hip, hb]

theorem multiplyComplex_lowering_witness :
    (Complex.mul (CodeGen.inMain LLVM.accepting) (IRValue.constFP 1) (IRValue.constFP 2)
        (IRValue.constFP 3) (IRValue.constFP 4)).1.1.eval (fun _ => 0) = -5 ∧
    (Complex.mul (CodeGen.inMain LLVM.accepting) (IRValue.constFP 1) (IRValue.constFP 2)
        (IRValue.constFP 3) (IRValue.constFP 4)).1.2.eval (fun _ => 0) = 10 ∧
    (CodeGen.inMain LLVM.accepting).insertPoint = InsertPoint.atEnd 0 ∧
    ((CodeGen.inMain LLVM.accepting).getBlock 0).isSome = true ∧
    ((BinaryOperation.multiplyComplex (CodeGen.inMain LLVM.accepting) (IRValue.constFP 1)
        (IRValue.constFP 2) (IRValue.constFP 3) (IRValue.constFP 4)).2.instructions 0).length =
      12 := by
  have h := multiplyComplex_lowering (fun _ => 0) (CodeGen.inMain LLVM.accepting)
    (IRValue.constFP 1) (IRValue.constFP 2) (IRValue.constFP 3) (IRValue.constFP 4)
  refine ⟨?_, ?_, rfl, rfl, ?_⟩
  · rw [h.1]; norm_num [IRValue.eval]
  · rw [h.2.1]; norm_num [IRValue.eval]
  · obtain ⟨alloc, reP, imP, -, -, -, -, hi⟩ := h.2.2 0 rfl rfl
    rw [hi, show (CodeGen.inMain LLVM.accepting).instructions 0 = [] from rfl]
    rfl

/-! ### Function bodies without a return -/

theorem branchUnlessReturn_ok (s : CodeGen) (v : Option IRValue) (dest : Nat) (s2 : CodeGen)
    (h : branchUnlessReturn s v dest = Except.ok s2) : v ≠ none := by
  intro hv
  rw [hv] at h
  simp [branchUnlessReturn] at h

theorem epilogue_ok (L : LLVM) (token : Token) (func : Function) (ret : Option IRValue)
    (s : CodeGen) (r : Option IRValue × CodeGen)
    (h : FunctionDefinition.epilogue L token func ret s = Except.ok r) :
    (∃ v, ret = some v ∧ v.isReturnInst = true) ∧ r.1 = some (IRValue.function func.name) := by
  cases ret with
  | none => simp [FunctionDefinition.epilogue] at h
  | some v =>
    cases hv : v.isReturnInst with
    | true =>
      simp only [FunctionDefinition.epilogue, hv, not_true_eq_false, if_false] at h
      split at h
      · simp at h
      · split_ifs at h
        · split at h <;> simp [Node.error] at h
        · simp only [Except.ok.injEq] at h
          exact ⟨⟨v, rfl, hv⟩, by rw [← h]⟩
    | false =>
      simp only [FunctionDefinition.epilogue, hv, Bool.false_eq_true, not_false_eq_true,
        if_true] at h
      split at h <;> simp [Node.error] at h

/-- Without a return instruction as the value of the body, the part of
`FunctionDefinition::generate` after the body raises its error. -/
theorem epilogue_error (L : LLVM) (token : Token) (func : Function) (v : IRValue)
    (s : CodeGen) (name : List Int) (hname : token.getString = some name)
    (hv : v.isReturnInst = false) :
    FunctionDefinition.epilogue L token func (some v) s = Except.error
      (CodeGenFailure.codeGenError
        (str "Function " ++ name ++ str " does not end with a return statement") token.line) := by
  unfold FunctionDefinition.epilogue
  simp [hv, hname, Node.error]

mutual

/-- When `generate` of a statement returns a value, the value is a return
instruction exactly for the statements of `endsWithReturn`. -/
theorem generate_isReturnInst (L : LLVM) : ∀ (statement : Statement) (s : CodeGen) (v : IRValue)
    (s2 : CodeGen), Statement.generate L statement s = Except.ok (some v, s2) →
      v.isReturnInst = statement.endsWithReturn
  | Statement.IfStatement token condition ifBlock elseBlock, s, v, s2, h => by
    rw [Statement.generate] at h
    simp only [bind_eq_ok] at h
    obtain ⟨⟨cond, s1⟩, -, h⟩ := h
    split at h
    · simp at h
    · simp only [bind_eq_ok] at h
      obtain ⟨_, -, _, -, h⟩ := h
      cases elseBlock with
      | none =>
        simp only [bind_eq_ok] at h
        obtain ⟨_, -, _, -, h⟩ := h
        simp only [Except.ok.injEq, Prod.mk.injEq, Option.some.injEq] at h
        rw [← h.1]
        rfl
      | some e =>
        simp only [bind_eq_ok] at h
        obtain ⟨_, -, _, -, _, -, _, -, h⟩ := h
        simp only [Except.ok.injEq, Prod.mk.injEq, Option.some.injEq] at h
        rw [← h.1]
        rfl
  | Statement.WhileStatement token condition block, s, v, s2, h => by
    rw [Statement.generate] at h
    split at h
    · simp at h
    · simp only [bind_eq_ok] at h
      obtain ⟨_, -, _, -, _, -, _, -, h⟩ := h
      simp only [Except.ok.injEq, Prod.mk.injEq, Option.some.injEq] at h
      rw [← h.1]
      rfl
  | Statement.ReturnStatement token return_, s, v, s2, h => by
    rw [Statement.generate] at h
    split at h
    · simp at h
    · simp only [bind_eq_ok] at h
      obtain ⟨⟨v0, s1⟩, -, h⟩ := h
      split at h
      · simp at h
      · simp only [bind_eq_ok] at h
        obtain ⟨⟨val, s3⟩, -, h⟩ := h
        simp only [Except.ok.injEq, Prod.mk.injEq, Option.some.injEq] at h
        rw [← h.1]
        simp [Statement.endsWithReturn]
  | Statement.Assignment identifier expression, s, v, s2, h => by
    rw [Statement.generate] at h
    split at h
    · simp at h
    · simp only [bind_eq_ok] at h
      obtain ⟨lhs, -, ⟨v0, s1⟩, h1, type, -, ⟨rhs, s3⟩, h2, h⟩ := h
      simp only [Except.ok.injEq, Prod.mk.injEq, Option.some.injEq] at h
      rw [← h.1]
      simpa [Statement.endsWithReturn] using
        (expand_frame s1 v0 _ _ rhs s3 h2).2 (generate_frame expression s v0 s1 h1).2
  | Statement.VariableDefinition identifier expression, s, v, s2, h => by
    rw [Statement.generate] at h
    simp only [bind_eq_ok] at h
    obtain ⟨type, -, h⟩ := h
    split at h
    · simp at h
    · split at h
      · simp only [bind_eq_ok] at h
        obtain ⟨⟨v0, s1⟩, -, ⟨init, s3⟩, -, h⟩ := h
        split at h
        · simp at h
        · next alloc s4 halloc =>
          simp only [Except.ok.injEq, Prod.mk.injEq, Option.some.injEq] at h
          rw [← h.1]
          unfold entryBlockAlloca at halloc
          split at halloc
          · simp at halloc
          · split at halloc
            · simp at halloc
            · simp only [Option.some.injEq, Prod.mk.injEq] at halloc
              rw [← halloc.1]
              simp [Statement.endsWithReturn]
      · split at h
        all_goals
          simp only [bind_eq_ok] at h
          obtain ⟨y, hy, h⟩ := h
          first
            | (simp [Node.error] at hy; done)
            | (simp only [Except.ok.injEq, Prod.mk.injEq, Option.some.injEq] at h
               rw [← h.1]
               rfl)
  | Statement.FunctionDeclaration token returnType parameters, s, v, s2, h => by
    rw [Statement.generate] at h
    simp only [bind_eq_ok] at h
    obtain ⟨⟨func, s1⟩, -, h⟩ := h
    simp only [Except.ok.injEq, Prod.mk.injEq, Option.some.injEq] at h
    rw [← h.1]
    rfl
  | Statement.FunctionDefinition token returnType block parameters, s, v, s2, h => by
    rw [Statement.generate] at h
    simp only [bind_eq_ok] at h
    obtain ⟨⟨func, s1⟩, -, ⟨ret, s3⟩, -, h⟩ := h
    have h2 := (epilogue_ok L token func ret s3 _ h).2
    simp only [Option.some.injEq] at h2
    rw [h2]
    rfl
  | Statement.Sequence token statements, s, v, s2, h => by
    rw [Statement.generate] at h
    have h2 := generateSequence_isReturnInst L statements none s v s2 h
    cases statements with
    | nil => simpa using h2.1 rfl
    | cons st rest => simpa [Statement.endsWithReturn] using h2.2 (by simp)

/-- The same for the loop of a sequence, entered with the value `ret` of the
statement before. -/
theorem generateSequence_isReturnInst (L : LLVM) : ∀ (statements : List Statement)
    (ret : Option IRValue) (s : CodeGen) (v : IRValue) (s2 : CodeGen),
    Statement.generateSequence L statements ret s = Except.ok (some v, s2) →
      (statements = [] → ret = some v) ∧
      (statements ≠ [] → v.isReturnInst = Statement.endsWithReturnList statements)
  | [], ret, s, v, s2, h => by
    rw [Statement.generateSequence] at h
    simp only [Except.ok.injEq, Prod.mk.injEq] at h
    exact ⟨fun _ => h.1, fun hne => absurd rfl hne⟩
  | statement :: statements, ret, s, v, s2, h => by
    rw [Statement.generateSequence] at h
    simp only [bind_eq_ok] at h
    obtain ⟨⟨r, s1⟩, h1, h⟩ := h
    refine ⟨fun hnil => (by cases hnil), fun _ => ?_⟩
    have hrest : (∀ t e, statement ≠ Statement.ReturnStatement t e) →
        Statement.generateSequence L statements r s1 = Except.ok (some v, s2) →
        v.isReturnInst = Statement.endsWithReturnList (statement :: statements) := by
      intro hne hs
      have ih := generateSequence_isReturnInst L statements r s1 v s2 hs
      cases statements with
      | nil =>
        have hr := ih.1 rfl
        rw [hr] at h1
        rw [generate_isReturnInst L statement s v s1 h1]
        simp [Statement.endsWithReturnList]
      | cons st2 rest =>
        rw [ih.2 (by simp)]
        cases statement with
        | ReturnStatement t e => exact absurd rfl (hne t e)
        | _ => simp [Statement.endsWithReturnList]
    cases statement with
    | ReturnStatement t e =>
      simp only [Except.ok.injEq, Prod.mk.injEq] at h
      rw [h.1] at h1
      rw [generate_isReturnInst L _ s v s1 h1]
      cases statements <;> simp [Statement.endsWithReturnList, Statement.endsWithReturn]
    | _ => exact hrest (fun t e hc => by cases hc) h

end

/-- Claim C14, as amended.  For a function definition whose body is not of
the kind `endsWithReturn` (a single assignment, variable definition, `if`
or `while`, or a sequence without a return statement among its statements
whose last statement is of these): `generate` never returns normally, and
whenever the part before the body succeeds and the generation of the body
returns a value, `generate` fails with the `CodeGenError` "Function NAME
does not end with a return statement" at the line of the name. -/
theorem functionDefinition_without_return (L : LLVM) (token : Token) (returnType : TypeID)
    (block : Statement) (parameters : List Identifier) (s : CodeGen)
    (hb : block.endsWithReturn = false) :
    (∀ r, Statement.generate L
        (Statement.FunctionDefinition token returnType block parameters) s ≠ Except.ok r) ∧
    (∀ (func : Function) (s1 s2 : CodeGen) (v : IRValue),
      FunctionDefinition.prologue L token returnType parameters s = Except.ok (func, s1) →
      Statement.generate L block s1 = Except.ok (some v, s2) →
      ∃ name, token.getString = some name ∧
        Statement.generate L (Statement.FunctionDefinition token returnType block parameters) s =
          Except.error (CodeGenFailure.codeGenError
            (str "Function " ++ name ++ str " does not end with a return statement")
            token.line)) := by
  constructor
  · intro r h
    rw [Statement.generate] at h
    simp only [bind_eq_ok] at h
    obtain ⟨⟨func, s1⟩, -, ⟨ret, s2⟩, hg, he⟩ := h
    obtain ⟨⟨v, hv, hr⟩, -⟩ := epilogue_ok L token func ret s2 r he
    rw [hv] at hg
    rw [generate_isReturnInst L block s1 v s2 hg, hb] at hr
    cases hr
  · intro func s1 s2 v hp hg
    have hv : v.isReturnInst = false := by
      rw [generate_isReturnInst L block s1 v s2 hg, hb]
    have hname : ∃ name, token.getString = some name := by
      unfold FunctionDefinition.prologue at hp
      split at hp
      · simp at hp
      · next name hn => exact ⟨name, hn⟩
    obtain ⟨name, hn⟩ := hname
    refine ⟨name, hn, ?_⟩
    rw [Statement.generate]
    simp only [hp, hg, bind, Except.bind]
    exact epilogue_error L token func v s2 name hn hv

theorem functionDefinition_without_return_witness :
    (match generateFirst LLVM.accepting 100 "fun main :int () int a = 1;" with
      | Except.ok r => failureOf r
      | Except.error _ => none) =
      some (CodeGenFailure.codeGenError
        (str "Function main does not end with a return statement") 1) ∧
    (∃ name, (Token.ofString Tag.MAIN (str "main") 1).getString = some name ∧
      Statement.generate LLVM.accepting
          (Statement.FunctionDefinition (Token.ofString Tag.MAIN (str "main") 1) TypeID.INT
            (Statement.VariableDefinition ⟨Token.ofString Tag.ID (str "a") 1, TypeID.INT⟩
              (Expression.Constant (Token.ofInt 1 1) TypeID.INT)) []) CodeGen.new =
        Except.error (CodeGenFailure.codeGenError
          (str "Function " ++ name ++ str " does not end with a return statement")
          (Token.ofString Tag.MAIN (str "main") 1).line)) :=
  ⟨by decide!,
    (functionDefinition_without_return LLVM.accepting (Token.ofString Tag.MAIN (str "main") 1)
      TypeID.INT
      (Statement.VariableDefinition ⟨Token.ofString Tag.ID (str "a") 1, TypeID.INT⟩
        (Expression.Constant (Token.ofInt 1 1) TypeID.INT)) [] CodeGen.new rfl).2 _ _ _ _ rfl rfl⟩

/-- Claim C14, counterexample.  The body of
`fun main :int () { return 0; a = 1; }` is a sequence whose final statement
is an assignment, and `generate` accepts the definition: the sequence stops
after the return, so the assignment to the undefined `a` is not generated. -/
theorem return_before_end_accepted :
    blockOf "{ return 0; a = 1; }" = some
      (Statement.Sequence (Token.ofTag Tag.OPEN_CURLY 1)
        [Statement.ReturnStatement (Token.ofString Tag.RETURN (str "return") 1)
          (Expression.Constant (Token.ofInt 0 1) TypeID.INT),
         Statement.Assignment ⟨Token.ofString Tag.ID (str "a") 1, TypeID.NONE⟩
          (Expression.Constant (Token.ofInt 1 1) TypeID.INT)]) ∧
    (match generateFirst LLVM.accepting 100 "fun main :int () { return 0; a = 1; }" with
      | Except.ok (Except.ok r) => some (r.1, r.2.allInstructions)
      | _ => none) =
      some (some (IRValue.function (str "main")),
        [IRValue.inst 1 Opcode.ret [IRValue.constInt IRType.int 0] IRType.void]) := by
  refine ⟨by decide!, by decide!⟩

/-! ### Line counting inside string literals -/

/-- Claim C26 (the code departs from it).  `Lexer::quotation` counts a newline
only when it is the first character read in a round of its loop; the
character read after a backslash is not looked at for the count.  The
literal `a`, backslash, newline, `b` between two quotes holds one newline
and is lexed with `line` left at 1, while the literal `a`, newline, `b`
advances `line` to 2. -/
theorem string_backslash_newline :
    newlines [97, 92, 10, 98] = 1 ∧
    (Lexer.new Tag.END [34, 97, 92, 10, 98, 34]).getNextToken =
      (Except.ok (Token.ofString Tag.STRING [97, 10, 98] 1),
        { previous := Tag.STRING, peek := 0, stream := [], line := 1 }) ∧
    newlines [97, 10, 98] = 1 ∧
    (Lexer.new Tag.END [34, 97, 10, 98, 34]).getNextToken =
      (Except.ok (Token.ofString Tag.STRING [97, 10, 98] 2),
        { previous := Tag.STRING, peek := 0, stream := [], line := 2 }) := by
  decide

/-! ### The operator of a relation -/

/-- Claim C27 (the code departs from it).  `Parser::relation` takes the token
after the left operand as the operator whatever its tag is.  On `1 2 3)` it
returns a `Relation` node whose operator is the `INT` token `2`, on `a = b)`
one whose operator is the `ASSIGN` token, and the function definitions with
the conditions `if (1 2 3)` and `if (a = b)` are parsed without a
`ParserError`; the first is turned down only by `Relation::generate`, with a
`CodeGenError`. -/
theorem relation_operator_unchecked :
    nodeOf (Parser.relation 10 (Parser.on "1 2 3)")) =
      Expression.Relation (Expression.Constant (Token.ofInt 1 1) TypeID.INT) (Token.ofInt 2 1)
        (Expression.Constant (Token.ofInt 3 1) TypeID.INT) ∧
    nodeOf (Parser.relation 10 (Parser.on "a = b)")) =
      Expression.Relation (Expression.Identifier ⟨Token.ofString Tag.ID (str "a") 1, TypeID.NONE⟩)
        (Token.ofTag Tag.ASSIGN 1)
        (Expression.Identifier ⟨Token.ofString Tag.ID (str "b") 1, TypeID.NONE⟩) ∧
    parse 20 "fun main : int () { if (1 2 3) { return 0; } return 1; }" =
      Except.ok (Statement.FunctionDefinition (Token.ofString Tag.MAIN (str "main") 1) TypeID.INT
        (Statement.Sequence (Token.ofTag Tag.OPEN_CURLY 1)
          [Statement.IfStatement (Token.ofString Tag.IF (str "if") 1)
            (Expression.Relation (Expression.Constant (Token.ofInt 1 1) TypeID.INT)
              (Token.ofInt 2 1) (Expression.Constant (Token.ofInt 3 1) TypeID.INT))
            (Statement.Sequence (Token.ofTag Tag.OPEN_CURLY 1)
              [Statement.ReturnStatement (Token.ofString Tag.RETURN (str "return") 1)
                (Expression.Constant (Token.ofInt 0 1) TypeID.INT)])
            none,
           Statement.ReturnStatement (Token.ofString Tag.RETURN (str "return") 1)
            (Expression.Constant (Token.ofInt 1 1) TypeID.INT)])
        []) ∧
    (parse 20 "fun main : int () { if (a = b) { return 0; } return 1; }").toOption.isSome = true ∧
    parseFailureOf (compile LLVM.accepting 20
        "fun main : int () { if (1 2 3) { return 0; } return 1; }") =
      some (ParseFailure.generator
        (CodeGenFailure.codeGenError (str "Unsupported relational operator") 1)) := by
  decide!

/-! ### Commas between parameters and between arguments -/

/-- Claim C28 (the code departs from it).  The loops of
`Parser::functionDefinition` and `Parser::functionCall` step over a comma
when there is one and go on to the next parameter or argument whether there
was one or not: `fun f : int (a : int b : int);` is parsed to the declaration
that `fun f : int (a : int, b : int);` gives, and `f(1 2)` to the call that
`f(1, 2)` gives, without a `ParserError`. -/
theorem missing_comma_accepted :
    parse 20 "fun f : int (a : int b : int);" =
      Except.ok (Statement.FunctionDeclaration (Token.ofString Tag.ID (str "f") 1) TypeID.INT
        [⟨Token.ofString Tag.ID (str "a") 1, TypeID.INT⟩,
         ⟨Token.ofString Tag.ID (str "b") 1, TypeID.INT⟩]) ∧
    parse 20 "fun f : int (a : int b : int);" = parse 20 "fun f : int (a : int, b : int);" ∧
    nodeOf (Parser.expression 10 (Parser.on "f(1 2)")) =
      Expression.FunctionCall (Token.ofString Tag.ID (str "f") 1)
        [Expression.Constant (Token.ofInt 1 1) TypeID.INT,
         Expression.Constant (Token.ofInt 2 1) TypeID.INT] ∧
    nodeOf (Parser.expression 10 (Parser.on "f(1 2)")) =
      nodeOf (Parser.expression 10 (Parser.on "f(1, 2)")) ∧
    parse 20 "fun main : int () { return f(1 2); }" =
      parse 20 "fun main : int () { return f(1, 2); }" ∧
    (parse 20 "fun main : int () { return f(1 2); }").toOption.isSome = true := by
  decide!

/-! ### Definitions after a declaration -/

/-- Claim C25 (the code departs from it).  After the declaration
`fun f : int (a : int);` a definition with another parameter type and one
with one parameter more fail with the `CodeGenError` of the mismatch.  A
definition with fewer parameters reaches `parameters[i]` with `i` equal to
the number of its parameters, once the parameters it has agree with the
declaration: `fun f : int () ...` after that declaration, and
`fun f : int (a : int) ...` after `fun f : int (a : int, b : int);`. -/
theorem definition_with_fewer_parameters :
    parseFailureOf (generateAll LLVM.accepting 20
        "fun f : int (a : int); fun f : int (a : double) { return 0; }") =
      some (ParseFailure.generator (CodeGenFailure.codeGenError
        (str "Mismatch between signatures in definition and declaration of f") 1)) ∧
    parseFailureOf (generateAll LLVM.accepting 20
        "fun f : int (a : int); fun f : int (a : int, b : int) { return 0; }") =
      some (ParseFailure.generator (CodeGenFailure.codeGenError
        (str "Mismatch between signatures in definition and declaration of f") 1)) ∧
    parseFailureOf (generateAll LLVM.accepting 20
        "fun f : int (a : int); fun f : int () { return 0; }") =
      some (ParseFailure.generator CodeGenFailure.outOfBounds) ∧
    parseFailureOf (generateAll LLVM.accepting 20
        "fun f : int (a : int, b : int); fun f : int (a : int) { return 0; }") =
      some (ParseFailure.generator CodeGenFailure.outOfBounds) := by
  decide!

/-! ### The signature of `main` -/

/-- A declaration whose name token is neither an identifier nor `main` fails
with the `CodeGenError` "Cannot redefine reserved keyword", when the token
carries a text. -/
theorem functionDeclaration_reserved (L : LLVM) (token : Token) (returnType : TypeID)
    (parameters : List Identifier) (s : CodeGen) (name : List Int)
    (hid : token.tag ≠ Tag.ID) (hmain : token.tag ≠ Tag.MAIN)
    (hname : token.getString = some name) :
    FunctionDeclaration.generate L token returnType parameters s =
      Except.error (CodeGenFailure.codeGenError
        (str "Cannot redefine reserved keyword " ++ name) token.line) := by
  simp [FunctionDeclaration.generate, hid, hmain, hname, Node.error]

/-- A declaration named `main` with a parameter or with a return type other
than `INT` fails with the `CodeGenError` "Invalid main function signature". -/
theorem functionDeclaration_main (L : LLVM) (token : Token) (returnType : TypeID)
    (parameters : List Identifier) (s : CodeGen) (hmain : token.tag = Tag.MAIN)
    (h : parameters ≠ [] ∨ returnType ≠ TypeID.INT) :
    FunctionDeclaration.generate L token returnType parameters s =
      Except.error (CodeGenFailure.codeGenError (str "Invalid main function signature")
        token.line) := by
  simp [FunctionDeclaration.generate, hmain, h, Node.error]

/-- Claim C24 (the code departs from it).  `FunctionDeclaration::generate`
turns down every keyword other than `main` as a name, and `main` with a
parameter or with another return type than `INT`; so does a definition of
`main` that is the first to name it.  A definition that follows a declaration
of `main` does not call `FunctionDeclaration::generate`, and its return type
is compared with nothing: after `fun main : int ();` the definition
`fun main : double () ...` is accepted. -/
theorem main_definition_after_declaration :
    (∀ e ∈ reserved, e.2.tag ≠ Tag.MAIN → e.2.tag ≠ Tag.TYPE →
      failureOf (FunctionDeclaration.generate LLVM.accepting e.2 TypeID.INT [] CodeGen.new) =
        some (CodeGenFailure.codeGenError (str "Cannot redefine reserved keyword " ++ e.1)
          (-1))) ∧
    parseFailureOf (generateAll LLVM.accepting 20 "fun main : double ();") =
      some (ParseFailure.generator
        (CodeGenFailure.codeGenError (str "Invalid main function signature") 1)) ∧
    parseFailureOf (generateAll LLVM.accepting 20 "fun main : int (a : int);") =
      some (ParseFailure.generator
        (CodeGenFailure.codeGenError (str "Invalid main function signature") 1)) ∧
    parseFailureOf (generateAll LLVM.accepting 20 "fun main : double () { return 0; }") =
      some (ParseFailure.generator
        (CodeGenFailure.codeGenError (str "Invalid main function signature") 1)) ∧
    parse 20 "fun main : double () { return 0; }" =
      Except.ok (Statement.FunctionDefinition (Token.ofString Tag.MAIN (str "main") 1)
        TypeID.DOUBLE
        (Statement.Sequence (Token.ofTag Tag.OPEN_CURLY 1)
          [Statement.ReturnStatement (Token.ofString Tag.RETURN (str "return") 1)
            (Expression.Constant (Token.ofInt 0 1) TypeID.INT)])
        []) ∧
    parseFailureOf (compile LLVM.accepting 20
        "fun main : int (); fun main : double () { return 0; }") = none ∧
    (CodeGen.of (compile LLVM.accepting 20
        "fun main : int (); fun main : double () { return 0; }")).functions =
      [{ name := str "main", returnType := IRType.int, args := [], blocks := [0] }] := by
  decide!

/-! ### Variable definitions after a function definition -/

/-- Claim C21 (the code departs from it).  `VariableDefinition::generate`
takes the definition for a local one whenever the builder has an insertion
block, and the builder keeps the block of the function defined last.  At the
start of the program `int x = 1;` makes the global `x` with the initializer
`0` and one entry of the registry.  After `fun f : int () ...` the same
definition makes no global and no entry: an `alloca` is put into the block
of `f`, and the store of `1` there comes after the `ret` of `f`. -/
theorem global_after_function_is_local :
    (CodeGen.of (generateAll LLVM.accepting 20 "int x = 1; fun f : int () { return 0; }")).globals =
      [(str "x", IRType.int, INT_ZERO)] ∧
    (CodeGen.of (generateAll LLVM.accepting 20
        "int x = 1; fun f : int () { return 0; }")).registry =
      [(IRValue.global (str "x") IRType.int, Expression.Constant (Token.ofInt 1 1) TypeID.INT,
        TypeID.INT)] ∧
    parseFailureOf (generateAll LLVM.accepting 20 "fun f : int () { return 0; } int x = 1;") =
      none ∧
    (CodeGen.of (generateAll LLVM.accepting 20
        "fun f : int () { return 0; } int x = 1;")).globals = [] ∧
    (CodeGen.of (generateAll LLVM.accepting 20
        "fun f : int () { return 0; } int x = 1;")).registry = [] ∧
    (CodeGen.of (generateAll LLVM.accepting 20
        "fun f : int () { return 0; } int x = 1;")).blocks =
      [{ id := 0, parent := some (str "f"),
         insts :=
          [IRValue.inst 2 (Opcode.alloca (str "x")) [] (IRType.pointer IRType.int),
           IRValue.inst 1 Opcode.ret [IRValue.constInt IRType.int 0] IRType.void,
           IRValue.inst 3 Opcode.store
            [IRValue.constInt IRType.int 1,
             IRValue.inst 2 (Opcode.alloca (str "x")) [] (IRType.pointer IRType.int)]
            IRType.void] }] := by
  decide!

/-! ### The widening rules of `expand` -/

theorem emits_trans (s s1 s2 : CodeGen) (h1 : Emits s s1) (h2 : Emits s1 s2) : Emits s s2 := by
  induction h2 with
  | refl => exact h1
  | create s3 op operands type _ hg ih => exact Emits.create _ _ _ _ _ ih hg
  | declare s3 name returnType args _ ih => exact Emits.declare _ _ _ _ _ ih
  | string s3 v _ ih => exact Emits.string _ _ _ ih

theorem createSIToFP_emits (s : CodeGen) (val : IRValue) : Emits s (s.createSIToFP val).2 := by
  rcases createSIToFP_cases s val with ⟨t, c, -, h⟩ | ⟨-, h⟩ <;> rw [h]
  · exact Emits.refl _
  · exact Emits.create _ _ _ _ _ (Emits.refl _) rfl

theorem expand_emits (s : CodeGen) (val : IRValue) (to_ : IRType) (line : Int) (v : IRValue)
    (s2 : CodeGen) (h : Node.expand s val to_ line = Except.ok (v, s2)) : Emits s s2 := by
  unfold Node.expand at h
  split_ifs at h with h1 h2 h3 h4 h5 h6
  all_goals first
    | (simp [Node.error] at h; done)
    | (simp only [Except.ok.injEq, Prod.mk.injEq] at h
       obtain ⟨rfl, rfl⟩ := h
       try simp only [Complex.re, Complex.im]
       repeat (first
         | exact Emits.refl _
         | exact createSIToFP_emits _ _
         | refine Emits.create _ _ _ _ _ ?_ rfl
         | refine Emits.declare _ _ _ _ _ ?_
         | refine Emits.string _ _ _ ?_))
theorem Re_emits (s : CodeGen) (val : IRValue) (line : Int) (v : IRValue) (s2 : CodeGen)
    (h : FunctionCall.Re s val line = Except.ok (v, s2)) : Emits s s2 := by
  unfold FunctionCall.Re at h
  split_ifs at h
  all_goals try simp only [Node.error, reduceCtorEq] at h
  all_goals first
    | (simp [Node.error] at h; done)
    | (simp only [Except.ok.injEq, Prod.mk.injEq] at h
       obtain ⟨rfl, rfl⟩ := h
       try simp only [Complex.getComponents, Complex.re, Complex.im]
       repeat (first
         | exact Emits.refl _
         | refine Emits.create _ _ _ _ _ ?_ rfl
         | refine Emits.declare _ _ _ _ _ ?_
         | refine Emits.string _ _ _ ?_))

theorem Im_emits (s : CodeGen) (val : IRValue) (line : Int) (v : IRValue) (s2 : CodeGen)
    (h : FunctionCall.Im s val line = Except.ok (v, s2)) : Emits s s2 := by
  unfold FunctionCall.Im at h
  split_ifs at h
  all_goals try simp only [Node.error, reduceCtorEq] at h
  all_goals first
    | (simp [Node.error] at h; done)
    | (simp only [Except.ok.injEq, Prod.mk.injEq] at h
       obtain ⟨rfl, rfl⟩ := h
       try simp only [Complex.getComponents, Complex.re, Complex.im]
       repeat (first
         | exact Emits.refl _
         | refine Emits.create _ _ _ _ _ ?_ rfl
         | refine Emits.declare _ _ _ _ _ ?_
         | refine Emits.string _ _ _ ?_))

theorem arithmetic_emits (s : CodeGen) (token : Token) (common : IRType) (L R v : IRValue)
    (s2 : CodeGen) (h : BinaryOperation.arithmetic s token common L R = Except.ok (v, s2)) :
    Emits s s2 := by
  unfold BinaryOperation.arithmetic at h
  split_ifs at h
  all_goals try simp only [Node.error, reduceCtorEq] at h
  all_goals try split at h
  all_goals first
    | (simp [Node.error] at h; done)
    | (simp only [Except.ok.injEq, Prod.mk.injEq] at h
       obtain ⟨rfl, rfl⟩ := h
       try simp only [Complex.getComponents, Complex.get, Complex.mul, Complex.re, Complex.im,
         BinaryOperation.multiplyComplex, BinaryOperation.divideComplex]
       repeat (first
         | exact Emits.refl _
         | refine Emits.create _ _ _ _ _ ?_ rfl
         | refine Emits.declare _ _ _ _ _ ?_
         | refine Emits.string _ _ _ ?_))

theorem compare_emits (s : CodeGen) (token : Token) (common : IRType) (L R v : IRValue)
    (s2 : CodeGen) (h : Relation.compare s token common L R = Except.ok (v, s2)) :
    Emits s s2 := by
  unfold Relation.compare at h
  split_ifs at h
  all_goals try simp only [Node.error, reduceCtorEq] at h
  all_goals try split at h
  all_goals first
    | (simp [Node.error] at h; done)
    | (simp only [Except.ok.injEq, Prod.mk.injEq] at h
       obtain ⟨rfl, rfl⟩ := h
       try simp only [Complex.getComponents, Complex.get, Complex.mul, Complex.re, Complex.im]
       repeat (first
         | exact Emits.refl _
         | refine Emits.create _ _ _ _ _ ?_ rfl
         | refine Emits.declare _ _ _ _ _ ?_
         | refine Emits.string _ _ _ ?_))

theorem absoluteValue_emits (s : CodeGen) (val : IRValue) (line : Int) (v : IRValue)
    (s2 : CodeGen) (h : AbsoluteValue.ofValue s val line = Except.ok (v, s2)) : Emits s s2 := by
  unfold AbsoluteValue.ofValue at h
  split_ifs at h
  all_goals try simp only [Node.error, reduceCtorEq] at h
  all_goals first
    | (simp [Node.error] at h; done)
    | (simp only [Except.ok.injEq, Prod.mk.injEq] at h
       obtain ⟨rfl, rfl⟩ := h
       try simp only [Complex.re, Complex.im]
       repeat (first
         | exact Emits.refl _
         | refine Emits.create _ _ _ _ _ ?_ rfl
         | refine Emits.declare _ _ _ _ _ ?_
         | refine Emits.string _ _ _ ?_))

theorem unaryOperation_emits (s : CodeGen) (token : Token) (val v : IRValue)
    (s2 : CodeGen) (h : UnaryOperation.ofValue s token val = Except.ok (v, s2)) : Emits s s2 := by
  unfold UnaryOperation.ofValue at h
  split_ifs at h
  all_goals try simp only [Node.error, reduceCtorEq] at h
  all_goals first
    | (simp [Node.error] at h; done)
    | (simp only [Except.ok.injEq, Prod.mk.injEq] at h
       obtain ⟨rfl, rfl⟩ := h
       try simp only [Complex.getComponents, Complex.get, Complex.re, Complex.im]
       repeat (first
         | exact Emits.refl _
         | refine Emits.create _ _ _ _ _ ?_ rfl
         | refine Emits.declare _ _ _ _ _ ?_
         | refine Emits.string _ _ _ ?_))

theorem constant_emits (s : CodeGen) (token : Token) (type : TypeID) (v : IRValue)
    (s2 : CodeGen) (h : Constant.generate s token type = Except.ok (v, s2)) : Emits s s2 := by
  unfold Constant.generate at h
  split_ifs at h
  all_goals try simp only [Node.error, reduceCtorEq] at h
  all_goals try split at h
  all_goals first
    | (simp [Node.error] at h; done)
    | (simp only [Except.ok.injEq, Prod.mk.injEq] at h
       obtain ⟨rfl, rfl⟩ := h
       repeat (first
         | exact Emits.refl _
         | refine Emits.create _ _ _ _ _ ?_ rfl
         | refine Emits.declare _ _ _ _ _ ?_
         | refine Emits.string _ _ _ ?_))

/-- The step of `generate_emits` for a call, from the same fact for the
arguments. -/
theorem functionCall_emits (token : Token) (arguments : List Expression) (s : CodeGen)
    (v : IRValue) (s2 : CodeGen)
    (ih : ∀ a, arguments = [a] → ∀ (s : CodeGen) (v : IRValue) (s2 : CodeGen),
      Expression.generate a s = Except.ok (v, s2) → Emits s s2)
    (ihArgs : ∀ (types : List IRType) (func : List Int) (line : Int) (s : CodeGen)
      (vs : List IRValue) (s2 : CodeGen),
      Expression.generateArguments arguments types func line s = Except.ok (vs, s2) →
        Emits s s2)
    (h : Expression.generate (Expression.FunctionCall token arguments) s = Except.ok (v, s2)) :
    Emits s s2 := by
  rw [generate_FunctionCall] at h
  split at h
  · simp at h
  · split_ifs at h
    · split at h
      · next a =>
        simp only [bind_eq_ok] at h
        obtain ⟨⟨val, s1⟩, h1, h⟩ := h
        exact emits_trans _ _ _ (ih a rfl s val s1 h1) (Re_emits s1 val _ v s2 h)
      · simp [Node.error] at h
    · split at h
      · next a =>
        simp only [bind_eq_ok] at h
        obtain ⟨⟨val, s1⟩, h1, h⟩ := h
        exact emits_trans _ _ _ (ih a rfl s val s1 h1) (Im_emits s1 val _ v s2 h)
      · simp [Node.error] at h
    · split at h
      · simp [Node.error] at h
      · simp only [bind_eq_ok] at h
        obtain ⟨⟨args, s1⟩, h1, h⟩ := h
        have f1 := ihArgs _ _ _ s args s1 h1
        simp only [Except.ok.injEq, Prod.mk.injEq] at h
        obtain ⟨rfl, rfl⟩ := h
        exact Emits.create _ _ _ _ _ f1 rfl

mutual

/-- Generating an expression is made of steps of `Emits`. -/
theorem generate_emits : ∀ (e : Expression) (s : CodeGen) (v : IRValue) (s2 : CodeGen),
    Expression.generate e s = Except.ok (v, s2) → Emits s s2
  | Expression.Identifier id, s, v, s2, h => by
    rw [Expression.generate] at h
    split at h
    · simp at h
    · simp only [bind_eq_ok] at h
      obtain ⟨symbol, -, type, -, h⟩ := h
      simp only [Except.ok.injEq, Prod.mk.injEq] at h
      obtain ⟨rfl, rfl⟩ := h
      exact Emits.create _ _ _ _ _ (Emits.refl _) rfl
  | Expression.FunctionCall token [], s, v, s2, h =>
    functionCall_emits token [] s v s2 (fun a ha => by cases ha)
      (generateArguments_emits []) h
  | Expression.FunctionCall token [a], s, v, s2, h =>
    functionCall_emits token [a] s v s2
      (fun x hx => by
        simp only [List.cons.injEq, and_true] at hx
        subst hx
        exact generate_emits a)
      (generateArguments_emits [a]) h
  | Expression.FunctionCall token (a :: b :: rest), s, v, s2, h =>
    functionCall_emits token (a :: b :: rest) s v s2 (fun x hx => by simp at hx)
      (generateArguments_emits (a :: b :: rest)) h
  | Expression.AbsoluteValue token val_, s, v, s2, h => by
    rw [Expression.generate] at h
    simp only [bind_eq_ok] at h
    obtain ⟨⟨val, s1⟩, h1, h⟩ := h
    exact emits_trans _ _ _ (generate_emits val_ s val s1 h1)
      (absoluteValue_emits s1 val _ v s2 h)
  | Expression.Complex imaginary token, s, v, s2, h => by
    rw [Expression.generate] at h
    simp only [bind_eq_ok] at h
    obtain ⟨⟨val, s1⟩, h1, ⟨im, s3⟩, h2, h⟩ := h
    have f1 := generate_emits imaginary s val s1 h1
    have f2 := expand_emits s1 val _ _ im s3 h2
    simp only [Except.ok.injEq, Prod.mk.injEq] at h
    obtain ⟨rfl, rfl⟩ := h
    refine emits_trans _ _ _ (emits_trans _ _ _ f1 f2) ?_
    simp only [Complex.get, Complex.re, Complex.im]
    repeat (first
      | exact Emits.refl _
      | refine Emits.create _ _ _ _ _ ?_ rfl)
  | Expression.BinaryOperation lhs token rhs, s, v, s2, h => by
    rw [Expression.generate] at h
    simp only [bind_eq_ok] at h
    obtain ⟨⟨L, s1⟩, h1, ⟨R, s3⟩, h2, common, -, ⟨L1, s4⟩, h3, ⟨R1, s5⟩, h4, h⟩ := h
    have f1 := generate_emits lhs s L s1 h1
    have f2 := generate_emits rhs s1 R s3 h2
    have f3 := expand_emits s3 L _ _ L1 s4 h3
    have f4 := expand_emits s4 R _ _ R1 s5 h4
    have f5 := arithmetic_emits s5 token common L1 R1 v s2 h
    exact emits_trans _ _ _ (emits_trans _ _ _ (emits_trans _ _ _ (emits_trans _ _ _ f1 f2) f3) f4)
      f5
  | Expression.UnaryOperation token expression, s, v, s2, h => by
    rw [Expression.generate] at h
    simp only [bind_eq_ok] at h
    obtain ⟨⟨val, s1⟩, h1, h⟩ := h
    exact emits_trans _ _ _ (generate_emits expression s val s1 h1)
      (unaryOperation_emits s1 token val v s2 h)
  | Expression.Constant token type, s, v, s2, h => by
    rw [Expression.generate] at h
    exact constant_emits s token type v s2 h
  | Expression.Disjunction lhs token rhs, s, v, s2, h => by
    rw [Expression.generate] at h
    simp only [bind_eq_ok] at h
    obtain ⟨⟨L, s1⟩, h1, ⟨R, s3⟩, h2, h⟩ := h
    have f1 := generate_emits lhs s L s1 h1
    have f2 := generate_emits rhs s1 R s3 h2
    simp only [Except.ok.injEq, Prod.mk.injEq] at h
    obtain ⟨rfl, rfl⟩ := h
    exact Emits.create _ _ _ _ _ (emits_trans _ _ _ f1 f2) rfl
  | Expression.Conjunction lhs token rhs, s, v, s2, h => by
    rw [Expression.generate] at h
    simp only [bind_eq_ok] at h
    obtain ⟨⟨L, s1⟩, h1, ⟨R, s3⟩, h2, h⟩ := h
    have f1 := generate_emits lhs s L s1 h1
    have f2 := generate_emits rhs s1 R s3 h2
    simp only [Except.ok.injEq, Prod.mk.injEq] at h
    obtain ⟨rfl, rfl⟩ := h
    exact Emits.create _ _ _ _ _ (emits_trans _ _ _ f1 f2) rfl
  | Expression.Negation token expression, s, v, s2, h => by
    rw [Expression.generate] at h
    simp only [bind_eq_ok] at h
    obtain ⟨⟨val, s1⟩, h1, h⟩ := h
    have f1 := generate_emits expression s val s1 h1
    simp only [Except.ok.injEq, Prod.mk.injEq] at h
    obtain ⟨rfl, rfl⟩ := h
    exact Emits.create _ _ _ _ _ f1 rfl
  | Expression.Relation lhs token rhs, s, v, s2, h => by
    rw [Expression.generate] at h
    simp only [bind_eq_ok] at h
    obtain ⟨⟨L, s1⟩, h1, ⟨R, s3⟩, h2, common, -, ⟨L1, s4⟩, h3, ⟨R1, s5⟩, h4, h⟩ := h
    have f1 := generate_emits lhs s L s1 h1
    have f2 := generate_emits rhs s1 R s3 h2
    have f3 := expand_emits s3 L _ _ L1 s4 h3
    have f4 := expand_emits s4 R _ _ R1 s5 h4
    have f5 := compare_emits s5 token common L R v s2 h
    exact emits_trans _ _ _ (emits_trans _ _ _ (emits_trans _ _ _ (emits_trans _ _ _ f1 f2) f3) f4)
      f5

/-- The same for the arguments of a call. -/
theorem generateArguments_emits : ∀ (arguments : List Expression) (types : List IRType)
    (func : List Int) (line : Int) (s : CodeGen) (vs : List IRValue) (s2 : CodeGen),
    Expression.generateArguments arguments types func line s = Except.ok (vs, s2) → Emits s s2
  | _, [], _, _, s, vs, s2, h => by
    rw [Expression.generateArguments] at h
    simp only [Except.ok.injEq, Prod.mk.injEq] at h
    rw [← h.2]
    exact Emits.refl _
  | [], _ :: _, _, _, s, vs, s2, h => by
    rw [Expression.generateArguments] at h
    simp [Node.error] at h
  | a :: arguments, t :: types, func, line, s, vs, s2, h => by
    rw [Expression.generateArguments] at h
    simp only [bind_eq_ok] at h
    obtain ⟨⟨v, s1⟩, h1, ⟨arg, s3⟩, h2, ⟨args, s4⟩, h3, h⟩ := h
    have f1 := generate_emits a s v s1 h1
    have f2 := expand_emits s1 v _ _ arg s3 h2
    have f3 := generateArguments_emits arguments types func line s3 args s4 h3
    simp only [Except.ok.injEq, Prod.mk.injEq] at h
    rw [← h.2]
    exact emits_trans _ _ _ (emits_trans _ _ _ f1 f2) f3

end
/-! ### The deferred initialisation of the globals -/

theorem insertBefore_append (i : Nat) (v : IRValue) (pre old : List IRValue)
    (hold : old.head?.bind IRValue.id? = some i) (hpre : ∀ x ∈ pre, x.id? ≠ some i) :
    insertBefore i v (pre ++ old) = pre ++ v :: old := by
  induction pre with
  | nil =>
    cases old with
    | nil => simp at hold
    | cons x xs =>
      simp only [List.head?_cons, Option.some_bind] at hold
      simp [insertBefore, hold]
  | cons x xs ih =>
    have hx : x.id? ≠ some i := hpre x (List.mem_cons_self _ _)
    show insertBefore i v (x :: (xs ++ old)) = x :: (xs ++ v :: old)
    rw [insertBefore, if_neg hx, ih (fun y hy => hpre y (List.mem_cons_of_mem _ hy))]

theorem updateBlock_getBlock_ne (s : CodeGen) (b b2 : Nat) (f : List IRValue → List IRValue)
    (h : b2 ≠ b) : (s.updateBlock b f).getBlock b2 = s.getBlock b2 := by
  unfold CodeGen.updateBlock CodeGen.getBlock
  simp only
  have hg : ((fun B : BasicBlock => decide (B.id = b2)) ∘
      fun B : BasicBlock => if B.id = b then { B with insts := f B.insts } else B) =
      fun B : BasicBlock => decide (B.id = b2) := by
    funext B
    simp only [Function.comp]
    split_ifs <;> rfl
  rw [List.find?_map, hg]
  cases hfind : List.find? (fun B : BasicBlock => decide (B.id = b2)) s.blocks with
  | none => rfl
  | some B =>
    have hid : B.id = b2 := by simpa using List.find?_some hfind
    have hne : ¬ B.id = b := fun h2 => h (hid.symm.trans h2)
    simp [hne]

theorem updateBlock_instructions (s : CodeGen) (b : Nat) (f : List IRValue → List IRValue)
    (h : s.instructions b ≠ []) : (s.updateBlock b f).instructions b = f (s.instructions b) := by
  unfold CodeGen.instructions at h ⊢
  rw [updateBlock_getBlock]
  cases hb : s.getBlock b with
  | none => simp [hb] at h
  | some B => simp

theorem updateBlock_instructions_ne (s : CodeGen) (b b2 : Nat)
    (f : List IRValue → List IRValue) (h : b2 ≠ b) :
    (s.updateBlock b f).instructions b2 = s.instructions b2 := by
  unfold CodeGen.instructions
  rw [updateBlock_getBlock_ne s b b2 f h]

/-- A `Create...` call of a builder that stands before an instruction puts
the new instruction right before it. -/
theorem create_before (s : CodeGen) (b i : Nat) (pre old : List IRValue)
    (h : s.StandsBefore b i pre old) (op : Opcode) (operands : List IRValue) (type : IRType) :
    (s.create op operands type).2.StandsBefore b i
        (pre ++ [IRValue.inst s.nextId op operands type]) old ∧
      ∀ b2, b2 ≠ b → (s.create op operands type).2.instructions b2 = s.instructions b2 := by
  obtain ⟨hip, hinsts, hold, hpre, hlt⟩ := h
  have hne : s.instructions b ≠ [] := by
    rw [hinsts]
    cases old with
    | nil => simp at hold
    | cons x xs => simp
  have e1 : (s.create op operands type).2.instructions b =
      (s.updateBlock b (insertBefore i (IRValue.inst s.nextId op operands type))).instructions b := by
    simp [CodeGen.create, CodeGen.insert, hip, CodeGen.instructions, CodeGen.getBlock]
  have e2 : ∀ b2, (s.create op operands type).2.instructions b2 =
      (s.updateBlock b (insertBefore i (IRValue.inst s.nextId op operands type))).instructions b2 := by
    intro b2
    simp [CodeGen.create, CodeGen.insert, hip, CodeGen.instructions, CodeGen.getBlock]
  refine ⟨⟨?_, ?_, hold, ?_, ?_⟩, ?_⟩
  · rw [create_insertPoint, hip]
  · rw [e1, updateBlock_instructions s b _ hne, hinsts, insertBefore_append i _ pre old hold hpre]
    simp
  · intro x hx
    rcases List.mem_append.mp hx with hx | hx
    · exact hpre x hx
    · simp only [List.mem_singleton] at hx
      subst hx
      simp only [IRValue.id?, ne_eq, Option.some.injEq]
      omega
  · rw [create_nextId]
    omega
  · intro b2 hb2
    rw [e2, updateBlock_instructions_ne s b b2 _ hb2]

/-- The steps of generating an expression, taken by a builder that stands
before an instruction: the new instructions go right before it, in the order
of their creation, none of them is a store to a global variable, and the
other blocks stay as they are. -/
theorem emits_before (b i : Nat) (old : List IRValue) (s s1 : CodeGen) (h : Emits s s1) :
    ∀ pre, s.StandsBefore b i pre old →
      ∃ new, s1.StandsBefore b i (pre ++ new) old ∧
        new.filterMap IRValue.globalStore? = [] ∧
        (∀ x ∈ new, ∃ j, x.id? = some j ∧ s.nextId ≤ j) ∧ s.nextId ≤ s1.nextId ∧
        ∀ b2, b2 ≠ b → s1.instructions b2 = s.instructions b2 := by
  induction h with
  | refl => exact fun pre hpre => ⟨[], by simpa using hpre, rfl, by simp, le_refl _, fun _ _ => rfl⟩
  | create t op operands type _ hg ih =>
    intro pre hpre
    obtain ⟨new, hst, hf, hid, hle, hother⟩ := ih pre hpre
    obtain ⟨c1, c2⟩ := create_before t b i (pre ++ new) old hst op operands type
    refine ⟨new ++ [IRValue.inst t.nextId op operands type], by simpa using c1, ?_, ?_, ?_, ?_⟩
    · simp [List.filterMap_append, hf, hg]
    · intro x hx
      rcases List.mem_append.mp hx with hx | hx
      · exact hid x hx
      · simp only [List.mem_singleton] at hx
        subst hx
        exact ⟨t.nextId, rfl, hle⟩
    · rw [create_nextId]
      omega
    · intro b2 hb2
      rw [c2 b2 hb2, hother b2 hb2]
  | declare t name returnType args _ ih =>
    intro pre hpre
    obtain ⟨new, hst, hf, hid, hle, hother⟩ := ih pre hpre
    have e : ∀ b2, (t.getDeclaration name returnType args).instructions b2 = t.instructions b2 := by
      intro b2
      unfold CodeGen.getDeclaration
      split <;> rfl
    have e1 : (t.getDeclaration name returnType args).insertPoint = t.insertPoint := by
      unfold CodeGen.getDeclaration
      split <;> rfl
    have e2 : (t.getDeclaration name returnType args).nextId = t.nextId := by
      unfold CodeGen.getDeclaration
      split <;> rfl
    refine ⟨new, ?_, hf, hid, by rw [e2]; exact hle, fun b2 hb2 => by rw [e, hother b2 hb2]⟩
    obtain ⟨h1, h2, h3, h4, h5⟩ := hst
    exact ⟨by rw [e1, h1], by rw [e, h2], h3, h4, by rw [e2]; exact h5⟩
  | string t v _ ih =>
    intro pre hpre
    obtain ⟨new, hst, hf, hid, hle, hother⟩ := ih pre hpre
    refine ⟨new, ?_, hf, hid, by simp only; omega, fun b2 hb2 => hother b2 hb2⟩
    obtain ⟨h1, h2, h3, h4, h5⟩ := hst
    exact ⟨h1, h2, h3, h4, by simp only; omega⟩

theorem initGlobalsLoop_stores (b i : Nat) (old : List IRValue) :
    ∀ (registry : List (IRValue × Expression × TypeID)) (s s2 : CodeGen) (pre : List IRValue),
      s.StandsBefore b i pre old →
      (∀ g ∈ registry, ∃ name type, g.1 = IRValue.global name type) →
      Node.initGlobalsLoop registry s = Except.ok s2 →
      ∃ new, s2.StandsBefore b i (pre ++ new) old ∧
        List.Forall₂ StoresInitializer (new.filterMap IRValue.globalStore?) registry ∧
        (∀ x ∈ new, ∃ j, x.id? = some j ∧ s.nextId ≤ j) ∧ s.nextId ≤ s2.nextId ∧
        ∀ b2, b2 ≠ b → s2.instructions b2 = s.instructions b2
  | [], s, s2, pre, hst, _, h => by
    rw [Node.initGlobalsLoop] at h
    cases h
    exact ⟨[], by simpa using hst, by simp, by simp, le_refl _, fun _ _ => rfl⟩
  | (global, expr, type) :: rest, s, s2, pre, hst, hreg, h => by
    rw [Node.initGlobalsLoop] at h
    simp only [bind_eq_ok] at h
    obtain ⟨⟨v, s1⟩, h1, to_, h2, ⟨expanded, s3⟩, h3, h⟩ := h
    obtain ⟨n1, st1, f1, i1, l1, o1⟩ := emits_before b i old s s1 (generate_emits expr s v s1 h1)
      pre hst
    obtain ⟨n2, st2, f2, i2, l2, o2⟩ := emits_before b i old s1 s3
      (expand_emits s1 v to_ _ expanded s3 h3) _ st1
    obtain ⟨c1, c2⟩ := create_before s3 b i _ old st2 Opcode.store [expanded, global] IRType.void
    obtain ⟨n3, st3, f3, i3, l3, o3⟩ := initGlobalsLoop_stores b i old rest _ s2 _ c1
      (fun g hg => hreg g (List.mem_cons_of_mem _ hg)) h
    obtain ⟨name, ty, hglobal⟩ := hreg (global, expr, type) (List.mem_cons_self _ _)
    simp only at hglobal
    have hc : (s3.create Opcode.store [expanded, global] IRType.void).2.nextId = s3.nextId + 1 :=
      create_nextId _ _ _ _
    refine ⟨n1 ++ n2 ++ [IRValue.inst s3.nextId Opcode.store [expanded, global] IRType.void] ++ n3,
      by simpa [List.append_assoc] using st3, ?_, ?_, by omega, ?_⟩
    · simp only [List.filterMap_append, f1, f2, List.nil_append, List.filterMap_cons,
        List.filterMap_nil, hglobal, IRValue.globalStore?, List.singleton_append]
      refine List.Forall₂.cons ⟨rfl, s, v, s1, to_, s3, h1, h2, h3⟩ f3
    · intro x hx
      simp only [List.mem_append, List.mem_singleton] at hx
      rcases hx with ((hx | hx) | hx) | hx
      · exact i1 x hx
      · obtain ⟨j, hj, hle⟩ := i2 x hx
        exact ⟨j, hj, by omega⟩
      · subst hx
        exact ⟨s3.nextId, rfl, by omega⟩
      · obtain ⟨j, hj, hle⟩ := i3 x hx
        exact ⟨j, hj, by omega⟩
    · intro b2 hb2
      rw [o3 b2 hb2, c2 b2 hb2, o2 b2 hb2, o1 b2 hb2]

/-- Claim C22.  A state is taken in which `main` has the entry block `entry`,
the first instruction of that block was created before, and the registry
holds global variables.  When `Node::initGlobals` returns, the entry block
holds new instructions followed by the instructions it held before; the
stores to global variables among the new instructions are, in this order,
one for each entry of the registry, into the global of the entry, of the
value that `expand` returned for the initializer and the type of the entry;
every new instruction was created by the call; and the other blocks hold
what they held before. -/
theorem initGlobals_stores (s s2 : CodeGen) (mainFunc : Function) (entry first : Nat)
    (hmain : s.getFunction (str "main") = some mainFunc)
    (hentry : mainFunc.blocks.head? = some entry)
    (hfirst : (s.instructions entry).head?.bind IRValue.id? = some first)
    (hfresh : first < s.nextId)
    (hreg : ∀ g ∈ s.registry, ∃ name type, g.1 = IRValue.global name type)
    (h : Node.initGlobals s = Except.ok s2) :
    ∃ new, s2.instructions entry = new ++ s.instructions entry ∧
      List.Forall₂ StoresInitializer (new.filterMap IRValue.globalStore?) s.registry ∧
      (new.filterMap IRValue.globalStore?).length = s.registry.length ∧
      (∀ x ∈ new, ∃ j, x.id? = some j ∧ s.nextId ≤ j) ∧
      ∀ b, b ≠ entry → s2.instructions b = s.instructions b := by
  unfold Node.initGlobals at h
  rw [hmain] at h
  simp only at h
  cases hb : mainFunc.blocks with
  | nil => simp [hb] at hentry
  | cons e rest =>
    rw [hb] at hentry h
    simp only [List.head?_cons, Option.some.injEq] at hentry
    subst hentry
    simp only [hfirst] at h
    have hst : CodeGen.StandsBefore { s with insertPoint := InsertPoint.before e first } e first []
        (s.instructions e) := ⟨rfl, rfl, hfirst, by simp, hfresh⟩
    obtain ⟨new, st, f, hid, -, o⟩ := initGlobalsLoop_stores e first (s.instructions e) s.registry
      _ s2 [] hst hreg h
    exact ⟨new, by simpa using st.2.1, f, f.length_eq, hid, o⟩
deriving instance DecidableEq for CodeGen

theorem initGlobals_stores_witness :
    (CodeGen.of (generateAll LLVM.accepting 20
        "int x = 1; double y = 2; fun main : int () { return 0; }")).getFunction (str "main") =
      some { name := str "main", returnType := IRType.int, args := [], blocks := [0] } ∧
    ((CodeGen.of (generateAll LLVM.accepting 20
        "int x = 1; double y = 2; fun main : int () { return 0; }")).instructions 0).head?.bind
        IRValue.id? = some 1 ∧
    1 < (CodeGen.of (generateAll LLVM.accepting 20
        "int x = 1; double y = 2; fun main : int () { return 0; }")).nextId ∧
    (CodeGen.of (generateAll LLVM.accepting 20
        "int x = 1; double y = 2; fun main : int () { return 0; }")).registry =
      [(IRValue.global (str "x") IRType.int, Expression.Constant (Token.ofInt 1 1) TypeID.INT,
          TypeID.INT),
        (IRValue.global (str "y") IRType.double, Expression.Constant (Token.ofInt 2 1) TypeID.INT,
          TypeID.DOUBLE)] ∧
    Node.initGlobals (CodeGen.of (generateAll LLVM.accepting 20
        "int x = 1; double y = 2; fun main : int () { return 0; }")) =
      Except.ok (CodeGen.of (compile LLVM.accepting 20
        "int x = 1; double y = 2; fun main : int () { return 0; }")) ∧
    (CodeGen.of (compile LLVM.accepting 20
        "int x = 1; double y = 2; fun main : int () { return 0; }")).instructions 0 =
      [IRValue.inst 2 Opcode.store
          [IRValue.constInt IRType.int 1, IRValue.global (str "x") IRType.int] IRType.void,
        IRValue.inst 3 Opcode.store
          [IRValue.constFP 2, IRValue.global (str "y") IRType.double] IRType.void,
        IRValue.inst 1 Opcode.ret [IRValue.constInt IRType.int 0] IRType.void] ∧
    ∃ new,
      (CodeGen.of (compile LLVM.accepting 20
        "int x = 1; double y = 2; fun main : int () { return 0; }")).instructions 0 =
        new ++ (CodeGen.of (generateAll LLVM.accepting 20
          "int x = 1; double y = 2; fun main : int () { return 0; }")).instructions 0 ∧
      (new.filterMap IRValue.globalStore?).length = 2 := by
  have hmain : (CodeGen.of (generateAll LLVM.accepting 20
        "int x = 1; double y = 2; fun main : int () { return 0; }")).getFunction (str "main") =
      some { name := str "main", returnType := IRType.int, args := [], blocks := [0] } := by
    decide!
  have hfirst : ((CodeGen.of (generateAll LLVM.accepting 20
        "int x = 1; double y = 2; fun main : int () { return 0; }")).instructions 0).head?.bind
        IRValue.id? = some 1 := by
    decide!
  have hfresh : 1 < (CodeGen.of (generateAll LLVM.accepting 20
        "int x = 1; double y = 2; fun main : int () { return 0; }")).nextId := by
    decide!
  have hr : (CodeGen.of (generateAll LLVM.accepting 20
        "int x = 1; double y = 2; fun main : int () { return 0; }")).registry =
      [(IRValue.global (str "x") IRType.int, Expression.Constant (Token.ofInt 1 1) TypeID.INT,
          TypeID.INT),
        (IRValue.global (str "y") IRType.double, Expression.Constant (Token.ofInt 2 1) TypeID.INT,
          TypeID.DOUBLE)] := by
    decide!
  have hreg : ∀ g ∈ (CodeGen.of (generateAll LLVM.accepting 20
        "int x = 1; double y = 2; fun main : int () { return 0; }")).registry,
      ∃ name type, g.1 = IRValue.global name type := by
    intro g hg
    rw [hr] at hg
    simp only [List.mem_cons, List.mem_singleton, List.not_mem_nil, or_false] at hg
    rcases hg with rfl | rfl
    · exact ⟨_, _, rfl⟩
    · exact ⟨_, _, rfl⟩
  have h : Node.initGlobals (CodeGen.of (generateAll LLVM.accepting 20
        "int x = 1; double y = 2; fun main : int () { return 0; }")) =
      Except.ok (CodeGen.of (compile LLVM.accepting 20
        "int x = 1; double y = 2; fun main : int () { return 0; }")) := by
    decide!
  obtain ⟨new, h1, -, h3, -, -⟩ := initGlobals_stores _ _ _ 0 1 hmain rfl hfirst hfresh hreg h
  refine ⟨hmain, hfirst, hfresh, hr, h, by decide!, new, h1, ?_⟩
  rw [h3, hr]
  rfl

/-! ### Statements after a return -/

theorem generateSequence_return (L : LLVM) (token : Token) (e : Expression)
    (rest : List Statement) (ret : Option IRValue) (s : CodeGen) :
    Statement.generateSequence L (Statement.ReturnStatement token e :: rest) ret s =
      Statement.generate L (Statement.ReturnStatement token e) s := by
  rw [Statement.generateSequence]
  cases Statement.generate L (Statement.ReturnStatement token e) s with
  | error x => rfl
  | ok r => rfl

theorem generateSequence_cons (L : LLVM) (x : Statement) (rest : List Statement)
    (ret : Option IRValue) (s : CodeGen) (hx : x.isReturnStatement = false) :
    Statement.generateSequence L (x :: rest) ret s =
      match Statement.generate L x s with
      | Except.error e => Except.error e
      | Except.ok (r, s1) => Statement.generateSequence L rest r s1 := by
  rw [Statement.generateSequence]
  cases x with
  | ReturnStatement t e => simp [Statement.isReturnStatement] at hx
  | _ =>
    cases Statement.generate L _ s with
    | error x => rfl
    | ok r => rfl

/-- Claim C38.  For a sequence whose statements `pre` before the first
return statement are no return statements: the loop of `Sequence::generate`
on `pre`, the return statement and any statements `rest` after it generates
`pre` and the return statement in order, each in the state left by the one
before, and nothing else, and its value is the value of the return
statement.  Hence `FunctionDefinition::generate` gives the same result,
value, state or failure, for the body that holds the return statement
followed by `rest` as for the body that holds the return statement alone. -/
theorem sequence_stops_at_return (L : LLVM) (pre : List Statement) (token : Token)
    (e : Expression) (rest : List Statement) (ret : Option IRValue) (s : CodeGen)
    (hpre : ∀ x ∈ pre, x.isReturnStatement = false) :
    Statement.generateSequence L (pre ++ Statement.ReturnStatement token e :: rest) ret s =
      Statement.generateEach L (pre ++ [Statement.ReturnStatement token e]) ret s ∧
    ∀ (name : Token) (returnType : TypeID) (curly : Token) (parameters : List Identifier),
      Statement.generate L (Statement.FunctionDefinition name returnType
          (Statement.Sequence curly (Statement.ReturnStatement token e :: rest)) parameters) s =
        Statement.generate L (Statement.FunctionDefinition name returnType
          (Statement.Sequence curly [Statement.ReturnStatement token e]) parameters) s := by
  constructor
  · induction pre generalizing ret s with
    | nil =>
      rw [List.nil_append, List.nil_append, generateSequence_return, Statement.generateEach]
      cases Statement.generate L (Statement.ReturnStatement token e) s with
      | error x => rfl
      | ok r => rfl
    | cons x xs ih =>
      have hx : x.isReturnStatement = false := hpre x (List.mem_cons_self _ _)
      rw [List.cons_append, List.cons_append, generateSequence_cons L x _ ret s hx,
        Statement.generateEach]
      cases Statement.generate L x s with
      | error y => rfl
      | ok r => exact ih r.1 r.2 (fun y hy => hpre y (List.mem_cons_of_mem _ hy))
  · intro name returnType curly parameters
    have key : ∀ s1, Statement.generate L
        (Statement.Sequence curly (Statement.ReturnStatement token e :: rest)) s1 =
        Statement.generate L (Statement.Sequence curly [Statement.ReturnStatement token e]) s1 := by
      intro s1
      rw [Statement.generate, Statement.generate, generateSequence_return,
        generateSequence_return]
    rw [Statement.generate, Statement.generate]
    simp only [key]

theorem sequence_stops_at_return_witness :
    (∀ x ∈ [Statement.Assignment ⟨Token.ofString Tag.ID (str "a") 1, TypeID.NONE⟩
        (Expression.Constant (Token.ofInt 1 1) TypeID.INT)], x.isReturnStatement = false) ∧
    Statement.generateSequence LLVM.accepting
      ([Statement.Assignment ⟨Token.ofString Tag.ID (str "a") 1, TypeID.NONE⟩
          (Expression.Constant (Token.ofInt 1 1) TypeID.INT)] ++
        Statement.ReturnStatement (Token.ofString Tag.RETURN (str "return") 1)
          (Expression.Constant (Token.ofInt 0 1) TypeID.INT) ::
        [Statement.Assignment ⟨Token.ofString Tag.ID (str "b") 1, TypeID.NONE⟩
          (Expression.Constant (Token.ofInt 1 1) TypeID.INT)]) none
      (CodeGen.of (generateAll LLVM.accepting 20 "int a = 0;")) =
    Statement.generateEach LLVM.accepting
      ([Statement.Assignment ⟨Token.ofString Tag.ID (str "a") 1, TypeID.NONE⟩
          (Expression.Constant (Token.ofInt 1 1) TypeID.INT)] ++
        [Statement.ReturnStatement (Token.ofString Tag.RETURN (str "return") 1)
          (Expression.Constant (Token.ofInt 0 1) TypeID.INT)]) none
      (CodeGen.of (generateAll LLVM.accepting 20 "int a = 0;")) ∧
    parseFailureOf (compile LLVM.accepting 20 "fun main : int () { return 0; b = 1; }") =
      none ∧
    parseFailureOf (compile LLVM.accepting 20 "fun main : int () { b = 1; }") =
      some (ParseFailure.generator
        (CodeGenFailure.codeGenError (str "Undefined identifier b") 1)) ∧
    compile LLVM.accepting 20 "fun main : int () { return 0; b = 1; }" =
      compile LLVM.accepting 20 "fun main : int () { return 0; }" :=
  ⟨by decide!,
    (sequence_stops_at_return LLVM.accepting
      [Statement.Assignment ⟨Token.ofString Tag.ID (str "a") 1, TypeID.NONE⟩
        (Expression.Constant (Token.ofInt 1 1) TypeID.INT)]
      (Token.ofString Tag.RETURN (str "return") 1)
      (Expression.Constant (Token.ofInt 0 1) TypeID.INT)
      [Statement.Assignment ⟨Token.ofString Tag.ID (str "b") 1, TypeID.NONE⟩
        (Expression.Constant (Token.ofInt 1 1) TypeID.INT)] none
      (CodeGen.of (generateAll LLVM.accepting 20 "int a = 0;")) (by decide!)).1,
    by decide!, by decide!, by decide!⟩

/-! ### The number of arguments of a call -/

/-- Once the arguments of the callee are used up, the loop of
`FunctionCall::generate` ends, whatever arguments of the call are left. -/
theorem generateArguments_surplus (arguments : List Expression) (func : List Int) (line : Int)
    (s : CodeGen) :
    Expression.generateArguments arguments [] func line s = Except.ok ([], s) := by
  rw [Expression.generateArguments]

/-- Claim C33 (the code departs from it).  `FunctionCall::generate` runs over
the arguments of the callee and tests only that the call has an argument for
each of them.  With `f` of one parameter, the call `f()` fails with the
`CodeGenError` "Incorrect number of parameters in call to f", but the call
`f(1, 2)` is accepted: the call instruction gets the operand `1`, and the
second argument is not even generated, so that `f(1, g(0))` with an
undefined `g` is accepted as well.  The built-in `Re` turns down two
arguments. -/
theorem surplus_arguments_accepted :
    parseFailureOf (compile LLVM.accepting 20
        "fun f : int (a : int) { return a; } fun main : int () { return f(); }") =
      some (ParseFailure.generator
        (CodeGenFailure.codeGenError (str "Incorrect number of parameters in call to f") 1)) ∧
    parseFailureOf (compile LLVM.accepting 20
        "fun f : int (a : int) { return a; } fun main : int () { return f(1, 2); }") = none ∧
    (CodeGen.of (compile LLVM.accepting 20
        "fun f : int (a : int) { return a; } fun main : int () { return f(1, 2); }")).instructions
        5 =
      [IRValue.inst 6 (Opcode.call (str "f")) [IRValue.constInt IRType.int 1] IRType.int,
        IRValue.inst 7 Opcode.ret
          [IRValue.inst 6 (Opcode.call (str "f")) [IRValue.constInt IRType.int 1] IRType.int]
          IRType.void] ∧
    parseFailureOf (compile LLVM.accepting 20
        "fun f : int (a : int) { return a; } fun main : int () { return f(1, g(0)); }") = none ∧
    parseFailureOf (compile LLVM.accepting 20
        "fun main : int () { return Re(1, 2); }") =
      some (ParseFailure.generator (CodeGenFailure.codeGenError
        (str "Incorrect number of parameters in call to Re()") 1)) := by
  decide!

/-! ### Narrowing requests to `expand` -/

/-- Claim C36 (the code departs from it).  For the target `DOUBLE`, `expand`
returns the value as soon as it has dealt with the integer case: a value of
type `COMPLEX` comes back as it is, of type `COMPLEX`, and the state is left
as it is.  The requests `DOUBLE` to `INT` and `COMPLEX` to `INT` fail with a
`CodeGenError`.  So `double x = 2i;` in a function is accepted, and the
complex record is stored to the `alloca` of the `double`. -/
theorem expand_complex_to_double :
    (∀ (s : CodeGen) (i : Nat) (op : Opcode) (operands : List IRValue) (line : Int),
      Node.expand s (IRValue.inst i op operands IRType.complex) IRType.double line =
        Except.ok (IRValue.inst i op operands IRType.complex, s)) ∧
    (∀ (s : CodeGen) (i : Nat) (op : Opcode) (operands : List IRValue) (line : Int),
      Node.expand s (IRValue.inst i op operands IRType.complex) IRType.int line =
        Except.error (CodeGenFailure.codeGenError (str "Unsupported type conversion") line)) ∧
    (∀ (s : CodeGen) (i : Nat) (op : Opcode) (operands : List IRValue) (line : Int),
      Node.expand s (IRValue.inst i op operands IRType.double) IRType.int line =
        Except.error (CodeGenFailure.codeGenError (str "Unsupported type conversion") line)) ∧
    parseFailureOf (compile LLVM.accepting 20
        "fun main : int () { double x = 2i; return 0; }") = none ∧
    ((CodeGen.of (compile LLVM.accepting 20
        "fun main : int () { double x = 2i; return 0; }")).instructions 0).map
        IRValue.operandTypes =
      [[], [], [IRType.pointer IRType.complex, IRType.i32, IRType.i32],
        [IRType.double, IRType.pointer IRType.double],
        [IRType.pointer IRType.complex, IRType.i32, IRType.i32],
        [IRType.double, IRType.pointer IRType.double], [IRType.pointer IRType.complex],
        [IRType.complex, IRType.pointer IRType.double], [IRType.int]] := by
  refine ⟨?_, ?_, ?_, by decide!, by decide!⟩
  · intro s i op operands line
    simp [Node.expand, IRValue.type]
  · intro s i op operands line
    simp [Node.expand, Node.error, IRValue.type]
  · intro s i op operands line
    simp [Node.expand, Node.error, IRValue.type]

/-! ### The arms of an `if` statement -/

/-- Claim C34 (the code departs from it).  After an arm `IfStatement::generate`
tests the value that `generate` of the arm returned with `dyn_cast`: an arm
whose value is a return instruction gets no branch, another arm gets the
branch to the continuation block.  For the empty block the value is the
null pointer of `Sequence::generate`, and `dyn_cast` on it is undefined:
neither a branch nor anything else is defined to happen, in the `then` arm as
in the `else` arm. -/
theorem if_with_empty_arm :
    parseFailureOf (compile LLVM.accepting 20
        "fun main : int () { if (1 == 1) {} return 0; }") =
      some (ParseFailure.generator CodeGenFailure.nullDereference) ∧
    parseFailureOf (compile LLVM.accepting 20
        "fun main : int () { if (1 == 1) { return 1; } else {} return 0; }") =
      some (ParseFailure.generator CodeGenFailure.nullDereference) ∧
    blockOf "{}" = some (Statement.Sequence (Token.ofTag Tag.OPEN_CURLY 1) []) ∧
    (∀ (s : CodeGen) (curly : Token),
      Statement.generate LLVM.accepting (Statement.Sequence curly []) s = Except.ok (none, s)) ∧
    (∀ (s : CodeGen) (dest : Nat),
      branchUnlessReturn s none dest = Except.error CodeGenFailure.nullDereference) ∧
    parseFailureOf (compile LLVM.accepting 20
        "fun main : int () { int x = 0; if (1 == 1) { x = 1; } else { return 2; } return 0; }") =
      none ∧
    ((CodeGen.of (compile LLVM.accepting 20
        "fun main : int () { int x = 0; if (1 == 1) { x = 1; } else { return 2; } return 0; }")).blocks.map
        (fun b => (b.id, b.insts.map IRValue.opcode?))) =
      [(0, [some (Opcode.alloca (str "x")), some Opcode.store, some (Opcode.icmp Pred.EQ),
          some (Opcode.icmp Pred.NE), some (Opcode.condbr 5 7)]),
        (5, [some Opcode.store, some (Opcode.br 6)]),
        (6, [some Opcode.ret]),
        (7, [some Opcode.ret])] ∧
    (CodeGen.of (generateAll LLVM.accepting 20
        "fun main : int () { int x = 0; if (1 == 1) { x = 1; } else { return 2; } return 0; }")).GetInsertBlock =
      some 6 := by
  refine ⟨by decide!, by decide!, by decide!, ?_, ?_, by decide!, by decide!, by decide!⟩
  · intro s curly
    rw [Statement.generate, Statement.generateSequence]
  · intro s dest
    rfl

/-! ### The scopes of the symbol table -/

theorem add_append (tables : List (List (List Int × Symbol))) (top : List (List Int × Symbol))
    (name : List Int) (id : Symbol) :
    SymbolTable.add (tables ++ [top]) name id =
      tables ++ [(name, id) :: top.filter (fun e => e.1 ≠ name)] := by
  simp [SymbolTable.add]

theorem foldl_add_append (adds : List (List Int × Symbol)) :
    ∀ (tables : List (List (List Int × Symbol))) (top : List (List Int × Symbol)),
      ∃ top2, adds.foldl (fun t a => SymbolTable.add t a.1 a.2) (tables ++ [top]) =
        tables ++ [top2] := by
  induction adds with
  | nil => exact fun tables top => ⟨top, rfl⟩
  | cons a adds ih =>
    intro tables top
    rw [List.foldl_cons, add_append]
    exact ih tables _

theorem get_innermost (outer inner : List (List (List Int × Symbol)))
    (scope : List (List Int × Symbol)) (name : List Int) (id : Symbol)
    (hscope : scope.lookup name = some id) (hinner : ∀ t ∈ inner, t.lookup name = none) :
    SymbolTable.get (outer ++ scope :: inner) name = some id := by
  unfold SymbolTable.get
  have hnone : inner.reverse.findSome? (fun table => table.lookup name) = none := by
    rw [List.findSome?_eq_none_iff]
    intro t ht
    exact hinner t (List.mem_reverse.mp ht)
  simp [List.findSome?_append, hnone, hscope]

/-- Claim C35.  For every stack of scopes `tables` and every name:
(1) when a scope binds the name and no scope pushed after it does, `get`
returns the binding of that scope; (2) `get` returns null if and only if no
scope binds the name; (3) on a stack with at least one scope, `get` of the
name directly after `add` of the name with `id` returns `id`; (4) after a
`push`, any sequence of `add` calls and a `pop`, the stack is the stack
before the `push`, so every `get` returns what it returned before. -/
theorem symbolTable_scoping (tables : List (List (List Int × Symbol))) (name : List Int) :
    (∀ (outer inner : List (List (List Int × Symbol))) (scope : List (List Int × Symbol))
      (id : Symbol), tables = outer ++ scope :: inner → scope.lookup name = some id →
      (∀ t ∈ inner, t.lookup name = none) → SymbolTable.get tables name = some id) ∧
    (SymbolTable.get tables name = none ↔ ∀ t ∈ tables, t.lookup name = none) ∧
    (tables ≠ [] → ∀ id : Symbol,
      SymbolTable.get (SymbolTable.add tables name id) name = some id) ∧
    (∀ (adds : List (List Int × Symbol)),
      SymbolTable.pop (adds.foldl (fun t a => SymbolTable.add t a.1 a.2)
        (SymbolTable.push tables)) = tables ∧
      ∀ n, SymbolTable.get (SymbolTable.pop (adds.foldl (fun t a => SymbolTable.add t a.1 a.2)
        (SymbolTable.push tables))) n = SymbolTable.get tables n) := by
  refine ⟨?_, get_eq_none_iff tables name, ?_, ?_⟩
  · intro outer inner scope id ht hscope hinner
    rw [ht]
    exact get_innermost outer inner scope name id hscope hinner
  · intro hne id
    obtain ⟨init, top, rfl⟩ : ∃ init top, tables = init ++ [top] :=
      ⟨tables.dropLast, tables.getLast hne, (List.dropLast_append_getLast hne).symm⟩
    rw [add_append]
    exact get_innermost init [] _ name id (by simp [List.lookup]) (by simp)
  · intro adds
    have h : SymbolTable.pop (adds.foldl (fun t a => SymbolTable.add t a.1 a.2)
        (SymbolTable.push tables)) = tables := by
      obtain ⟨top2, h2⟩ := foldl_add_append adds tables []
      unfold SymbolTable.push SymbolTable.pop
      rw [h2]
      simp
    exact ⟨h, fun n => by rw [h]⟩

theorem symbolTable_scoping_witness :
    ([[(str "x", (⟨Token.ofString Tag.ID (str "x") 1, TypeID.INT,
        IRValue.global (str "x") IRType.int⟩ : Symbol))]] : List (List (List Int × Symbol))) ≠ [] ∧
    SymbolTable.get (SymbolTable.add
      [[(str "x", (⟨Token.ofString Tag.ID (str "x") 1, TypeID.INT,
        IRValue.global (str "x") IRType.int⟩ : Symbol))]] (str "x")
      ⟨Token.ofString Tag.ID (str "x") 2, TypeID.DOUBLE, IRValue.global (str "y") IRType.double⟩)
      (str "x") =
      some ⟨Token.ofString Tag.ID (str "x") 2, TypeID.DOUBLE,
        IRValue.global (str "y") IRType.double⟩ ∧
    SymbolTable.get (SymbolTable.add (SymbolTable.push
      [[(str "x", (⟨Token.ofString Tag.ID (str "x") 1, TypeID.INT,
        IRValue.global (str "x") IRType.int⟩ : Symbol))]]) (str "x")
      ⟨Token.ofString Tag.ID (str "x") 2, TypeID.DOUBLE, IRValue.global (str "y") IRType.double⟩)
      (str "x") =
      some ⟨Token.ofString Tag.ID (str "x") 2, TypeID.DOUBLE,
        IRValue.global (str "y") IRType.double⟩ ∧
    SymbolTable.get (SymbolTable.pop (SymbolTable.add (SymbolTable.push
      [[(str "x", (⟨Token.ofString Tag.ID (str "x") 1, TypeID.INT,
        IRValue.global (str "x") IRType.int⟩ : Symbol))]]) (str "x")
      ⟨Token.ofString Tag.ID (str "x") 2, TypeID.DOUBLE, IRValue.global (str "y") IRType.double⟩))
      (str "x") =
      some ⟨Token.ofString Tag.ID (str "x") 1, TypeID.INT, IRValue.global (str "x") IRType.int⟩ :=
  ⟨by decide!,
    (symbolTable_scoping [[(str "x", (⟨Token.ofString Tag.ID (str "x") 1, TypeID.INT,
        IRValue.global (str "x") IRType.int⟩ : Symbol))]] (str "x")).2.2.1 (by decide!) _,
    by decide!, by decide!⟩

/-! ### The lowering of the complex quotient -/

/-- Claim C31.  For all values `re1`, `im1`, `re2`, `im2` of the components,
read with any values `env` of what the floating operations do not compute,
and with a, b, c, d for the values of the four components:
`divideComplex` creates the negation of `im2`, the six instructions of the
product of the numerator with the conjugate, the six instructions of the
product of the denominator with the conjugate, the two quotients `re` and
`im`, and the record that holds them, which it returns; `re` computes
(a*c + b*d) / (c*c + d*d) and `im` computes (b*c - a*d) / (c*c + d*d); and
when c*c + d*d is not 0, the two results of `Complex::mul` on `re`, `im`,
`re2`, `im2` compute a and b. -/
theorem divideComplex_lowering (env : IRValue → ℚ) (s : CodeGen) (re1 im1 re2 im2 : IRValue) :
    ∃ re im alloc reP imP pre,
      re = IRValue.inst (s.nextId + 13) Opcode.fdiv
        [IRValue.inst (s.nextId + 5) Opcode.fsub
            [IRValue.inst (s.nextId + 1) Opcode.fmul [re1, re2] re1.type,
              IRValue.inst (s.nextId + 2) Opcode.fmul
                [im1, IRValue.inst s.nextId Opcode.fmul [im2, MINUS_ONE_DOUBLE] im2.type]
                im1.type]
            re1.type,
          IRValue.inst (s.nextId + 11) Opcode.fsub
            [IRValue.inst (s.nextId + 7) Opcode.fmul [re2, re2] re2.type,
              IRValue.inst (s.nextId + 8) Opcode.fmul
                [im2, IRValue.inst s.nextId Opcode.fmul [im2, MINUS_ONE_DOUBLE] im2.type]
                im2.type]
            re2.type]
        re1.type ∧
      im = IRValue.inst (s.nextId + 14) Opcode.fdiv
        [IRValue.inst (s.nextId + 6) Opcode.fadd
            [IRValue.inst (s.nextId + 3) Opcode.fmul
                [re1, IRValue.inst s.nextId Opcode.fmul [im2, MINUS_ONE_DOUBLE] im2.type]
                re1.type,
              IRValue.inst (s.nextId + 4) Opcode.fmul [im1, re2] im1.type]
            re1.type,
          IRValue.inst (s.nextId + 11) Opcode.fsub
            [IRValue.inst (s.nextId + 7) Opcode.fmul [re2, re2] re2.type,
              IRValue.inst (s.nextId + 8) Opcode.fmul
                [im2, IRValue.inst s.nextId Opcode.fmul [im2, MINUS_ONE_DOUBLE] im2.type]
                im2.type]
            re2.type]
        re1.type ∧
      alloc = IRValue.inst (s.nextId + 15) (Opcode.alloca []) [] (IRType.pointer IRType.complex) ∧
      reP = IRValue.inst (s.nextId + 16) Opcode.gep
        [alloc, IRValue.constInt IRType.i32 0, IRValue.constInt IRType.i32 0]
        (IRType.pointer IRType.double) ∧
      imP = IRValue.inst (s.nextId + 18) Opcode.gep
        [alloc, IRValue.constInt IRType.i32 0, IRValue.constInt IRType.i32 1]
        (IRType.pointer IRType.double) ∧
      pre.length = 13 ∧
      (BinaryOperation.divideComplex s re1 im1 re2 im2).1 =
        IRValue.inst (s.nextId + 20) (Opcode.load []) [alloc] IRType.complex ∧
      (∀ b, s.insertPoint = InsertPoint.atEnd b → (s.getBlock b).isSome = true →
        (BinaryOperation.divideComplex s re1 im1 re2 im2).2.instructions b =
          s.instructions b ++ (pre ++
            [re, im, alloc, reP,
              IRValue.inst (s.nextId + 17) Opcode.store [re, reP] IRType.void,
              imP,
              IRValue.inst (s.nextId + 19) Opcode.store [im, imP] IRType.void,
              (BinaryOperation.divideComplex s re1 im1 re2 im2).1])) ∧
      re.eval env = (re1.eval env * re2.eval env + im1.eval env * im2.eval env) /
        (re2.eval env * re2.eval env + im2.eval env * im2.eval env) ∧
      im.eval env = (im1.eval env * re2.eval env - re1.eval env * im2.eval env) /
        (re2.eval env * re2.eval env + im2.eval env * im2.eval env) ∧
      (re2.eval env * re2.eval env + im2.eval env * im2.eval env ≠ 0 →
        ∀ s2 : CodeGen,
          (Complex.mul s2 re im re2 im2).1.1.eval env = re1.eval env ∧
          (Complex.mul s2 re im re2 im2).1.2.eval env = im1.eval env) := by
  have hre : ∀ a b c d : ℚ, (a * c - b * (d * -1)) / (c * c - d * (d * -1)) =
      (a * c + b * d) / (c * c + d * d) := by
    intro a b c d
    congr 1 <;> ring
  have him : ∀ a b c d : ℚ, (a * (d * -1) + b * c) / (c * c - d * (d * -1)) =
      (b * c - a * d) / (c * c + d * d) := by
    intro a b c d
    congr 1 <;> ring
  refine ⟨_, _, _, _, _,
    [IRValue.inst s.nextId Opcode.fmul [im2, MINUS_ONE_DOUBLE] im2.type,
      IRValue.inst (s.nextId + 1) Opcode.fmul [re1, re2] re1.type,
      IRValue.inst (s.nextId + 2) Opcode.fmul
        [im1, IRValue.inst s.nextId Opcode.fmul [im2, MINUS_ONE_DOUBLE] im2.type] im1.type,
      IRValue.inst (s.nextId + 3) Opcode.fmul
        [re1, IRValue.inst s.nextId Opcode.fmul [im2, MINUS_ONE_DOUBLE] im2.type] re1.type,
      IRValue.inst (s.nextId + 4) Opcode.fmul [im1, re2] im1.type,
      IRValue.inst (s.nextId + 5) Opcode.fsub
        [IRValue.inst (s.nextId + 1) Opcode.fmul [re1, re2] re1.type,
          IRValue.inst (s.nextId + 2) Opcode.fmul
            [im1, IRValue.inst s.nextId Opcode.fmul [im2, MINUS_ONE_DOUBLE] im2.type] im1.type]
        re1.type,
      IRValue.inst (s.nextId + 6) Opcode.fadd
        [IRValue.inst (s.nextId + 3) Opcode.fmul
            [re1, IRValue.inst s.nextId Opcode.fmul [im2, MINUS_ONE_DOUBLE] im2.type] re1.type,
          IRValue.inst (s.nextId + 4) Opcode.fmul [im1, re2] im1.type]
        re1.type,
      IRValue.inst (s.nextId + 7) Opcode.fmul [re2, re2] re2.type,
      IRValue.inst (s.nextId + 8) Opcode.fmul
        [im2, IRValue.inst s.nextId Opcode.fmul [im2, MINUS_ONE_DOUBLE] im2.type] im2.type,
      IRValue.inst (s.nextId + 9) Opcode.fmul
        [re2, IRValue.inst s.nextId Opcode.fmul [im2, MINUS_ONE_DOUBLE] im2.type] re2.type,
      IRValue.inst (s.nextId + 10) Opcode.fmul [im2, re2] im2.type,
      IRValue.inst (s.nextId + 11) Opcode.fsub
        [IRValue.inst (s.nextId + 7) Opcode.fmul [re2, re2] re2.type,
          IRValue.inst (s.nextId + 8) Opcode.fmul
            [im2, IRValue.inst s.nextId Opcode.fmul [im2, MINUS_ONE_DOUBLE] im2.type] im2.type]
        re2.type,
      IRValue.inst (s.nextId + 12) Opcode.fadd
        [IRValue.inst (s.nextId + 9) Opcode.fmul
            [re2, IRValue.inst s.nextId Opcode.fmul [im2, MINUS_ONE_DOUBLE] im2.type] re2.type,
          IRValue.inst (s.nextId + 10) Opcode.fmul [im2, re2] im2.type]
        re2.type],
    rfl, rfl, rfl, rfl, rfl, rfl, ?_, ?_, ?_, ?_, ?_⟩
  · simp [BinaryOperation.divideComplex, Complex.mul, Complex.get, Complex.re, Complex.im,
      create_nextId]
  · intro b hip hb
    simp [BinaryOperation.divideComplex, Complex.mul, Complex.get, Complex.re, Complex.im,
      create_nextId, create_insertPoint, create_isSome, create_instructions, hip, hb]
  · simp only [IRValue.eval, MINUS_ONE_DOUBLE]
    exact hre _ _ _ _
  · simp only [IRValue.eval, MINUS_ONE_DOUBLE]
    exact him _ _ _ _
  · intro hne s2
    simp only [Complex.mul, IRValue.eval, MINUS_ONE_DOUBLE, hre, him]
    constructor
    · field_simp
      ring
    · field_simp
      ring

theorem divideComplex_lowering_witness :
    (IRValue.constFP 3).eval (fun _ => 0) * (IRValue.constFP 3).eval (fun _ => 0) +
      (IRValue.constFP 4).eval (fun _ => 0) * (IRValue.constFP 4).eval (fun _ => 0) ≠ 0 ∧
    (CodeGen.inMain LLVM.accepting).insertPoint = InsertPoint.atEnd 0 ∧
    ((CodeGen.inMain LLVM.accepting).getBlock 0).isSome = true ∧
    ((BinaryOperation.divideComplex (CodeGen.inMain LLVM.accepting) (IRValue.constFP 1)
        (IRValue.constFP 2) (IRValue.constFP 3) (IRValue.constFP 4)).2.instructions 0).length =
      21 ∧
    ∃ re im : IRValue, re.eval (fun _ => 0) = 11 / 25 ∧ im.eval (fun _ => 0) = 2 / 25 ∧
      (Complex.mul CodeGen.new re im (IRValue.constFP 3) (IRValue.constFP 4)).1.1.eval
        (fun _ => 0) = 1 ∧
      (Complex.mul CodeGen.new re im (IRValue.constFP 3) (IRValue.constFP 4)).1.2.eval
        (fun _ => 0) = 2 := by
  have hne : (IRValue.constFP 3).eval (fun _ => 0) * (IRValue.constFP 3).eval (fun _ => 0) +
      (IRValue.constFP 4).eval (fun _ => 0) * (IRValue.constFP 4).eval (fun _ => 0) ≠ 0 := by
    norm_num [IRValue.eval]
  obtain ⟨re, im, alloc, reP, imP, pre, -, -, -, -, -, hlen, -, hi, hre, him, hmul⟩ :=
    divideComplex_lowering (fun _ => 0) (CodeGen.inMain LLVM.accepting) (IRValue.constFP 1)
      (IRValue.constFP 2) (IRValue.constFP 3) (IRValue.constFP 4)
  refine ⟨hne, rfl, rfl, ?_, re, im, ?_, ?_, ?_, ?_⟩
  · rw [hi 0 rfl rfl, show (CodeGen.inMain LLVM.accepting).instructions 0 = [] from rfl]
    simp [hlen]
  · rw [hre]; norm_num [IRValue.eval]
  · rw [him]; norm_num [IRValue.eval]
  · rw [(hmul hne CodeGen.new).1]; norm_num [IRValue.eval]
  · rw [(hmul hne CodeGen.new).2]; norm_num [IRValue.eval]

/-! ### The comparison of complex values -/

/-- Claim C32, as amended.  For complex operands, with `x` and `y` for the
pairs of components that `Complex::getComponents` loads and with any values
`env` of the loads: the comparison made for `<` is true exactly when
x.re < y.re, the imaginary parts not being compared; the one for `<=` exactly
when x.re < y.re or (x.re = y.re and x.im <= y.im); the one for `==` exactly
when both components agree and the one for `!=` exactly when one differs;
`>` and `>=` are the mirror images of `<` and `<=`. -/
theorem complex_comparisons
    (env : IRValue → ℚ) (s : CodeGen) (L R : IRValue) (value : Value) (line : Int) :
    ∃ lt le eq ne gt ge s1 s2 s3 s4 s5 s6,
      Relation.compare s ⟨Tag.LT, value, line⟩ IRType.complex L R = Except.ok (lt, s1) ∧
      Relation.compare s ⟨Tag.LE, value, line⟩ IRType.complex L R = Except.ok (le, s2) ∧
      Relation.compare s ⟨Tag.EQ, value, line⟩ IRType.complex L R = Except.ok (eq, s3) ∧
      Relation.compare s ⟨Tag.NEQ, value, line⟩ IRType.complex L R = Except.ok (ne, s4) ∧
      Relation.compare s ⟨Tag.GT, value, line⟩ IRType.complex L R = Except.ok (gt, s5) ∧
      Relation.compare s ⟨Tag.GE, value, line⟩ IRType.complex L R = Except.ok (ge, s6) ∧
      (lt.holds env = true ↔
        (Complex.getComponents s L).1.1.eval env <
          (Complex.getComponents (Complex.getComponents s L).2 R).1.1.eval env) ∧
      (le.holds env = true ↔
        (Complex.getComponents s L).1.1.eval env <
          (Complex.getComponents (Complex.getComponents s L).2 R).1.1.eval env ∨
        ((Complex.getComponents s L).1.1.eval env =
          (Complex.getComponents (Complex.getComponents s L).2 R).1.1.eval env ∧
         (Complex.getComponents s L).1.2.eval env ≤
          (Complex.getComponents (Complex.getComponents s L).2 R).1.2.eval env)) ∧
      (eq.holds env = true ↔
        (Complex.getComponents s L).1.1.eval env =
          (Complex.getComponents (Complex.getComponents s L).2 R).1.1.eval env ∧
        (Complex.getComponents s L).1.2.eval env =
          (Complex.getComponents (Complex.getComponents s L).2 R).1.2.eval env) ∧
      (ne.holds env = true ↔
        (Complex.getComponents s L).1.1.eval env ≠
          (Complex.getComponents (Complex.getComponents s L).2 R).1.1.eval env ∨
        (Complex.getComponents s L).1.2.eval env ≠
          (Complex.getComponents (Complex.getComponents s L).2 R).1.2.eval env) ∧
      (gt.holds env = true ↔
        (Complex.getComponents s L).1.1.eval env >
          (Complex.getComponents (Complex.getComponents s L).2 R).1.1.eval env) ∧
      (ge.holds env = true ↔
        (Complex.getComponents s L).1.1.eval env >
          (Complex.getComponents (Complex.getComponents s L).2 R).1.1.eval env ∨
        ((Complex.getComponents s L).1.1.eval env =
          (Complex.getComponents (Complex.getComponents s L).2 R).1.1.eval env ∧
         (Complex.getComponents s L).1.2.eval env ≥
          (Complex.getComponents (Complex.getComponents s L).2 R).1.2.eval env)) := by
  refine ⟨_, _, _, _, _, _, _, _, _, _, _, _, rfl, rfl, rfl, rfl, rfl, rfl, ?_, ?_, ?_, ?_, ?_, ?_⟩
  all_goals
    simp [Complex.getComponents, Complex.re, Complex.im, IRValue.holds, IRValue.eval,
      create_nextId]

/-- Claim C32, counterexample.  With x = (1, 2) and y = (1, 3) the real parts
agree and x.im < y.im, so `x < y` holds in the lexicographic order; but the
comparison made for `<` is false, while the one for `<=` is true and the one
for `==` is false. -/
theorem complex_less_than_ignores_imaginary :
    ∃ lt le eq s1 s2 s3,
      Relation.compare CodeGen.new (Token.ofTag Tag.LT 1) IRType.complex IRValue.complexZero
        IRValue.complexZero = Except.ok (lt, s1) ∧
      Relation.compare CodeGen.new (Token.ofTag Tag.LE 1) IRType.complex IRValue.complexZero
        IRValue.complexZero = Except.ok (le, s2) ∧
      Relation.compare CodeGen.new (Token.ofTag Tag.EQ 1) IRType.complex IRValue.complexZero
        IRValue.complexZero = Except.ok (eq, s3) ∧
      (Complex.getComponents CodeGen.new IRValue.complexZero).1.1.eval
        (envOf [(3, 1), (5, 2), (9, 1), (11, 3)]) = 1 ∧
      (Complex.getComponents CodeGen.new IRValue.complexZero).1.2.eval
        (envOf [(3, 1), (5, 2), (9, 1), (11, 3)]) = 2 ∧
      (Complex.getComponents (Complex.getComponents CodeGen.new IRValue.complexZero).2
        IRValue.complexZero).1.1.eval (envOf [(3, 1), (5, 2), (9, 1), (11, 3)]) = 1 ∧
      (Complex.getComponents (Complex.getComponents CodeGen.new IRValue.complexZero).2
        IRValue.complexZero).1.2.eval (envOf [(3, 1), (5, 2), (9, 1), (11, 3)]) = 3 ∧
      le.holds (envOf [(3, 1), (5, 2), (9, 1), (11, 3)]) = true ∧
      lt.holds (envOf [(3, 1), (5, 2), (9, 1), (11, 3)]) = false ∧
      eq.holds (envOf [(3, 1), (5, 2), (9, 1), (11, 3)]) = false := by
  refine ⟨_, _, _, _, _, _, rfl, rfl, rfl, ?_, ?_, ?_, ?_, ?_, ?_, ?_⟩
  all_goals
    simp [Complex.getComponents, Complex.re, Complex.im, IRValue.holds, IRValue.eval,
      create_nextId, CodeGen.new, envOf, IRValue.id?, List.lookup, CodeGen.create]
    try norm_num

/-! ### The scopes of code generation -/

@[simp] theorem createBlock_symbols (s : CodeGen) (func : Option (List Int)) :
    (s.createBlock func).2.symbols = s.symbols := rfl

@[simp] theorem SetInsertPoint_symbols (s : CodeGen) (block : Nat) :
    (s.SetInsertPoint block).symbols = s.symbols := rfl

@[simp] theorem pushBlock_symbols (s : CodeGen) (func : List Int) (block : Nat) :
    (s.pushBlock func block).symbols = s.symbols := rfl

@[simp] theorem setArgName_symbols (s : CodeGen) (func : List Int) (i : Nat) (name : List Int) :
    (s.setArgName func i name).symbols = s.symbols := rfl

@[simp] theorem push_symbols (s : CodeGen) : s.push.symbols = s.symbols ++ [[]] := rfl

@[simp] theorem pop_symbols (s : CodeGen) : s.pop.symbols = s.symbols.dropLast := rfl

theorem add_dropLast (tables : List (List (List Int × Symbol))) (name : List Int) (id : Symbol) :
    (SymbolTable.add tables name id).dropLast = tables.dropLast := by
  by_cases hne : tables = []
  · subst hne
    rfl
  · obtain ⟨init, top, rfl⟩ : ∃ init top, tables = init ++ [top] :=
      ⟨tables.dropLast, tables.getLast hne, (List.dropLast_append_getLast hne).symm⟩
    rw [add_append]
    simp

@[simp] theorem codeGen_add_dropLast (s : CodeGen) (name : List Int) (id : Symbol) :
    (s.add name id).symbols.dropLast = s.symbols.dropLast :=
  add_dropLast _ _ _

theorem branchUnlessReturn_symbols (s : CodeGen) (v : Option IRValue) (dest : Nat) (s2 : CodeGen)
    (h : branchUnlessReturn s v dest = Except.ok s2) : s2.symbols = s.symbols := by
  unfold branchUnlessReturn at h
  split at h
  · simp at h
  · split_ifs at h
    · simp only [Except.ok.injEq] at h
      rw [← h]
    · simp only [Except.ok.injEq] at h
      rw [← h]
      simp

theorem pushBack_symbols (s : CodeGen) (func : Option (List Int)) (block : Nat) (s2 : CodeGen)
    (h : pushBack s func block = Except.ok s2) : s2.symbols = s.symbols := by
  unfold pushBack at h
  split at h
  · simp at h
  · simp only [Except.ok.injEq] at h
    rw [← h]
    rfl

theorem entryBlockAlloca_symbols (s : CodeGen) (func name : List Int) (type : IRType)
    (v : IRValue) (s2 : CodeGen) (h : entryBlockAlloca s func name type = some (v, s2)) :
    s2.symbols = s.symbols := by
  unfold entryBlockAlloca at h
  split at h
  · simp at h
  · split at h
    · simp at h
    · simp only [Option.some.injEq, Prod.mk.injEq] at h
      rw [← h.2]
      rfl

theorem functionDeclaration_symbols (L : LLVM) (token : Token) (returnType : TypeID)
    (parameters : List Identifier) (s : CodeGen) (func : Function) (s2 : CodeGen)
    (h : FunctionDeclaration.generate L token returnType parameters s = Except.ok (func, s2)) :
    s2.symbols = s.symbols := by
  unfold FunctionDeclaration.generate at h
  split_ifs at h
  · split at h <;> simp [Node.error] at h
  · simp [Node.error] at h
  · simp only [bind_eq_ok] at h
    obtain ⟨types, -, rt, -, h⟩ := h
    split at h
    · simp at h
    · simp only [Except.ok.injEq, Prod.mk.injEq] at h
      rw [← h.2]

theorem parametersPrologue_symbols (L : LLVM) (func : List Int) (token : Token)
    (parameters : List Identifier) :
    ∀ (args : List IRType) (i : Nat) (taken : List (List Int)) (s s2 : CodeGen),
      parametersPrologue L func token parameters args i taken s = Except.ok s2 →
        s2.symbols.dropLast = s.symbols.dropLast
  | [], i, taken, s, s2, h => by
    rw [parametersPrologue] at h
    simp only [Except.ok.injEq] at h
    rw [h]
  | type :: args, i, taken, s, s2, h => by
    rw [parametersPrologue] at h
    split at h
    · simp at h
    · simp only [bind_eq_ok] at h
      obtain ⟨paramType, -, h⟩ := h
      split_ifs at h
      · simp [Node.error] at h
      · split at h
        · simp at h
        · split at h
          · simp at h
          · next alloc s3 halloc =>
            have ih := parametersPrologue_symbols L func token parameters args _ _ _ s2 h
            rw [ih]
            simp [entryBlockAlloca_symbols _ _ _ _ _ _ halloc]

theorem prologue_symbols (L : LLVM) (token : Token) (returnType : TypeID)
    (parameters : List Identifier) (s : CodeGen) (func : Function) (s2 : CodeGen)
    (h : FunctionDefinition.prologue L token returnType parameters s = Except.ok (func, s2)) :
    s2.symbols.dropLast = s.symbols := by
  unfold FunctionDefinition.prologue at h
  split at h
  · simp at h
  · next name hname =>
    split at h
    · simp only [bind_eq_ok] at h
      obtain ⟨⟨f, s1⟩, h1, s4, h4, h⟩ := h
      have e1 := functionDeclaration_symbols L _ _ _ _ _ _ h1
      have e4 := parametersPrologue_symbols L _ _ _ _ _ _ _ _ h4
      split_ifs at h
      · split at h <;> simp [Node.error] at h
      · simp only [Except.ok.injEq, Prod.mk.injEq] at h
        rw [← h.2, e4]
        simp [e1]
    · next func0 hf =>
      split_ifs at h
      · simp [Node.error, bind, Except.bind] at h
      · simp only [bind_eq_ok] at h
        obtain ⟨⟨f, s1⟩, h1, s4, h4, h⟩ := h
        simp only [Except.ok.injEq, Prod.mk.injEq] at h1
        have e1 : s1.symbols = s.symbols := by rw [← h1.2]
        have e4 := parametersPrologue_symbols L _ _ _ _ _ _ _ _ h4
        split_ifs at h
        · split at h <;> simp [Node.error] at h
        · simp only [Except.ok.injEq, Prod.mk.injEq] at h
          rw [← h.2, e4]
          simp [e1]

theorem epilogue_symbols (L : LLVM) (token : Token) (func : Function) (ret : Option IRValue)
    (s : CodeGen) (r : Option IRValue × CodeGen)
    (h : FunctionDefinition.epilogue L token func ret s = Except.ok r) :
    r.2.symbols = s.symbols.dropLast := by
  cases ret with
  | none => simp [FunctionDefinition.epilogue] at h
  | some v =>
    cases hv : v.isReturnInst with
    | true =>
      simp only [FunctionDefinition.epilogue, hv, not_true_eq_false, if_false] at h
      split at h
      · simp at h
      · split_ifs at h
        · split at h <;> simp [Node.error] at h
        · simp only [Except.ok.injEq] at h
          rw [← h]
          rfl
    | false =>
      simp only [FunctionDefinition.epilogue, hv, Bool.false_eq_true, not_false_eq_true,
        if_true] at h
      split at h <;> simp [Node.error] at h
mutual

/-- Generating a statement leaves every scope but the innermost as it is,
and an `if` statement, a `while` statement and a function definition leave
the whole symbol table as it is. -/
theorem generate_scopes (L : LLVM) : ∀ (statement : Statement) (s : CodeGen)
    (v : Option IRValue) (s2 : CodeGen), Statement.generate L statement s = Except.ok (v, s2) →
      s2.symbols.dropLast = s.symbols.dropLast ∧
        (statement.opensScope = true → s2.symbols = s.symbols)
  | Statement.IfStatement token condition ifBlock elseBlock, s, v, s2, h => by
    rw [Statement.generate] at h
    simp only [bind_eq_ok] at h
    obtain ⟨⟨cond, s1⟩, h1, h⟩ := h
    have f1 := (generate_frame condition s cond s1 h1).1
    have key : s2.symbols = s.symbols := by
      split at h
      · simp at h
      · simp only [bind_eq_ok] at h
        obtain ⟨⟨then_, s8⟩, h8, s9, h9, h⟩ := h
        have e8 := (generate_scopes L ifBlock _ _ _ h8).1
        have e9 := branchUnlessReturn_symbols _ _ _ _ h9
        cases elseBlock with
        | none =>
          simp only [bind_eq_ok] at h
          obtain ⟨s10, h10, s14, h14, h⟩ := h
          have e14 := pushBack_symbols _ _ _ _ h14
          simp only [Except.ok.injEq] at h10
          simp only [Except.ok.injEq, Prod.mk.injEq] at h
          rw [← h.2, SetInsertPoint_symbols, e14, ← h10, e9, pop_symbols, e8]
          simp [f1]
        | some e =>
          simp only [bind_eq_ok] at h
          obtain ⟨s11, h11, ⟨elseStmt, s13⟩, h13, s10, h13b, s14, h14, h⟩ := h
          have e11 := pushBack_symbols _ _ _ _ h11
          have e13 := (generate_scopes L e _ _ _ h13).1
          have e13b := branchUnlessReturn_symbols _ _ _ _ h13b
          have e14 := pushBack_symbols _ _ _ _ h14
          simp only [Except.ok.injEq, Prod.mk.injEq] at h
          rw [← h.2, SetInsertPoint_symbols, e14, e13b, pop_symbols, e13]
          simp only [push_symbols, SetInsertPoint_symbols, List.dropLast_concat, e11, e9,
            pop_symbols, e8]
          simp [f1]
    exact ⟨by rw [key], fun _ => key⟩
  | Statement.WhileStatement token condition block, s, v, s2, h => by
    rw [Statement.generate] at h
    have key : s2.symbols = s.symbols := by
      split at h
      · simp at h
      · simp only [bind_eq_ok] at h
        obtain ⟨⟨cond, s4⟩, h4, ⟨body, s10⟩, h10, s11, h11, s12, h12, h⟩ := h
        have f4 := (generate_frame condition _ cond s4 h4).1
        have e10 := (generate_scopes L block _ _ _ h10).1
        have e11 := branchUnlessReturn_symbols _ _ _ _ h11
        have e12 := pushBack_symbols _ _ _ _ h12
        simp only [Except.ok.injEq, Prod.mk.injEq] at h
        rw [← h.2, SetInsertPoint_symbols, e12, e11, pop_symbols, e10]
        simp [f4]
    exact ⟨by rw [key], fun _ => key⟩
  | Statement.ReturnStatement token return_, s, v, s2, h => by
    rw [Statement.generate] at h
    refine ⟨?_, fun hk => by simp [Statement.opensScope] at hk⟩
    split at h
    · simp at h
    · simp only [bind_eq_ok] at h
      obtain ⟨⟨v0, s1⟩, h1, h⟩ := h
      have f1 := (generate_frame return_ s v0 s1 h1).1
      split at h
      · simp at h
      · simp only [bind_eq_ok] at h
        obtain ⟨⟨val, s3⟩, h3, h⟩ := h
        have f3 := (expand_frame s1 v0 _ _ val s3 h3).1
        simp only [Except.ok.injEq, Prod.mk.injEq] at h
        rw [← h.2]
        simp [f3, f1]
  | Statement.Assignment identifier expression, s, v, s2, h => by
    rw [Statement.generate] at h
    refine ⟨?_, fun hk => by simp [Statement.opensScope] at hk⟩
    split at h
    · simp at h
    · simp only [bind_eq_ok] at h
      obtain ⟨lhs, -, ⟨v0, s1⟩, h1, type, -, ⟨rhs, s3⟩, h3, h⟩ := h
      have f1 := (generate_frame expression s v0 s1 h1).1
      have f3 := (expand_frame s1 v0 _ _ rhs s3 h3).1
      simp only [Except.ok.injEq, Prod.mk.injEq] at h
      rw [← h.2]
      simp [f3, f1]
  | Statement.VariableDefinition identifier expression, s, v, s2, h => by
    rw [Statement.generate] at h
    refine ⟨?_, fun hk => by simp [Statement.opensScope] at hk⟩
    simp only [bind_eq_ok] at h
    obtain ⟨type, -, h⟩ := h
    split at h
    · simp at h
    · split at h
      · simp only [bind_eq_ok] at h
        obtain ⟨⟨v0, s1⟩, h1, ⟨init, s3⟩, h3, h⟩ := h
        have f1 := (generate_frame expression s v0 s1 h1).1
        have f3 := (expand_frame s1 v0 _ _ init s3 h3).1
        split at h
        · simp at h
        · next alloc s4 halloc =>
          have f4 := entryBlockAlloca_symbols _ _ _ _ _ _ halloc
          simp only [Except.ok.injEq, Prod.mk.injEq] at h
          rw [← h.2]
          simp [f4, f3, f1]
      · split at h
        all_goals
          simp only [bind_eq_ok] at h
          obtain ⟨y, hy, h⟩ := h
          first
            | (simp [Node.error] at hy; done)
            | (simp only [Except.ok.injEq, Prod.mk.injEq] at h
               rw [← h.2]
               simp [CodeGen.addGlobal, CodeGen.addGlobalVariable])
  | Statement.FunctionDeclaration token returnType parameters, s, v, s2, h => by
    rw [Statement.generate] at h
    refine ⟨?_, fun hk => by simp [Statement.opensScope] at hk⟩
    simp only [bind_eq_ok] at h
    obtain ⟨⟨func, s1⟩, h1, h⟩ := h
    simp only [Except.ok.injEq, Prod.mk.injEq] at h
    rw [← h.2, functionDeclaration_symbols L _ _ _ _ _ _ h1]
  | Statement.FunctionDefinition token returnType block parameters, s, v, s2, h => by
    rw [Statement.generate] at h
    simp only [bind_eq_ok] at h
    obtain ⟨⟨func, s1⟩, h1, ⟨ret, s3⟩, h3, h⟩ := h
    have e1 := prologue_symbols L _ _ _ _ _ _ h1
    have e3 := (generate_scopes L block _ _ _ h3).1
    have e := epilogue_symbols L _ _ _ _ _ h
    have key : s2.symbols = s.symbols := by
      simp only at e
      rw [e, e3, e1]
    exact ⟨by rw [key], fun _ => key⟩
  | Statement.Sequence token statements, s, v, s2, h => by
    rw [Statement.generate] at h
    exact ⟨generateSequence_scopes L statements none s v s2 h,
      fun hk => by simp [Statement.opensScope] at hk⟩

/-- The same for the loop of a sequence. -/
theorem generateSequence_scopes (L : LLVM) : ∀ (statements : List Statement)
    (ret : Option IRValue) (s : CodeGen) (v : Option IRValue) (s2 : CodeGen),
    Statement.generateSequence L statements ret s = Except.ok (v, s2) →
      s2.symbols.dropLast = s.symbols.dropLast
  | [], ret, s, v, s2, h => by
    rw [Statement.generateSequence] at h
    simp only [Except.ok.injEq, Prod.mk.injEq] at h
    rw [h.2]
  | statement :: statements, ret, s, v, s2, h => by
    rw [Statement.generateSequence] at h
    simp only [bind_eq_ok] at h
    obtain ⟨⟨r, s1⟩, h1, h⟩ := h
    have e1 := (generate_scopes L statement s r s1 h1).1
    cases statement with
    | ReturnStatement t e =>
      simp only [Except.ok.injEq, Prod.mk.injEq] at h
      rw [← h.2, e1]
    | _ =>
      rw [generateSequence_scopes L statements r s1 v s2 h, e1]

end

/-- Claim C40.  For an `if` statement, a `while` statement and a function
definition, in every state: when `generate` returns normally, the symbol
table is the one before the call, with the same scopes and the same
bindings, so every name resolves to what it resolved to before, and a name
that was bound only inside the statement resolves to nothing. -/
theorem scopes_restored (L : LLVM) (statement : Statement) (s : CodeGen) (v : Option IRValue)
    (s2 : CodeGen) (hkind : statement.opensScope = true)
    (h : Statement.generate L statement s = Except.ok (v, s2)) :
    s2.symbols = s.symbols ∧ s2.symbols.length = s.symbols.length ∧
      ∀ name, SymbolTable.get s2.symbols name = SymbolTable.get s.symbols name := by
  have key := (generate_scopes L statement s v s2 h).2 hkind
  exact ⟨key, by rw [key], fun name => by rw [key]⟩

theorem scopes_restored_witness :
    (statementOf
      "fun f : int (a : int) { int x = 1; if (a == x) { int y = 2; } while (a < x) { int z = 3; } return x; }").opensScope =
      true ∧
    Statement.generate LLVM.accepting (statementOf
      "fun f : int (a : int) { int x = 1; if (a == x) { int y = 2; } while (a < x) { int z = 3; } return x; }")
      CodeGen.new =
      Except.ok (some (IRValue.function (str "f")), CodeGen.of (generateAll LLVM.accepting 50
        "fun f : int (a : int) { int x = 1; if (a == x) { int y = 2; } while (a < x) { int z = 3; } return x; }")) ∧
    (CodeGen.of (generateAll LLVM.accepting 50
      "fun f : int (a : int) { int x = 1; if (a == x) { int y = 2; } while (a < x) { int z = 3; } return x; }")).symbols =
      [[]] ∧
    SymbolTable.get (CodeGen.of (generateAll LLVM.accepting 50
      "fun f : int (a : int) { int x = 1; if (a == x) { int y = 2; } while (a < x) { int z = 3; } return x; }")).symbols
      (str "a") = none ∧
    SymbolTable.get (CodeGen.of (generateAll LLVM.accepting 50
      "fun f : int (a : int) { int x = 1; if (a == x) { int y = 2; } while (a < x) { int z = 3; } return x; }")).symbols
      (str "y") = none := by
  have hk : (statementOf
      "fun f : int (a : int) { int x = 1; if (a == x) { int y = 2; } while (a < x) { int z = 3; } return x; }").opensScope =
      true := by decide!
  have h : Statement.generate LLVM.accepting (statementOf
      "fun f : int (a : int) { int x = 1; if (a == x) { int y = 2; } while (a < x) { int z = 3; } return x; }")
      CodeGen.new =
      Except.ok (some (IRValue.function (str "f")), CodeGen.of (generateAll LLVM.accepting 50
        "fun f : int (a : int) { int x = 1; if (a == x) { int y = 2; } while (a < x) { int z = 3; } return x; }")) := by
    decide!
  have t := scopes_restored LLVM.accepting _ _ _ _ hk h
  exact ⟨hk, h, t.1, (t.2.2 (str "a")).trans rfl, (t.2.2 (str "y")).trans rfl⟩

/-! ### An unbraced assignment as the body of `if` and `while` -/

theorem block_of_identifier (n : Nat) (p : Parser) (h : p.peek.tag = Tag.ID) :
    Parser.block (n + 2) p = Parser.assignment n p := by
  rw [Parser.block]
  have h1 : p.peek.tag ≠ Tag.OPEN_CURLY := by rw [h]; decide
  rw [if_pos h1, Parser.statement]
  simp only [h]

theorem block_of_imaginary (n : Nat) (p : Parser) (h : p.peek.tag = Tag.I) :
    Parser.block (n + 2) p = p.error (str "Expected a statement") := by
  rw [Parser.block]
  have h1 : p.peek.tag ≠ Tag.OPEN_CURLY := by rw [h]; decide
  rw [if_pos h1, Parser.statement]
  simp only [h]

theorem assignment_node (n : Nat) (p : Parser) (stmt : Statement) (p2 : Parser)
    (h : Parser.assignment n p = Except.ok (stmt, p2)) :
    ∃ e, stmt = Statement.Assignment ⟨p.peek, TypeID.NONE⟩ e := by
  unfold Parser.assignment at h
  simp only at h
  split at h
  · simp at h
  · split at h
    · simp at h
    · split at h
      · simp at h
      · split at h
        · simp at h
        · simp only [Except.ok.injEq, Prod.mk.injEq] at h
          exact ⟨_, h.1.symm⟩

theorem conditionalStatement_node (n : Nat) (p0 p1 p2 p3 p4 : Parser) (cond : Expression)
    (h1 : p0.next = Except.ok p1)
    (h2 : p1.matchTag Tag.OPEN_BRACKET (str "Expected a conditional in brackets") = Except.ok p2)
    (h3 : Parser.conditional n p2 = Except.ok (cond, p3))
    (h4 : p3.matchTag Tag.CLOSE_BRACKET NO_CLOSING_BRACKET = Except.ok p4)
    (stmt : Statement) (pEnd : Parser)
    (h : Parser.conditionalStatement (n + 1) p0 = Except.ok (stmt, pEnd)) :
    ∃ body p5, Parser.block n p4 = Except.ok (body, p5) ∧
      ((∃ elseBlock, stmt = Statement.IfStatement p0.peek cond body elseBlock) ∨
        stmt = Statement.WhileStatement p0.peek cond body) := by
  rw [Parser.conditionalStatement] at h
  simp only [h1, h2, h3, h4] at h
  cases hb : Parser.block n p4 with
  | error e => simp [hb] at h
  | ok r =>
    obtain ⟨body, p5⟩ := r
    refine ⟨body, p5, rfl, ?_⟩
    simp only [hb] at h
    split_ifs at h
    · split at h
      · simp at h
      · split at h
        · simp at h
        · simp only [Except.ok.injEq, Prod.mk.injEq] at h
          exact Or.inl ⟨_, h.1.symm⟩
    · simp only [Except.ok.injEq, Prod.mk.injEq] at h
      exact Or.inl ⟨_, h.1.symm⟩
    · simp only [Except.ok.injEq, Prod.mk.injEq] at h
      exact Or.inr h.1.symm

/-- Claim C37, as amended.  The parser stands on the closing bracket `)` of
the condition of an `if` or `while` statement, the token the lexer returned
last, and a word that is no keyword and no type name follows.  Then `next`
succeeds, and (1) if the word is not `i`, the token is the identifier of that
name, `block` is `assignment`, and whenever the statement is parsed it is an
`if` or `while` statement whose body is an assignment to that identifier;
(2) if the word is `i`, the token is the imaginary-unit marker and `block`
fails with the `ParserError` "Expected a statement". -/
theorem unbraced_assignment_body (n : Nat) (q : Parser) (b : Nat) (bs tail : List Nat)
    (hq : q.lexer.previous = Tag.CLOSE_BRACKET) (hq2 : q.peek.tag = Tag.CLOSE_BRACKET)
    (hb : (isalpha (toChar b) || toChar b == 95) = true)
    (hbs : ∀ x ∈ bs, isword (toChar x) = true)
    (htail : isword (peekOf tail) = false)
    (hpeek : q.lexer.whitespace.peek = toChar b)
    (hstream : q.lexer.whitespace.stream = bs ++ tail)
    (hres : (b :: bs).map toChar ∉ [str "int", str "double", str "complex", str "string",
      str "fun", str "main", str "or", str "and", str "not", str "if", str "else", str "while",
      str "return", str "Re", str "Im"]) :
    ∃ p, q.next = Except.ok p ∧
      ((b :: bs).map toChar ≠ str "i" →
        p.peek = Token.ofString Tag.ID ((b :: bs).map toChar) q.lexer.whitespace.line ∧
        Parser.block (n + 2) p = Parser.assignment n p ∧
        ∀ (p0 p1 p2 : Parser) (cond : Expression) (stmt : Statement) (pEnd : Parser),
          p0.next = Except.ok p1 →
          p1.matchTag Tag.OPEN_BRACKET (str "Expected a conditional in brackets") =
            Except.ok p2 →
          Parser.conditional (n + 2) p2 = Except.ok (cond, q) →
          Parser.conditionalStatement (n + 3) p0 = Except.ok (stmt, pEnd) →
          ∃ e, (∃ elseBlock, stmt = Statement.IfStatement p0.peek cond
              (Statement.Assignment ⟨p.peek, TypeID.NONE⟩ e) elseBlock) ∨
            stmt = Statement.WhileStatement p0.peek cond
              (Statement.Assignment ⟨p.peek, TypeID.NONE⟩ e)) ∧
      ((b :: bs).map toChar = str "i" →
        p.peek = Token.ofString Tag.I (str "i") q.lexer.whitespace.line ∧
        Parser.block (n + 2) p =
          Except.error (Failure.parserError (str "Expected a statement") q.lexer.line)) := by
  by_cases hi : (b :: bs).map toChar = str "i"
  · have hbs2 : bs = [] := by
      have := congrArg List.length hi
      simp [str] at this
      exact this
    subst hbs2
    have hb105 : toChar b = 105 := by
      have h := hi
      simp only [List.map_cons, List.map_nil, str_i, List.cons.injEq, and_true] at h
      exact h
    have hlone : q.lexer.atLoneI = true := by
      unfold Lexer.atLoneI
      rw [hpeek, hb105, hstream]
      simp only [List.nil_append, beq_self_eq_true, Bool.true_and]
      cases tail with
      | nil => rfl
      | cons x rest =>
        simp only [peekOf, isword] at htail
        simp [htail]
    have hg := getNextToken_atLoneI q.lexer hlone
    simp only [hq, true_or, or_true, if_true] at hg
    refine ⟨{ q with lexer := q.lexer.getNextToken.2,
                     peek := Token.ofString Tag.I (str "i") q.lexer.whitespace.line,
                     lineNumber := q.lexer.line }, ?_, fun hne => absurd hi hne, fun _ => ?_⟩
    · unfold Parser.next
      cases hx : q.lexer.getNextToken with
      | mk r l =>
        rw [hx] at hg
        simp only at hg
        rw [hg]
    · refine ⟨rfl, ?_⟩
      rw [block_of_imaginary n _ rfl]
      rfl
  · have hg := getNextToken_alpha q.lexer b bs tail hb hbs htail hpeek hstream hi
    rw [lookup_reserved_none _ hres] at hg
    simp only [Lexer.ret] at hg
    obtain ⟨p, hp, hpeekp⟩ : ∃ p, q.next = Except.ok p ∧
        p.peek = Token.ofString Tag.ID ((b :: bs).map toChar) q.lexer.whitespace.line := by
      unfold Parser.next
      rw [hg]
      exact ⟨_, rfl, rfl⟩
    have htag : p.peek.tag = Tag.ID := by rw [hpeekp]; rfl
    refine ⟨p, hp, fun _ => ⟨hpeekp, block_of_identifier n p htag, ?_⟩, fun h => absurd h hi⟩
    intro p0 p1 p2 cond stmt pEnd h1 h2 h3 h
    have h4 : q.matchTag Tag.CLOSE_BRACKET NO_CLOSING_BRACKET = Except.ok p := by
      unfold Parser.matchTag
      rw [if_pos hq2]
      exact hp
    obtain ⟨body, p5, hbody, hstmt⟩ := conditionalStatement_node (n + 2) p0 p1 p2 q p cond h1 h2
      h3 h4 stmt pEnd h
    rw [block_of_identifier n p htag] at hbody
    obtain ⟨e, he⟩ := assignment_node n p body p5 hbody
    refine ⟨e, ?_⟩
    rw [he] at hstmt
    exact hstmt

theorem unbraced_assignment_body_witness :
    (Parser.on ") x = 2; return 0;").lexer.previous = Tag.CLOSE_BRACKET ∧
    (Parser.on ") x = 2; return 0;").peek.tag = Tag.CLOSE_BRACKET ∧
    (∃ p, (Parser.on ") x = 2; return 0;").next = Except.ok p ∧
      p.peek = Token.ofString Tag.ID (str "x") 1 ∧
      Parser.block 12 p = Parser.assignment 10 p) ∧
    parse 20 "fun main : int () { if (1 == 1) x = 2; return 0; }" =
      Except.ok (Statement.FunctionDefinition (Token.ofString Tag.MAIN (str "main") 1) TypeID.INT
        (Statement.Sequence (Token.ofTag Tag.OPEN_CURLY 1)
          [Statement.IfStatement (Token.ofString Tag.IF (str "if") 1)
            (Expression.Relation (Expression.Constant (Token.ofInt 1 1) TypeID.INT)
              (Token.ofTag Tag.EQ 1) (Expression.Constant (Token.ofInt 1 1) TypeID.INT))
            (Statement.Assignment ⟨Token.ofString Tag.ID (str "x") 1, TypeID.NONE⟩
              (Expression.Constant (Token.ofInt 2 1) TypeID.INT))
            none,
           Statement.ReturnStatement (Token.ofString Tag.RETURN (str "return") 1)
            (Expression.Constant (Token.ofInt 0 1) TypeID.INT)])
        []) ∧
    (parse 20 "fun main : int () { while (1 == 1) x = 2; return 0; }").toOption.isSome = true ∧
    (parse 20 "fun main : int () { if (1 == 1) { i = 2; } return 0; }").toOption.isSome = true := by
  have hq : (Parser.on ") x = 2; return 0;").lexer.previous = Tag.CLOSE_BRACKET := by decide!
  have hq2 : (Parser.on ") x = 2; return 0;").peek.tag = Tag.CLOSE_BRACKET := by decide!
  obtain ⟨p, hp, hx, -⟩ := unbraced_assignment_body 10 (Parser.on ") x = 2; return 0;") 120 []
    (bytes " = 2; return 0;") hq hq2 (by decide) (by decide) (by decide) (by decide!)
    (by decide!) (by decide)
  obtain ⟨hpeek, hblock, -⟩ := hx (by decide)
  refine ⟨hq, hq2, ⟨p, hp, ?_, hblock⟩, by decide!, by decide!, by decide!⟩
  rw [hpeek]
  have hl : (Parser.on ") x = 2; return 0;").lexer.whitespace.line = 1 := by decide!
  rw [hl]
  rfl

/-- Claim C37, counterexample.  After the closing bracket of the condition
the lexer returns the word `i` as the imaginary-unit marker, and the parser
turns down `if (1 == 1) i = 2;` and `while (1 == 1) i = 2;` with the
`ParserError` "Expected a statement". -/
theorem unbraced_assignment_to_i :
    Lexer.tags 10 (Lexer.new Tag.END (bytes "if (1 == 1) i = 2;")) =
      [some Tag.IF, some Tag.OPEN_BRACKET, some Tag.INT, some Tag.EQ, some Tag.INT,
        some Tag.CLOSE_BRACKET, some Tag.I, some Tag.ASSIGN, some Tag.INT, some Tag.SEMICOLON] ∧
    parse 20 "fun main : int () { if (1 == 1) i = 2; return 0; }" =
      Except.error (Failure.parserError (str "Expected a statement") 1) ∧
    parse 20 "fun main : int () { while (1 == 1) i = 2; return 0; }" =
      Except.error (Failure.parserError (str "Expected a statement") 1) := by
  decide!


/-! ### Programs without `main` -/

theorem noMain_congr (s s2 : CodeGen) (hf : s2.functions = s.functions)
    (hb : s2.blocks.map (fun b => b.parent) = s.blocks.map (fun b => b.parent))
    (h : s.NoMainBody) : s2.NoMainBody := by
  refine ⟨fun f hf2 => h.1 f (hf ▸ hf2), fun b hb2 hp => ?_⟩
  have hm : b.parent ∈ s2.blocks.map (fun b => b.parent) := List.mem_map_of_mem _ hb2
  rw [hb, List.mem_map] at hm
  obtain ⟨b0, hb0, hp0⟩ := hm
  exact h.2 b0 hb0 (hp0.trans hp)

theorem updateBlock_parents (s : CodeGen) (id : Nat) (f : List IRValue → List IRValue) :
    (s.updateBlock id f).blocks.map (fun b => b.parent) = s.blocks.map (fun b => b.parent) := by
  simp only [CodeGen.updateBlock, List.map_map]
  refine List.map_congr_left (fun b _ => ?_)
  simp only [Function.comp]
  split_ifs <;> rfl

theorem create_noMain (s : CodeGen) (op : Opcode) (operands : List IRValue) (type : IRType)
    (h : s.NoMainBody) : (s.create op operands type).2.NoMainBody := by
  refine noMain_congr s _ ?_ ?_ h
  · simp only [CodeGen.create, CodeGen.insert]
    split <;> rfl
  · simp only [CodeGen.create, CodeGen.insert]
    split
    · rfl
    · exact updateBlock_parents _ _ _
    · exact updateBlock_parents _ _ _

theorem getDeclaration_noMain (s : CodeGen) (name : List Int) (returnType : IRType)
    (args : List IRType) (h : s.NoMainBody) : (s.getDeclaration name returnType args).NoMainBody := by
  unfold CodeGen.getDeclaration
  split
  · exact h
  · refine ⟨fun f hf hn => ?_, h.2⟩
    simp only [List.mem_append, List.mem_singleton] at hf
    rcases hf with hf | hf
    · exact h.1 f hf hn
    · rw [hf]

theorem emits_noMain (s s2 : CodeGen) (he : Emits s s2) (h : s.NoMainBody) : s2.NoMainBody := by
  induction he with
  | refl => exact h
  | create s1 op operands type _ _ ih => exact create_noMain _ _ _ _ ih
  | declare s1 name returnType args _ ih => exact getDeclaration_noMain _ _ _ _ ih
  | string s1 v _ ih => exact noMain_congr _ _ rfl rfl ih

theorem getParent_noMain (s : CodeGen) (block : Nat) (h : s.NoMainBody) :
    s.getParent block ≠ some (str "main") := by
  unfold CodeGen.getParent
  split
  · next b hb =>
    exact h.2 b (List.mem_of_find?_eq_some hb)
  · simp

theorem createBlock_noMain (s : CodeGen) (func : Option (List Int))
    (hfunc : func ≠ some (str "main")) (h : s.NoMainBody) : (s.createBlock func).2.NoMainBody := by
  refine ⟨fun f hf hn => ?_, fun b hb => ?_⟩
  · simp only [CodeGen.createBlock, List.mem_map] at hf
    obtain ⟨f0, hf0, he⟩ := hf
    split_ifs at he with hc
    · exfalso
      apply hfunc
      subst he
      rw [← hc]
      simpa using hn
    · rw [← he] at hn ⊢
      exact h.1 f0 hf0 hn
  · simp only [CodeGen.createBlock, List.mem_append, List.mem_singleton] at hb
    rcases hb with hb | hb
    · exact h.2 b hb
    · rw [hb]
      exact hfunc

theorem pushBlock_noMain (s : CodeGen) (func : List Int) (block : Nat)
    (hfunc : func ≠ str "main") (h : s.NoMainBody) : (s.pushBlock func block).NoMainBody := by
  refine ⟨fun f hf hn => ?_, fun b hb => ?_⟩
  · simp only [CodeGen.pushBlock, List.mem_map] at hf
    obtain ⟨f0, hf0, he⟩ := hf
    split_ifs at he with hc
    · exfalso
      apply hfunc
      subst he
      rw [← hc]
      exact hn
    · rw [← he] at hn ⊢
      exact h.1 f0 hf0 hn
  · simp only [CodeGen.pushBlock, List.mem_map] at hb
    obtain ⟨b0, hb0, he⟩ := hb
    split_ifs at he
    · rw [← he]
      simpa using hfunc
    · rw [← he]
      exact h.2 b0 hb0

theorem pushBack_noMain (s : CodeGen) (func : Option (List Int)) (block : Nat) (s2 : CodeGen)
    (hfunc : func ≠ some (str "main")) (h : s.NoMainBody)
    (h2 : pushBack s func block = Except.ok s2) : s2.NoMainBody := by
  unfold pushBack at h2
  split at h2
  · simp at h2
  · next f =>
    simp only [Except.ok.injEq] at h2
    rw [← h2]
    exact pushBlock_noMain _ _ _ (fun hc => hfunc (by rw [hc])) h

theorem branchUnlessReturn_noMain (s : CodeGen) (v : Option IRValue) (dest : Nat) (s2 : CodeGen)
    (h : s.NoMainBody) (h2 : branchUnlessReturn s v dest = Except.ok s2) : s2.NoMainBody := by
  unfold branchUnlessReturn at h2
  split at h2
  · simp at h2
  · split_ifs at h2
    · simp only [Except.ok.injEq] at h2
      rw [← h2]
      exact h
    · simp only [Except.ok.injEq] at h2
      rw [← h2]
      exact create_noMain _ _ _ _ h

theorem entryBlockAlloca_noMain (s : CodeGen) (func name : List Int) (type : IRType)
    (v : IRValue) (s2 : CodeGen) (h : s.NoMainBody)
    (h2 : entryBlockAlloca s func name type = some (v, s2)) : s2.NoMainBody := by
  unfold entryBlockAlloca at h2
  split at h2
  · simp at h2
  · split at h2
    · simp at h2
    · simp only [Option.some.injEq, Prod.mk.injEq] at h2
      rw [← h2.2]
      exact noMain_congr s _ rfl (updateBlock_parents _ _ _) h

theorem setArgName_noMain (s : CodeGen) (func : List Int) (i : Nat) (name : List Int)
    (h : s.NoMainBody) : (s.setArgName func i name).NoMainBody := by
  refine ⟨fun f hf hn => ?_, h.2⟩
  simp only [CodeGen.setArgName, List.mem_map] at hf
  obtain ⟨f0, hf0, he⟩ := hf
  split_ifs at he
  · rw [← he] at hn ⊢
    exact h.1 f0 hf0 hn
  · rw [← he] at hn ⊢
    exact h.1 f0 hf0 hn

theorem functionDeclaration_noMain (L : LLVM) (token : Token) (returnType : TypeID)
    (parameters : List Identifier) (s : CodeGen) (func : Function) (s2 : CodeGen)
    (hs : s.NoMainBody)
    (h : FunctionDeclaration.generate L token returnType parameters s = Except.ok (func, s2)) :
    s2.NoMainBody ∧ func.blocks = [] ∧
      ∀ name, token.getString = some name → func.name = L.setName s.names name := by
  unfold FunctionDeclaration.generate at h
  split_ifs at h
  · split at h <;> simp [Node.error] at h
  · simp [Node.error] at h
  · simp only [bind_eq_ok] at h
    obtain ⟨types, -, rt, -, h⟩ := h
    split at h
    · simp at h
    · next name hname =>
      simp only [Except.ok.injEq, Prod.mk.injEq] at h
      obtain ⟨h1, h2⟩ := h
      refine ⟨?_, by rw [← h1], fun name2 hn2 => ?_⟩
      · rw [← h2]
        refine ⟨fun f hf hn => ?_, hs.2⟩
        simp only [List.mem_append, List.mem_singleton] at hf
        rcases hf with hf | hf
        · exact hs.1 f hf hn
        · rw [hf]
      · rw [hname] at hn2
        simp only [Option.some.injEq] at hn2
        rw [← h1, hn2]

theorem parametersPrologue_noMain (L : LLVM) (func : List Int) (token : Token)
    (parameters : List Identifier) :
    ∀ (args : List IRType) (i : Nat) (taken : List (List Int)) (s s2 : CodeGen),
      s.NoMainBody → parametersPrologue L func token parameters args i taken s = Except.ok s2 →
        s2.NoMainBody
  | [], i, taken, s, s2, hs, h => by
    rw [parametersPrologue] at h
    simp only [Except.ok.injEq] at h
    rw [← h]
    exact hs
  | type :: args, i, taken, s, s2, hs, h => by
    rw [parametersPrologue] at h
    split at h
    · simp at h
    · simp only [bind_eq_ok] at h
      obtain ⟨paramType, -, h⟩ := h
      split_ifs at h
      · simp [Node.error] at h
      · split at h
        · simp at h
        · split at h
          · simp at h
          · next alloc s3 halloc =>
            refine parametersPrologue_noMain L func token parameters args _ _ _ s2 ?_ h
            refine noMain_congr (s3.create Opcode.store _ IRType.void).2 _ rfl rfl ?_
            exact create_noMain _ _ _ _
              (entryBlockAlloca_noMain _ _ _ _ _ _ (setArgName_noMain _ _ _ _ hs) halloc)

theorem prologue_noMain (L : LLVM)
    (hL : ∀ taken name, L.setName taken name = str "main" → name = str "main")
    (token : Token) (returnType : TypeID) (parameters : List Identifier) (s : CodeGen)
    (func : Function) (s2 : CodeGen) (hname : token.getString ≠ some (str "main"))
    (hs : s.NoMainBody)
    (h : FunctionDefinition.prologue L token returnType parameters s = Except.ok (func, s2)) :
    s2.NoMainBody := by
  unfold FunctionDefinition.prologue at h
  split at h
  · simp at h
  · next name hn =>
    have hne : name ≠ str "main" := fun hc => hname (by rw [hn, hc])
    have fin : ∀ (f : Function) (s1 : CodeGen), f.name ≠ str "main" → s1.NoMainBody →
        ∀ s4, parametersPrologue L f.name token parameters (f.args.map (fun a => a.1)) 0 []
          ((s1.createBlock (some f.name)).2.SetInsertPoint (s1.createBlock (some f.name)).1).push =
            Except.ok s4 → s4.NoMainBody := by
      intro f s1 hf h1 s4 h4
      refine parametersPrologue_noMain L _ _ _ _ _ _ _ _ ?_ h4
      exact noMain_congr (s1.createBlock (some f.name)).2 _ rfl rfl
        (createBlock_noMain _ _ (fun hc => hf (Option.some.inj hc)) h1)
    split at h
    · simp only [bind_eq_ok] at h
      obtain ⟨⟨f, s1⟩, h1, s4, h4, h⟩ := h
      obtain ⟨n1, -, hfn⟩ := functionDeclaration_noMain L _ _ _ _ _ _ hs h1
      have hf : f.name ≠ str "main" := by
        rw [hfn name hn]
        exact fun hc => hne (hL _ _ hc)
      have n4 := fin f s1 hf n1 s4 h4
      split_ifs at h
      · split at h <;> simp [Node.error] at h
      · simp only [Except.ok.injEq, Prod.mk.injEq] at h
        rw [← h.2]
        exact n4
    · next func0 hf0 =>
      split_ifs at h
      · simp [Node.error, bind, Except.bind] at h
      · simp only [bind_eq_ok] at h
        obtain ⟨⟨f, s1⟩, h1, s4, h4, h⟩ := h
        simp only [Except.ok.injEq, Prod.mk.injEq] at h1
        obtain ⟨hf1, hs1⟩ := h1
        have hf : f.name ≠ str "main" := by
          rw [← hf1]
          have := List.find?_some hf0
          simp only [decide_eq_true_eq] at this
          rw [this]
          exact hne
        have n4 := fin f s1 hf (hs1 ▸ hs) s4 h4
        split_ifs at h
        · split at h <;> simp [Node.error] at h
        · simp only [Except.ok.injEq, Prod.mk.injEq] at h
          rw [← h.2]
          exact n4

theorem epilogue_noMain (L : LLVM) (token : Token) (func : Function) (ret : Option IRValue)
    (s : CodeGen) (r : Option IRValue × CodeGen) (hs : s.NoMainBody)
    (h : FunctionDefinition.epilogue L token func ret s = Except.ok r) : r.2.NoMainBody := by
  cases ret with
  | none => simp [FunctionDefinition.epilogue] at h
  | some v =>
    cases hv : v.isReturnInst with
    | true =>
      simp only [FunctionDefinition.epilogue, hv, not_true_eq_false, if_false] at h
      split at h
      · simp at h
      · split_ifs at h
        · split at h <;> simp [Node.error] at h
        · simp only [Except.ok.injEq] at h
          rw [← h]
          exact noMain_congr s _ rfl rfl hs
    | false =>
      simp only [FunctionDefinition.epilogue, hv, Bool.false_eq_true, not_false_eq_true,
        if_true] at h
      split at h <;> simp [Node.error] at h

mutual

/-- Generating a statement that holds no definition of `main` leaves the
module without a body of `main`. -/
theorem generate_noMain (L : LLVM)
    (hL : ∀ taken name, L.setName taken name = str "main" → name = str "main") :
    ∀ (statement : Statement) (s : CodeGen) (v : Option IRValue) (s2 : CodeGen),
      statement.definesMain = false → s.NoMainBody →
      Statement.generate L statement s = Except.ok (v, s2) → s2.NoMainBody
  | Statement.IfStatement token condition ifBlock elseBlock, s, v, s2, hd, hs, h => by
    rw [Statement.generate] at h
    simp only [bind_eq_ok] at h
    obtain ⟨⟨cond, s1⟩, h1, h⟩ := h
    have n1 := emits_noMain _ _ (generate_emits condition s cond s1 h1) hs
    have n2 := create_noMain s1 (Opcode.icmp Pred.NE) [cond, IRValue.constInt IRType.bool 0]
      IRType.bool n1
    split at h
    · simp at h
    · next block hblock =>
      have hp := getParent_noMain _ block n2
      have n3 := createBlock_noMain _ _ hp n2
      have n4 := createBlock_noMain _ none (by simp) n3
      simp only [bind_eq_ok] at h
      obtain ⟨⟨then_, s8⟩, h8, s9, h9, h⟩ := h
      cases elseBlock with
      | none =>
        simp only [Statement.definesMain, Bool.or_false] at hd
        simp only [bind_eq_ok] at h
        obtain ⟨s10, h10, s14, h14, h⟩ := h
        simp only [Except.ok.injEq] at h10
        simp only [Except.ok.injEq, Prod.mk.injEq] at h
        simp only [Option.isSome_none, Bool.false_eq_true, if_false] at h8
        have n8 : s8.NoMainBody := by
          refine generate_noMain L hL ifBlock _ _ _ hd ?_ h8
          exact noMain_congr _ _ rfl rfl (create_noMain _ _ _ _ n4)
        have n9 := branchUnlessReturn_noMain s8.pop _ _ _ (noMain_congr s8 _ rfl rfl n8) h9
        have n14 := pushBack_noMain _ _ _ _ hp (h10 ▸ n9) h14
        rw [← h.2]
        exact noMain_congr _ _ rfl rfl n14
      | some e =>
        simp only [Statement.definesMain, Bool.or_eq_false_iff] at hd
        simp only [bind_eq_ok] at h
        obtain ⟨s11, h11, ⟨elseStmt, s13⟩, h13, s10, h13b, s14, h14, h⟩ := h
        simp only [Except.ok.injEq, Prod.mk.injEq] at h
        have n5 := createBlock_noMain _ none (by simp) n4
        simp only [Option.isSome_some, if_true] at h8 h11 h13
        have n8 : s8.NoMainBody := by
          refine generate_noMain L hL ifBlock _ _ _ hd.1 ?_ h8
          exact noMain_congr _ _ rfl rfl (create_noMain _ _ _ _ n5)
        have n9 := branchUnlessReturn_noMain s8.pop _ _ _ (noMain_congr s8 _ rfl rfl n8) h9
        have n11 := pushBack_noMain _ _ _ _ hp n9 h11
        have n13 : s13.NoMainBody := by
          refine generate_noMain L hL e _ _ _ hd.2 ?_ h13
          exact noMain_congr s11 _ rfl rfl n11
        have n10 := branchUnlessReturn_noMain s13.pop _ _ _ (noMain_congr s13 _ rfl rfl n13) h13b
        have n14 := pushBack_noMain _ _ _ _ hp n10 h14
        rw [← h.2]
        exact noMain_congr _ _ rfl rfl n14
  | Statement.WhileStatement token condition block, s, v, s2, hd, hs, h => by
    rw [Statement.generate] at h
    simp only [Statement.definesMain] at hd
    split at h
    · simp at h
    · next insertBlock hblock =>
      have hp := getParent_noMain _ insertBlock hs
      simp only [bind_eq_ok] at h
      obtain ⟨⟨cond, s4⟩, h4, ⟨body, s10⟩, h10, s11, h11, s12, h12, h⟩ := h
      have n1 := createBlock_noMain _ _ hp hs
      have n4 : s4.NoMainBody := by
        refine emits_noMain _ _ (generate_emits condition _ cond s4 h4) ?_
        exact noMain_congr _ _ rfl rfl (create_noMain _ _ _ _ n1)
      have n5 := create_noMain s4 (Opcode.icmp Pred.NE) [cond, IRValue.constInt IRType.bool 0]
        IRType.bool n4
      have n6 := createBlock_noMain _ _ hp n5
      have n7 := createBlock_noMain _ none (by simp) n6
      have n10 : s10.NoMainBody := by
        refine generate_noMain L hL block _ _ _ hd ?_ h10
        exact noMain_congr _ _ rfl rfl (create_noMain _ _ _ _ n7)
      have n11 := branchUnlessReturn_noMain s10.pop _ _ _ (noMain_congr s10 _ rfl rfl n10) h11
      have n12 := pushBack_noMain _ _ _ _ hp n11 h12
      simp only [Except.ok.injEq, Prod.mk.injEq] at h
      rw [← h.2]
      exact noMain_congr _ _ rfl rfl n12
  | Statement.ReturnStatement token return_, s, v, s2, hd, hs, h => by
    rw [Statement.generate] at h
    split at h
    · simp at h
    · simp only [bind_eq_ok] at h
      obtain ⟨⟨v0, s1⟩, h1, h⟩ := h
      have n1 := emits_noMain _ _ (generate_emits return_ s v0 s1 h1) hs
      split at h
      · simp at h
      · simp only [bind_eq_ok] at h
        obtain ⟨⟨val, s3⟩, h3, h⟩ := h
        have n3 := emits_noMain _ _ (expand_emits s1 v0 _ _ val s3 h3) n1
        simp only [Except.ok.injEq, Prod.mk.injEq] at h
        rw [← h.2]
        exact create_noMain _ _ _ _ n3
  | Statement.Assignment identifier expression, s, v, s2, hd, hs, h => by
    rw [Statement.generate] at h
    split at h
    · simp at h
    · simp only [bind_eq_ok] at h
      obtain ⟨lhs, -, ⟨v0, s1⟩, h1, type, -, ⟨rhs, s3⟩, h3, h⟩ := h
      have n1 := emits_noMain _ _ (generate_emits expression s v0 s1 h1) hs
      have n3 := emits_noMain _ _ (expand_emits s1 v0 _ _ rhs s3 h3) n1
      simp only [Except.ok.injEq, Prod.mk.injEq] at h
      rw [← h.2]
      exact create_noMain _ _ _ _ n3
  | Statement.VariableDefinition identifier expression, s, v, s2, hd, hs, h => by
    rw [Statement.generate] at h
    simp only [bind_eq_ok] at h
    obtain ⟨type, -, h⟩ := h
    split at h
    · simp at h
    · split at h
      · simp only [bind_eq_ok] at h
        obtain ⟨⟨v0, s1⟩, h1, ⟨init, s3⟩, h3, h⟩ := h
        have n1 := emits_noMain _ _ (generate_emits expression s v0 s1 h1) hs
        have n3 := emits_noMain _ _ (expand_emits s1 v0 _ _ init s3 h3) n1
        split at h
        · simp at h
        · next alloc s4 halloc =>
          have n4 := entryBlockAlloca_noMain _ _ _ _ _ _ n3 halloc
          simp only [Except.ok.injEq, Prod.mk.injEq] at h
          rw [← h.2]
          exact noMain_congr _ _ rfl rfl (create_noMain _ Opcode.store [init, alloc] IRType.void n4)
      · split at h
        all_goals
          simp only [bind_eq_ok] at h
          obtain ⟨y, hy, h⟩ := h
          first
            | (simp [Node.error] at hy; done)
            | (simp only [Except.ok.injEq, Prod.mk.injEq] at h
               rw [← h.2]
               exact noMain_congr s _ rfl rfl hs)
  | Statement.FunctionDeclaration token returnType parameters, s, v, s2, hd, hs, h => by
    rw [Statement.generate] at h
    simp only [bind_eq_ok] at h
    obtain ⟨⟨func, s1⟩, h1, h⟩ := h
    simp only [Except.ok.injEq, Prod.mk.injEq] at h
    rw [← h.2]
    exact (functionDeclaration_noMain L _ _ _ _ _ _ hs h1).1
  | Statement.FunctionDefinition token returnType block parameters, s, v, s2, hd, hs, h => by
    rw [Statement.generate] at h
    simp only [bind_eq_ok] at h
    obtain ⟨⟨func, s1⟩, h1, ⟨ret, s3⟩, h3, h⟩ := h
    simp only [Statement.definesMain, Bool.or_eq_false_iff, decide_eq_false_iff_not] at hd
    have n1 := prologue_noMain L hL _ _ _ _ _ _ hd.1 hs h1
    have n3 := generate_noMain L hL block _ _ _ hd.2 n1 h3
    exact epilogue_noMain L _ _ _ _ _ n3 h
  | Statement.Sequence token statements, s, v, s2, hd, hs, h => by
    rw [Statement.generate] at h
    simp only [Statement.definesMain] at hd
    exact generateSequence_noMain L hL statements none s v s2 hd hs h

/-- The same for the loop of a sequence. -/
theorem generateSequence_noMain (L : LLVM)
    (hL : ∀ taken name, L.setName taken name = str "main" → name = str "main") :
    ∀ (statements : List Statement) (ret : Option IRValue) (s : CodeGen) (v : Option IRValue)
      (s2 : CodeGen), Statement.anyDefinesMain statements = false → s.NoMainBody →
      Statement.generateSequence L statements ret s = Except.ok (v, s2) → s2.NoMainBody
  | [], ret, s, v, s2, hd, hs, h => by
    rw [Statement.generateSequence] at h
    simp only [Except.ok.injEq, Prod.mk.injEq] at h
    rw [← h.2]
    exact hs
  | statement :: statements, ret, s, v, s2, hd, hs, h => by
    rw [Statement.generateSequence] at h
    simp only [Statement.anyDefinesMain, Bool.or_eq_false_iff] at hd
    simp only [bind_eq_ok] at h
    obtain ⟨⟨r, s1⟩, h1, h⟩ := h
    have n1 := generate_noMain L hL statement s r s1 hd.1 hs h1
    cases statement with
    | ReturnStatement t e =>
      simp only [Except.ok.injEq, Prod.mk.injEq] at h
      rw [← h.2]
      exact n1
    | _ =>
      exact generateSequence_noMain L hL statements r s1 v s2 hd.2 n1 h

end

theorem initGlobals_noMain (s : CodeGen) (hs : s.NoMainBody) :
    Node.initGlobals s = Except.error (CodeGenFailure.codeGenErrorText MISSING_MAIN) := by
  unfold Node.initGlobals
  split
  · rfl
  · next mainFunc hm =>
    have hname := List.find?_some hm
    simp only [decide_eq_true_eq] at hname
    have := hs.1 mainFunc (List.mem_of_find?_eq_some hm) hname
    rw [this]

theorem parseLoop_noMain (L : LLVM)
    (hL : ∀ taken name, L.setName taken name = str "main" → name = str "main") (n : Nat) :
    ∀ (k : Nat) (p : Parser) (s : CodeGen) (p2 : Parser) (s2 : CodeGen), s.NoMainBody →
      (∀ stmt ∈ parsedStatements n k p, stmt.definesMain = false) →
      parseLoop L n k p s = Except.ok (p2, s2) → s2.NoMainBody
  | 0, p, s, p2, s2, hs, hd, h => by
    rw [parseLoop] at h
    split_ifs at h
    all_goals first
      | (simp at h; done)
      | (simp only [Except.ok.injEq, Prod.mk.injEq] at h
         rw [← h.2]
         exact hs)
  | k + 1, p, s, p2, s2, hs, hd, h => by
    rw [parseLoop] at h
    rw [parsedStatements] at hd
    split_ifs at h with hend
    · rw [if_pos hend] at hd
      split at h
      · simp at h
      · next stmt p1 hp =>
        rw [hp] at hd
        simp only [List.mem_cons, forall_eq_or_imp] at hd
        split at h
        · simp at h
        · next v s1 hg =>
          exact parseLoop_noMain L hL n k p1 s1 p2 s2
            (generate_noMain L hL stmt s v s1 hd.1 hs hg) hd.2 h
    · simp only [Except.ok.injEq, Prod.mk.injEq] at h
      rw [← h.2]
      exact hs

theorem error_ne_text {α : Type} (msg : List Int) (l : Int) (m : List Int) :
    (Node.error msg l : Except CodeGenFailure α) ≠
      Except.error (CodeGenFailure.codeGenErrorText m) := by
  simp [Node.error]

theorem getType_ne_text (type : TypeID) (l : Int) (m : List Int) :
    Node.getType type l ≠ Except.error (CodeGenFailure.codeGenErrorText m) := by
  cases type <;> simp [Node.getType, Node.error]

theorem getMaxType_ne_text (a b : IRType) (l : Int) (m : List Int) :
    Node.getMaxType a b l ≠ Except.error (CodeGenFailure.codeGenErrorText m) := by
  intro h
  unfold Node.getMaxType at h
  split_ifs at h
  exact error_ne_text _ _ _ h

theorem expand_ne_text (s : CodeGen) (val : IRValue) (to_ : IRType) (l : Int) (m : List Int) :
    Node.expand s val to_ l ≠ Except.error (CodeGenFailure.codeGenErrorText m) := by
  intro h
  unfold Node.expand at h
  split_ifs at h
  all_goals exact error_ne_text _ _ _ h

theorem Re_ne_text (s : CodeGen) (val : IRValue) (l : Int) (m : List Int) :
    FunctionCall.Re s val l ≠ Except.error (CodeGenFailure.codeGenErrorText m) := by
  intro h
  unfold FunctionCall.Re at h
  split_ifs at h
  all_goals exact error_ne_text _ _ _ h

theorem Im_ne_text (s : CodeGen) (val : IRValue) (l : Int) (m : List Int) :
    FunctionCall.Im s val l ≠ Except.error (CodeGenFailure.codeGenErrorText m) := by
  intro h
  unfold FunctionCall.Im at h
  split_ifs at h
  all_goals exact error_ne_text _ _ _ h

theorem arithmetic_ne_text (s : CodeGen) (token : Token) (common : IRType) (L R : IRValue)
    (m : List Int) :
    BinaryOperation.arithmetic s token common L R ≠
      Except.error (CodeGenFailure.codeGenErrorText m) := by
  intro h
  unfold BinaryOperation.arithmetic at h
  split_ifs at h
  all_goals try simp only [Node.error, reduceCtorEq] at h
  all_goals try split at h
  all_goals simp [Node.error] at h

theorem compare_ne_text (s : CodeGen) (token : Token) (common : IRType) (L R : IRValue)
    (m : List Int) :
    Relation.compare s token common L R ≠ Except.error (CodeGenFailure.codeGenErrorText m) := by
  intro h
  unfold Relation.compare at h
  split_ifs at h
  all_goals try simp only [Node.error, reduceCtorEq] at h
  all_goals try split at h
  all_goals simp [Node.error] at h

theorem absoluteValue_ne_text (s : CodeGen) (val : IRValue) (l : Int) (m : List Int) :
    AbsoluteValue.ofValue s val l ≠ Except.error (CodeGenFailure.codeGenErrorText m) := by
  intro h
  unfold AbsoluteValue.ofValue at h
  split_ifs at h
  all_goals exact error_ne_text _ _ _ h

theorem unaryOperation_ne_text (s : CodeGen) (token : Token) (val : IRValue) (m : List Int) :
    UnaryOperation.ofValue s token val ≠ Except.error (CodeGenFailure.codeGenErrorText m) := by
  intro h
  unfold UnaryOperation.ofValue at h
  split_ifs at h
  all_goals exact error_ne_text _ _ _ h

theorem constant_ne_text (s : CodeGen) (token : Token) (type : TypeID) (m : List Int) :
    Constant.generate s token type ≠ Except.error (CodeGenFailure.codeGenErrorText m) := by
  intro h
  unfold Constant.generate at h
  split_ifs at h
  all_goals try split at h
  all_goals first
    | (simp at h)
    | exact error_ne_text _ _ _ h

/-- The step of `generate_textless` for a call, from the same fact for the
arguments. -/
theorem functionCall_textless (token : Token) (arguments : List Expression) (s : CodeGen)
    (m : List Int)
    (ih : ∀ a, arguments = [a] → ∀ (s : CodeGen),
      Expression.generate a s ≠ Except.error (CodeGenFailure.codeGenErrorText m))
    (ihArgs : ∀ (types : List IRType) (func : List Int) (l : Int) (s : CodeGen),
      Expression.generateArguments arguments types func l s ≠
        Except.error (CodeGenFailure.codeGenErrorText m)) :
    Expression.generate (Expression.FunctionCall token arguments) s ≠
      Except.error (CodeGenFailure.codeGenErrorText m) := by
  rw [generate_FunctionCall]
  split
  · simp
  · split_ifs
    · split
      · next a =>
        exact bind_ne_error _ _ _ (ih a rfl s) (fun ⟨val, s1⟩ _ => Re_ne_text _ _ _ _)
      · exact error_ne_text _ _ _
    · split
      · next a =>
        exact bind_ne_error _ _ _ (ih a rfl s) (fun ⟨val, s1⟩ _ => Im_ne_text _ _ _ _)
      · exact error_ne_text _ _ _
    · split
      · exact error_ne_text _ _ _
      · exact bind_ne_error _ _ _ (ihArgs _ _ _ s) (fun ⟨args, s1⟩ _ => by simp)

mutual

/-- Generating an expression raises no `CodeGenError` other than those of
`Node::error`. -/
theorem generate_textless : ∀ (e : Expression) (s : CodeGen) (m : List Int),
    Expression.generate e s ≠ Except.error (CodeGenFailure.codeGenErrorText m)
  | Expression.Identifier id, s, m => by
    rw [Expression.generate]
    split
    · simp
    · refine bind_ne_error _ _ _ ?_ (fun symbol _ => bind_ne_error _ _ _
        (getType_ne_text _ _ _) (fun type _ => by simp))
      unfold Node.getSymbol
      split
      · exact error_ne_text _ _ _
      · simp
  | Expression.FunctionCall token [], s, m =>
    functionCall_textless token [] s m (fun a ha => by cases ha)
      (fun types func l s => generateArguments_textless [] types func l s m)
  | Expression.FunctionCall token [a], s, m =>
    functionCall_textless token [a] s m
      (fun x hx => by
        simp only [List.cons.injEq, and_true] at hx
        subst hx
        exact fun s => generate_textless a s m)
      (fun types func l s => generateArguments_textless [a] types func l s m)
  | Expression.FunctionCall token (a :: b :: rest), s, m =>
    functionCall_textless token (a :: b :: rest) s m (fun x hx => by simp at hx)
      (fun types func l s => generateArguments_textless (a :: b :: rest) types func l s m)
  | Expression.AbsoluteValue token val_, s, m => by
    rw [Expression.generate]
    exact bind_ne_error _ _ _ (generate_textless val_ s m)
      (fun ⟨val, s1⟩ _ => absoluteValue_ne_text _ _ _ _)
  | Expression.Complex imaginary token, s, m => by
    rw [Expression.generate]
    exact bind_ne_error _ _ _ (generate_textless imaginary s m)
      (fun ⟨v, s1⟩ _ => bind_ne_error _ _ _ (expand_ne_text _ _ _ _ _)
        (fun ⟨im, s2⟩ _ => by simp))
  | Expression.BinaryOperation lhs token rhs, s, m => by
    rw [Expression.generate]
    refine bind_ne_error _ _ _ (generate_textless lhs s m) (fun ⟨L, s1⟩ h1 => ?_)
    refine bind_ne_error _ _ _ (generate_textless rhs s1 m) (fun ⟨R, s2⟩ _ => ?_)
    refine bind_ne_error _ _ _ (getMaxType_ne_text _ _ _ _) (fun common _ => ?_)
    refine bind_ne_error _ _ _ (expand_ne_text _ _ _ _ _) (fun ⟨L1, s3⟩ _ => ?_)
    refine bind_ne_error _ _ _ (expand_ne_text _ _ _ _ _) (fun ⟨R1, s4⟩ _ => ?_)
    exact arithmetic_ne_text _ _ _ _ _ _
  | Expression.UnaryOperation token expression, s, m => by
    rw [Expression.generate]
    exact bind_ne_error _ _ _ (generate_textless expression s m)
      (fun ⟨val, s1⟩ _ => unaryOperation_ne_text _ _ _ _)
  | Expression.Constant token type, s, m => by
    rw [Expression.generate]
    exact constant_ne_text _ _ _ _
  | Expression.Disjunction lhs token rhs, s, m => by
    rw [Expression.generate]
    refine bind_ne_error _ _ _ (generate_textless lhs s m) (fun ⟨L, s1⟩ h1 => ?_)
    exact bind_ne_error _ _ _ (generate_textless rhs s1 m) (fun ⟨R, s2⟩ _ => by simp)
  | Expression.Conjunction lhs token rhs, s, m => by
    rw [Expression.generate]
    refine bind_ne_error _ _ _ (generate_textless lhs s m) (fun ⟨L, s1⟩ h1 => ?_)
    exact bind_ne_error _ _ _ (generate_textless rhs s1 m) (fun ⟨R, s2⟩ _ => by simp)
  | Expression.Negation token expression, s, m => by
    rw [Expression.generate]
    exact bind_ne_error _ _ _ (generate_textless expression s m)
      (fun ⟨v, s1⟩ _ => by simp)
  | Expression.Relation lhs token rhs, s, m => by
    rw [Expression.generate]
    refine bind_ne_error _ _ _ (generate_textless lhs s m) (fun ⟨L, s1⟩ h1 => ?_)
    refine bind_ne_error _ _ _ (generate_textless rhs s1 m) (fun ⟨R, s2⟩ _ => ?_)
    refine bind_ne_error _ _ _ (getMaxType_ne_text _ _ _ _) (fun common _ => ?_)
    refine bind_ne_error _ _ _ (expand_ne_text _ _ _ _ _) (fun ⟨L1, s3⟩ _ => ?_)
    refine bind_ne_error _ _ _ (expand_ne_text _ _ _ _ _) (fun ⟨R1, s4⟩ _ => ?_)
    exact compare_ne_text _ _ _ _ _ _

/-- The same for the arguments of a call. -/
theorem generateArguments_textless : ∀ (arguments : List Expression) (types : List IRType)
    (func : List Int) (l : Int) (s : CodeGen) (m : List Int),
    Expression.generateArguments arguments types func l s ≠
      Except.error (CodeGenFailure.codeGenErrorText m)
  | _, [], _, _, s, m => by
    rw [Expression.generateArguments]
    simp
  | [], _ :: _, func, _, s, m => by
    rw [Expression.generateArguments]
    exact error_ne_text _ _ _
  | a :: arguments, t :: types, func, l, s, m => by
    rw [Expression.generateArguments]
    refine bind_ne_error _ _ _ (generate_textless a s m) (fun ⟨v, s1⟩ h1 => ?_)
    refine bind_ne_error _ _ _ (expand_ne_text _ _ _ _ _) (fun ⟨arg, s2⟩ h2 => ?_)
    exact bind_ne_error _ _ _ (generateArguments_textless arguments types func l s2 m)
      (fun ⟨args, s3⟩ _ => by simp)

end

theorem initGlobalsLoop_ne_text (m : List Int) :
    ∀ (registry : List (IRValue × Expression × TypeID)) (s : CodeGen),
      Node.initGlobalsLoop registry s ≠ Except.error (CodeGenFailure.codeGenErrorText m)
  | [], s => by
    rw [Node.initGlobalsLoop]
    simp
  | (global, expr, type) :: rest, s => by
    rw [Node.initGlobalsLoop]
    refine bind_ne_error _ _ _ (generate_textless expr s m) (fun ⟨v, s1⟩ _ => ?_)
    refine bind_ne_error _ _ _ (getType_ne_text _ _ _) (fun to_ _ => ?_)
    refine bind_ne_error _ _ _ (expand_ne_text _ _ _ _ _) (fun ⟨expanded, s2⟩ _ => ?_)
    exact initGlobalsLoop_ne_text m rest _

theorem setName_accepting (taken : List (List Int)) (name : List Int)
    (h : LLVM.accepting.setName taken name = str "main") : name = str "main" := by
  simp only [LLVM.accepting] at h
  split_ifs at h
  · exfalso
    have hm : (46 : Int) ∈ name ++ str "." ++ to_string taken.length :=
      List.mem_append_left _ (List.mem_append_right _ (by decide))
    rw [h] at hm
    revert hm
    decide
  · exact h

/-- Claim C23, as amended.  (1) `Node::initGlobals` fails with the
`CodeGenError` "Missing main() function definiton" if and only if the module
has no function named `main` with a body, and it raises no other
`CodeGenError` with a text of its own: every other one comes from
`Node::error`, raised while an initializer is generated or widened.
(2) For a naming of LLVM that turns no other name into `main`, from a module
without a body of `main`: when none of the statements of the program is or
holds a definition of `main`, `Parser::parse` does not return normally, and
when its loop has come to the end of the input it fails with that
`CodeGenError`. -/
theorem initGlobals_missing_main :
    (∀ s0 : CodeGen,
      (Node.initGlobals s0 = Except.error (CodeGenFailure.codeGenErrorText MISSING_MAIN) ↔
        ∀ f, s0.getFunction (str "main") = some f → f.blocks = []) ∧
      ∀ m, Node.initGlobals s0 = Except.error (CodeGenFailure.codeGenErrorText m) →
        m = MISSING_MAIN) ∧
    ∀ (L : LLVM), (∀ taken name, L.setName taken name = str "main" → name = str "main") →
      ∀ (n : Nat) (p : Parser) (s : CodeGen), s.NoMainBody →
        (∀ stmt ∈ parsedStatements n n p, stmt.definesMain = false) →
        (∀ r, Parser.parse L n p s ≠ Except.ok r) ∧
        ∀ p1 s1, parseLoop L n n p s = Except.ok (p1, s1) →
          Parser.parse L n p s = Except.error
            (ParseFailure.generator (CodeGenFailure.codeGenErrorText MISSING_MAIN)) := by
  refine ⟨fun s0 => ?_, fun L hL n p s hs hprogram => ?_⟩
  · have key : ∀ m, Node.initGlobals s0 = Except.error (CodeGenFailure.codeGenErrorText m) →
        m = MISSING_MAIN ∧ ∀ f, s0.getFunction (str "main") = some f → f.blocks = [] := by
      intro m h
      unfold Node.initGlobals at h
      split at h
      · next hnone =>
        simp only [Except.error.injEq, CodeGenFailure.codeGenErrorText.injEq] at h
        exact ⟨h.symm, fun f hf => by rw [hnone] at hf; cases hf⟩
      · next mainFunc hsome =>
        split at h
        · next hblocks =>
          simp only [Except.error.injEq, CodeGenFailure.codeGenErrorText.injEq] at h
          refine ⟨h.symm, fun f hf => ?_⟩
          rw [hsome] at hf
          simp only [Option.some.injEq] at hf
          rw [← hf, hblocks]
        · split at h
          · simp at h
          · exact absurd h (initGlobalsLoop_ne_text m _ _)
    refine ⟨⟨fun h => (key _ h).2, fun h => ?_⟩, fun m h => (key m h).1⟩
    unfold Node.initGlobals
    split
    · rfl
    · next mainFunc hsome =>
      rw [h mainFunc hsome]
  · have hloop : ∀ p1 s1, parseLoop L n n p s = Except.ok (p1, s1) →
        Parser.parse L n p s = Except.error
          (ParseFailure.generator (CodeGenFailure.codeGenErrorText MISSING_MAIN)) := by
      intro p1 s1 h
      unfold Parser.parse
      rw [h]
      simp only
      rw [initGlobals_noMain s1 (parseLoop_noMain L hL n n p s p1 s1 hs hprogram h)]
    refine ⟨fun r hr => ?_, hloop⟩
    cases hl : parseLoop L n n p s with
    | error e =>
      unfold Parser.parse at hr
      rw [hl] at hr
      simp at hr
    | ok q =>
      rw [hloop q.1 q.2 hl] at hr
      simp at hr

theorem initGlobals_missing_main_witness :
    (∀ taken name, LLVM.accepting.setName taken name = str "main" → name = str "main") ∧
    CodeGen.new.NoMainBody ∧
    (parsedStatements 50 50 (Parser.on "int x = 1; fun f : int () { return x; } fun main : int ();")).map
      Statement.definesMain = [false, false, false] ∧
    Parser.parse LLVM.accepting 50
        (Parser.on "int x = 1; fun f : int () { return x; } fun main : int ();") CodeGen.new =
      Except.error (ParseFailure.generator (CodeGenFailure.codeGenErrorText MISSING_MAIN)) ∧
    (compile LLVM.accepting 50 "int x = 1; fun main : int () { return x; }").toOption.isSome =
      true := by
  have hd : (parsedStatements 50 50
      (Parser.on "int x = 1; fun f : int () { return x; } fun main : int ();")).map
        Statement.definesMain = [false, false, false] := by decide!
  have hn : CodeGen.new.NoMainBody := by simp [CodeGen.NoMainBody, CodeGen.new]
  have t := initGlobals_missing_main.2 LLVM.accepting setName_accepting 50
    (Parser.on "int x = 1; fun f : int () { return x; } fun main : int ();") CodeGen.new hn
    (fun stmt hstmt => by
      have hm : stmt.definesMain ∈ (parsedStatements 50 50
          (Parser.on "int x = 1; fun f : int () { return x; } fun main : int ();")).map
            Statement.definesMain := List.mem_map_of_mem _ hstmt
      rw [hd] at hm
      simpa using hm)
  refine ⟨setName_accepting, hn, hd, ?_, by decide!⟩
  have hl : (parseLoop LLVM.accepting 50 50
      (Parser.on "int x = 1; fun f : int () { return x; } fun main : int ();")
      CodeGen.new).toOption.isSome = true := by decide!
  cases hp : parseLoop LLVM.accepting 50 50
      (Parser.on "int x = 1; fun f : int () { return x; } fun main : int ();") CodeGen.new with
  | error e => rw [hp] at hl; cases hl
  | ok r => exact t.2 r.1 r.2 hp

/-- Claim C23, counterexample.  In `int x = 1.5; fun main : int () { return 0; }`
the function `main` has a body, with the block 0, after the loop of
`Parser::parse`, and `Node::initGlobals` fails with the `CodeGenError`
"Unsupported type conversion" of line 1, raised by `expand` for the
initializer of `x`; so does `Parser::parse`. -/
theorem initGlobals_fails_with_main :
    ((CodeGen.of (generateAll LLVM.accepting 50
        "int x = 1.5; fun main : int () { return 0; }")).getFunction (str "main")).map
      (fun f => f.blocks) = some [0] ∧
    Node.initGlobals (CodeGen.of (generateAll LLVM.accepting 50
        "int x = 1.5; fun main : int () { return 0; }")) =
      Except.error (CodeGenFailure.codeGenError (str "Unsupported type conversion") 1) ∧
    parseFailureOf (compile LLVM.accepting 50 "int x = 1.5; fun main : int () { return 0; }") =
      some (ParseFailure.generator
        (CodeGenFailure.codeGenError (str "Unsupported type conversion") 1)) := by
  decide!


/-! ### Termination of the lexer and the parser -/

theorem wt_le_one (c : Int) : wt c ≤ 1 := by
  unfold wt
  split_ifs <;> omega

theorem whitespaceLoop_left : ∀ (stream : List Nat) (peek line : Int),
    (whitespaceLoop stream peek line).1.length + wt (whitespaceLoop stream peek line).2.1 ≤
      stream.length + wt peek
  | [], peek, line => by
    rw [whitespaceLoop]
    by_cases h : peek ≤ 32 ∧ peek ≠ EOF
    · rw [if_pos h]
      simp [wt, EOF]
    · rw [if_neg h]
  | b :: rest, peek, line => by
    rw [whitespaceLoop]
    by_cases h : peek ≤ 32 ∧ peek ≠ EOF
    · rw [if_pos h]
      have ih := whitespaceLoop_left rest (toChar b) (if peek = 10 then line + 1 else line)
      have := wt_le_one (toChar b)
      simp only [List.length_cons]
      omega
    · rw [if_neg h]

theorem digitLoop_left : ∀ (stream : List Nat) (peek value : Int) (dvalue : ℚ),
    (digitLoop stream peek value dvalue).1.length + wt (digitLoop stream peek value dvalue).2.1 ≤
      stream.length
  | [], peek, value, dvalue => by
    rw [digitLoop]
    simp [wt, EOF]
  | b :: rest, peek, value, dvalue => by
    rw [digitLoop]
    by_cases h : isdigit (toChar b) = true
    · simp only [h, if_true]
      have ih := digitLoop_left rest (toChar b)
        (wrap64 (wrap64 (wrap64 (value * 10) + peek) - 48)) (dvalue * 10 + (peek : ℚ) - 48)
      simp only [List.length_cons]
      omega
    · simp only [h, Bool.false_eq_true, if_false]
      have := wt_le_one (toChar b)
      simp only [List.length_cons]
      omega

theorem alphaLoop_left : ∀ (stream : List Nat) (peek : Int) (word : List Int),
    (alphaLoop stream peek word).1.length + wt (alphaLoop stream peek word).2.1 ≤ stream.length
  | [], peek, word => by
    rw [alphaLoop]
    simp [wt, EOF]
  | b :: rest, peek, word => by
    rw [alphaLoop]
    by_cases h : (isalnum (toChar b) || decide (toChar b = 95)) = true
    · simp only [h, if_true]
      have ih := alphaLoop_left rest (toChar b) (word ++ [peek])
      simp only [List.length_cons]
      omega
    · simp only [h, Bool.false_eq_true, if_false]
      have := wt_le_one (toChar b)
      simp only [List.length_cons]
      omega

theorem fractionLoop_left : ∀ (stream : List Nat) (peek : Int) (dvalue dividor : ℚ),
    (fractionLoop stream peek dvalue dividor).1.length +
        wt (fractionLoop stream peek dvalue dividor).2.1 ≤ stream.length + wt peek
  | [], peek, dvalue, dividor => by
    rw [fractionLoop]
    by_cases h : isdigit peek = true
    · simp [h, wt, EOF]
    · simp [h]
  | b :: rest, peek, dvalue, dividor => by
    rw [fractionLoop]
    by_cases h : isdigit peek = true
    · simp only [h, if_true]
      have ih := fractionLoop_left rest (toChar b) (dvalue + ((peek - 48 : Int) : ℚ) / dividor)
        (dividor * 10)
      have := wt_le_one (toChar b)
      simp only [List.length_cons]
      omega
    · simp [h]

theorem quotationLoop_left : ∀ (n : Nat) (stream : List Nat) (line : Int) (literal : List Int),
    stream.length ≤ n → (quotationLoop stream line literal).1.length ≤ stream.length
  | _, [], line, literal, _ => by
    simp [quotationLoop]
  | 0, b :: rest, line, literal, h => by simp at h
  | n + 1, b :: rest, line, literal, h => by
    simp only [List.length_cons] at h
    unfold quotationLoop
    by_cases h1 : toChar b = 10
    · simp only [h1, if_true]
      have := quotationLoop_left n rest (line + 1) (literal ++ [10]) (by omega)
      simp only [List.length_cons]
      omega
    · simp only [h1, if_false]
      by_cases h2 : toChar b = 92
      · simp only [h2, if_true]
        cases rest with
        | nil => simp
        | cons b2 rest2 =>
          simp only [List.length_cons] at h
          simp only
          split_ifs
          all_goals
            have := quotationLoop_left n rest2 line
              (literal ++ [if toChar b2 = 110 then 10 else if toChar b2 = 116 then 9
                else toChar b2]) (by omega)
            simp only [List.length_cons]
            simp_all
            omega
      · simp only [h2, if_false]
        split_ifs
        · have := quotationLoop_left n rest line (literal ++ [toChar b]) (by omega)
          simp only [List.length_cons]
          omega
        · simp

theorem whitespace_left (l : Lexer) : l.whitespace.left ≤ l.left := by
  unfold Lexer.whitespace Lexer.left
  exact whitespaceLoop_left l.stream l.peek l.line

theorem readNext_left (l : Lexer) : l.readNext.left ≤ l.stream.length := by
  unfold Lexer.readNext Lexer.left
  cases h : l.stream with
  | nil => simp [wt, EOF]
  | cons b rest =>
    have := wt_le_one (toChar b)
    simp only [List.length_cons]
    omega

theorem readNextIs_left (l : Lexer) (next : Int) : (l.readNextIs next).2.left ≤ l.stream.length := by
  have h := readNext_left l
  unfold Lexer.readNextIs
  simp only
  split_ifs
  · exact h
  · unfold Lexer.left at h ⊢
    simp only [wt] at h ⊢
    split_ifs at h ⊢ <;> omega

theorem digit_left (l : Lexer) : l.digit.2.left ≤ l.stream.length := by
  have h1 := digitLoop_left l.stream l.peek 0 0
  unfold Lexer.digit
  simp only
  split_ifs
  · exact h1
  · have h2 := readNext_left
      { l with stream := (digitLoop l.stream l.peek 0 0).1, peek := (digitLoop l.stream l.peek 0 0).2.1 }
    have h3 := fractionLoop_left
      (Lexer.readNext { l with stream := (digitLoop l.stream l.peek 0 0).1,
                               peek := (digitLoop l.stream l.peek 0 0).2.1 }).stream
      (Lexer.readNext { l with stream := (digitLoop l.stream l.peek 0 0).1,
                               peek := (digitLoop l.stream l.peek 0 0).2.1 }).peek
      (digitLoop l.stream l.peek 0 0).2.2.2 10
    unfold Lexer.left at h2 ⊢
    simp only at h2 h3 ⊢
    omega

theorem alpha_left (l : Lexer) : l.alpha.2.left ≤ l.stream.length := by
  have h1 := alphaLoop_left l.stream l.peek []
  unfold Lexer.alpha
  simp only
  split_ifs
  · exact h1
  · split <;> exact h1

theorem quotation_left (l : Lexer) : l.quotation.2.left ≤ l.stream.length := by
  have h1 := quotationLoop_left l.stream.length l.stream l.line [] (le_refl _)
  unfold Lexer.quotation
  simp only
  split_ifs with h
  · show (quotationLoop l.stream l.line []).1.length + wt (quotationLoop l.stream l.line []).2.1 ≤
      l.stream.length
    rw [h]
    exact h1
  · exact h1

theorem operators_wt (c : Int) (tag : Tag) (h : operators c = some tag) (hne : tag ≠ Tag.END) :
    wt c = 1 := by
  unfold wt
  by_cases hc : 32 < c
  · rw [if_pos hc]
  · exfalso
    unfold operators at h
    have hle : c ≤ 32 := by omega
    repeat rw [if_neg (by omega)] at h
    by_cases he : c = EOF
    · rw [if_pos he] at h
      simp only [Option.some.injEq] at h
      exact hne h.symm
    · rw [if_neg he] at h
      cases h

/-- Every call of `getNextToken` leaves the lexer with no more to read than
before, and with less when it returns a token other than `END`. -/
theorem getNextToken_left (l : Lexer) :
    l.getNextToken.2.left ≤ l.left ∧
      ∀ t, l.getNextToken.1 = Except.ok t → t.tag ≠ Tag.END → l.getNextToken.2.left < l.left := by
  have hw := whitespace_left l
  have hleft : l.whitespace.left = l.whitespace.stream.length + wt l.whitespace.peek := rfl
  have hone := wt_le_one l.whitespace.peek
  have fin : ∀ x : Nat, x ≤ l.whitespace.stream.length → wt l.whitespace.peek = 1 →
      x ≤ l.left ∧ x < l.left := by
    intro x hx h1
    omega
  have fin0 : ∀ x : Nat, x ≤ l.whitespace.stream.length → x ≤ l.left := by
    intro x hx
    omega
  have hprev : ∀ (x : Lexer) (tag : Tag), ({ x with previous := tag } : Lexer).left = x.left :=
    fun _ _ => rfl
  have e1 : (Lexer.readNextIs { l.whitespace with peek := 0 } 61).2.left ≤
      l.whitespace.stream.length := readNextIs_left { l.whitespace with peek := 0 } 61
  have e2 : (Lexer.quotation { l.whitespace with peek := 0 }).2.left ≤
      l.whitespace.stream.length := quotation_left { l.whitespace with peek := 0 }
  have hz : ({ l.whitespace with peek := 0 } : Lexer).left ≤ l.whitespace.stream.length := by
    show l.whitespace.stream.length + wt 0 ≤ l.whitespace.stream.length
    exact le_refl _
  unfold Lexer.getNextToken
  simp only
  by_cases hd : isdigit l.whitespace.peek = true
  · have h1 : wt l.whitespace.peek = 1 := by
      unfold isdigit at hd
      simp only [Bool.and_eq_true, decide_eq_true_eq] at hd
      unfold wt
      rw [if_pos (by omega)]
    have h2 := fin _ (digit_left l.whitespace) h1
    simp only [hd, if_true, Lexer.ret, hprev]
    exact ⟨h2.1, fun _ _ _ => h2.2⟩
  · simp only [hd, Bool.false_eq_true, if_false]
    by_cases ha : (isalpha l.whitespace.peek || decide (l.whitespace.peek = 95)) = true
    · have h1 : wt l.whitespace.peek = 1 := by
        unfold isalpha at ha
        simp only [Bool.or_eq_true, Bool.and_eq_true, decide_eq_true_eq] at ha
        unfold wt
        rw [if_pos (by omega)]
      have h2 := fin _ (alpha_left l.whitespace) h1
      simp only [ha, if_true, Lexer.ret, hprev]
      exact ⟨h2.1, fun _ _ _ => h2.2⟩
    · simp only [ha, Bool.false_eq_true, if_false]
      by_cases c1 : l.whitespace.peek = 61
      · have h2 := fin _ e1 (by rw [c1]; rfl)
        simp only [c1, if_true, Lexer.ret, hprev, Lexer.equals]
        split_ifs <;> exact ⟨h2.1, fun _ _ _ => h2.2⟩
      · simp only [c1, if_false]
        by_cases c2 : l.whitespace.peek = 33
        · have h2 := fin _ e1 (by rw [c2]; rfl)
          simp only [c2, if_true, Lexer.retE, Lexer.notEquals]
          split_ifs
          · simp only [Lexer.ret, hprev]
            exact ⟨h2.1, fun _ _ _ => h2.2⟩
          · exact ⟨h2.1, fun _ _ _ => h2.2⟩
        · simp only [c2, if_false]
          by_cases c3 : l.whitespace.peek = 60
          · have h2 := fin _ e1 (by rw [c3]; rfl)
            simp only [c3, if_true, Lexer.ret, hprev, Lexer.lessThan]
            split_ifs <;> exact ⟨h2.1, fun _ _ _ => h2.2⟩
          · simp only [c3, if_false]
            by_cases c4 : l.whitespace.peek = 62
            · have h2 := fin _ e1 (by rw [c4]; rfl)
              simp only [c4, if_true, Lexer.ret, hprev, Lexer.greaterThan]
              split_ifs <;> exact ⟨h2.1, fun _ _ _ => h2.2⟩
            · simp only [c4, if_false]
              by_cases c5 : l.whitespace.peek = 34
              · have h2 := fin _ e2 (by rw [c5]; rfl)
                simp only [c5, if_true, Lexer.retE]
                split
                · simp only [Lexer.ret, hprev]
                  exact ⟨h2.1, fun _ _ _ => h2.2⟩
                · exact ⟨h2.1, fun _ _ _ => h2.2⟩
              · simp only [c5, if_false]
                split
                · next tag htag =>
                  simp only [Lexer.ret, hprev]
                  refine ⟨fin0 _ hz, fun t ht hne => ?_⟩
                  simp only [Except.ok.injEq] at ht
                  have h1 := operators_wt _ tag htag (by rw [← ht] at hne; exact hne)
                  exact (fin _ hz h1).2
                · exact ⟨fin0 _ hz, fun _ ht _ => by simp at ht⟩

theorem halts_mono {α : Type} (r : Result α) (b b2 : Nat) (h : Halts r b) (hb : b ≤ b2) :
    Halts r b2 := by
  cases r with
  | error e => exact h
  | ok x =>
    obtain ⟨a, p⟩ := x
    exact lt_of_lt_of_le h hb

theorem error_halts {α : Type} (p : Parser) (msg : List Int) (b : Nat) :
    Halts (p.error msg : Result α) b := by
  show Failure.parserError msg p.lineNumber ≠ Failure.outOfFuel
  simp

theorem next_error (p : Parser) (e : Failure) (h : p.next = Except.error e) :
    e ≠ Failure.outOfFuel := by
  unfold Parser.next at h
  split at h
  · simp at h
  · simp only [Except.error.injEq] at h
    rw [← h]
    simp

/-- A call of `next` leaves the parser with no more to read than before, and
with less when the lookahead was not `END`. -/
theorem next_left (p p1 : Parser) (h : p.next = Except.ok p1) :
    p1.left ≤ p.left ∧ (p.peek.tag ≠ Tag.END → p1.left < p.left) := by
  have hg := getNextToken_left p.lexer
  unfold Parser.next at h
  split at h
  · next t l heq =>
    rw [heq] at hg
    simp only at hg
    simp only [Except.ok.injEq] at h
    rw [← h]
    unfold Parser.left
    simp only
    by_cases ht : t.tag = Tag.END
    · rw [if_pos ht]
      refine ⟨by omega, fun hp => ?_⟩
      rw [if_neg hp]
      omega
    · rw [if_neg ht]
      have := hg.2 t rfl ht
      refine ⟨by split_ifs <;> omega, fun hp => ?_⟩
      rw [if_neg hp]
      omega
  · simp at h

theorem matchTag_error (p : Parser) (tag : Tag) (msg : List Int) (e : Failure)
    (h : p.matchTag tag msg = Except.error e) : e ≠ Failure.outOfFuel := by
  unfold Parser.matchTag at h
  split_ifs at h
  · exact next_error p e h
  · simp only [Parser.error, Except.error.injEq] at h
    rw [← h]
    simp

theorem matchTag_left (p p1 : Parser) (tag : Tag) (msg : List Int)
    (h : p.matchTag tag msg = Except.ok p1) :
    p1.left ≤ p.left ∧ (tag ≠ Tag.END → p1.left < p.left) := by
  unfold Parser.matchTag at h
  split_ifs at h with ht
  · have := next_left p p1 h
    exact ⟨this.1, fun hne => this.2 (by rw [ht]; exact hne)⟩
  · simp [Parser.error] at h

theorem warning_left (p : Parser) (msg : List Int) : (p.warning msg).left = p.left := rfl

theorem left_pos (p : Parser) (h : p.peek.tag ≠ Tag.END) : 1 ≤ p.left := by
  unfold Parser.left
  rw [if_neg h]
  omega

theorem binaryLoop_halts (isOp : Tag → Bool) (mk : Expression → Token → Expression → Expression)
    (sub : Parser → Result Expression) (hEND : isOp Tag.END = false) :
    ∀ (k : Nat) (lhs : Expression) (p : Parser), p.left ≤ k →
      (∀ q, q.left < p.left → Halts (sub q) q.left) →
      Halts (binaryLoop isOp mk sub k lhs p) (p.left + 1) := by
  intro k
  induction k with
  | zero =>
    intro lhs p hk _
    by_cases hop : isOp p.peek.tag = true
    · have : p.peek.tag ≠ Tag.END := fun hc => by rw [hc, hEND] at hop; cases hop
      have := left_pos p this
      omega
    · have hop2 : isOp p.peek.tag = false := by simpa using hop
      rw [binaryLoop_stop _ _ _ _ _ _ hop2]
      exact Nat.lt_succ_self _
  | succ k ih =>
    intro lhs p hk hsub
    by_cases hop : isOp p.peek.tag = true
    · have hne : p.peek.tag ≠ Tag.END := fun hc => by rw [hc, hEND] at hop; cases hop
      rw [binaryLoop]
      simp only [hop, if_true]
      cases hn : p.next with
      | error e => exact next_error p e hn
      | ok p1 =>
        have l1 := (next_left p p1 hn).2 hne
        simp only
        have hs := hsub p1 l1
        cases hsp : sub p1 with
        | error e =>
          rw [hsp] at hs
          exact hs
        | ok x =>
          obtain ⟨rhs, p2⟩ := x
          rw [hsp] at hs
          have l2 : p2.left < p1.left := hs
          simp only
          refine halts_mono _ _ _ (ih (mk lhs p.peek rhs) p2 (by omega)
            (fun q hq => hsub q (by omega))) (by omega)
    · have hop2 : isOp p.peek.tag = false := by simpa using hop
      rw [binaryLoop_stop _ _ _ _ _ _ hop2]
      exact Nat.lt_succ_self _

theorem argumentsLoop_halts (sub : Parser → Result Expression) (name : Option (List Int)) :
    ∀ (k : Nat) (args : List Expression) (p : Parser), p.left + 1 ≤ k →
      (∀ q, q.left ≤ p.left → Halts (sub q) q.left) →
      Halts (argumentsLoop sub name k args p) (p.left + 1) := by
  intro k
  induction k with
  | zero =>
    intro args p hk _
    omega
  | succ k ih =>
    intro args p hk hsub
    by_cases hc : p.peek.tag ≠ Tag.CLOSE_BRACKET
    · rw [argumentsLoop, if_pos hc]
      have hs := hsub p (le_refl _)
      cases hsp : sub p with
      | error e =>
        rw [hsp] at hs
        exact hs
      | ok x =>
        obtain ⟨arg, p1⟩ := x
        rw [hsp] at hs
        have l1 : p1.left < p.left := hs
        simp only
        have rec : ∀ q : Parser, q.left ≤ p1.left →
            Halts (argumentsLoop sub name k (args ++ [arg]) q) (p.left + 1) := fun q hq =>
          halts_mono _ _ _ (ih (args ++ [arg]) q (by omega) (fun q2 hq2 => hsub q2 (by omega)))
            (by omega)
        by_cases hcomma : p1.peek.tag = Tag.COMMA
        · simp only [hcomma, if_true]
          cases hn : p1.next with
          | error e => exact next_error p1 e hn
          | ok p2 =>
            have l2 := (next_left p1 p2 hn).1
            simp only
            by_cases hcb : p2.peek.tag = Tag.CLOSE_BRACKET
            · simp only [hcb, if_true]
              cases name with
              | none =>
                show Failure.badVariantAccess ≠ Failure.outOfFuel
                simp
              | some s =>
                simp only
                exact rec _ (by rw [warning_left]; exact l2)
            · simp only [hcb, if_false]
              exact rec _ l2
        · simp only [hcomma, if_false]
          exact rec _ (le_refl _)
    · have hc2 : p.peek.tag = Tag.CLOSE_BRACKET := by simpa using hc
      rw [argumentsLoop_stop _ _ _ _ _ hc2]
      exact Nat.lt_succ_self _

theorem statementsLoop_halts (sub : Parser → Result Statement) :
    ∀ (k : Nat) (block : List Statement) (p : Parser), p.left + 1 ≤ k →
      (∀ q, q.left ≤ p.left → Halts (sub q) q.left) →
      Halts (statementsLoop sub k block p) (p.left + 1) := by
  intro k
  induction k with
  | zero =>
    intro block p hk _
    omega
  | succ k ih =>
    intro block p hk hsub
    rw [statementsLoop]
    by_cases hc : p.peek.tag ≠ Tag.CLOSE_CURLY
    · rw [if_pos hc]
      have hs := hsub p (le_refl _)
      cases hsp : sub p with
      | error e =>
        rw [hsp] at hs
        exact hs
      | ok x =>
        obtain ⟨s, p1⟩ := x
        rw [hsp] at hs
        have l1 : p1.left < p.left := hs
        simp only
        exact halts_mono _ _ _ (ih (block ++ [s]) p1 (by omega) (fun q hq => hsub q (by omega)))
          (by omega)
    · rw [if_neg hc]
      exact Nat.lt_succ_self _

theorem parametersLoop_halts : ∀ (k : Nat) (params : List Identifier) (p : Parser),
    p.left + 1 ≤ k → Halts (parametersLoop k params p) (p.left + 1) := by
  intro k
  induction k with
  | zero =>
    intro params p hk
    omega
  | succ k ih =>
    intro params p hk
    rw [parametersLoop]
    by_cases hc : p.peek.tag ≠ Tag.CLOSE_BRACKET
    · rw [if_pos hc]
      simp only
      cases hn : p.next with
      | error e => exact next_error p e hn
      | ok p1 =>
        have l1 := (next_left p p1 hn).1
        simp only
        cases hm : p1.matchTag Tag.COLON NO_COLON with
        | error e => exact matchTag_error _ _ _ e hm
        | ok p2 =>
          have l2 := (matchTag_left p1 p2 _ _ hm).2 (by decide)
          simp only
          cases hty : p2.peek.getType with
          | none =>
            show Failure.badVariantAccess ≠ Failure.outOfFuel
            simp
          | some ty =>
            simp only
            cases hn3 : p2.next with
            | error e => exact next_error p2 e hn3
            | ok p3 =>
              have l3 := (next_left p2 p3 hn3).1
              simp only
              have rec : ∀ q : Parser, q.left ≤ p3.left →
                  Halts (parametersLoop k (params ++ [⟨p.peek, ty⟩]) q) (p.left + 1) :=
                fun q hq => halts_mono _ _ _ (ih _ q (by omega)) (by omega)
              by_cases hcomma : p3.peek.tag = Tag.COMMA
              · simp only [hcomma, if_true]
                cases hn4 : p3.next with
                | error e => exact next_error p3 e hn4
                | ok p4 =>
                  have l4 := (next_left p3 p4 hn4).1
                  simp only
                  split_ifs
                  · exact rec _ (by rw [warning_left]; exact l4)
                  · exact rec _ l4
              · simp only [hcomma, if_false]
                exact rec _ (le_refl _)
    · rw [if_neg hc]
      exact Nat.lt_succ_self _

theorem unary_tail_halts (s : Result Expression) (b : Nat) (h : Halts s b) :
    Halts (match s with
      | Except.error e => Except.error e
      | Except.ok (e, p1) =>
        if p1.peek.tag = Tag.I then
          match p1.next with
          | Except.error e2 => Except.error e2
          | Except.ok p2 => Except.ok (Expression.Complex e p1.peek, p2)
        else Except.ok (e, p1)) b := by
  cases s with
  | error e => exact h
  | ok x =>
    obtain ⟨e, p1⟩ := x
    have l1 : p1.left < b := h
    simp only
    split_ifs
    · cases hn : p1.next with
      | error e2 => exact next_error p1 e2 hn
      | ok p2 =>
        have l2 := (next_left p1 p2 hn).1
        show p2.left < b
        omega
    · exact l1

theorem functionCall_halts (n : Nat) (p : Parser) (b : Nat)
    (hb : ∀ p1, p.next = Except.ok p1 → p1.left < b) (hn : 10 * p.left ≤ n)
    (ihE : ∀ q : Parser, 10 * q.left + 5 ≤ n → Halts (Parser.expression n q) q.left) :
    Halts (Parser.functionCall (n + 1) p) b := by
  rw [Parser.functionCall]
  simp only
  cases hn1 : p.next with
  | error e => exact next_error p e hn1
  | ok p1 =>
    have l1 := (next_left p p1 hn1).1
    have lb := hb p1 hn1
    simp only
    by_cases hbr : p1.peek.tag ≠ Tag.OPEN_BRACKET
    · rw [if_pos hbr]
      exact lb
    · rw [if_neg hbr]
      have hbr2 : p1.peek.tag = Tag.OPEN_BRACKET := by simpa using hbr
      cases hn2 : p1.next with
      | error e => exact next_error p1 e hn2
      | ok p2 =>
        have l2 := (next_left p1 p2 hn2).2 (by rw [hbr2]; decide)
        simp only
        have ha := argumentsLoop_halts (fun q => Parser.expression n q)
          (Identifier.mk p.peek TypeID.NONE).token.getString n [] p2 (by omega)
          (fun q hq => ihE q (by omega))
        cases hal : argumentsLoop (fun q => Parser.expression n q)
            (Identifier.mk p.peek TypeID.NONE).token.getString n [] p2 with
        | error e =>
          rw [hal] at ha
          exact ha
        | ok y =>
          obtain ⟨args, p3⟩ := y
          rw [hal] at ha
          have l3 : p3.left < p2.left + 1 := ha
          simp only
          cases hn4 : p3.next with
          | error e => exact next_error p3 e hn4
          | ok p4 =>
            have l4 := (next_left p3 p4 hn4).1
            show p4.left < b
            omega

/-- With a bound of ten times what is left to read, and a little more, the
expression parsers end with a result of the program, and a successful one
has read at least one token. -/
theorem expression_halts_aux (n : Nat) :
    (∀ p : Parser, 10 * p.left + 5 ≤ n → Halts (Parser.expression n p) p.left) ∧
    (∀ p : Parser, 10 * p.left + 4 ≤ n → Halts (Parser.term n p) p.left) ∧
    (∀ p : Parser, 10 * p.left + 3 ≤ n → Halts (Parser.factor n p) p.left) ∧
    (∀ p : Parser, 10 * p.left + 2 ≤ n → Halts (Parser.unary n p) p.left) ∧
    (∀ p : Parser, 10 * p.left + 1 ≤ n → p.peek.tag ≠ Tag.END →
      Halts (Parser.functionCall n p) p.left) := by
  induction n with
  | zero =>
    refine ⟨?_, ?_, ?_, ?_, ?_⟩ <;> intro p h <;> omega
  | succ n ih =>
    obtain ⟨ihE, ihT, ihF, ihU, ihC⟩ := ih
    refine ⟨?_, ?_, ?_, ?_, ?_⟩
    · intro p h
      rw [Parser.expression]
      have ht := ihT p (by omega)
      cases hterm : Parser.term n p with
      | error e =>
        rw [hterm] at ht
        exact ht
      | ok x =>
        obtain ⟨lhs, p1⟩ := x
        rw [hterm] at ht
        have l1 : p1.left < p.left := ht
        simp only
        exact halts_mono _ _ _ (binaryLoop_halts _ _ _ (by decide) n lhs p1 (by omega)
          (fun q hq => ihT q (by omega))) (by omega)
    · intro p h
      rw [Parser.term]
      have ht := ihF p (by omega)
      cases hterm : Parser.factor n p with
      | error e =>
        rw [hterm] at ht
        exact ht
      | ok x =>
        obtain ⟨lhs, p1⟩ := x
        rw [hterm] at ht
        have l1 : p1.left < p.left := ht
        simp only
        exact halts_mono _ _ _ (binaryLoop_halts _ _ _ (by decide) n lhs p1 (by omega)
          (fun q hq => ihF q (by omega))) (by omega)
    · intro p h
      rw [Parser.factor]
      by_cases hs : p.peek.tag = Tag.MINUS ∨ p.peek.tag = Tag.PLUS
      · rw [if_pos hs]
        have hne : p.peek.tag ≠ Tag.END := by
          rcases hs with hs | hs <;> rw [hs] <;> decide
        simp only
        cases hn : p.next with
        | error e => exact next_error p e hn
        | ok p1 =>
          have l1 := (next_left p p1 hn).2 hne
          simp only
          have hu := ihU p1 (by omega)
          cases hun : Parser.unary n p1 with
          | error e =>
            rw [hun] at hu
            exact hu
          | ok x =>
            obtain ⟨e, p2⟩ := x
            rw [hun] at hu
            have l2 : p2.left < p1.left := hu
            show p2.left < p.left
            omega
      · rw [if_neg hs]
        exact ihU p (by omega)
    · intro p h
      rw [Parser.unary]
      refine unary_tail_halts _ _ ?_
      have hconst : ∀ (e : Expression), p.peek.tag ≠ Tag.END →
          Halts (match p.next with
            | Except.error e2 => Except.error e2
            | Except.ok p1 => Except.ok (e, p1)) p.left := by
        intro e hne
        cases hn : p.next with
        | error e2 => exact next_error p e2 hn
        | ok p1 => exact (next_left p p1 hn).2 hne
      have hbracket : ∀ (tag : Tag) (msg : List Int) (mk : Expression → Expression),
          p.peek.tag ≠ Tag.END →
          Halts (match p.next with
            | Except.error e => Except.error e
            | Except.ok p1 =>
              match Parser.expression n p1 with
              | Except.error e => Except.error e
              | Except.ok (e, p2) =>
                match p2.matchTag tag msg with
                | Except.error e => Except.error e
                | Except.ok p3 => Except.ok (mk e, p3)) p.left := by
        intro tag msg mk hne
        cases hn : p.next with
        | error e2 => exact next_error p e2 hn
        | ok p1 =>
          have l1 := (next_left p p1 hn).2 hne
          simp only
          have he := ihE p1 (by omega)
          cases hex : Parser.expression n p1 with
          | error e =>
            rw [hex] at he
            exact he
          | ok x =>
            obtain ⟨e, p2⟩ := x
            rw [hex] at he
            have l2 : p2.left < p1.left := he
            simp only
            cases hm : p2.matchTag tag msg with
            | error e2 => exact matchTag_error _ _ _ e2 hm
            | ok p3 =>
              have l3 := (matchTag_left p2 p3 _ _ hm).1
              show p3.left < p.left
              omega
      cases htag : p.peek.tag <;> simp only [htag]
      all_goals first
        | exact error_halts _ _ _
        | exact ihC p (by omega) (by rw [htag]; decide)
        | exact hconst _ (by rw [htag]; decide)
        | exact hbracket _ _ (fun e => e) (by rw [htag]; decide)
        | exact hbracket _ _ _ (by rw [htag]; decide)
    · intro p h hne
      exact functionCall_halts n p p.left (fun p1 hp1 => (next_left p p1 hp1).2 hne) (by omega)
        ihE

theorem expression_halts (n : Nat) (p : Parser) (h : 10 * p.left + 5 ≤ n) :
    Halts (Parser.expression n p) p.left :=
  (expression_halts_aux n).1 p h

/-- The same for the parsers of conditions. -/
theorem conditional_halts_aux (n : Nat) :
    (∀ p : Parser, 10 * p.left + 9 ≤ n → Halts (Parser.conditional n p) p.left) ∧
    (∀ p : Parser, 10 * p.left + 8 ≤ n → Halts (Parser.conjunction n p) p.left) ∧
    (∀ p : Parser, 10 * p.left + 7 ≤ n → Halts (Parser.negation n p) p.left) ∧
    (∀ p : Parser, 10 * p.left + 6 ≤ n → Halts (Parser.relation n p) p.left) := by
  induction n with
  | zero =>
    refine ⟨?_, ?_, ?_, ?_⟩ <;> intro p h <;> omega
  | succ n ih =>
    obtain ⟨ihC, ihJ, ihN, ihR⟩ := ih
    refine ⟨?_, ?_, ?_, ?_⟩
    · intro p h
      rw [Parser.conditional]
      have ht := ihJ p (by omega)
      cases hterm : Parser.conjunction n p with
      | error e =>
        rw [hterm] at ht
        exact ht
      | ok x =>
        obtain ⟨lhs, p1⟩ := x
        rw [hterm] at ht
        have l1 : p1.left < p.left := ht
        simp only
        exact halts_mono _ _ _ (binaryLoop_halts _ _ _ (by decide) n lhs p1 (by omega)
          (fun q hq => ihJ q (by omega))) (by omega)
    · intro p h
      rw [Parser.conjunction]
      have ht := ihN p (by omega)
      cases hterm : Parser.negation n p with
      | error e =>
        rw [hterm] at ht
        exact ht
      | ok x =>
        obtain ⟨lhs, p1⟩ := x
        rw [hterm] at ht
        have l1 : p1.left < p.left := ht
        simp only
        exact halts_mono _ _ _ (binaryLoop_halts _ _ _ (by decide) n lhs p1 (by omega)
          (fun q hq => ihN q (by omega))) (by omega)
    · intro p h
      rw [Parser.negation]
      by_cases hs : p.peek.tag = Tag.NOT
      · rw [if_pos hs]
        have hne : p.peek.tag ≠ Tag.END := by rw [hs]; decide
        simp only
        cases hn : p.next with
        | error e => exact next_error p e hn
        | ok p1 =>
          have l1 := (next_left p p1 hn).2 hne
          simp only
          have hu := ihR p1 (by omega)
          cases hun : Parser.relation n p1 with
          | error e =>
            rw [hun] at hu
            exact hu
          | ok x =>
            obtain ⟨e, p2⟩ := x
            rw [hun] at hu
            have l2 : p2.left < p1.left := hu
            show p2.left < p.left
            omega
      · rw [if_neg hs]
        exact ihR p (by omega)
    · intro p h
      rw [Parser.relation]
      by_cases hs : p.peek.tag = Tag.OPEN_BRACKET
      · rw [if_pos hs]
        have hne : p.peek.tag ≠ Tag.END := by rw [hs]; decide
        cases hn : p.next with
        | error e => exact next_error p e hn
        | ok p1 =>
          have l1 := (next_left p p1 hn).2 hne
          simp only
          have hu := ihC p1 (by omega)
          cases hun : Parser.conditional n p1 with
          | error e =>
            rw [hun] at hu
            exact hu
          | ok x =>
            obtain ⟨e, p2⟩ := x
            rw [hun] at hu
            have l2 : p2.left < p1.left := hu
            simp only
            cases hm : p2.matchTag Tag.CLOSE_BRACKET NO_CLOSING_BRACKET with
            | error e2 => exact matchTag_error _ _ _ e2 hm
            | ok p3 =>
              have l3 := (matchTag_left p2 p3 _ _ hm).1
              show p3.left < p.left
              omega
      · rw [if_neg hs]
        have he := expression_halts n p (by omega)
        cases hex : Parser.expression n p with
        | error e =>
          rw [hex] at he
          exact he
        | ok x =>
          obtain ⟨lhs, p1⟩ := x
          rw [hex] at he
          have l1 : p1.left < p.left := he
          simp only
          cases hn : p1.next with
          | error e => exact next_error p1 e hn
          | ok p2 =>
            have l2 := (next_left p1 p2 hn).1
            simp only
            have he2 := expression_halts n p2 (by omega)
            cases hex2 : Parser.expression n p2 with
            | error e =>
              rw [hex2] at he2
              exact he2
            | ok y =>
              obtain ⟨rhs, p3⟩ := y
              rw [hex2] at he2
              have l3 : p3.left < p2.left := he2
              show p3.left < p.left
              omega

theorem variableDefiniton_halts (n : Nat) (p : Parser) (h : 10 * p.left + 5 ≤ n) :
    Halts (Parser.variableDefiniton n p) p.left := by
  unfold Parser.variableDefiniton
  simp only
  cases hn : p.next with
  | error e => exact next_error p e hn
  | ok p1 =>
    have l1 := (next_left p p1 hn).1
    simp only
    by_cases hid : p1.peek.tag ≠ Tag.ID
    · rw [if_pos hid]
      exact error_halts _ _ _
    · rw [if_neg hid]
      have hid2 : p1.peek.tag = Tag.ID := by simpa using hid
      cases hn2 : p1.next with
      | error e => exact next_error p1 e hn2
      | ok p2 =>
        have l2 := (next_left p1 p2 hn2).2 (by rw [hid2]; decide)
        simp only
        cases hs : p1.peek.getString with
        | none =>
          show Failure.badVariantAccess ≠ Failure.outOfFuel
          simp
        | some s =>
          simp only
          cases hm : p2.matchTag Tag.ASSIGN (str "Variable " ++ s ++ str " was not initialized") with
          | error e => exact matchTag_error _ _ _ e hm
          | ok p3 =>
            have l3 := (matchTag_left p2 p3 _ _ hm).1
            simp only
            have he := expression_halts n p3 (by omega)
            cases hex : Parser.expression n p3 with
            | error e =>
              rw [hex] at he
              exact he
            | ok x =>
              obtain ⟨expr, p4⟩ := x
              rw [hex] at he
              have l4 : p4.left < p3.left := he
              simp only
              cases hty : p.peek.getType with
              | none =>
                show Failure.badVariantAccess ≠ Failure.outOfFuel
                simp
              | some ty =>
                simp only
                cases hm2 : p4.matchTag Tag.SEMICOLON NO_SEMICOLON with
                | error e => exact matchTag_error _ _ _ e hm2
                | ok p5 =>
                  have l5 := (matchTag_left p4 p5 _ _ hm2).1
                  show p5.left < p.left
                  omega

theorem assignment_halts (n : Nat) (p : Parser) (h : 10 * p.left + 5 ≤ n) :
    Halts (Parser.assignment n p) p.left := by
  unfold Parser.assignment
  simp only
  cases hn : p.next with
  | error e => exact next_error p e hn
  | ok p1 =>
    have l1 := (next_left p p1 hn).1
    simp only
    cases hm : p1.matchTag Tag.ASSIGN (str "Expected an assignment") with
    | error e => exact matchTag_error _ _ _ e hm
    | ok p2 =>
      have l2 := (matchTag_left p1 p2 _ _ hm).2 (by decide)
      simp only
      have he := expression_halts n p2 (by omega)
      cases hex : Parser.expression n p2 with
      | error e =>
        rw [hex] at he
        exact he
      | ok x =>
        obtain ⟨expr, p3⟩ := x
        rw [hex] at he
        have l3 : p3.left < p2.left := he
        simp only
        cases hm2 : p3.matchTag Tag.SEMICOLON NO_SEMICOLON with
        | error e => exact matchTag_error _ _ _ e hm2
        | ok p4 =>
          have l4 := (matchTag_left p3 p4 _ _ hm2).1
          show p4.left < p.left
          omega

/-- The same for the parsers of statements. -/
theorem statement_halts_aux (n : Nat) :
    (∀ p : Parser, 10 * p.left + 12 ≤ n → Halts (Parser.block n p) p.left) ∧
    (∀ p : Parser, 10 * p.left + 11 ≤ n → Halts (Parser.statement n p) p.left) ∧
    (∀ p : Parser, 10 * p.left + 10 ≤ n → Halts (Parser.conditionalStatement n p) p.left) := by
  induction n with
  | zero =>
    refine ⟨?_, ?_, ?_⟩ <;> intro p h <;> omega
  | succ n ih =>
    obtain ⟨ihB, ihS, ihC⟩ := ih
    refine ⟨?_, ?_, ?_⟩
    · intro p h
      rw [Parser.block]
      by_cases hc : p.peek.tag ≠ Tag.OPEN_CURLY
      · rw [if_pos hc]
        exact ihS p (by omega)
      · rw [if_neg hc]
        have hc2 : p.peek.tag = Tag.OPEN_CURLY := by simpa using hc
        simp only
        cases hn : p.next with
        | error e => exact next_error p e hn
        | ok p1 =>
          have l1 := (next_left p p1 hn).2 (by rw [hc2]; decide)
          simp only
          have hl := statementsLoop_halts (fun q => Parser.statement n q) n [] p1 (by omega)
            (fun q hq => ihS q (by omega))
          cases hsl : statementsLoop (fun q => Parser.statement n q) n [] p1 with
          | error e =>
            rw [hsl] at hl
            exact hl
          | ok x =>
            obtain ⟨block, p2⟩ := x
            rw [hsl] at hl
            have l2 : p2.left < p1.left + 1 := hl
            simp only
            cases hn3 : p2.next with
            | error e => exact next_error p2 e hn3
            | ok p3 =>
              have l3 := (next_left p2 p3 hn3).1
              show p3.left < p.left
              omega
    · intro p h
      rw [Parser.statement]
      have hret : p.peek.tag ≠ Tag.END →
          Halts (match p.next with
            | Except.error e => Except.error e
            | Except.ok p1 =>
              match Parser.expression n p1 with
              | Except.error e => Except.error e
              | Except.ok (expr, p2) =>
                match p2.matchTag Tag.SEMICOLON NO_SEMICOLON with
                | Except.error e => Except.error e
                | Except.ok p3 => Except.ok (Statement.ReturnStatement p.peek expr, p3)) p.left := by
        intro hne
        cases hn : p.next with
        | error e2 => exact next_error p e2 hn
        | ok p1 =>
          have l1 := (next_left p p1 hn).2 hne
          simp only
          have he := expression_halts n p1 (by omega)
          cases hex : Parser.expression n p1 with
          | error e =>
            rw [hex] at he
            exact he
          | ok x =>
            obtain ⟨e, p2⟩ := x
            rw [hex] at he
            have l2 : p2.left < p1.left := he
            simp only
            cases hm : p2.matchTag Tag.SEMICOLON NO_SEMICOLON with
            | error e2 => exact matchTag_error _ _ _ e2 hm
            | ok p3 =>
              have l3 := (matchTag_left p2 p3 _ _ hm).1
              show p3.left < p.left
              omega
      cases htag : p.peek.tag <;> simp only [htag]
      all_goals first
        | exact error_halts _ _ _
        | exact ihC p (by omega)
        | exact variableDefiniton_halts n p (by omega)
        | exact assignment_halts n p (by omega)
        | exact hret (by rw [htag]; decide)
    · intro p h
      rw [Parser.conditionalStatement]
      cases hn : p.next with
      | error e => exact next_error p e hn
      | ok p1 =>
        have l1 := (next_left p p1 hn).1
        simp only
        cases hm : p1.matchTag Tag.OPEN_BRACKET (str "Expected a conditional in brackets") with
        | error e => exact matchTag_error _ _ _ e hm
        | ok p2 =>
          have l2 := (matchTag_left p1 p2 _ _ hm).2 (by decide)
          simp only
          have hc := (conditional_halts_aux n).1 p2 (by omega)
          cases hcond : Parser.conditional n p2 with
          | error e =>
            rw [hcond] at hc
            exact hc
          | ok x =>
            obtain ⟨condition, p3⟩ := x
            rw [hcond] at hc
            have l3 : p3.left < p2.left := hc
            simp only
            cases hm4 : p3.matchTag Tag.CLOSE_BRACKET NO_CLOSING_BRACKET with
            | error e => exact matchTag_error _ _ _ e hm4
            | ok p4 =>
              have l4 := (matchTag_left p3 p4 _ _ hm4).1
              simp only
              have hb := ihB p4 (by omega)
              cases hblock : Parser.block n p4 with
              | error e =>
                rw [hblock] at hb
                exact hb
              | ok y =>
                obtain ⟨body, p5⟩ := y
                rw [hblock] at hb
                have l5 : p5.left < p4.left := hb
                simp only
                split_ifs with hif helse
                · cases hn6 : p5.next with
                  | error e => exact next_error p5 e hn6
                  | ok p6 =>
                    have l6 := (next_left p5 p6 hn6).1
                    simp only
                    have hb2 := ihB p6 (by omega)
                    cases hblock2 : Parser.block n p6 with
                    | error e =>
                      rw [hblock2] at hb2
                      exact hb2
                    | ok z =>
                      obtain ⟨elseBlock, p7⟩ := z
                      rw [hblock2] at hb2
                      have l7 : p7.left < p6.left := hb2
                      show p7.left < p.left
                      omega
                · show p5.left < p.left
                  omega
                · show p5.left < p.left
                  omega

theorem functionDefinition_halts (n : Nat) (p : Parser) (h : 10 * p.left + 12 ≤ n) :
    Halts (Parser.functionDefinition n p) (p.left + 1) := by
  unfold Parser.functionDefinition
  simp only
  cases hn : p.next with
  | error e => exact next_error p e hn
  | ok p1 =>
    have l1 := (next_left p p1 hn).1
    simp only
    cases hm : p1.matchTag Tag.COLON NO_COLON with
    | error e => exact matchTag_error _ _ _ e hm
    | ok p2 =>
      have l2 := (matchTag_left p1 p2 _ _ hm).1
      simp only
      cases hn3 : p2.next with
      | error e => exact next_error p2 e hn3
      | ok p3 =>
        have l3 := (next_left p2 p3 hn3).1
        simp only
        cases hs : p.peek.getString with
        | none =>
          show Failure.badVariantAccess ≠ Failure.outOfFuel
          simp
        | some s =>
          simp only
          cases hm4 : p3.matchTag Tag.OPEN_BRACKET
              (str "Expected parameter list for function " ++ s) with
          | error e => exact matchTag_error _ _ _ e hm4
          | ok p4 =>
            have l4 := (matchTag_left p3 p4 _ _ hm4).1
            simp only
            have hp := parametersLoop_halts n [] p4 (by omega)
            cases hpl : parametersLoop n [] p4 with
            | error e =>
              rw [hpl] at hp
              exact hp
            | ok x =>
              obtain ⟨params, p5⟩ := x
              rw [hpl] at hp
              have l5 : p5.left < p4.left + 1 := hp
              simp only
              cases hn6 : p5.next with
              | error e => exact next_error p5 e hn6
              | ok p6 =>
                have l6 := (next_left p5 p6 hn6).1
                simp only
                split_ifs
                · cases hn7 : p6.next with
                  | error e => exact next_error p6 e hn7
                  | ok p7 =>
                    have l7 := (next_left p6 p7 hn7).1
                    simp only
                    cases hty : p2.peek.getType with
                    | none =>
                      show Failure.badVariantAccess ≠ Failure.outOfFuel
                      simp
                    | some ty =>
                      show p7.left < p.left + 1
                      omega
                · cases hty : p2.peek.getType with
                  | none =>
                    show Failure.badVariantAccess ≠ Failure.outOfFuel
                    simp
                  | some ty =>
                    simp only
                    have hb := (statement_halts_aux n).1 p6 (by omega)
                    cases hblock : Parser.block n p6 with
                    | error e =>
                      rw [hblock] at hb
                      exact hb
                    | ok y =>
                      obtain ⟨block, p7⟩ := y
                      rw [hblock] at hb
                      have l7 : p7.left < p6.left := hb
                      show p7.left < p.left + 1
                      omega

theorem parseNext_halts (n : Nat) (p : Parser) (h : 10 * p.left + 12 ≤ n) :
    Halts (Parser.parseNext n p) p.left := by
  unfold Parser.parseNext
  have hfun : p.peek.tag ≠ Tag.END →
      Halts (match p.next with
        | Except.error e => Except.error e
        | Except.ok p1 => Parser.functionDefinition n p1) p.left := by
    intro hne
    cases hn : p.next with
    | error e => exact next_error p e hn
    | ok p1 =>
      have l1 := (next_left p p1 hn).2 hne
      simp only
      exact halts_mono _ _ _ (functionDefinition_halts n p1 (by omega)) (by omega)
  cases htag : p.peek.tag <;> simp only [htag]
  all_goals first
    | exact error_halts _ _ _
    | exact variableDefiniton_halts n p (by omega)
    | exact hfun (by rw [htag]; decide)

theorem new_left (previous : Tag) (input : List Nat) (p : Parser)
    (h : Parser.new (Lexer.new previous input) = Except.ok p) : p.left ≤ input.length := by
  unfold Parser.new at h
  have h1 := (next_left _ p h).1
  have h2 : (Lexer.new previous input).left ≤ input.length :=
    readNext_left { previous := previous, peek := 0, stream := input, line := 1 }
  have h3 : (Parser.mk (Lexer.new previous input) (Token.ofTag Tag.END (-1)) 0 []).left =
      (Lexer.new previous input).left := rfl
  omega

theorem parse_halts (n : Nat) (input : String) (h : 10 * (bytes input).length + 12 ≤ n) :
    parse n input ≠ Except.error Failure.outOfFuel := by
  unfold parse
  cases hp : Parser.new (Lexer.new Tag.END (bytes input)) with
  | error e =>
    simp only
    intro hc
    simp only [Except.error.injEq] at hc
    exact next_error _ e hp hc
  | ok p =>
    have hl := new_left _ _ p hp
    have hh := parseNext_halts n p (by omega)
    simp only
    cases hr : Parser.parseNext n p with
    | error e =>
      rw [hr] at hh
      simp only
      intro hc
      simp only [Except.error.injEq] at hc
      exact hh hc
    | ok x => simp

theorem statementsLoop_END (n k : Nat) (block : List Statement) (p : Parser)
    (h : p.peek.tag = Tag.END) :
    statementsLoop (fun q => Parser.statement (n + 1) q) (k + 1) block p =
      p.error (str "Expected a statement") := by
  rw [statementsLoop, if_pos (by rw [h]; decide)]
  simp only [Parser.statement, h]
  rfl

theorem argumentsLoop_END (n k : Nat) (name : Option (List Int)) (args : List Expression)
    (p : Parser) (h : p.peek.tag = Tag.END) :
    argumentsLoop (fun q => Parser.expression (n + 4) q) name (k + 1) args p =
      p.error (str "Unexpected syntax") := by
  rw [argumentsLoop, if_pos (by rw [h]; decide)]
  have hu : Parser.unary (n + 1) p = p.error (str "Unexpected syntax") := by
    rw [Parser.unary]
    simp only [h]
    rfl
  have hf : Parser.factor (n + 2) p = p.error (str "Unexpected syntax") := by
    rw [Parser.factor, if_neg (by rw [h]; decide), hu]
  have ht : Parser.term (n + 3) p = p.error (str "Unexpected syntax") := by
    rw [Parser.term, hf]
    rfl
  have he : Parser.expression (n + 4) p = p.error (str "Unexpected syntax") := by
    rw [Parser.expression, ht]
    rfl
  simp only [he]
  rfl

theorem parametersLoop_END (k : Nat) (params : List Identifier) (p : Parser)
    (h : p.peek.tag = Tag.END) (hs : p.lexer.stream = []) (hp : p.lexer.peek ≤ 32) :
    parametersLoop (k + 1) params p =
      Except.error (Failure.parserError NO_COLON p.lexer.line) := by
  obtain ⟨⟨prev, pk, stream, ln⟩, peek, lineNumber, warnings⟩ := p
  simp only at h hs hp
  subst hs
  rw [parametersLoop, if_pos (by simp only [h]; decide)]
  simp only [Parser.next, getNextToken_END prev pk ln hp, Parser.matchTag, Token.ofTag,
    Parser.error]
  rfl

/-- Claim C39.  The lexer: every call of `getNextToken` leaves no more to
read than there was, and less when it returns a token other than `END`, so
its loops come to an end on every input.  The parser: for every state and
every bound of at least ten times what is left to read plus twelve,
`parseNext` ends with a node or with an exception of the program, never by
the bound of the model, and a node has taken at least one token; so does the
helper `parse` on every input.  And on the lookahead `END` the loops over the
statements of a block, over the arguments of a call and, at the end of the
input, over the parameters do not go round: their body raises a
`ParserError`. -/
theorem parser_terminates (n : Nat) (p : Parser) (hn : 10 * p.left + 12 ≤ n) :
    (∀ l : Lexer, l.getNextToken.2.left ≤ l.left ∧
      ∀ t, l.getNextToken.1 = Except.ok t → t.tag ≠ Tag.END →
        l.getNextToken.2.left < l.left) ∧
    Parser.parseNext n p ≠ Except.error Failure.outOfFuel ∧
    (∀ s p2, Parser.parseNext n p = Except.ok (s, p2) → p2.left < p.left) ∧
    (∀ input : String, 10 * (bytes input).length + 12 ≤ n →
      parse n input ≠ Except.error Failure.outOfFuel) ∧
    (p.peek.tag = Tag.END → ∀ k : Nat,
      (∀ block, statementsLoop (fun q => Parser.statement n q) (k + 1) block p =
        p.error (str "Expected a statement")) ∧
      (∀ name args, argumentsLoop (fun q => Parser.expression n q) name (k + 1) args p =
        p.error (str "Unexpected syntax")) ∧
      (∀ params, p.lexer.stream = [] → p.lexer.peek ≤ 32 →
        parametersLoop (k + 1) params p =
          Except.error (Failure.parserError NO_COLON p.lexer.line))) := by
  have hh := parseNext_halts n p hn
  obtain ⟨m, rfl⟩ : ∃ m, n = m + 4 := ⟨n - 4, by omega⟩
  refine ⟨getNextToken_left, ?_, ?_, fun input hi => parse_halts _ input hi, fun hend k =>
    ⟨fun block => statementsLoop_END (m + 3) k block p hend,
      fun name args => argumentsLoop_END m k name args p hend,
      fun params hs hp => parametersLoop_END k params p hend hs hp⟩⟩
  · intro hc
    rw [hc] at hh
    exact hh rfl
  · intro s p2 hr
    rw [hr] at hh
    exact hh

theorem parser_terminates_witness :
    10 * (Parser.on "fun f:int(").left + 12 ≤ 112 ∧
    Parser.parseNext 112 (Parser.on "fun f:int(") =
      Except.error (Failure.parserError NO_COLON 1) ∧
    parse 112 "fun f:int()\x7bx=1;" =
      Except.error (Failure.parserError (str "Expected a statement") 1) ∧
    parse 112 "fun f:int()\x7bx=g(1" =
      Except.error (Failure.parserError (str "Unexpected syntax") 1) ∧
    parse 112 "!" = Except.error (Failure.lexerError (LexerError.invalidToken 33 1)) ∧
    Parser.parseNext 112 (Parser.on "fun f:int(") ≠ Except.error Failure.outOfFuel :=
  ⟨by decide!, by decide!, by decide!, by decide!, by decide!,
    (parser_terminates 112 (Parser.on "fun f:int(") (by decide!)).2.1⟩

/-! ### Trailing commas -/

end Compiler
